import Mathlib

/-! # redux-jam: a shallow embedding of the record store

The development follows the JavaScript sources `src/model.js`, `src/table.js`,
`src/Delta.js`, `src/DB/BaseDB.js` and `src/DB/CacheDB/CacheDB.js`.

Conventions of the embedding.

* JavaScript values are the inductive type `Val`.  A plain object carries its
  identity; an identifier record or an ordered set of Immutable.js is an
  immutable value, which the embedding does not tell from an equal one.
* A JavaScript object with string keys is an association list `Obj`, kept in
  insertion order; `Obj.set` overwrites in place or appends, `Obj.erase` is
  `delete`.
* The identifier field of every model is the default one, `id`
  (`Model.iterFields`, `Table.set` and `Table.remove` name it literally).
-/

namespace ReduxJam

/-! ## Values -/

/-- Values held by attribute fields and by the `_type` and `id` fields: `undefined`,
`null`, a string, the number `NaN`, or a plain object (an object without methods of its own, not an
Immutable collection and not an array), given by its identity `ref` and by the string
`text` it converts to.  The other numbers and the booleans are not values of the embedding: `==`
between them and a string converts the string to a number, which is not modelled. -/
inductive Prim where
  | undefined
  | null
  | str (s : String)
  | nan
  | obj (ref : Nat) (text : String)
  deriving DecidableEq, Repr

/-- The identifier record `ID`: the pair `(_type, id)` naming one logical record. -/
structure ID where
  _type : Prim
  id : Prim
  deriving DecidableEq, Repr

/-- Values of record fields: a primitive, an identifier record, or an
`OrderedSet` of identifier records (insertion order, no duplicates). -/
inductive Val where
  | prim (p : Prim)
  | ident (i : ID)
  | oset (xs : List ID)
  deriving DecidableEq, Repr

/-- An error thrown by the code: a `ModelError` with its message, or a run-time error of
JavaScript or Immutable.js (a property read on `undefined` or `null`, a missing method,
an invalid key path). -/
inductive Err where
  | modelError (msg : String)
  | typeError (msg : String)
  deriving DecidableEq, Repr

/-- The value `undefined`. -/
abbrev Val.undefined : Val := .prim .undefined

/-- The value `NaN`. -/
abbrev Val.nan : Val := .prim .nan

/-- A string value. -/
abbrev Val.str (s : String) : Val := .prim (.str s)

/-- Truthiness of a value (`if (x)`, `x && ...`, `x ? ... : ...`): `undefined`, `null`,
the empty string and `NaN` are falsy, every object is truthy. -/
def Val.truthy : Val → Bool
  | .prim .undefined => false
  | .prim .null => false
  | .prim (.str s) => s != ""
  | .prim .nan => false
  | .prim (.obj _ _) => true
  | .ident _ => true
  | .oset _ => true

/-- The comparison `x == y`.  `undefined` and `null` are equal to each other and to
nothing else; strings are compared by content; `NaN` is equal to nothing, not even to
itself; two objects are equal when they are the same object (the same `ref`), whatever
they hold; an object and a string are equal when the object converts to that string.
An identifier record or an ordered set is an immutable value of Immutable.js, which
the embedding does not tell from an equal one: it is equal to itself, and never to a
primitive (the one JavaScript exception, a string that spells the printed form of the
collection, is not modelled). -/
def looseEq : Val → Val → Bool
  | .prim .undefined, .prim .undefined => true
  | .prim .undefined, .prim .null => true
  | .prim .null, .prim .undefined => true
  | .prim .null, .prim .null => true
  | .prim (.str s), .prim (.str t) => s == t
  | .prim (.obj r s), .prim (.obj r1 s1) => r == r1 && s == s1
  | .prim (.obj _ s), .prim (.str t) => s == t
  | .prim (.str t), .prim (.obj _ s) => t == s
  | .ident i, .ident j => i == j
  | .oset xs, .oset ys => xs == ys
  | _, _ => false

/-- Value equality of Immutable.js (`is`, the result of `x.equals(y)`) on an identifier
record or an `OrderedSet`: for an ordered collection the elements are compared in
iteration order.  Nothing else is equal in this sense. -/
def Val.equals : Val → Val → Bool
  | .ident i, .ident j => i == j
  | .oset xs, .oset ys => xs == ys
  | _, _ => false

/-- The call `x.equals(y)`: an identifier record and an `OrderedSet` have the method; a
string, `NaN` or a plain object has none, and reading it on `undefined` or `null`
throws as well. -/
def Val.equalsCall : Val → Val → Except Err Bool
  | .prim _, _ => .error (.typeError "equals is not a function")
  | v, w => .ok (v.equals w)

/-- The result of `xs.subtract(ys)` on ordered sets: the members of `xs` that are not
members of `ys`, in the order of `xs`; a value that is not a set is left as it is. -/
def Val.subtract : Val → Val → Val
  | .oset xs, .oset ys => .oset (xs.filter (fun x => !(ys.contains x)))
  | v, _ => v

/-- The call `x.subtract(y)`: only an `OrderedSet` has the method.  (An argument that is
not a set holds no identifier to remove.) -/
def Val.subtractCall : Val → Val → Except Err Val
  | .oset xs, w => .ok ((Val.oset xs).subtract w)
  | _, _ => .error (.typeError "subtract is not a function")

/-- Property access `x.name` on a value, for the two properties of an identifier
record; any other access yields `undefined`. -/
def Val.prop : Val → String → Val
  | .ident i, name =>
      if name = "_type" then .prim i._type else if name = "id" then .prim i.id else .undefined
  | _, _ => .undefined

/-- Modelled from the spec: `isEmpty` of `utils` (absent from the sources), the
"empty-value test": the falsy values `undefined`, `null`, the empty string and `NaN` are
empty. -/
def isEmpty : Val → Bool
  | .prim .undefined => true
  | .prim .null => true
  | .prim (.str s) => s == ""
  | .prim .nan => true
  | .prim (.obj _ _) => false
  | .ident _ => false
  | .oset _ => false

/-! ## Objects with string keys -/

/-- A JavaScript object (or an Immutable `Map` with string keys): an association
list in insertion order. -/
abbrev Obj (α : Type) := List (String × α)

/-- The keys of an object, `Object.keys(o)`. -/
def Obj.keys {α : Type} (o : Obj α) : List String := o.map (fun p => p.1)

/-- Lookup `o[k]`: the value stored under the first occurrence of the key. -/
def Obj.lookup {α : Type} (k : String) : Obj α → Option α
  | [] => none
  | (k', v) :: t => if k' = k then some v else Obj.lookup k t

/-- The test `k in o`. -/
def Obj.has {α : Type} (o : Obj α) (k : String) : Bool := (Obj.lookup k o).isSome

/-- Assignment `o[k] = v`: overwrite in place, or append a new key. -/
def Obj.set {α : Type} : Obj α → String → α → Obj α
  | [], k, v => [(k, v)]
  | (k', v') :: t, k, v => if k' = k then (k, v) :: t else (k', v') :: Obj.set t k v

/-- The statement `delete o[k]`. -/
def Obj.erase {α : Type} (o : Obj α) (k : String) : Obj α :=
  o.filter (fun p => !decide (p.1 = k))

/-- A record: field name to value.  Reading a field the record does not hold yields
`undefined`. -/
abbrev Rec := Obj Val

/-- Field access `r[field]` / `r.get(field)`. -/
def Rec.get (r : Rec) (field : String) : Val := (Obj.lookup field r).getD Val.undefined

/-- A diff: for each field the pair `[before, after]`. -/
abbrev Diff := Obj (Val × Val)

/-! ## Model (`src/model.js`) -/

/-- Description of an attribute field. -/
structure AttrInfo where
  default : Val
  type : Val
  deriving DecidableEq, Repr

/-- Description of a relationship field. -/
structure RelInfo where
  type : String
  many : Bool
  required : Bool
  reverse : Bool
  relatedName : Option String
  deriving DecidableEq, Repr

/-- The schema unit of one record type. -/
structure Model where
  type : String
  attributes : Obj AttrInfo
  relationships : Obj RelInfo
  indices : List String
  deriving Repr

/-- The flag `this.relationships.getIn([field, 'reverse'])`, falsy when absent. -/
def Model.relReverse (m : Model) (field : String) : Bool :=
  match Obj.lookup field m.relationships with
  | some info => info.reverse
  | none => false

/-- The flag `this.relationships.getIn([field, 'many'])`, falsy when absent. -/
def Model.relMany (m : Model) (field : String) : Bool :=
  match Obj.lookup field m.relationships with
  | some info => info.many
  | none => false

/-- The generator `iterManyToMany({includeReverse})`. -/
def Model.iterManyToMany (m : Model) (includeReverse : Bool) : List String :=
  m.relationships.keys.filter
    (fun field => !((!includeReverse && m.relReverse field) || !m.relMany field))

/-- The generator `iterForeignKeys({includeReverse})`. -/
def Model.iterForeignKeys (m : Model) (includeReverse : Bool) : List String :=
  m.relationships.keys.filter
    (fun field => !((!includeReverse && m.relReverse field) || m.relMany field))

/-- The generator `iterRelationships()`: foreign keys, then many-to-many fields,
reverse fields left out. -/
def Model.iterRelationships (m : Model) : List String :=
  m.iterForeignKeys false ++ m.iterManyToMany false

/-- The generator `iterFields()`. -/
def Model.iterFields (m : Model) : List String :=
  "_type" :: "id" :: (m.attributes.keys ++ m.iterRelationships)

/-- The method `fieldIsForeignKey(field)`. -/
def Model.fieldIsForeignKey (m : Model) (field : String) : Bool :=
  match Obj.lookup field m.relationships with
  | none => false
  | some info => !info.many

/-- The method `fieldIsManyToMany(field)`. -/
def Model.fieldIsManyToMany (m : Model) (field : String) : Bool :=
  match Obj.lookup field m.relationships with
  | none => false
  | some info => info.many

/-- One turn of the creation loop of `Model.diff`:
`if (toObject[field] !== undefined) diff[field] = [undefined, toObject[field]]`. -/
def Model.diffCreateStep (toObject : Rec) (diff : Diff) (field : String) : Diff :=
  if toObject.get field ≠ Val.undefined then diff.set field (Val.undefined, toObject.get field)
  else diff

/-- One turn of the removal loop of `Model.diff`:
`if (fromObject[field] !== undefined) diff[field] = [fromObject[field], undefined]`. -/
def Model.diffRemoveStep (fromObject : Rec) (diff : Diff) (field : String) : Diff :=
  if fromObject.get field ≠ Val.undefined then diff.set field (fromObject.get field, Val.undefined)
  else diff

/-- The pair `(diff, size)` that a turn of the update loop of `Model.diff` leaves when
it does not throw. -/
def Model.diffUpdateTurn (m : Model) (fromObject toObject : Rec)
    (acc : Diff × Nat) (field : String) : Diff × Nat :=
  let v0 := fromObject.get field
  let v1 := toObject.get field
  let diff := acc.1.set field (v0, v1)
  if field = "_type" ∨ field = "id" then (diff, acc.2)
  else if looseEq v0 v1 then (diff.erase field, acc.2)
  else
    match Obj.lookup field m.relationships with
    | some relInfo =>
        if v0.truthy && v0.equals v1 then (diff.erase field, acc.2)
        else if relInfo.many then
          (diff.set field (v0.subtract v1, v1.subtract v0), acc.2 + 1)
        else (diff, acc.2 + 1)
    | none => (diff, acc.2 + 1)

/-- One turn of the update loop of `Model.diff`, on the pair `(diff, size)`.  In a
relationship field whose two values are not `==`, the test `x && x.equals(y)` throws
when `x` is truthy and has no method `equals`, and the two calls of `subtract` of a
many-valued field throw unless both values are ordered sets. -/
def Model.diffUpdateStep (m : Model) (fromObject toObject : Rec)
    (acc : Diff × Nat) (field : String) : Except Err (Diff × Nat) :=
  let v0 := fromObject.get field
  let v1 := toObject.get field
  let diff := acc.1.set field (v0, v1)
  if field = "_type" ∨ field = "id" then .ok (diff, acc.2)
  else if looseEq v0 v1 then .ok (diff.erase field, acc.2)
  else
    match Obj.lookup field m.relationships with
    | some relInfo =>
        (if v0.truthy then v0.equalsCall v1 else .ok false).bind (fun same =>
          if same then .ok (diff.erase field, acc.2)
          else if relInfo.many then
            (v0.subtractCall v1).bind (fun removed =>
              (v1.subtractCall v0).map (fun added =>
                (diff.set field (removed, added), acc.2 + 1)))
          else .ok (diff, acc.2 + 1))
    | none => .ok (diff, acc.2 + 1)

/-- The method `Model.diff(fromObject, toObject)`; `none` is `undefined`, both for an
absent record and for the result "no change". -/
def Model.diff (m : Model) (fromObject toObject : Option Rec) : Except Err (Option Diff) :=
  match fromObject, toObject with
  | none, none => .ok none
  | none, some t => .ok (some (m.iterFields.foldl (Model.diffCreateStep t) []))
  | some f, none => .ok (some (m.iterFields.foldl (Model.diffRemoveStep f) []))
  | some f, some t =>
      (m.iterFields.foldlM (m.diffUpdateStep f t) ([], 0)).map
        (fun r => if r.2 = 0 then none else some r.1)

/-- The operation kind of a diff. -/
inductive DiffOp where
  | create
  | remove
  | update
  deriving DecidableEq, Repr

/-- Modelled from the spec: `getDiffOp` of `utils` (absent from the sources), written
as its twin `Delta.operation` in `src/Delta.js`: a create has an empty before
type, a remove an empty after type, anything else is an update.  A diff without
a `_type` entry has no operation (reading `diff._type[0]` throws). -/
def getDiffOp (diff : Diff) : Option DiffOp :=
  match Obj.lookup "_type" diff with
  | none => none
  | some (t0, t1) =>
      some (if isEmpty t0 then .create else if isEmpty t1 then .remove else .update)

/-- The value `a || b`. -/
def Val.orElse (a b : Val) : Val := if a.truthy then a else b

/-- Modelled from the spec: `getDiffId` of `utils` (absent from the sources), written
as its twin `Delta.iid` in `src/Delta.js`: the pair
`(_type[0] || _type[1], id[0] !== undefined ? id[0] : id[1])`.  A diff without a
`_type` or an `id` entry has no identifier (reading the entry throws). -/
def getDiffId (diff : Diff) : Option (Val × Val) :=
  match Obj.lookup "_type" diff, Obj.lookup "id" diff with
  | some (t0, t1), some (i0, i1) =>
      some (Val.orElse t0 t1, if i0 ≠ Val.undefined then i0 else i1)
  | _, _ => none

/-- The member `{type, id}` of a wire relationship. -/
structure ResourceId where
  type : Val
  id : Val
  deriving DecidableEq, Repr

/-- The object under `data` in the result of `diffToJsonApi`.  A relationship entry
holds its `data` member: `none` is `null`. -/
structure JsonApiData where
  type : Val
  id : Val
  attributes : Obj Val
  relationships : Obj (Option ResourceId)
  deriving DecidableEq, Repr

/-- The attribute loop of `diffToJsonApi`:
`if (field in diff) data.attributes[field] = diff[field][1]`. -/
def Model.jsonAttrStep (diff : Diff) (attrs : Obj Val) (field : String) : Obj Val :=
  match Obj.lookup field diff with
  | some e => attrs.set field e.2
  | none => attrs

/-- The foreign-key loop of `diffToJsonApi`:
`data.relationships[field] = {data: x ? {type: x._type, id: x.id} : null}`. -/
def Model.jsonRelStep (diff : Diff) (rels : Obj (Option ResourceId)) (field : String) :
    Obj (Option ResourceId) :=
  match Obj.lookup field diff with
  | some e =>
      let x := e.2
      rels.set field (if x.truthy then some ⟨x.prop "_type", x.prop "id"⟩ else none)
  | none => rels

/-- The method `Model.diffToJsonApi(diff)`, returning the object under `data`.  The
result is `none` when the call throws: the diff has no `_type` or no `id` entry. -/
def Model.diffToJsonApi (m : Model) (diff : Diff) : Option JsonApiData :=
  match Obj.lookup "_type" diff, Obj.lookup "id" diff with
  | some ty, some i =>
      let isRemove := getDiffOp diff == some DiffOp.remove
      some
        { type := if isRemove then ty.1 else ty.2
          id := if isRemove then i.1 else i.2
          attributes := m.attributes.keys.foldl (Model.jsonAttrStep diff) []
          relationships := (m.iterForeignKeys false).foldl (Model.jsonRelStep diff) [] }
  | _, _ => none

/-! ### Notions used to state the properties of `Model.diff` -/

/-- The value is `undefined` or `null`. -/
def Val.isNullish : Val → Bool
  | .prim .undefined => true
  | .prim .null => true
  | _ => false

/-- The value is one a single-valued relationship field holds: an identifier, or
empty (`undefined` or `null`). -/
def Val.isSingle : Val → Bool
  | .prim .undefined => true
  | .prim .null => true
  | .ident _ => true
  | _ => false

/-- The identifier held by a single-valued relationship field: `none` when the field
is empty. -/
def Val.toIdent : Val → Option ID
  | .ident i => some i
  | _ => none

/-- The members of a many-valued field. -/
def Val.members : Val → List ID
  | .oset xs => xs
  | _ => []

/-- Whether the update loop of `Model.diff` counts the field as a change. -/
def Model.fieldCounted (m : Model) (a b : Rec) (f : String) : Bool :=
  !(decide (f = "_type" ∨ f = "id")) && !(looseEq (a.get f) (b.get f)) &&
    !((Obj.lookup f m.relationships).isSome && (a.get f).truthy && (a.get f).equals (b.get f))

/-- The entry the update loop of `Model.diff` leaves for a field it visits. -/
def Model.updateEntry (m : Model) (a b : Rec) (f : String) : Option (Val × Val) :=
  if f = "_type" ∨ f = "id" then some (a.get f, b.get f)
  else if m.fieldCounted a b f then
    (if m.relMany f then some ((a.get f).subtract (b.get f), (b.get f).subtract (a.get f))
     else some (a.get f, b.get f))
  else none

/-! ### Sample schema and records -/

/-- A sample model: one attribute with no default, one with a default, a required foreign
key, a many-to-many field, a reverse many-valued field and a reverse foreign key. -/
def bookModel : Model :=
  { type := "Book"
    attributes := [("title", ⟨Val.undefined, Val.str "string"⟩), ("note", ⟨Val.undefined, Val.str "string"⟩)]
    relationships :=
      [("author", ⟨"Author", false, true, false, some "books"⟩),
       ("tags", ⟨"Tag", true, false, false, some "books"⟩),
       ("reviews", ⟨"Review", true, false, true, some "book"⟩),
       ("cover", ⟨"Cover", false, false, true, some "book"⟩)]
    indices := ["id", "title"] }

/-- Identifier of a sample author. -/
def authorA : ID := ⟨.str "Author", .str "a1"⟩

/-- Identifier of a second sample author. -/
def authorB : ID := ⟨.str "Author", .str "a2"⟩

/-- Identifier of a sample tag. -/
def tag1 : ID := ⟨.str "Tag", .str "t1"⟩

/-- Identifier of a second sample tag. -/
def tag2 : ID := ⟨.str "Tag", .str "t2"⟩

/-- Identifier of a sample cover. -/
def cover1 : ID := ⟨.str "Cover", .str "c1"⟩

/-- Identifier of a second sample cover. -/
def cover2 : ID := ⟨.str "Cover", .str "c2"⟩

/-- A sample book record. -/
def bookX : Rec :=
  [("_type", Val.str "Book"), ("id", Val.str "b1"), ("title", Val.str "X"),
   ("note", Val.undefined), ("author", .ident authorA), ("tags", .oset [tag1, tag2]),
   ("reviews", .oset []), ("cover", .ident cover1)]

/-- The sample book with another title, a `null` note and another cover. -/
def bookY : Rec :=
  [("_type", Val.str "Book"), ("id", Val.str "b1"), ("title", Val.str "Y"),
   ("note", .prim .null), ("author", .ident authorA), ("tags", .oset [tag1, tag2]),
   ("reviews", .oset []), ("cover", .ident cover2)]

/-- The sample book with the same two tags inserted in the other order. -/
def bookXSwapped : Rec :=
  [("_type", Val.str "Book"), ("id", Val.str "b1"), ("title", Val.str "X"),
   ("note", Val.undefined), ("author", .ident authorA), ("tags", .oset [tag2, tag1]),
   ("reviews", .oset []), ("cover", .ident cover1)]

/-- The sample book with one tag dropped, another author and another title. -/
def bookZ : Rec :=
  [("_type", Val.str "Book"), ("id", Val.str "b1"), ("title", Val.str "Z"),
   ("note", Val.undefined), ("author", .ident authorB), ("tags", .oset [tag2]),
   ("reviews", .oset []), ("cover", .ident cover1)]

/-- The sample book under another identifier. -/
def bookXCopy : Rec :=
  [("_type", Val.str "Book"), ("id", Val.str "b2"), ("title", Val.str "X"),
   ("note", Val.undefined), ("author", .ident authorA), ("tags", .oset [tag1, tag2]),
   ("reviews", .oset []), ("cover", .ident cover1)]

/-- The update diff from `bookX` to `bookZ`. -/
def diffXZ : Diff :=
  [("_type", (Val.str "Book", Val.str "Book")), ("id", (Val.str "b1", Val.str "b1")),
   ("title", (Val.str "X", Val.str "Z")),
   ("author", (Val.ident authorA, Val.ident authorB)),
   ("tags", (Val.oset [tag1], Val.oset []))]

/-! ## Errors and the parts of `Model` that the sources leave out -/

/-- The methods of `Model` that `src/table.js` calls and `src/model.js` does not define,
taken as parameters: `toIndexable(field, value)`, `toInternal(field, value)`,
`equals(field, a, b)` and `applyDiff(record, diff, reverse)`, whose result `none` is
`null`, the signal to delete the record. -/
structure Hooks where
  toIndexable : Model → String → Val → Val
  toInternal : Model → String → Val → Val
  equals : Model → String → Val → Val → Bool
  applyDiff : Model → Option Rec → Diff → Bool → Except Err (Option Rec)

/-! ## Table (`src/table.js`) -/

/-- An Immutable `Set` of row positions.  The sets of the `id` index are singletons, so
that `first()` is the head of the list. -/
abbrev PosSet := List Nat

/-- The method `x.add(ii)` of a set of positions. -/
def PosSet.add (x : PosSet) (ii : Nat) : PosSet := if ii ∈ x then x else x ++ [ii]

/-- The method `x.delete(ii)` of a set of positions. -/
def PosSet.delete (x : PosSet) (ii : Nat) : PosSet := x.filter (fun j => !decide (j = ii))

/-- The method `x.intersect(y)` of a set of positions. -/
def PosSet.intersect (x y : PosSet) : PosSet := x.filter (fun j => decide (j ∈ y))

/-- One index of a table: the map from the indexable projection of a field's value to
the set of positions of the rows that hold it. -/
abbrev Index := List (Val × PosSet)

/-- Lookup `index.get(key)`. -/
def Index.lookup (k : Val) : Index → Option PosSet
  | [] => none
  | (k', v) :: t => if k' = k then some v else Index.lookup k t

/-- The update `index.set(key, value)`. -/
def Index.set : Index → Val → PosSet → Index
  | [], k, v => [(k, v)]
  | (k', v') :: t, k, v => if k' = k then (k, v) :: t else (k', v') :: Index.set t k v

/-- The update `index.delete(key)`. -/
def Index.erase (ix : Index) (k : Val) : Index := ix.filter (fun p => !decide (p.1 = k))

/-- The state of a table, `this.data`: the rows (`none` is the `null` of a removed row)
and the indices, one per index field. -/
structure TableData where
  objects : List (Option Rec)
  indices : Obj Index
  deriving DecidableEq, Repr

/-- The read `data.getIn(['objects', ii])`: the record at a position, `none` for the
`null` of a removed row and for a position the list does not have. -/
def TableData.row (d : TableData) (ii : Nat) : Option Rec := (d.objects.get? ii).join

/-- The read `data.getIn(['indices', field, key])`. -/
def TableData.getIndexIn (d : TableData) (field : String) (key : Val) : Option PosSet :=
  (Obj.lookup field d.indices).bind (Index.lookup key)

/-- The update `data.setIn(['indices', field, key], x)`. -/
def TableData.setIndexIn (d : TableData) (field : String) (key : Val) (x : PosSet) :
    TableData :=
  let ix := Index.set ((Obj.lookup field d.indices).getD []) key x
  { d with indices := Obj.set d.indices field ix }

/-- The update `data.deleteIn(['indices', field, key])`. -/
def TableData.deleteIndexIn (d : TableData) (field : String) (key : Val) : TableData :=
  match Obj.lookup field d.indices with
  | none => d
  | some ix => { d with indices := Obj.set d.indices field (Index.erase ix key) }

/-- A table: the view `new Table(type, {data, db})` of the data of one type. -/
structure Table where
  hooks : Hooks
  model : Model
  data : TableData

/-- The method `toIndexable(field, value)`. -/
def Table.toIndexable (t : Table) (field : String) (value : Val) : Val :=
  t.hooks.toIndexable t.model field value

/-- The method `reset()`: no rows, and an empty index for every index field. -/
def Table.reset (h : Hooks) (m : Model) : Table :=
  { hooks := h, model := m
    data := { objects := [], indices := m.indices.dedup.map (fun x => (x, [])) } }

/-- The argument `idOrQuery` of `get`, `filter` and `remove`: a value that is not an
object, which stands for `{id: value}`, or a query object. -/
inductive Query where
  | value (v : Val)
  | fields (q : Obj Val)
  deriving DecidableEq, Repr

/-- The test `!idOrQuery`. -/
def Query.falsy : Query → Bool
  | .value v => !v.truthy
  | .fields _ => false

/-- The query object: `{[this.idField]: idOrQuery}` for a value that is not an object. -/
def Query.toFields : Query → Obj Val
  | .value v => [("id", v)]
  | .fields q => q

/-- A letter `[a-zA-Z]`. -/
def isLetter (c : Char) : Bool :=
  (decide ('a' ≤ c) && decide (c ≤ 'z')) || (decide ('A' ≤ c) && decide (c ≤ 'Z'))

/-- A letter or digit `[a-zA-Z0-9]`. -/
def isLetterOrDigit (c : Char) : Bool :=
  isLetter c || (decide ('0' ≤ c) && decide (c ≤ '9'))

/-- The pattern `(?:_?[a-zA-Z0-9])*`, matched up to the end of the text. -/
def matchNameRest : List Char → Bool
  | [] => true
  | [c] => isLetterOrDigit c
  | c :: d :: cs =>
      if c = '_' then isLetterOrDigit d && matchNameRest cs
      else isLetterOrDigit c && matchNameRest (d :: cs)

/-- The pattern `[a-zA-Z](?:_?[a-zA-Z0-9])+`, matched against the whole text. -/
def matchName : List Char → Bool
  | [] => false
  | c :: cs => isLetter c && !cs.isEmpty && matchNameRest cs

/-- The splits of a text at a double underscore: every `(before, after)` with
`text = before ++ "__" ++ after`; `seen` holds, reversed, the characters already passed. -/
def dunderSplits : List Char → List Char → List (List Char × List Char)
  | _, [] => []
  | seen, c :: cs =>
      let here := match c, cs with
        | '_', '_' :: rest => [(seen.reverse, rest)]
        | _, _ => []
      here ++ dunderSplits (c :: seen) cs

/-- The match `field.match(Table.filterRegex)`: the field name and the predicate name of
a filter key `field__predicate`, or `none` when the key is a plain field name. -/
def Table.filterRegex (field : String) : Option (String × String) :=
  ((dunderSplits [] field.toList).find? (fun p => matchName p.1 && matchName p.2)).map
    (fun p => (String.mk p.1, String.mk p.2))

/-- Modelled from the spec: `negate` of `utils` (absent from the sources): "a predicate
may be negated". -/
def negate (b : Bool) (isNot : Bool) : Bool := if isNot then !b else b

/-- Whether the characters `t` occur in `s` as a block. -/
def hasBlock (t : List Char) : List Char → Bool
  | [] => t.isEmpty
  | c :: cs => (t.isPrefixOf (c :: cs)) || hasBlock t cs

/-- The method `v.includes(value)` of the `contains` filter: a substring test on a
string, a membership test on a set; reading it on `undefined` or `null` throws, and
`NaN` and a plain object have no such method. -/
def Val.includes : Val → Val → Except Err Bool
  | .prim .undefined, _ => .error (.typeError "includes of undefined")
  | .prim .null, _ => .error (.typeError "includes of null")
  | .prim (.str s), .prim (.str t) => .ok (hasBlock t.toList s.toList)
  | .prim (.str s), .prim .undefined => .ok (hasBlock "undefined".toList s.toList)
  | .prim (.str s), .prim .null => .ok (hasBlock "null".toList s.toList)
  | .prim (.str s), .prim .nan => .ok (hasBlock "NaN".toList s.toList)
  | .prim (.str s), .prim (.obj _ t) => .ok (hasBlock t.toList s.toList)
  | .prim (.str _), _ => .ok false
  | .prim .nan, _ => .error (.typeError "includes is not a function")
  | .prim (.obj _ _), _ => .error (.typeError "includes is not a function")
  | .ident i, .prim p => .ok (decide (i._type = p) || decide (i.id = p))
  | .ident _, _ => .ok false
  | .oset xs, .ident i => .ok (xs.contains i)
  | .oset _, _ => .ok false

/-- The method `v.has(value)` of the `in` filter: membership in a set; it does not exist
on `undefined`, `null`, a string, `NaN` or a plain object. -/
def Val.has : Val → Val → Except Err Bool
  | .oset xs, .ident i => .ok (xs.contains i)
  | .oset _, _ => .ok false
  | .ident _, .prim (.str s) => .ok (s == "_type" || s == "id")
  | .ident _, _ => .ok false
  | .prim _, _ => .error (.typeError "has is not a function")

/-- The property `v.size` compared with `0` in the `isnull` filter; reading it on
`undefined` or `null` throws; a string, `NaN`, a plain object or an identifier has no
`size`. -/
def Val.sizeIsZero : Val → Except Err Bool
  | .oset xs => .ok xs.isEmpty
  | .ident _ => .ok false
  | .prim (.str _) => .ok false
  | .prim .nan => .ok false
  | .prim (.obj _ _) => .ok false
  | .prim .undefined => .error (.typeError "size of undefined")
  | .prim .null => .error (.typeError "size of null")

/-- The scan `new Set(objects.map((v, k) => test(v) ? k : undefined).filter(...))` of the
compound filters; a removed row (`null`) has no method `get`. -/
def Table.scan (t : Table) (test : Rec → Except Err Bool) : Except Err PosSet :=
  (List.range t.data.objects.length).foldlM
    (fun (acc : PosSet) k =>
      match t.data.row k with
      | none => .error (.typeError "get of null")
      | some v => (test v).map (fun b => if b then acc ++ [k] else acc))
    []

/-- The candidate positions of one field predicate of `_filterIndices`, the value of
`getOtherIndices()`; `none` is `undefined`. -/
def Table.fieldIndices (t : Table) (field : String) (raw : Val) (isNot : Bool) :
    Except Err (Option PosSet) :=
  let value := t.hooks.toInternal t.model field raw
  match Table.filterRegex field with
  | some (name, op) =>
      if op.toLower = "contains" then
        (t.scan (fun v =>
          (if v.get name ≠ Val.prim .null then (v.get name).includes value
           else .ok false).map (fun b => negate b isNot))).map some
      else if op.toLower = "isnull" then
        (t.scan (fun v =>
          if t.model.fieldIsManyToMany name then
            (v.get name).sizeIsZero.map (fun b => negate b isNot)
          else .ok (negate (isEmpty (v.get name)) isNot))).map some
      else if op.toLower = "in" then
        (t.scan (fun v => ((v.get name).has value).map (fun b => negate b isNot))).map some
      else .error (.modelError ("Unknown filter: " ++ op))
  | none =>
      match Obj.lookup field t.data.indices with
      | none =>
          (t.scan (fun v =>
            .ok (negate (t.hooks.equals t.model field (v.get field) value) isNot))).map some
      | some index =>
          match Index.lookup (t.toIndexable field value) index with
          | none =>
              if isNot then
                (if t.data.objects.length = 0 then .ok (some [])
                 else .error (.typeError "has of undefined"))
              else .ok none
          | some r =>
              if isNot then
                .ok (some ((List.range t.data.objects.length).filter
                  (fun ii => !decide (ii ∈ r))))
              else .ok (some r)

/-- The method `_reduceIndices(indices, getOtherIndices)`, on the value `other` of
`getOtherIndices()`. -/
def Table._reduceIndices (indices : Option PosSet) (other : Option PosSet) : PosSet :=
  match other with
  | none => []
  | some o =>
      match indices with
      | none => o
      | some i => PosSet.intersect i o

/-- The method `_filterIndices(idOrQuery, {not})`; `none` is `undefined`, the result for
a query object without fields. -/
def Table._filterIndices (t : Table) (q : Query) (isNot : Bool) :
    Except Err (Option PosSet) :=
  q.toFields.foldlM
    (fun (results : Option PosSet) (p : String × Val) =>
      (t.fieldIndices p.1 p.2 isNot).map (fun other => some (Table._reduceIndices results other)))
    none

/-- The method `_mapIndices(indices)`: the set of the rows at the positions. -/
def Table._mapIndices (t : Table) (indices : Option PosSet) :
    Except Err (List (Option Rec)) :=
  match indices with
  | none => .error (.typeError "map of undefined")
  | some ps => .ok (ps.map (fun ii => t.data.row ii)).dedup

/-- The method `filter(idOrQuery)`, for a query that is not a `Filter` object. -/
def Table.filter (t : Table) (q : Query) : Except Err (List (Option Rec)) :=
  if q.falsy then .ok t.data.objects
  else (t._filterIndices q false).bind t._mapIndices

/-- The method `get(idOrQuery, required)`; the result `none` is `undefined` or `null`.
(For a falsy query `filter` returns an array, which has no `size`.) -/
def Table.get (t : Table) (q : Query) (required : Bool) : Except Err (Option Rec) :=
  (t.filter q).bind (fun objects =>
    let size := if q.falsy then 0 else objects.length
    if size = 0 then
      (if required then .error (.modelError "No such object.") else .ok none)
    else if size > 1 then .error (.modelError "Too many objects returned in table.")
    else .ok objects.head?.join)

/-- The method `_getIndex(id)`. -/
def Table._getIndex (t : Table) (id : Val) : Except Err Nat :=
  match t.data.getIndexIn "id" (t.toIndexable "id" id) with
  | none => .error (.modelError "Unknown ID in index lookup")
  | some index =>
      match index.head? with
      | some ii => .ok ii
      | none => .error (.typeError "first of an empty set")

/-- One turn of the loop of `_removeFromIndices`, for the index of `field`. -/
def Table.removeFromIndex (t : Table) (object : Rec) (index : Nat)
    (d : TableData) (field : String) : Except Err TableData :=
  if field = "id" then .ok d
  else
    let value := t.toIndexable field (object.get field)
    match d.getIndexIn field value with
    | none => .error (.typeError "delete of undefined")
    | some x =>
        let x' := PosSet.delete x index
        let d' := d.setIndexIn field value x'
        if x'.length = 0 then .ok (d'.deleteIndexIn field value) else .ok d'

/-- The method `_removeFromIndices(object)`. -/
def Table._removeFromIndices (t : Table) (object : Rec) : Except Err Table :=
  (t._getIndex (object.get "id")).bind (fun index =>
    (t.data.indices.keys.foldlM (t.removeFromIndex object index) t.data).map
      (fun d => { t with data := d }))

/-- One turn of the loop "Add indices" of `set`, for the index of `field`. -/
def Table.addToIndex (t : Table) (object : Rec) (index : Nat)
    (d : TableData) (field : String) : TableData :=
  if field = "id" then d
  else
    let value := t.toIndexable field (object.get field)
    match d.getIndexIn field value with
    | none => d.setIndexIn field value [index]
    | some x => d.setIndexIn field value (PosSet.add x index)

/-- The method `set(object)`, for an object that is a record already. -/
def Table.set (t : Table) (object : Rec) : Except Err Table :=
  let id := object.get "id"
  if isEmpty id then .error (.modelError "No ID given for \"table.set\".")
  else
    (t.get (.fields [("id", id)]) false).bind (fun existing =>
      (match existing with
        | none =>
            let size := t.data.objects.length
            let d : TableData := { t.data with objects := t.data.objects ++ [some object] }
            let t1 : Table := { t with data := d.setIndexIn "id" (t.toIndexable "id" id) [size] }
            (.ok (t1, object) : Except Err (Table × Rec))
        | some ex =>
            let object' := Obj.set object "id" (ex.get "id")
            (t._getIndex id).bind (fun index =>
              (t._removeFromIndices ex).map (fun (t' : Table) =>
                let d : TableData :=
                  { t'.data with objects := t'.data.objects.set index (some object') }
                let t1 : Table := { t' with data := d }
                (t1, object')))).bind
        (fun (p : Table × Rec) =>
          (p.1._getIndex id).map (fun index =>
            let d := p.1.data.indices.keys.foldl (p.1.addToIndex p.2 index) p.1.data
            { p.1 with data := d })))

/-- The method `remove(idOrQuery)`. -/
def Table.remove (t : Table) (q : Query) : Except Err Table :=
  (t.get q false).bind (fun obj =>
    match obj with
    | none => .ok t
    | some obj =>
        let id := obj.get "id"
        (t._getIndex id).bind (fun index =>
          (t._removeFromIndices obj).map (fun (t' : Table) =>
            let d := t'.data.deleteIndexIn "id" id
            let d' : TableData := { d with objects := d.objects.set index none }
            { t' with data := d' })))

/-- The method `reId(oldId, newId)`; writing the `id` of a removed row throws. -/
def Table.reId (t : Table) (oldId newId : Val) : Except Err Table :=
  (t._getIndex oldId).bind (fun index =>
    let d := t.data.setIndexIn "id" (t.toIndexable "id" newId) [index]
    match d.row index with
    | none => .error (.typeError "invalid keyPath")
    | some r =>
        let d' : TableData :=
          { d with objects := d.objects.set index (some (Obj.set r "id" newId)) }
        .ok { t with data := d' })

/-- The method `applyDiff(diff, reverse)`. -/
def Table.applyDiff (t : Table) (diff : Diff) (reverse : Bool) : Except Err Table :=
  match getDiffId diff with
  | none => .error (.typeError "property of undefined")
  | some id =>
      (t.get (.value id.2) false).bind (fun rec =>
        (t.hooks.applyDiff t.model rec diff reverse).bind (fun rec' =>
          match rec' with
          | none =>
              match Obj.lookup "id" diff with
              | none => .error (.typeError "property of undefined")
              | some e => t.remove (.value (if reverse then e.2 else e.1))
          | some r => t.set r))

/-- The generator `iterObjects()`: the rows that are not empty. -/
def Table.iterObjects (t : Table) : List Rec := t.data.objects.filterMap (fun x => x)

/-! ## Record construction and diff application -/

/-- The default record of `_makeRecord()`: `_type` and `id` are `undefined`, an attribute
holds its default, a relationship holds an empty `OrderedSet` when many-valued and
`undefined` otherwise. -/
def Model.defaults (m : Model) : Rec :=
  let base : Rec := [("_type", Val.undefined), ("id", Val.undefined)]
  let withAttrs := m.attributes.foldl (fun (r : Rec) p => r.set p.1 p.2.default) base
  m.relationships.foldl
    (fun (r : Rec) p => r.set p.1 (if p.2.many then Val.oset [] else Val.undefined)) withAttrs

/-- Modelled from the spec: `toArray` and `db.makeId` (absent from the sources), in the
conversion `new OrderedSet(toArray(val).map(x => db.makeId(x)))` of `Model.toObject` on a
many-valued field: a set keeps its identifiers (duplicates are impossible), one
identifier becomes the set of it, anything else the empty set. -/
def Val.toOrderedSet : Val → Val
  | .oset xs => .oset xs.dedup
  | .ident i => .oset [i]
  | .prim _ => .oset []

/-- The method `Model.toObject(objData)`: the record of the model's fields, each holding
the value given in `objData` or else its default, with the many-valued relationship
fields made ordered sets of identifiers. -/
def Model.toObject (m : Model) (objData : Rec) : Rec :=
  let obj : Rec := m.defaults.map
    (fun p => (p.1, match Obj.lookup p.1 objData with | some v => v | none => p.2))
  m.relationships.foldl
    (fun (r : Rec) p => if p.2.many then r.set p.1 (r.get p.1).toOrderedSet else r) obj

/-- The union `xs.union(ys)` of ordered sets: the members of `ys` that are new are
appended. -/
def Val.union : Val → Val → Val
  | .oset xs, .oset ys => .oset (xs ++ ys.filter (fun y => !(xs.contains y)))
  | v, _ => v

/-- Modelled from the spec: `Model.applyDiff(record, diff, reverse)` (absent from
`src/model.js`), the step by which `Table.applyDiff` "asks the Model to produce the
updated record (or signal deletion)"; `reverse = true` undoes the diff ("after becomes
before").  With `ii` the side the diff starts from and `jj` the side it leads to:
an empty `_type` on side `ii` is a creation, which yields the record of the `jj` values
("a new record equal to b minus absent fields"); an empty `_type` on side `jj` is a
removal, which yields `null`; otherwise each field of the diff is updated, a many-valued
relationship field by removing the set on side `ii` and adding the set on side `jj`, any
other field by taking the `jj` value. -/
def Model.applyDiff (m : Model) (record : Option Rec) (diff : Diff) (reverse : Bool) :
    Except Err (Option Rec) :=
  let side (isTo : Bool) (e : Val × Val) : Val := if isTo = reverse then e.1 else e.2
  match Obj.lookup "_type" diff with
  | none => .error (.typeError "property of undefined")
  | some ty =>
      if isEmpty (side false ty) then
        .ok (some (m.toObject (diff.map (fun p => (p.1, side true p.2)))))
      else if isEmpty (side true ty) then .ok none
      else
        match record with
        | none => .error (.modelError "Cannot update non-existant object.")
        | some r =>
            .ok (some (diff.foldl
              (fun (r : Rec) p =>
                if m.relMany p.1 then
                  r.set p.1 (((r.get p.1).subtract (side false p.2)).union (side true p.2))
                else r.set p.1 (side true p.2))
              r))

/-- Modelled from the spec: the parts of `Model` absent from the sources, in their
plainest form.  The indexable projection and the internal form of a value are the value
itself (values of the embedding are normalised already), `equals` is equality, and
`applyDiff` is `Model.applyDiff`. -/
def plainHooks : Hooks :=
  { toIndexable := fun _ _ v => v
    toInternal := fun _ _ v => v
    equals := fun _ _ a b => a == b
    applyDiff := Model.applyDiff }

/-! ### Notions used to state the properties of `Table` -/

/-- The positions an index lists under a key: `data.getIn(['indices', field, key])`, the
empty set when there is no entry. -/
def TableData.posOf (d : TableData) (field : String) (key : Val) : PosSet :=
  (d.getIndexIn field key).getD []

/-- Tables reached from an empty table by calls of `set` and `remove` that return. -/
inductive Table.Reachable (h : Hooks) (m : Model) : Table → Prop where
  | reset : Table.Reachable h m (Table.reset h m)
  | set (t t' : Table) (object : Rec) :
      Table.Reachable h m t → t.set object = .ok t' → Table.Reachable h m t'
  | remove (t t' : Table) (q : Query) :
      Table.Reachable h m t → t.remove q = .ok t' → Table.Reachable h m t'

/-- The index invariant of a table: the index fields are distinct and `id` is one of
them, `id` is indexed by its own value, an entry of the `id` index is a singleton, and
every index lists under a key exactly the positions of the live rows whose field has that
indexable projection. -/
structure Table.IndexInv (t : Table) : Prop where
  keys_nodup : t.data.indices.keys.Nodup
  id_mem : "id" ∈ t.data.indices.keys
  id_plain : ∀ v, t.hooks.toIndexable t.model "id" v = v ∧ t.hooks.toInternal t.model "id" v = v
  single : ∀ k ps, t.data.getIndexIn "id" k = some ps → ∃ p, ps = [p]
  mem_iff : ∀ f, f ∈ t.data.indices.keys → ∀ k p,
    p ∈ t.data.posOf f k
      ↔ ∃ r, t.data.row p = some r ∧ t.toIndexable f (r.get f) = k

/-! ## Relationship maintenance on a table (`src/table.js`) -/

/-- The result of `Model.getField(name)`: the description of an attribute or of a
relationship. -/
inductive FieldInfo where
  | attribute (info : AttrInfo)
  | relationship (info : RelInfo)
  deriving DecidableEq, Repr

/-- The method `Model.getField(name)`. -/
def Model.getField (m : Model) (name : String) : Except Err FieldInfo :=
  match Obj.lookup name m.attributes with
  | some a => .ok (.attribute a)
  | none =>
      match Obj.lookup name m.relationships with
      | some r => .ok (.relationship r)
      | none => .error (.modelError ("Model " ++ m.type ++ " has no field " ++ name ++ "."))

/-- The read `fld.get('type')`. -/
def FieldInfo.type : FieldInfo → Val
  | .attribute a => a.type
  | .relationship r => Val.str r.type

/-- The method `x.add(relatedId)` of an ordered set; no other value has it. -/
def Val.add : Val → ID → Except Err Val
  | .oset xs, i => .ok (.oset (if xs.contains i then xs else xs ++ [i]))
  | _, _ => .error (.typeError "add is not a function")

/-- The method `x.delete(relatedId)`: an ordered set without the member; an identifier
record, which has no field of that name, is returned as it is (`Record.delete`); any
other value has no such method. -/
def Val.delete : Val → ID → Except Err Val
  | .oset xs, i => .ok (.oset (xs.filter (fun x => !decide (x = i))))
  | .ident j, _ => .ok (.ident j)
  | .prim _, _ => .error (.typeError "delete is not a function")

/-- The update `data.updateIn(['objects', index, field], f)`; a removed row has no
fields to update. -/
def Table.updateField (t : Table) (index : Nat) (field : String)
    (f : Val → Except Err Val) : Except Err Table :=
  match t.data.row index with
  | none => .error (.typeError "invalid keyPath")
  | some r =>
      (f (r.get field)).map (fun v =>
        let d : TableData := { t.data with objects := t.data.objects.set index (some (Obj.set r field v)) }
        { t with data := d })

/-- The method `addRelationship(id, fldName, relatedId)`. -/
def Table.addRelationship (t : Table) (id : Val) (fldName : String) (relatedId : ID) :
    Except Err Table :=
  (t.model.getField fldName).bind (fun fld =>
    if looseEq (Val.prim relatedId._type) fld.type = false then
      .error (.modelError "Cannot add incompatible type: ")
    else
      (t._getIndex id).bind (fun index =>
        t.updateField index fldName (fun x => x.add relatedId)))

/-- The method `removeRelationship(id, field, relatedId)`. -/
def Table.removeRelationship (t : Table) (id : Val) (field : String) (relatedId : ID) :
    Except Err Table :=
  (t._getIndex id).bind (fun index =>
    t.updateField index field (fun x => x.delete relatedId))

/-- The method `forEachRelatedObject(id, callback)`, as the list of the calls
`callback(objId, relName)` it makes, in order; `relName` is `none` when the field has no
`relatedName`. -/
def Table.relatedObjects (t : Table) (id : Val) : Except Err (List (Val × Option String)) :=
  (t.get (.value id) true).bind (fun found =>
    match found with
    | none => .error (.typeError "property of null")
    | some obj =>
        let relName (fldName : String) : Option String :=
          (Obj.lookup fldName t.model.relationships).bind (fun info => info.relatedName)
        let fks := (t.model.iterForeignKeys true).filterMap (fun fldName =>
          if (obj.get fldName).truthy then some (obj.get fldName, relName fldName) else none)
        let manys := (t.model.iterManyToMany true).map (fun fldName =>
          (obj.get fldName).members.map (fun rel => (Val.ident rel, relName fldName)))
        .ok (fks ++ manys.flatten))

/-! ## The object store (`src/DB/CacheDB/CacheDB.js`, `src/DB/BaseDB.js`) -/

/-- A call that may change a state `σ` and may throw: it yields the state as the call
leaves it, and the value returned or the error thrown. -/
def Run (σ α : Type) : Type := σ → σ × Except Err α

/-- A call that returns a value and changes nothing. -/
def Run.ret {σ α : Type} (a : α) : Run σ α := fun s => (s, .ok a)

/-- A call that throws. -/
def Run.fail {σ α : Type} (e : Err) : Run σ α := fun s => (s, .error e)

/-- A computation that does not touch the state. -/
def Run.ofExcept {σ α : Type} (x : Except Err α) : Run σ α := fun s => (s, x)

/-- Sequencing: an error thrown by the first call ends the run, in the state reached. -/
def Run.bind {σ α β : Type} (m : Run σ α) (f : α → Run σ β) : Run σ β := fun s =>
  match m s with
  | (s', .ok a) => f a s'
  | (s', .error e) => (s', .error e)

/-- A loop `for (const x of xs) body(x)`. -/
def Run.forEach {σ α : Type} (body : α → Run σ Unit) : List α → Run σ Unit
  | [] => Run.ret ()
  | x :: xs => Run.bind (body x) (fun _ => Run.forEach body xs)

/-- A branch: the table data of every type, `this.data.get(branch)`. -/
abbrev Branch := Obj TableData

/-- The schema: the models by type, and the parts of `Model` absent from the sources. -/
structure Schema where
  models : Obj Model
  hooks : Hooks

/-- The string held by a value, if it is a string. -/
def Val.asString : Val → Option String
  | .prim (.str s) => some s
  | _ => none

/-- The method `getModel(type)`; `none` is `undefined`. -/
def Schema.getModel (S : Schema) (type : Val) : Option Model :=
  type.asString.bind (fun name => Obj.lookup name S.models)

/-- The state of the store, `this.data`: the two branches, the tail pointer and two
lists of diffs under two keys.  The key `diffs` is the one `create`, `update` and
`remove` push to and `commit`, `postCommitDiff` and `reId` rewrite; the key `deltas` is
the one `reset` creates and `resetHead`, `getLocalDeltas` and `getRemoteDeltas` read.
(A store made by `reset` has no key `diffs`; the stores of the embedding hold both.) -/
structure Store where
  head : Branch
  tail : Branch
  diffs : List Diff
  deltas : List Diff
  tailptr : Int
  deriving DecidableEq, Repr

/-- The name of a branch. -/
inductive BranchName where
  | head
  | tail
  deriving DecidableEq, Repr

/-- The read `this.data.get(branch)`. -/
def Store.branch (s : Store) : BranchName → Branch
  | .head => s.head
  | .tail => s.tail

/-- The update `this.data.set(branch, b)`. -/
def Store.setBranch (s : Store) (br : BranchName) (b : Branch) : Store :=
  match br with
  | .head => { s with head := b }
  | .tail => { s with tail := b }

/-- The view `new Table({type, data, db})` of the data that a branch holds for a type,
or an empty table when the branch holds none.  The `Table` constructor throws when the
type has no model or when `id` is not an index field. -/
def Schema.tableOf (S : Schema) (b : Branch) (type : Val) : Except Err Table :=
  match type.asString, S.getModel type with
  | some name, some m =>
      if "id" ∈ m.indices then
        .ok (match Obj.lookup name b with
             | some d => ⟨S.hooks, m, d⟩
             | none => Table.reset S.hooks m)
      else .error (.modelError "idField: id not found in indices")
  | _, _ => .error (.modelError "Unknown model type")

/-- The method `getTable(options)`, as the methods of the store call it:
`getTable(type)` and `getTable(type, branch)`.  The method has one parameter, of which
`argopts` (absent from the sources) makes the type and the options; a second argument is
not read, so that the branch is the default `'head'` in both calls. -/
def Schema.getTable (S : Schema) (s : Store) (type : Val) : Except Err Table :=
  S.tableOf s.head type

/-- The update `data.setIn([branch, type], table.data)` on the data of a branch. -/
def Branch.saveTable (b : Branch) (type : Val) (t : Table) : Branch :=
  match type.asString with
  | some name => Obj.set b name t.data
  | none => b

/-- The method `saveTable(table, branch)`. -/
def Store.saveTable (s : Store) (br : BranchName) (type : Val) (t : Table) : Store :=
  s.setBranch br ((s.branch br).saveTable type t)

/-- Modelled from the spec: `makeId(type, id)` / `getId(object)` of the store (absent from
the sources): the identifier record `(type, id)` of two primitive values. -/
def makeId (type id : Val) : Except Err ID :=
  match type, id with
  | .prim t, .prim i => .ok ⟨t, i⟩
  | _, _ => .error (.typeError "identifier of an object")

/-- The steps `tbl = this.getTable(type, branch)`, a table operation, and
`this.saveTable(tbl, branch)`: the table is the one of `head`, it is saved in `branch`. -/
def Schema.onTable (S : Schema) (br : BranchName) (type : Val)
    (op : Table → Except Err Table) : Run Store Unit := fun s =>
  match (S.getTable s type).bind op with
  | .ok t => (s.saveTable br type t, .ok ())
  | .error e => (s, .error e)

/-- The body of the loop of `_applyDiffRelationships` for one field: the calls of
`removeRelationship` and `addRelationship` on the paired table. -/
def Schema.relationshipOps (relInfo : RelInfo) (relName : String) (id : ID)
    (e : Val × Val) (reverse : Bool) (tbl : Table) : Except Err Table :=
  let vi := if reverse then e.2 else e.1
  let vj := if reverse then e.1 else e.2
  if relInfo.many then
    ((if vi ≠ Val.undefined then
        vi.members.foldlM (fun (t : Table) relId =>
          t.removeRelationship (.prim relId.id) relName id) tbl
      else .ok tbl) : Except Err Table).bind (fun tbl1 =>
      if vj ≠ Val.undefined then
        vj.members.foldlM (fun (t : Table) relId =>
          t.addRelationship (.prim relId.id) relName id) tbl1
      else .ok tbl1)
  else if looseEq vi vj = false then
    ((if vi.truthy then tbl.removeRelationship (vi.prop "id") relName id
      else .ok tbl) : Except Err Table).bind (fun tbl1 =>
      if vj.truthy then tbl1.addRelationship (vj.prop "id") relName id else .ok tbl1)
  else .ok tbl

/-- The body of the loop of `_applyDiffRelationships`, for one field of the model of the
record `id` of the diff. -/
def Schema.relationshipStep (S : Schema) (diff : Diff) (model : Model) (id : ID)
    (reverse : Bool) (br : BranchName) (field : String) : Run Store Unit :=
  match Obj.lookup field diff, Obj.lookup field model.relationships with
  | some e, some relInfo =>
      match relInfo.relatedName with
      | some relName =>
          if relInfo.reverse || relName = "" || relInfo.type = "" then Run.ret ()
          else S.onTable br (Val.str relInfo.type)
            (Schema.relationshipOps relInfo relName id e reverse)
      | none => Run.ret ()
  | _, _ => Run.ret ()

/-- The method `_applyDiffRelationships(diff, reverse, branch)`. -/
def Schema._applyDiffRelationships (S : Schema) (diff : Diff) (reverse : Bool)
    (br : BranchName) : Run Store Unit :=
  match getDiffId diff with
  | none => Run.fail (.typeError "property of undefined")
  | some did =>
      Run.bind (Run.ofExcept (makeId did.1 did.2)) (fun id =>
        match S.getModel did.1 with
        | none => Run.fail (.typeError "property of undefined")
        | some model =>
            Run.forEach (S.relationshipStep diff model id reverse br) model.iterFields)

/-- The method `applyDiff(diff, reverse, branch)`. -/
def Schema.applyDiff (S : Schema) (diff : Diff) (reverse : Bool) (br : BranchName) :
    Run Store Unit :=
  match getDiffId diff with
  | none => Run.fail (.typeError "property of undefined")
  | some id =>
      Run.bind (S.onTable br id.1 (fun tbl => tbl.applyDiff diff reverse))
        (fun _ => S._applyDiffRelationships diff reverse br)

/-- The method `getRecord(iid)`: for an identifier record `{_type, id}`, the record that
the table of `_type` holds under `id` (`none` when there is none).  Any other value has
no property `_type`, so that no table can be made. -/
def Schema.getRecord (S : Schema) (s : Store) (iid : Val) : Except Err (Option Rec) :=
  match iid with
  | .ident i =>
      (S.getTable s (Val.prim i._type)).bind (fun tbl =>
        tbl.get (.fields [("id", Val.prim i.id)]) false)
  | _ => .error (.typeError "property of undefined")

/-- The method `exists(options)`.  It has one parameter: in the call
`exists(id, 'tail')` the branch is not read, and the record is looked up in `head`. -/
def Schema.exists (S : Schema) (s : Store) (options : Val) : Except Err Bool :=
  (S.getRecord s options).map (fun found => found.isSome)

/-- The method `get(options)`: the record, or the error "Unknown record".  It has one
parameter: in the call `get(type, id)` the `id` is not read and `options` is the type, a
string.  (`toInstance`, absent from the sources, is taken to return the record.) -/
def Schema.get (S : Schema) (options : Val) : Run Store Rec := fun s =>
  match S.getRecord s options with
  | .ok (some r) => (s, .ok r)
  | .ok none => (s, .error (.modelError "Unknown record"))
  | .error e => (s, .error e)

/-- The method `toObject(data)` of the store: the record of the model of `data._type`. -/
def Schema.toObject (S : Schema) (data : Rec) : Except Err Rec :=
  match S.getModel (data.get "_type") with
  | some model => .ok (model.toObject data)
  | none => .error (.typeError "property of undefined")

/-- The update `this.data.update('diffs', x => x.push(diff))`. -/
def Store.pushDiff (diff : Diff) : Run Store Unit := fun s =>
  ({ s with diffs := s.diffs ++ [diff] }, .ok ())

/-- The method `create(data)`; `fresh` is the value of `uuid.v4()`. -/
def Schema.create (S : Schema) (data : Rec) (fresh : String) : Run Store Rec :=
  Run.bind (Run.ofExcept (S.toObject data)) (fun object0 =>
    match S.getModel (data.get "_type") with
    | none => Run.fail (.typeError "property of undefined")
    | some model =>
        let object :=
          if object0.get "id" = Val.undefined then Obj.set object0 "id" (Val.str fresh)
          else object0
        Run.bind (Run.ofExcept (model.diff none (some object))) (fun made =>
          match made with
          | none => Run.fail (.typeError "property of undefined")
          | some diff =>
              Run.bind (S.applyDiff diff false .head) (fun _ =>
                Run.bind (Store.pushDiff diff) (fun _ => Run.ret object))))

/-- The method `update(full, values)`; `values = none` is the call `update(full)`.  It
starts with the call `this.get(full._type, full.id)`. -/
def Schema.update (S : Schema) (full : Rec) (values : Option Rec) : Run Store Unit :=
  Run.bind (S.get (full.get "_type")) (fun existing =>
    match S.getModel (existing.get "_type") with
    | none => Run.fail (.typeError "property of undefined")
    | some model =>
        Run.bind
          (match values with
            | some vs =>
                Run.ret (model.iterFields.foldl (fun (updated : Rec) field =>
                  match Obj.lookup field vs with
                  | some v => Obj.set updated field v
                  | none => updated) existing)
            | none => Run.ofExcept (S.toObject full))
          (fun updated =>
            Run.bind (Run.ofExcept (model.diff (some existing) (some updated))) (fun made =>
              match made with
              | some diff =>
                  Run.bind (Store.pushDiff diff) (fun _ => S.applyDiff diff false .head)
              | none => Run.ret ())))

/-- The method `remove(type, id)`.  The record is read with the call
`this.get(type, id)`. -/
def Schema.remove (S : Schema) (type _id : Val) : Run Store Unit :=
  match S.getModel type with
  | none => Run.bind (S.get type) (fun _ => Run.fail (.typeError "property of undefined"))
  | some model =>
      Run.bind (S.get type) (fun object =>
        Run.bind (Run.ofExcept (makeId (object.get "_type") (object.get "id"))) (fun _ =>
          Run.bind (Run.ofExcept (model.diff (some object) none)) (fun made =>
            match made with
            | none => Run.fail (.typeError "property of undefined")
            | some diff =>
                Run.bind (S.applyDiff diff false .head) (fun _ => Store.pushDiff diff))))

/-- Modelled from the spec: `applyDelta` (absent from the sources), taken to be
`applyDiff` with its default arguments, "every diff in the log applied in order", in the
loop of `resetHead`, `for (const dlt of deltas) this.applyDelta(dlt)`. -/
def Schema.replay (S : Schema) (diffs : List Diff) : Run Store Unit :=
  Run.forEach (fun dlt => S.applyDiff dlt false .head) diffs

/-- The slice `list.slice(tp)` of an Immutable list: a negative start counts from the
end of the list. -/
def sliceFrom (diffs : List Diff) (tp : Int) : List Diff :=
  if tp < 0 then diffs.drop (diffs.length - tp.natAbs) else diffs.drop tp.toNat

/-- The slice `list.slice(0, tp)` of an Immutable list: a negative end counts from the
end of the list. -/
def sliceTo (diffs : List Diff) (tp : Int) : List Diff :=
  if tp < 0 then diffs.take (diffs.length - tp.natAbs) else diffs.take tp.toNat

/-- The method `getLocalDeltas()`: the list `deltas` from the tail pointer on. -/
def Store.getLocalDeltas (s : Store) : List Diff := sliceFrom s.deltas s.tailptr

/-- The method `getRemoteDeltas()`: the list `deltas` before the tail pointer. -/
def Store.getRemoteDeltas (s : Store) : List Diff := sliceTo s.deltas s.tailptr

/-- The method `resetHead()`. -/
def Schema.resetHead (S : Schema) : Run Store Unit := fun s =>
  S.replay s.getLocalDeltas { s with head := s.tail }

/-- The value `x && x.size` as a condition, in `commit`: an ordered set with a member.
(An identifier record has a size as well: the number of its fields.) -/
def Val.hasSize : Val → Bool
  | .oset xs => !xs.isEmpty
  | .ident _ => true
  | .prim _ => false

/-- The loop of `commit` over the many-to-many fields of one diff, on the pair of the
diff and its `extraDiffs`. -/
def Schema.commitStep (id : Val × Val) (acc : Diff × List Diff) (fieldName : String) :
    Diff × List Diff :=
  match Obj.lookup fieldName acc.1 with
  | none => acc
  | some e =>
      let base : Diff := [("_type", (id.1, id.1)), ("id", (id.2, id.2))]
      let removed : List Diff :=
        if e.1.hasSize then [base.set fieldName (e.1, Val.oset [])] else []
      let added : List Diff :=
        if e.2.hasSize then [base.set fieldName (Val.oset [], e.2)] else []
      (acc.1.erase fieldName, acc.2 ++ removed ++ added)

/-- The body of the loop of `commit` for one diff: the diffs it adds to `newDiffs`.  The
test `this.exists(getDiffId(diff), 'tail')` looks the record up in `head`. -/
def Schema.commitDiffs (S : Schema) (s : Store) (diff : Diff) : Except Err (List Diff) :=
  match getDiffId diff with
  | none => .error (.typeError "property of undefined")
  | some id =>
      match S.getModel id.1 with
      | none => .error (.typeError "property of undefined")
      | some model =>
          let r := (model.iterManyToMany false).foldl (Schema.commitStep id) (diff, [])
          match getDiffId r.1 with
          | none => .error (.typeError "property of undefined")
          | some id1 =>
              ((makeId id1.1 id1.2).bind (fun iid => S.exists s (Val.ident iid))).map
                (fun found =>
                  (if !found || decide (r.1.keys.length > 2) then [r.1] else []) ++ r.2)

/-- The method `commit()`.  The method `getDiffs()` it starts from is absent from the
sources and taken as a parameter. -/
def Schema.commit (S : Schema) (getDiffs : Store → Except Err (List Diff)) :
    Run Store Unit := fun s =>
  match (getDiffs s).bind (fun diffs => diffs.mapM (S.commitDiffs s)) with
  | .error e => (s, .error e)
  | .ok groups =>
      let newDiffs := groups.flatten
      ({ s with
          diffs := sliceTo s.diffs s.tailptr ++ newDiffs
          tailptr := s.tailptr + newDiffs.length
          tail := s.head }, .ok ())

/-- The rewriting of one side of a foreign-key entry in `reId`:
`if (x && fromId.equals(this.getId(x))) x = toId`. -/
def reIdValue (fromId toId : ID) (x : Val) : Val × Bool :=
  if x.truthy && decide (x = Val.ident fromId) then (Val.ident toId, true) else (x, false)

/-- The rewriting of one side of a many-to-many entry in `reId`:
`if (x && x.has(fromId)) x = x.delete(fromId).add(toId)`. -/
def reIdSet (fromId toId : ID) (x : Val) : Except Err (Val × Bool) :=
  if x.truthy then
    (x.has (Val.ident fromId)).bind (fun found =>
      if found then
        ((x.delete fromId).bind (fun y => y.add toId)).map (fun z => (z, true))
      else .ok (x, false))
  else .ok (x, false)

/-- One turn of the loop of `reId` over the foreign keys of the model of a diff, on the
pair of `newDiff` and `changed`. -/
def reIdFkStep (fromId toId : ID) (diff : Diff) (acc : Diff × Bool) (field : String) :
    Diff × Bool :=
  match Obj.lookup field diff with
  | none => acc
  | some e =>
      let a := reIdValue fromId toId e.1
      let b := reIdValue fromId toId e.2
      (acc.1.set field (a.1, b.1), acc.2 || a.2 || b.2)

/-- One turn of the loop of `reId` over the many-to-many fields of the model of a diff,
on the pair of `newDiff` and `changed`. -/
def reIdManyStep (fromId toId : ID) (diff : Diff) (acc : Diff × Bool) (field : String) :
    Except Err (Diff × Bool) :=
  match Obj.lookup field diff with
  | none => .ok acc
  | some e =>
      (reIdSet fromId toId e.1).bind (fun (a : Val × Bool) =>
        (reIdSet fromId toId e.2).map (fun (b : Val × Bool) =>
          (acc.1.set field (a.1, b.1), acc.2 || a.2 || b.2)))

/-- The body of the diff loop of `reId` for one diff: the rewritten diff, or the diff
itself when nothing in it changed. -/
def Schema.reIdDiff (S : Schema) (id newId : Val) (fromId toId : ID) (diff : Diff) :
    Except Err Diff :=
  match Obj.lookup "id" diff with
  | none => .error (.typeError "property of undefined")
  | some i =>
      let i0 := if looseEq i.1 id then newId else i.1
      let i1 := if looseEq i.2 id then newId else i.2
      let changed0 := looseEq i.1 id || looseEq i.2 id
      let newDiff0 : Diff := [("id", (i0, i1))]
      match (getDiffId diff).bind (fun did => S.getModel did.1) with
      | none => .error (.typeError "property of undefined")
      | some relModel =>
          let afterFks := (relModel.iterForeignKeys false).foldl
            (reIdFkStep fromId toId diff) (newDiff0, changed0)
          ((relModel.iterManyToMany false).foldlM
            (reIdManyStep fromId toId diff) afterFks).map
            (fun (r : Diff × Bool) =>
              if r.2 then r.1.foldl (fun (x : Diff) (p : String × (Val × Val)) => x.set p.1 p.2) diff
              else diff)

/-- The diff loop of `reId`: every diff of the log is rewritten in place, in order; an
error ends the loop and keeps the diffs rewritten so far. -/
def Schema.reIdDiffs (S : Schema) (id newId : Val) (fromId toId : ID) : Run Store Unit :=
  fun s =>
    (List.range s.diffs.length).foldl
      (fun (acc : Store × Except Err Unit) ii =>
        match acc.2, s.diffs.get? ii with
        | .ok _, some diff =>
            match S.reIdDiff id newId fromId toId diff with
            | .ok diff' => ({ acc.1 with diffs := acc.1.diffs.set ii diff' }, .ok ())
            | .error e => (acc.1, .error e)
        | _, _ => acc)
      (s, .ok ())

/-- The callback of `forEachRelatedObject` in `reId`, for one related object: the record
is read with `this.get(objId)`, the table with `this.getTable(obj._type, br)`, and it is
saved in the branch `br`. -/
def Schema.reIdRelated (S : Schema) (br : BranchName) (fromId toId : ID)
    (p : Val × Option String) : Run Store Unit :=
  match p.2 with
  | none => Run.ret ()
  | some reverseField =>
      if reverseField = "" then Run.ret ()
      else
        Run.bind (S.get p.1) (fun obj =>
          S.onTable br (obj.get "_type") (fun relTbl =>
            if relTbl.model.fieldIsForeignKey reverseField = false then
              (relTbl.removeRelationship (obj.get "id") reverseField fromId).bind
                (fun t => t.addRelationship (obj.get "id") reverseField toId)
            else relTbl.set (Obj.set obj reverseField (Val.ident toId))))

/-- The first steps of the branch loop of `reId`: `tbl = this.getTable(type, br)`,
`tbl.reId(id, newId)` and `this.saveTable(tbl, br)`; the result is the table `tbl`. -/
def Schema.reIdTable (S : Schema) (type id newId : Val) (br : BranchName) :
    Run Store Table := fun s =>
  match (S.getTable s type).bind (fun tbl => tbl.reId id newId) with
  | .ok t => (s.saveTable br type t, .ok t)
  | .error e => (s, .error e)

/-- The body of the branch loop of `reId` for one branch. -/
def Schema.reIdBranch (S : Schema) (type id newId : Val) (br : BranchName) :
    Run Store Unit :=
  Run.bind (S.reIdTable type id newId br) (fun tbl =>
    Run.bind (Run.ofExcept (makeId type id)) (fun fromId =>
      Run.bind (Run.ofExcept (makeId type newId)) (fun toId =>
        Run.bind (Run.ofExcept (tbl.relatedObjects newId)) (fun related =>
          Run.bind (Run.forEach (S.reIdRelated br fromId toId) related) (fun _ =>
            S.reIdDiffs id newId fromId toId)))))

/-- The method `reId(type, id, newId, branch)`; `branch = none` is both branches. -/
def Schema.reId (S : Schema) (type id newId : Val) (branch : Option BranchName) :
    Run Store Unit :=
  Run.forEach (S.reIdBranch type id newId)
    (match branch with
     | none => [BranchName.head, BranchName.tail]
     | some br => [br])

/-- The method `postCommitDiff(response, diff)`; `newId` is the `id` the response
carries, `diff = none` is the call without a diff. -/
def Schema.postCommitDiff (S : Schema) (newId : Val) (diff : Option Diff) :
    Run Store Bool :=
  Run.bind
    (match diff with
      | some d => Run.ret (some d)
      | none => fun s =>
          ({ s with diffs := s.diffs.tail, tailptr := s.tailptr - 1 }, .ok s.diffs.head?))
    (fun popped =>
      match popped with
      | none => Run.fail (.typeError "property of undefined")
      | some d =>
          match getDiffOp d with
          | none => Run.fail (.typeError "property of undefined")
          | some DiffOp.create =>
              match Obj.lookup "_type" d, Obj.lookup "id" d with
              | some ty, some i =>
                  Run.bind (S.reId ty.2 i.2 newId none) (fun _ => Run.ret true)
              | _, _ => Run.fail (.typeError "property of undefined")
          | some _ => Run.ret false)

/-! ### Notions used to state the properties of the store -/

/-- Head derivation: `head` is `tail` with every diff of the delta log applied in order,
as `resetHead` computes it: the method returns and leaves `head` as it is. -/
def Schema.HeadDerived (S : Schema) (s : Store) : Prop :=
  (S.resetHead s).2 = .ok () ∧ (S.resetHead s).1.head = s.head

/-- The tail pointer lies between `0` and the length of the delta log. -/
def Store.TailPtrInRange (s : Store) : Prop :=
  0 ≤ s.tailptr ∧ s.tailptr ≤ (s.diffs.length : Int)

/-! ### Sample store -/

/-- A sample model of authors, with the reverse field of `Book.author`. -/
def authorModel : Model :=
  { type := "Author"
    attributes := [("name", ⟨Val.undefined, Val.str "string"⟩)]
    relationships := [("books", ⟨"Book", true, false, true, some "author"⟩)]
    indices := ["id"] }

/-- A sample model of tags, with the reverse field of `Book.tags`. -/
def tagModel : Model :=
  { type := "Tag"
    attributes := [("label", ⟨Val.undefined, Val.str "string"⟩)]
    relationships := [("books", ⟨"Book", true, false, true, some "tags"⟩)]
    indices := ["id"] }

/-- A sample schema: books, authors and tags. -/
def librarySchema : Schema :=
  { models := [("Book", bookModel), ("Author", authorModel), ("Tag", tagModel)]
    hooks := plainHooks }

/-- The empty store. -/
def emptyStore : Store := { head := [], tail := [], diffs := [], deltas := [], tailptr := 0 }

/-- Data of a sample author. -/
def adaData : Rec := [("_type", Val.str "Author"), ("id", Val.str "a1"), ("name", Val.str "Ada")]

/-- Data of a sample tag. -/
def tagData : Rec := [("_type", Val.str "Tag"), ("id", Val.str "t1"), ("label", Val.str "new")]

/-- Data of a sample book without relationships. -/
def plainBookData : Rec :=
  [("_type", Val.str "Book"), ("id", Val.str "b1"), ("title", Val.str "X")]

/-- Data of a sample book written by the sample author. -/
def adaBookData : Rec :=
  [("_type", Val.str "Book"), ("id", Val.str "b1"), ("title", Val.str "X"),
   ("author", Val.ident authorA)]

/-! ### Sample tables -/

/-- The table of books that holds `bookX` alone. -/
def oneBookTable : Table :=
  ⟨plainHooks, bookModel,
    ⟨[some bookX], [("id", [(Val.str "b1", [0])]), ("title", [(Val.str "X", [0])])]⟩⟩

/-- The table of books that holds `bookX` and `bookXCopy`, two books of one title. -/
def twoBookTable : Table :=
  ⟨plainHooks, bookModel,
    ⟨[some bookX, some bookXCopy],
     [("id", [(Val.str "b1", [0]), (Val.str "b2", [1])]),
      ("title", [(Val.str "X", [0, 1])])]⟩⟩

/-- The sample book under a third identifier, with another title. -/
def bookW : Rec :=
  [("_type", Val.str "Book"), ("id", Val.str "b3"), ("title", Val.str "W"),
   ("note", Val.undefined), ("author", .ident authorA), ("tags", .oset []),
   ("reviews", .oset []), ("cover", Val.undefined)]

/-- The table left by `set(bookX)`, `set(bookW)` and `remove("b1")`: a removed row and
`bookW`. -/
def removedBookTable : Table :=
  ⟨plainHooks, bookModel,
    ⟨[none, some bookW], [("id", [(Val.str "b3", [1])]), ("title", [(Val.str "W", [1])])]⟩⟩

/-- The index invariant of a table on which `reId` may have run: as `Table.IndexInv`,
but the `id` index is only required to list every live row under the row's own `id`;
it may also hold entries, of one position each, under identifiers that were reassigned. -/
structure Table.LooseInv (t : Table) : Prop where
  keys_nodup : t.data.indices.keys.Nodup
  id_mem : "id" ∈ t.data.indices.keys
  id_plain : ∀ v, t.hooks.toIndexable t.model "id" v = v ∧ t.hooks.toInternal t.model "id" v = v
  single : ∀ k ps, t.data.getIndexIn "id" k = some ps → ∃ p, ps = [p]
  own : ∀ p r, t.data.row p = some r → t.data.getIndexIn "id" (r.get "id") = some [p]
  mem_iff : ∀ f, f ∈ t.data.indices.keys → f ≠ "id" → ∀ k p,
    p ∈ t.data.posOf f k
      ↔ ∃ r, t.data.row p = some r ∧ t.toIndexable f (r.get f) = k

/-- Tables reached from an empty table by calls of `set`, `remove` and `reId` that
return, where `reId(old, new)` is called with a new `id` that the `id` index does not
list.  Such a call returns when the `id` index lists `old` at a position `p` whose row is
a record `r`; the `id` that `r` had joins `olds`, the identifiers that were reassigned. -/
inductive Table.Renamed (h : Hooks) (m : Model) : List Val → Table → Prop where
  | reset : Table.Renamed h m [] (Table.reset h m)
  | set (olds : List Val) (t t1 : Table) (object : Rec) :
      Table.Renamed h m olds t → t.set object = .ok t1 → Table.Renamed h m olds t1
  | remove (olds : List Val) (t t1 : Table) (q : Query) :
      Table.Renamed h m olds t → t.remove q = .ok t1 → Table.Renamed h m olds t1
  | reId (olds : List Val) (t t1 : Table) (old new : Val) (p : Nat) (r : Rec) :
      Table.Renamed h m olds t → t.data.getIndexIn "id" old = some [p] →
      t.data.row p = some r → t.data.getIndexIn "id" new = none →
      t.reId old new = .ok t1 → Table.Renamed h m (r.get "id" :: olds) t1

/-- Every entry of the `id` index lists the live row that carries the key as its `id`,
unless the key is one of the reassigned identifiers `olds`. -/
def Table.StaleWithin (t : Table) (olds : List Val) : Prop :=
  ∀ v p, t.data.getIndexIn "id" v = some [p] →
    (∃ r, t.data.row p = some r ∧ r.get "id" = v) ∨ v ∈ olds

/-! ### Notions used to state the properties of `commit` -/

/-- The diffs the loop of `commit` pushes on `extraDiffs` for one many-to-many field of
a diff: an update diff of the same record with `[removed, empty]` when the removed set
has members, then one with `[empty, added]` when the added set has members. -/
def Schema.extraDiffs (id : Val × Val) (diff : Diff) (fieldName : String) : List Diff :=
  match Obj.lookup fieldName diff with
  | none => []
  | some e =>
      (if e.1.hasSize then
        [[("_type", (id.1, id.1)), ("id", (id.2, id.2)), (fieldName, (e.1, Val.oset []))]]
       else []) ++
      (if e.2.hasSize then
        [[("_type", (id.1, id.1)), ("id", (id.2, id.2)), (fieldName, (Val.oset [], e.2))]]
       else [])

/-- Modelled from the spec: `getDiffs()` (absent from the sources), the diffs `commit`
starts from: "for each pending diff", the pending diffs being the "local-only suffix (not
yet sent)" of the delta log, the entries from the tail pointer on.  The log is the list
`diffs`, the one `commit` rewrites. -/
def Store.getDiffs (s : Store) : Except Err (List Diff) := .ok (sliceFrom s.diffs s.tailptr)

/-- Data of a sample book that carries the sample tag and nothing else. -/
def tagOnlyBookData : Rec :=
  [("_type", Val.str "Book"), ("id", Val.str "b1"), ("tags", Val.oset [tag1])]

/-- The store after the creation of the sample tag: `head` holds the tag, which no book
names. -/
def tagStore : Store := (librarySchema.create tagData "u1" emptyStore).1

/-- The store after the creation of the sample tag and of a book that carries it: `head`
holds the two records, `tail` holds nothing, the log holds the two create diffs, not
committed. -/
def tagOnlyStore : Store := (librarySchema.create tagOnlyBookData "u2" tagStore).1

/-- The create diff of the book `b1` with the tag `t1`, as `create` makes it of
`tagOnlyBookData`. -/
def taggedBookDiff : Diff :=
  [("_type", (Val.undefined, Val.str "Book")), ("id", (Val.undefined, Val.str "b1")),
   ("tags", (Val.undefined, Val.oset [tag1]))]

/-! ## Dependency-ordered diff emission (`src/DB/BaseDB.js`) -/

/-- The text of a primitive value in a template string. -/
def Prim.toTemplate : Prim → String
  | .undefined => "undefined"
  | .null => "null"
  | .str s => s
  | .nan => "NaN"
  | .obj _ text => text

/-- The key of a record in the dependency table: the template string of `_type`, a bar,
and `id`. -/
def depKey (i : ID) : String := i._type.toTemplate ++ "|" ++ i.id.toTemplate

/-- One entry of the dependency table: the identifier of a changed record, its diff, and
the sets `required` and `optional` of the keys of the records it waits for. -/
structure DepEntry where
  id : ID
  diff : Diff
  required : List String
  optional : List String
  deriving DecidableEq, Repr

/-- The dependency table: an object from record keys to entries. -/
abbrev DepTable := Obj DepEntry

/-- The method `set.add(key)` of a set of keys. -/
def keysAdd (xs : List String) (k : String) : List String := if k ∈ xs then xs else xs ++ [k]

/-- The method `set.remove(key)` of a set of keys. -/
def keysRemove (xs : List String) (k : String) : List String :=
  xs.filter (fun x => !decide (x = k))

/-- The update of one entry at the end of `_getNextReady`: the key leaves both sets. -/
def DepEntry.withoutKey (e : DepEntry) (x : String) : DepEntry :=
  { e with required := keysRemove e.required x, optional := keysRemove e.optional x }

/-- The scan of `_getNextReady` over the entries of the table, in key order, from the
entry `next` chosen so far: an entry without required keys replaces `next` when it has
fewer optional keys, and the scan stops at once when `next` has no optional keys. -/
def scanReady : List (String × DepEntry) → Option (String × DepEntry) →
    Option (String × DepEntry)
  | [], next => next
  | (id, e) :: rest, next =>
      let next1 : Option (String × DepEntry) :=
        if e.required.length = 0 then
          match next with
          | some n => if e.optional.length < n.2.optional.length then some (id, e) else next
          | none => some (id, e)
        else next
      match next1 with
      | some n => if n.2.optional.length = 0 then next1 else scanReady rest next1
      | none => scanReady rest next1

/-- The method `_getNextReady(tbl)`: the table as the call leaves it, and the key
returned (`none` is `undefined`).  A key that is the empty string is falsy: nothing is
erased for it. -/
def _getNextReady (tbl : DepTable) : DepTable × Option String :=
  match scanReady tbl none with
  | none => (tbl, none)
  | some (next, e) =>
      if next = "" then (tbl, some next)
      else
        let nextId := depKey e.id
        (tbl.map (fun (p : String × DepEntry) => (p.1, p.2.withoutKey nextId)), some next)

/-- The test `optional.has(x)` of `splitDelta`: the set holds keys, which are strings, so
that it has no identifier record. -/
def optionalHas (optional : List String) (x : Val) : Bool :=
  match x with
  | .prim (.str s) => optional.contains s
  | _ => false

/-- The method `v.filter(pred)` of an ordered set; it does not exist on `undefined`. -/
def Val.filterSet (v : Val) (pred : ID → Bool) : Except Err Val :=
  match v with
  | .oset xs => .ok (.oset (xs.filter pred))
  | _ => .error (.typeError "filter of undefined")

/-- The read `field.get('many')`. -/
def FieldInfo.many : FieldInfo → Bool
  | .attribute _ => false
  | .relationship r => r.many

/-- The read `field.get('required')`. -/
def FieldInfo.required : FieldInfo → Bool
  | .attribute _ => false
  | .relationship r => r.required

/-- One turn of the loop of `splitDelta`, on the pair of `diff` and `auxDelta`. -/
def Schema.splitStep (model : Model) (optional : List String) (acc : Diff × Diff)
    (fieldName : String) : Except Err (Diff × Diff) :=
  match Obj.lookup fieldName acc.1 with
  | none => .ok acc
  | some e =>
      (model.getField fieldName).bind (fun field =>
        if field.many then
          (e.1.filterSet (fun x => !optionalHas optional (.ident x))).bind (fun a0 =>
            (e.2.filterSet (fun x => !optionalHas optional (.ident x))).bind (fun a1 =>
              (e.1.filterSet (fun x => optionalHas optional (.ident x))).bind (fun d0 =>
                (e.2.filterSet (fun x => optionalHas optional (.ident x))).map (fun d1 =>
                  (Obj.set acc.1 fieldName (d0, d1), Obj.set acc.2 fieldName (a0, a1))))))
        else if optionalHas optional e.2 then
          .ok (Obj.erase acc.1 fieldName, Obj.set acc.2 fieldName e)
        else .ok acc)

/-- The method `splitDelta({diff, optional})`: the pair `[mainDelta, auxDelta]`. -/
def Schema.splitDelta (S : Schema) (diff : Diff) (optional : List String) :
    Except Err (Diff × Diff) :=
  match Obj.lookup "_type" diff with
  | none => .error (.typeError "property of undefined")
  | some ty =>
      match S.getModel ty.2 with
      | none => .error (.typeError "property of undefined")
      | some model => model.iterRelationships.foldlM (Schema.splitStep model optional) (diff, [])

/-- The state of the loop of `makeDeltas`: the dependency table and the diffs emitted so
far, each with the key of its record. -/
structure DeltaState where
  tbl : DepTable
  deltas : List (String × Diff)
  deriving DecidableEq, Repr

/-- One turn of the loop `while(iid)` of `makeDeltas`, with the call of `getNextReady`
before it: `none` when the loop ends. -/
def Schema.selectStep (S : Schema) (st : DeltaState) : Except Err (Option DeltaState) :=
  match _getNextReady st.tbl with
  | (_, none) => .ok none
  | (tbl, some iid) =>
      if iid = "" then .ok none
      else
        match Obj.lookup iid tbl with
        | none => .error (.typeError "property of undefined")
        | some entry =>
            if entry.optional.length > 0 then
              (S.splitDelta entry.diff entry.optional).map (fun (p : Diff × Diff) =>
                some { tbl := Obj.set tbl iid
                          { entry with diff := p.2, required := entry.optional, optional := [] }
                       deltas := st.deltas ++ [(iid, p.1)] })
            else
              .ok (some { tbl := Obj.erase tbl iid, deltas := st.deltas ++ [(iid, entry.diff)] })

/-- The loop `while(iid)` of `makeDeltas`, run for at most `fuel` turns: the state when
the loop has ended, `none` when the turns did not suffice. -/
def Schema.selectLoop (S : Schema) : Nat → DeltaState → Except Err (Option DeltaState)
  | 0, _ => .ok none
  | fuel + 1, st =>
      (S.selectStep st).bind (fun r =>
        match r with
        | none => .ok (some st)
        | some st1 => S.selectLoop fuel st1)

/-- The turns the loop of `makeDeltas` can spend on an entry: two when it has optional
keys (a split, then the auxiliary diff), one otherwise. -/
def DepEntry.weight (e : DepEntry) : Nat := if e.optional.length > 0 then 2 else 1

/-- The number of turns that suffice for the loop of `makeDeltas`: the turns of the
entries, and one more for the turn that ends the loop. -/
def DepTable.turns (tbl : DepTable) : Nat :=
  (tbl.map (fun (p : String × DepEntry) => p.2.weight)).sum + 1

/-- The values `related` iterates over in `_makeDependencyTable`: the members of a
many-valued field, or the one value of a single-valued field, which has the properties
`_type` and `id` only when it is an identifier. -/
def relatedIds (many : Bool) (related : Val) : Except Err (List ID) :=
  if many then .ok related.members
  else
    match related with
    | .ident i => .ok [i]
    | _ => .error (.typeError "property of undefined")

/-- The loop of `_makeDependencyTable` over the related identifiers of one field, on the
entry of the record: the key of an identifier for which `this.exists(relId, 'tail')` is
false is added to the set of the kind.  (That call looks the record up in `head`.) -/
def Schema.depAddRelated (S : Schema) (s : Store) (isRequired : Bool) (entry : DepEntry)
    (relId : ID) : Except Err DepEntry :=
  (S.exists s (Val.ident relId)).map (fun found =>
    if found then entry
    else if isRequired then { entry with required := keysAdd entry.required (depKey relId) }
    else { entry with optional := keysAdd entry.optional (depKey relId) })

/-- The loop of `_makeDependencyTable` over the relationship fields of one record, on the
entry of the record. -/
def Schema.depAddField (S : Schema) (s : Store) (model : Model) (entry : DepEntry)
    (fieldName : String) : Except Err DepEntry :=
  (model.getField fieldName).bind (fun field =>
    match Obj.lookup fieldName entry.diff with
    | none => .ok entry
    | some e =>
        if isEmpty e.2 then .ok entry
        else
          (relatedIds field.many e.2).bind (fun related =>
            related.foldlM (S.depAddRelated s field.required) entry))

/-- The body of the loop of `_makeDependencyTable` for one record of `headTbl`. -/
def Schema.depAddRecord (S : Schema) (s : Store) (model : Model) (tailTbl : Table)
    (tbl : DepTable) (headObj : Rec) : Except Err DepTable :=
  (tailTbl.get (.value (headObj.get "id")) false).bind (fun tailObj =>
    (model.diff tailObj (some headObj)).bind (fun made =>
      match made with
      | none => .ok tbl
      | some diff =>
          (makeId (headObj.get "_type") (headObj.get "id")).bind (fun id =>
            (model.iterRelationships.foldlM (S.depAddField s model)
                { id := id, diff := diff, required := [], optional := [] }).map
              (fun entry => Obj.set tbl (depKey id) entry))))

/-- The method `_makeDependencyTable()`.  The tables `headTbl` and `tailTbl` are read
with `getTable(model.type, 'head')` and `getTable(model.type, 'tail')`. -/
def Schema._makeDependencyTable (S : Schema) (s : Store) : Except Err DepTable :=
  S.models.foldlM
    (fun (tbl : DepTable) (p : String × Model) =>
      (S.getTable s (Val.str p.2.type)).bind (fun headTbl =>
        (S.getTable s (Val.str p.2.type)).bind (fun tailTbl =>
          headTbl.iterObjects.foldlM (S.depAddRecord s p.2 tailTbl) tbl)))
    []

/-- The loop "Add removals" of `makeDeltas`: the remove diff of every record of `tailTbl`
that `headTbl` does not hold.  (`model.delta`, absent from the sources, is read as
`model.diff`.) -/
def Schema.removalDeltas (S : Schema) (s : Store) : Except Err (List Diff) :=
  S.models.foldlM
    (fun (deltas : List Diff) (p : String × Model) =>
      (S.getTable s (Val.str p.2.type)).bind (fun headTbl =>
        (S.getTable s (Val.str p.2.type)).bind (fun tailTbl =>
          tailTbl.iterObjects.foldlM
            (fun (deltas : List Diff) (tailObj : Rec) =>
              (headTbl.get (.value (tailObj.get "id")) false).bind (fun headObj =>
                match headObj with
                | some _ => .ok deltas
                | none =>
                    (p.2.diff (some tailObj) none).map (fun made =>
                      match made with
                      | none => deltas
                      | some dlt => deltas ++ [dlt])))
            deltas)))
    []

/-- The names of the methods that the classes `BaseDB` and `CacheDB` define. -/
def storeMethods : List String :=
  ["makeDeltas", "splitDelta", "_makeDependencyTable", "_getNextReady", "commit",
   "reset", "resetHead", "resetIndices", "equals", "copy", "clear", "loadJsonApi",
   "loadObjects", "loadSplitObjectsSet", "getLocalDeltas", "getRemoteDeltas",
   "updateReverseRelationships", "clearReverseRelationships", "makeIID", "getModel",
   "getTable", "iterTables", "saveTable", "toObject", "get", "exists", "filter", "sort",
   "lookup", "query", "getRecord", "getDeltas", "getTailPointer", "createInstance",
   "create2", "create", "update", "createOrUpdate", "remove", "applyDiff",
   "_applyDiffRelationships", "commitDiff", "postCommitDiff", "reId", "saveJson",
   "loadJson"]

/-- A call `this.name(...)` in `makeDeltas`: the method run when the classes define one
of that name, a `TypeError` otherwise. -/
def callMethod {α : Type} (name : String) (method : Except Err α) : Except Err α :=
  if name ∈ storeMethods then method
  else .error (.typeError ("this." ++ name ++ " is not a function"))

/-- The method `makeDeltas()`, with the loop run for at most `fuel` turns: the diffs
returned, `none` when the turns did not suffice.  The method calls
`this.makeDependencyTable()` and `this.getNextReady(depTbl)`; the methods that build the
table and select an entry are defined as `_makeDependencyTable` and `_getNextReady`. -/
def Schema.makeDeltas (S : Schema) (fuel : Nat) (s : Store) :
    Except Err (Option (List Diff)) :=
  (callMethod "makeDependencyTable" (S._makeDependencyTable s)).bind (fun depTbl =>
    (callMethod "getNextReady"
        (S.selectLoop fuel { tbl := depTbl, deltas := [] })).bind (fun r =>
      match r with
      | none => .ok none
      | some st =>
          (S.removalDeltas s).map (fun removals =>
            some (st.deltas.map (fun p => p.2) ++ removals))))

/-- The keys of the table are distinct, and every entry is stored under the key of its
own identifier, which is not the empty string. -/
def DepTable.WellKeyed (tbl : DepTable) : Prop :=
  tbl.keys.Nodup ∧ ∀ p, p ∈ tbl → p.1 = depKey p.2.id

/-- The emission order respects the required keys of the table `T0` the loop started
from: wherever a diff of a record is emitted, a diff of every record that the entry of
the record in `T0` requires was emitted before it. -/
def DepTable.Ordered (T0 : DepTable) (deltas : List (String × Diff)) : Prop :=
  ∀ (i : Nat) (k : String) (d : Diff), deltas[i]? = some (k, d) → ∀ e0, (k, e0) ∈ T0 → ∀ r, r ∈ e0.required →
    ∃ (j : Nat) (d' : Diff), j < i ∧ deltas[j]? = some (r, d')

/-- Every entry still in the table waits for the keys its entry in `T0` requires, as far
as no diff of them was emitted yet. -/
def DepTable.Waiting (T0 : DepTable) (st : DeltaState) : Prop :=
  ∀ p, p ∈ st.tbl → ∀ e0, (p.1, e0) ∈ T0 → ∀ r, r ∈ e0.required →
    r ∈ st.deltas.map (fun x => x.1) ∨ r ∈ p.2.required

/-- A dependency table with a cycle of required references: two new records that
require each other. -/
def cycleTable : DepTable :=
  [("Book|b1",
    { id := ⟨.str "Book", .str "b1"⟩
      diff := [("_type", (Val.undefined, Val.str "Book")), ("id", (Val.undefined, Val.str "b1"))]
      required := ["Author|a1"], optional := [] }),
   ("Author|a1",
    { id := ⟨.str "Author", .str "a1"⟩
      diff := [("_type", (Val.undefined, Val.str "Author")), ("id", (Val.undefined, Val.str "a1"))]
      required := ["Book|b1"], optional := [] })]

/-- A dependency table without cycle: a new book that requires a new author. -/
def chainTable : DepTable :=
  [("Book|b1",
    { id := ⟨.str "Book", .str "b1"⟩
      diff := [("_type", (Val.undefined, Val.str "Book")), ("id", (Val.undefined, Val.str "b1"))]
      required := ["Author|a1"], optional := [] }),
   ("Author|a1",
    { id := ⟨.str "Author", .str "a1"⟩
      diff := [("_type", (Val.undefined, Val.str "Author")), ("id", (Val.undefined, Val.str "a1"))]
      required := [], optional := [] })]

/-! ### Sample branches and diffs for the emission of diffs -/

/-- A sample model of reviews: an optional foreign key and a many-to-many field. -/
def reviewModel : Model :=
  { type := "Review"
    attributes := [("text", ⟨Val.undefined, Val.str "string"⟩)]
    relationships :=
      [("book", ⟨"Book", false, false, false, some "reviews"⟩),
       ("tags", ⟨"Tag", true, false, false, none⟩)]
    indices := ["id"] }

/-- A sample schema: reviews, books and tags. -/
def reviewSchema : Schema :=
  { models := [("Review", reviewModel), ("Book", bookModel), ("Tag", tagModel)]
    hooks := plainHooks }

/-- Identifier of a book that is not sent yet. -/
def bookNine : ID := ⟨.str "Book", .str "b9"⟩

/-- An update diff of a review: the book is set, two tags are added. -/
def reviewDiff : Diff :=
  [("_type", (Val.str "Review", Val.str "Review")), ("id", (Val.str "r1", Val.str "r1")),
   ("book", (Val.undefined, Val.ident bookNine)),
   ("tags", (Val.oset [], Val.oset [tag1, tag2]))]

/-- A create diff of a review, as `Model.diff` makes it: the side the diff starts from is
`undefined` in every field. -/
def reviewCreateDiff : Diff :=
  [("_type", (Val.undefined, Val.str "Review")), ("id", (Val.undefined, Val.str "r1")),
   ("tags", (Val.undefined, Val.oset [tag2]))]

/-! ### Notions used to state the properties of `reId` -/

/-- The diff mentions the identifier `fromId`, of a record with the `id` `id`: as the
`id` of its record before or after, as the value of a foreign key, or as a member of
the removed or added set of a many-to-many field of its model `m`. -/
def Schema.diffMentions (m : Model) (id : Val) (fromId : ID) (d : Diff) : Prop :=
  (∃ i, Obj.lookup "id" d = some i ∧ (looseEq i.1 id = true ∨ looseEq i.2 id = true)) ∨
  (∃ f e, f ∈ m.iterForeignKeys false ∧ Obj.lookup f d = some e
    ∧ (e.1 = Val.ident fromId ∨ e.2 = Val.ident fromId)) ∨
  (∃ f e, f ∈ m.iterManyToMany false ∧ Obj.lookup f d = some e
    ∧ (fromId ∈ e.1.members ∨ fromId ∈ e.2.members))

/-- One side of the `id` entry of a diff after `reId`: the new `id` where the old one
stood. -/
def reIdSide (id newId x : Val) : Val := if looseEq x id then newId else x

/-- The diff `d1` is the diff `d` with the identifier replaced: the `id` entry, the
foreign keys and the sets of the many-to-many fields of the model `m` hold the new
identifier wherever `d` holds the old one, and every other entry is the entry of `d`. -/
def Schema.Rewritten (m : Model) (id newId : Val) (fromId toId : ID) (d d1 : Diff) : Prop :=
  Obj.lookup "id" d1
    = (Obj.lookup "id" d).map (fun i => (reIdSide id newId i.1, reIdSide id newId i.2)) ∧
  (∀ f, f ∈ m.iterForeignKeys false →
    Obj.lookup f d1
      = (Obj.lookup f d).map (fun e => ((reIdValue fromId toId e.1).1,
          (reIdValue fromId toId e.2).1))) ∧
  (∀ f e, f ∈ m.iterManyToMany false → Obj.lookup f d = some e →
    ∃ a b, reIdSet fromId toId e.1 = .ok a ∧ reIdSet fromId toId e.2 = .ok b
      ∧ Obj.lookup f d1 = some (a.1, b.1)) ∧
  (∀ f, f ∈ m.iterManyToMany false → Obj.lookup f d = none → Obj.lookup f d1 = none) ∧
  (∀ g, g ≠ "id" → g ∉ m.iterForeignKeys false → g ∉ m.iterManyToMany false →
    Obj.lookup g d1 = Obj.lookup g d)

/-- The store after the commit of a created author: both branches hold the author, the
log holds the create diff, which is sent. -/
def createdStore : Store :=
  (librarySchema.commit Store.getDiffs (librarySchema.create adaData "u1" emptyStore).1).1

/-- The store after the commit of a created author and of a created book of that author:
both branches hold the two records, the log holds the two create diffs. -/
def writtenStore : Store :=
  (librarySchema.commit Store.getDiffs
    (librarySchema.create adaBookData "u2" (librarySchema.create adaData "u1" emptyStore).1).1).1

/-! ### Notions used to state the properties of the reverse relationships -/

/-- Whether the row at a position is live and holds the identifier in the field. -/
def Table.rowHas (t : Table) (p : Nat) (g : String) (x : ID) : Bool :=
  match t.data.row p with
  | some r => (r.get g).members.contains x
  | none => false

/-- Whether the record the `id` index lists under `id` holds the identifier in the field;
an error when the index has no entry for `id` or the row is removed. -/
def Table.memberOf (t : Table) (id : Val) (g : String) (x : ID) : Except Err Bool :=
  (t._getIndex id).bind (fun p =>
    match t.data.row p with
    | some r => .ok ((r.get g).members.contains x)
    | none => .error (.typeError "property of null"))

/-- The positions the `id` index lists for the identifiers of a list, looked up by their
`id` alone. -/
def Table.positionsOf (t : Table) (ids : List ID) (p : Nat) : Prop :=
  ∃ y, y ∈ ids ∧ t._getIndex (Val.prim y.id) = .ok p

/-- The table `t1` has the shape of the table `t`: the same model, the same indices, and
the same rows are live. -/
def Table.SameShape (t t1 : Table) : Prop :=
  t1.hooks = t.hooks ∧ t1.model = t.model ∧ t1.data.indices = t.data.indices ∧
    ∀ p, (t1.data.row p).isSome = (t.data.row p).isSome

/-- From `t` to `t1` the identifier `x` was removed from the field `g` of the records of
`removed` and added to the field `g` of the records of `added`, each looked up by its
`id`: these records exist in `t`, in `t1` the rows of `added` hold `x` in `g`, the rows of
`removed` that are not rows of `added` do not, and every other row holds `x` in `g` exactly
when it did in `t`. -/
def Table.Marked (t t1 : Table) (g : String) (x : ID) (removed added : List ID) : Prop :=
  (∀ y, y ∈ removed ∨ y ∈ added →
    ∃ p, t._getIndex (Val.prim y.id) = .ok p ∧ (t.data.row p).isSome = true) ∧
  (∀ p, t.positionsOf added p → t1.rowHas p g x = true) ∧
  (∀ p, ¬ t.positionsOf added p → t.positionsOf removed p → t1.rowHas p g x = false) ∧
  (∀ p, ¬ t.positionsOf added p → ¬ t.positionsOf removed p →
    t1.rowHas p g x = t.rowHas p g x)

/-! ### Sample stores for the rewriting of the log and for the emission of diffs -/

/-- Data of an author whose `id` is the `id` of the sample book. -/
def twinAuthorData : Rec :=
  [("_type", Val.str "Author"), ("id", Val.str "b1"), ("name", Val.str "Ada")]

/-- The store after the creation of an author and of a book that have the same `id`:
`head` holds the two records, the log holds the two create diffs. -/
def twinStore : Store :=
  (librarySchema.create plainBookData "u2"
    (librarySchema.create twinAuthorData "u1" emptyStore).1).1

/-- The create diff of the author with the `id` of the book. -/
def twinAuthorDiff : Diff :=
  [("_type", (Val.undefined, Val.str "Author")), ("id", (Val.undefined, Val.str "b1")),
   ("name", (Val.undefined, Val.str "Ada"))]

/-- A sample model of nodes: an optional foreign key to a node. -/
def nodeModel : Model :=
  { type := "Node"
    attributes := [("label", ⟨Val.undefined, Val.str "string"⟩)]
    relationships := [("next", ⟨"Node", false, false, false, none⟩)]
    indices := ["id"] }

/-- A sample schema: nodes. -/
def nodeSchema : Schema := { models := [("Node", nodeModel)], hooks := plainHooks }

/-- Identifier of a sample node. -/
def node1 : ID := ⟨.str "Node", .str "n1"⟩

/-- Identifier of a second sample node. -/
def node2 : ID := ⟨.str "Node", .str "n2"⟩

/-- The store after the creation of two nodes that name each other as `next`: `head`
holds the two nodes, `tail` holds nothing. -/
def ringStore : Store :=
  (nodeSchema.create
      [("_type", Val.str "Node"), ("id", Val.str "n2"), ("next", Val.ident node1)] "u2"
    (nodeSchema.create
      [("_type", Val.str "Node"), ("id", Val.str "n1"), ("next", Val.ident node2)] "u1"
      emptyStore).1).1

/-- A dependency table in which two new nodes name each other as `next`, an optional
foreign key: the entry of each node holds its create diff and the key of the other node
in `optional`. -/
def ringTable : DepTable :=
  [("Node|n1",
    { id := node1
      diff := [("_type", (Val.undefined, Val.str "Node")), ("id", (Val.undefined, Val.str "n1")),
               ("next", (Val.undefined, Val.ident node2))]
      required := [], optional := ["Node|n2"] }),
   ("Node|n2",
    { id := node2
      diff := [("_type", (Val.undefined, Val.str "Node")), ("id", (Val.undefined, Val.str "n2")),
               ("next", (Val.undefined, Val.ident node1))]
      required := [], optional := ["Node|n1"] })]

/-! ### Notions used to state the propagation of `reId` -/

/-- The table `t1` has the shape of the table `t`, and every row has the `_type` and the
`id` it has in `t`. -/
def Table.SameIds (t t1 : Table) : Prop :=
  t.SameShape t1 ∧
    ∀ p r, t.data.row p = some r →
      ∃ r1, t1.data.row p = some r1 ∧ r1.get "_type" = r.get "_type" ∧ r1.get "id" = r.get "id"

/-- The branch holds the record of the identifier `B`, of type `TB`: the `id` index of
the table of `TB` lists one position under the `id` of `B`, and the row there is live and
carries the type and the `id` of `B`. -/
def Schema.HoldsRecord (S : Schema) (b : Branch) (TB : String) (B : ID) : Prop :=
  ∃ t p r, S.tableOf b (Val.str TB) = .ok t ∧ "id" ∈ t.data.indices.keys ∧
    t.data.getIndexIn "id" (Val.prim B.id) = some [p] ∧ t.data.row p = some r ∧
    r.get "_type" = Val.str TB ∧ r.get "id" = Val.prim B.id

/-- The branch holds, under `id`, a record of type `TA` whose field `f` names the
identifier `B`. -/
def Schema.HoldsLink (S : Schema) (b : Branch) (TA : String) (id : Val) (f : String)
    (B : ID) : Prop :=
  ∃ t p a, S.tableOf b (Val.str TA) = .ok t ∧ "id" ∈ t.data.indices.keys ∧
    t.data.getIndexIn "id" id = some [p] ∧ t.data.row p = some a ∧ B ∈ (a.get f).members

/-- Whether, on the branch, the record of `B` holds the identifier `x` in its field
`g`. -/
def Schema.reverseHas (S : Schema) (b : Branch) (TB : String) (B : ID) (g : String)
    (x : ID) : Except Err Bool :=
  (S.tableOf b (Val.str TB)).bind (fun t => t.memberOf (Val.prim B.id) g x)

/-- Data of a sample book under a temporary `id`, written by the sample author and
carrying the sample tag. -/
def taggedBookData : Rec :=
  [("_type", Val.str "Book"), ("id", Val.str "tmp"), ("title", Val.str "X"),
   ("author", Val.ident authorA), ("tags", Val.oset [tag1])]

/-- The store after the creation of the author, of the tag and of the book with the tag:
`head` holds the three records, `tail` holds nothing yet. -/
def draftStore : Store :=
  (librarySchema.create taggedBookData "u3"
    (librarySchema.create tagData "u2" (librarySchema.create adaData "u1" emptyStore).1).1).1

/-- On the branch, the row at position `p` of the table of `TB` holds the identifier
`toId` in its field `g` and does not hold `fromId`. -/
def Schema.Swapped (S : Schema) (b : Branch) (TB : String) (p : Nat) (g : String)
    (fromId toId : ID) : Prop :=
  ∃ t, S.tableOf b (Val.str TB) = .ok t ∧ t.rowHas p g toId = true ∧
    t.rowHas p g fromId = false

/-! ### Notions used to state the law of `diff` and `applyDiff` -/

/-- Two values of a field are alike: two ordered sets with the same members, or the same
value, or two values that `==` takes as equal (`undefined` and `null`, or a plain object
and the string it converts to). -/
def Val.alike : Val → Val → Bool
  | .oset xs, .oset ys => xs.all (fun x => ys.contains x) && ys.all (fun y => xs.contains y)
  | v, w => decide (v = w) || looseEq v w

/-- Identifier of a sample review. -/
def review1 : ID := ⟨.str "Review", .str "r1"⟩

/-- The sample book with another title and with a review in its reverse field. -/
def bookReviewed : Rec :=
  [("_type", Val.str "Book"), ("id", Val.str "b1"), ("title", Val.str "Y"),
   ("note", Val.undefined), ("author", .ident authorA), ("tags", .oset [tag1, tag2]),
   ("reviews", .oset [review1]), ("cover", .ident cover1)]

/-! ## Lemmas on objects -/

theorem Obj.lookup_set {α : Type} (o : Obj α) (k k' : String) (v : α) :
    Obj.lookup k (Obj.set o k' v) = if k' = k then some v else Obj.lookup k o := by
  induction o with
  | nil => simp [Obj.set, Obj.lookup]
  | cons p t ih =>
    obtain ⟨k0, v0⟩ := p
    by_cases h0 : k0 = k'
    · subst h0
      by_cases h1 : k0 = k <;> simp [Obj.set, Obj.lookup, h1]
    · by_cases h1 : k0 = k
      · subst h1
        have h2 : ¬ k' = k0 := fun h => h0 h.symm
        simp [Obj.set, Obj.lookup, h0, h2]
      · simp [Obj.set, Obj.lookup, h0, h1, ih]

theorem Obj.lookup_erase {α : Type} (o : Obj α) (k k' : String) :
    Obj.lookup k (Obj.erase o k') = if k' = k then none else Obj.lookup k o := by
  induction o with
  | nil => simp [Obj.erase, Obj.lookup]
  | cons p t ih =>
    obtain ⟨k0, v0⟩ := p
    have ih' : Obj.lookup k (List.filter (fun p => !decide (p.1 = k')) t)
        = if k' = k then none else Obj.lookup k t := ih
    by_cases h0 : k0 = k'
    · subst h0
      by_cases h1 : k0 = k
      · subst h1
        simp [Obj.erase, List.filter, Obj.lookup, ih']
      · simp [Obj.erase, List.filter, Obj.lookup, h1, ih']
    · by_cases h1 : k0 = k
      · subst h1
        have h2 : ¬ k' = k0 := fun h => h0 h.symm
        simp [Obj.erase, List.filter, Obj.lookup, h0, h2]
      · simp [Obj.erase, List.filter, Obj.lookup, h0, h1, ih']

theorem Obj.lookup_isSome_iff_mem_keys {α : Type} (o : Obj α) (k : String) :
    (Obj.lookup k o).isSome = true ↔ k ∈ o.keys := by
  induction o with
  | nil => simp [Obj.lookup, Obj.keys]
  | cons p t ih =>
    obtain ⟨k0, v0⟩ := p
    by_cases h : k0 = k
    · simp [Obj.lookup, Obj.keys, h]
    · have h2 : ¬ k = k0 := fun e => h e.symm
      simp only [Obj.keys] at ih
      simp [Obj.lookup, Obj.keys, h, h2, ih]

theorem Obj.lookup_eq_none_iff {α : Type} (o : Obj α) (k : String) :
    Obj.lookup k o = none ↔ k ∉ o.keys := by
  rw [← Obj.lookup_isSome_iff_mem_keys]
  cases Obj.lookup k o <;> simp

/-! ## Lemmas on values -/

theorem looseEq_refl (v : Val) (h : v ≠ Val.nan) : looseEq v v = true := by
  cases v with
  | prim p =>
      cases p with
      | nan => exact absurd rfl h
      | undefined => rfl
      | null => rfl
      | str s => simp [looseEq]
      | obj r t => simp [looseEq]
  | ident i => simp [looseEq]
  | oset xs => simp [looseEq]

theorem looseEq_nan_left (v : Val) : looseEq Val.nan v = false := by
  cases v with
  | prim p => cases p <;> rfl
  | ident i => rfl
  | oset xs => rfl

theorem looseEq_nan_right (v : Val) : looseEq v Val.nan = false := by
  cases v with
  | prim p => cases p <;> rfl
  | ident i => rfl
  | oset xs => rfl

theorem truthy_eq_not_isEmpty (v : Val) : v.truthy = !isEmpty v := by
  cases v with
  | prim p => cases p <;> simp [Val.truthy, isEmpty, bne]
  | ident i => simp [Val.truthy, isEmpty]
  | oset xs => simp [Val.truthy, isEmpty]

/-! ## The loops of `Model.diff` -/

theorem lookup_foldl_diffCreateStep (t : Rec) (fs : List String) (d0 : Diff) (g : String) :
    Obj.lookup g (fs.foldl (Model.diffCreateStep t) d0)
      = if g ∈ fs ∧ t.get g ≠ Val.undefined then some (Val.undefined, t.get g)
        else Obj.lookup g d0 := by
  induction fs generalizing d0 with
  | nil => simp
  | cons f fs ih =>
    rw [List.foldl_cons, ih]
    by_cases hg : g ∈ fs ∧ t.get g ≠ Val.undefined
    · have : g ∈ f :: fs ∧ t.get g ≠ Val.undefined := ⟨List.mem_cons_of_mem _ hg.1, hg.2⟩
      rw [if_pos hg, if_pos this]
    · rw [if_neg hg]
      unfold Model.diffCreateStep
      by_cases hu : t.get f ≠ Val.undefined
      · rw [if_pos hu, Obj.lookup_set]
        by_cases hfg : f = g
        · subst hfg
          simp [hu]
        · have hgf : ¬ g = f := fun e => hfg e.symm
          have : ¬ (g ∈ f :: fs ∧ t.get g ≠ Val.undefined) := by
            simp only [List.mem_cons, not_and]
            intro h
            rcases h with h | h
            · exact absurd h hgf
            · exact fun h2 => hg ⟨h, h2⟩
          rw [if_neg hfg, if_neg this]
      · rw [if_neg hu]
        have : ¬ (g ∈ f :: fs ∧ t.get g ≠ Val.undefined) := by
          simp only [List.mem_cons, not_and]
          intro h
          rcases h with h | h
          · subst h; exact hu
          · exact fun h2 => hg ⟨h, h2⟩
        rw [if_neg this]

theorem lookup_foldl_diffRemoveStep (a : Rec) (fs : List String) (d0 : Diff) (g : String) :
    Obj.lookup g (fs.foldl (Model.diffRemoveStep a) d0)
      = if g ∈ fs ∧ a.get g ≠ Val.undefined then some (a.get g, Val.undefined)
        else Obj.lookup g d0 := by
  induction fs generalizing d0 with
  | nil => simp
  | cons f fs ih =>
    rw [List.foldl_cons, ih]
    by_cases hg : g ∈ fs ∧ a.get g ≠ Val.undefined
    · have : g ∈ f :: fs ∧ a.get g ≠ Val.undefined := ⟨List.mem_cons_of_mem _ hg.1, hg.2⟩
      rw [if_pos hg, if_pos this]
    · rw [if_neg hg]
      unfold Model.diffRemoveStep
      by_cases hu : a.get f ≠ Val.undefined
      · rw [if_pos hu, Obj.lookup_set]
        by_cases hfg : f = g
        · subst hfg
          simp [hu]
        · have hgf : ¬ g = f := fun e => hfg e.symm
          have : ¬ (g ∈ f :: fs ∧ a.get g ≠ Val.undefined) := by
            simp only [List.mem_cons, not_and]
            intro h
            rcases h with h | h
            · exact absurd h hgf
            · exact fun h2 => hg ⟨h, h2⟩
          rw [if_neg hfg, if_neg this]
      · rw [if_neg hu]
        have : ¬ (g ∈ f :: fs ∧ a.get g ≠ Val.undefined) := by
          simp only [List.mem_cons, not_and]
          intro h
          rcases h with h | h
          · subst h; exact hu
          · exact fun h2 => hg ⟨h, h2⟩
        rw [if_neg this]

theorem diffUpdateTurn_fst (m : Model) (a b : Rec) (acc : Diff × Nat) (f g : String) :
    Obj.lookup g (m.diffUpdateTurn a b acc f).1
      = if f = g then m.updateEntry a b g else Obj.lookup g acc.1 := by
  unfold Model.diffUpdateTurn Model.updateEntry Model.fieldCounted Model.relMany
  by_cases hfg : f = g
  · subst hfg
    by_cases hid : f = "_type" ∨ f = "id"
    · simp [hid, Obj.lookup_set]
    · by_cases hl : looseEq (a.get f) (b.get f) = true
      · simp [hid, hl, Obj.lookup_erase]
      · cases hr : Obj.lookup f m.relationships with
        | none => simp [hid, hl, hr, Obj.lookup_set]
        | some info =>
          by_cases he : ((a.get f).truthy && (a.get f).equals (b.get f)) = true
          · simp only [Bool.and_eq_true] at he
            simp [hid, hl, he.1, he.2, Obj.lookup_erase]
          · by_cases hm : info.many = true
            · simp only [Bool.and_eq_true, not_and, Bool.not_eq_true] at he
              by_cases ht : (a.get f).truthy = true
              · simp [hid, hl, ht, he ht, hm, Obj.lookup_set]
              · simp [hid, hl, ht, hm, Obj.lookup_set]
            · simp only [Bool.and_eq_true, not_and, Bool.not_eq_true] at he
              by_cases ht : (a.get f).truthy = true
              · simp [hid, hl, ht, he ht, hm, Obj.lookup_set]
              · simp [hid, hl, ht, hm, Obj.lookup_set]
  · simp only [if_neg hfg]
    by_cases hid : f = "_type" ∨ f = "id"
    · simp [hid, Obj.lookup_set, hfg]
    · by_cases hl : looseEq (a.get f) (b.get f) = true
      · simp [hid, hl, Obj.lookup_erase, Obj.lookup_set, hfg]
      · cases hr : Obj.lookup f m.relationships with
        | none => simp [hid, hl, Obj.lookup_set, hfg]
        | some info =>
          by_cases he : ((a.get f).truthy && (a.get f).equals (b.get f)) = true
          · simp [hid, hl, he, Obj.lookup_erase, Obj.lookup_set, hfg]
          · by_cases hm : info.many = true
            · simp [hid, hl, he, hm, Obj.lookup_set, hfg]
            · simp [hid, hl, he, hm, Obj.lookup_set, hfg]

theorem diffUpdateTurn_snd (m : Model) (a b : Rec) (acc : Diff × Nat) (f : String) :
    (m.diffUpdateTurn a b acc f).2 = acc.2 + (if m.fieldCounted a b f then 1 else 0) := by
  unfold Model.diffUpdateTurn Model.fieldCounted
  by_cases hid : f = "_type" ∨ f = "id"
  · simp [hid]
  · by_cases hl : looseEq (a.get f) (b.get f) = true
    · simp [hid, hl]
    · cases hr : Obj.lookup f m.relationships with
      | none => simp [hid, hl]
      | some info =>
        by_cases he : ((a.get f).truthy && (a.get f).equals (b.get f)) = true
        · simp only [Bool.and_eq_true] at he
          simp [hid, hl, he.1, he.2]
        · simp only [Bool.and_eq_true, not_and, Bool.not_eq_true] at he
          by_cases hm : info.many = true
          · by_cases ht : (a.get f).truthy = true
            · simp [hid, hl, ht, he ht, hm]
            · simp [hid, hl, ht, hm]
          · by_cases ht : (a.get f).truthy = true
            · simp [hid, hl, ht, he ht, hm]
            · simp [hid, hl, ht, hm]

theorem lookup_foldl_diffUpdateTurn (m : Model) (a b : Rec) (fs : List String)
    (acc : Diff × Nat) (g : String) :
    Obj.lookup g (fs.foldl (m.diffUpdateTurn a b) acc).1
      = if g ∈ fs then m.updateEntry a b g else Obj.lookup g acc.1 := by
  induction fs generalizing acc with
  | nil => simp
  | cons f fs ih =>
    rw [List.foldl_cons, ih, diffUpdateTurn_fst]
    by_cases hg : g ∈ fs
    · simp [hg]
    · by_cases hfg : f = g
      · subst hfg; simp
      · have hgf : ¬ g = f := fun e => hfg e.symm
        simp [hg, hfg, hgf]

theorem size_foldl_diffUpdateTurn (m : Model) (a b : Rec) (fs : List String)
    (acc : Diff × Nat) :
    (fs.foldl (m.diffUpdateTurn a b) acc).2 = 0
      ↔ acc.2 = 0 ∧ ∀ f ∈ fs, m.fieldCounted a b f = false := by
  induction fs generalizing acc with
  | nil => simp
  | cons f fs ih =>
    rw [List.foldl_cons, ih, diffUpdateTurn_snd]
    by_cases hc : m.fieldCounted a b f = true
    · simp [hc]
    · simp only [Bool.not_eq_true] at hc
      simp [hc]

/-! ## The update loop of `Model.diff` and its errors -/

theorem Val.equalsCall_ok (v w : Val) (b : Bool) (h : v.equalsCall w = .ok b) :
    b = v.equals w := by
  cases v with
  | prim p => cases h
  | ident i => exact (Except.ok.inj h).symm
  | oset xs => exact (Except.ok.inj h).symm

theorem Val.subtractCall_ok (v w r : Val) (h : v.subtractCall w = .ok r) :
    r = v.subtract w := by
  cases v with
  | prim p => cases h
  | ident i => cases h
  | oset xs => exact (Except.ok.inj h).symm

/-- A turn of the update loop that does not throw leaves the pair of `diffUpdateTurn`. -/
theorem Model.diffUpdateStep_ok (m : Model) (a b : Rec) (acc r : Diff × Nat) (f : String)
    (h : m.diffUpdateStep a b acc f = .ok r) : r = m.diffUpdateTurn a b acc f := by
  unfold Model.diffUpdateStep at h
  unfold Model.diffUpdateTurn
  by_cases hid : f = "_type" ∨ f = "id"
  · simp only [hid, if_true] at h ⊢
    exact (Except.ok.inj h).symm
  · simp only [hid, if_false] at h ⊢
    by_cases hl : looseEq (a.get f) (b.get f) = true
    · simp only [hl, if_true] at h ⊢
      exact (Except.ok.inj h).symm
    · simp only [hl, Bool.false_eq_true, if_false] at h ⊢
      cases hr : Obj.lookup f m.relationships with
      | none =>
          simp only [hr] at h ⊢
          exact (Except.ok.inj h).symm
      | some info =>
          simp only [hr] at h ⊢
          cases ht : (a.get f).truthy with
          | false =>
              simp only [ht, Bool.false_eq_true, if_false, Bool.false_and] at h ⊢
              simp only [Except.bind] at h
              by_cases hm : info.many = true
              · simp only [hm, if_true, Bool.false_eq_true, if_false] at h ⊢
                cases h0 : (a.get f).subtractCall (b.get f) with
                | error e => rw [h0] at h; cases h
                | ok x =>
                    rw [h0] at h
                    simp only [Except.bind] at h
                    cases h1 : (b.get f).subtractCall (a.get f) with
                    | error e => rw [h1] at h; cases h
                    | ok y =>
                        rw [h1] at h
                        rw [← Val.subtractCall_ok _ _ _ h0, ← Val.subtractCall_ok _ _ _ h1]
                        exact (Except.ok.inj h).symm
              · simp only [hm, Bool.false_eq_true, if_false] at h ⊢
                exact (Except.ok.inj h).symm
          | true =>
              simp only [ht, if_true, Bool.true_and] at h ⊢
              cases he : (a.get f).equalsCall (b.get f) with
              | error e => rw [he] at h; cases h
              | ok same =>
                  rw [he] at h
                  simp only [Except.bind] at h
                  rw [← Val.equalsCall_ok _ _ _ he]
                  cases same with
                  | true =>
                      simp only [if_true] at h ⊢
                      exact (Except.ok.inj h).symm
                  | false =>
                      simp only [Bool.false_eq_true, if_false] at h ⊢
                      by_cases hm : info.many = true
                      · simp only [hm, if_true] at h ⊢
                        cases h0 : (a.get f).subtractCall (b.get f) with
                        | error e => rw [h0] at h; cases h
                        | ok x =>
                            rw [h0] at h
                            simp only [Except.bind] at h
                            cases h1 : (b.get f).subtractCall (a.get f) with
                            | error e => rw [h1] at h; cases h
                            | ok y =>
                                rw [h1] at h
                                rw [← Val.subtractCall_ok _ _ _ h0, ← Val.subtractCall_ok _ _ _ h1]
                                exact (Except.ok.inj h).symm
                      · simp only [hm, Bool.false_eq_true, if_false] at h ⊢
                        exact (Except.ok.inj h).symm

theorem Model.foldlM_diffUpdateStep_ok (m : Model) (a b : Rec) (fs : List String)
    (acc r : Diff × Nat) (h : fs.foldlM (m.diffUpdateStep a b) acc = .ok r) :
    r = fs.foldl (m.diffUpdateTurn a b) acc := by
  induction fs generalizing acc with
  | nil =>
      simp only [List.foldlM_nil] at h
      exact (Except.ok.inj h).symm
  | cons f fs ih =>
      rw [List.foldlM_cons] at h
      cases hs : m.diffUpdateStep a b acc f with
      | error e => rw [hs] at h; cases h
      | ok x =>
          rw [hs] at h
          rw [List.foldl_cons, ← Model.diffUpdateStep_ok m a b acc x f hs]
          exact ih x h

/-! ## Membership in the field generators -/

theorem mem_iterForeignKeys (m : Model) (f : String) :
    f ∈ m.iterForeignKeys false
      ↔ ∃ info, Obj.lookup f m.relationships = some info ∧ info.reverse = false
          ∧ info.many = false := by
  unfold Model.iterForeignKeys Model.relReverse Model.relMany
  rw [List.mem_filter, ← Obj.lookup_isSome_iff_mem_keys]
  cases h : Obj.lookup f m.relationships with
  | none => simp
  | some info => cases h1 : info.reverse <;> cases h2 : info.many <;> simp [h1, h2]

theorem mem_iterManyToMany (m : Model) (f : String) :
    f ∈ m.iterManyToMany false
      ↔ ∃ info, Obj.lookup f m.relationships = some info ∧ info.reverse = false
          ∧ info.many = true := by
  unfold Model.iterManyToMany Model.relReverse Model.relMany
  rw [List.mem_filter, ← Obj.lookup_isSome_iff_mem_keys]
  cases h : Obj.lookup f m.relationships with
  | none => simp
  | some info => cases h1 : info.reverse <;> cases h2 : info.many <;> simp [h1, h2]

theorem mem_iterFields (m : Model) (f : String) :
    f ∈ m.iterFields
      ↔ f = "_type" ∨ f = "id" ∨ f ∈ m.attributes.keys
          ∨ ∃ info, Obj.lookup f m.relationships = some info ∧ info.reverse = false := by
  unfold Model.iterFields Model.iterRelationships
  simp only [List.mem_cons, List.mem_append, mem_iterForeignKeys, mem_iterManyToMany]
  constructor
  · rintro (h | h | h | ⟨info, h1, h2, _⟩ | ⟨info, h1, h2, _⟩)
    · exact Or.inl h
    · exact Or.inr (Or.inl h)
    · exact Or.inr (Or.inr (Or.inl h))
    · exact Or.inr (Or.inr (Or.inr ⟨info, h1, h2⟩))
    · exact Or.inr (Or.inr (Or.inr ⟨info, h1, h2⟩))
  · rintro (h | h | h | ⟨info, h1, h2⟩)
    · exact Or.inl h
    · exact Or.inr (Or.inl h)
    · exact Or.inr (Or.inr (Or.inl h))
    · cases hm : info.many
      · exact Or.inr (Or.inr (Or.inr (Or.inl ⟨info, h1, h2, hm⟩)))
      · exact Or.inr (Or.inr (Or.inr (Or.inr ⟨info, h1, h2, hm⟩)))

/-- The comparison `==` on the values of the embedding: the same value other than
`NaN`, or `undefined` and `null`, or a plain object and the string it converts to. -/
theorem looseEq_iff (v w : Val) :
    looseEq v w = true
      ↔ (v = w ∧ v ≠ Val.nan) ∨ (v.isNullish = true ∧ w.isNullish = true)
          ∨ ∃ r s, (v = Val.prim (.obj r s) ∧ w = Val.str s)
              ∨ (v = Val.str s ∧ w = Val.prim (.obj r s)) := by
  cases v with
  | prim p =>
    cases w with
    | prim q =>
        cases p <;> cases q <;> simp [looseEq, Val.isNullish, Val.nan, Val.str]
        all_goals first | done | (constructor <;> intro h <;> exact h.symm)
    | ident j => simp [looseEq, Val.isNullish, Val.str]
    | oset ys => simp [looseEq, Val.isNullish, Val.str]
  | ident i =>
    cases w with
    | prim q => simp [looseEq, Val.isNullish, Val.str]
    | ident j => simp [looseEq, Val.isNullish, Val.nan, Val.str]
    | oset ys => simp [looseEq, Val.isNullish, Val.str]
  | oset xs =>
    cases w with
    | prim q => simp [looseEq, Val.isNullish, Val.str]
    | ident j => simp [looseEq, Val.isNullish, Val.str]
    | oset ys => simp [looseEq, Val.isNullish, Val.nan, Val.str]

/-- A turn of the update loop for a field that is not counted as a change does not
throw. -/
theorem Model.diffUpdateStep_of_not_counted (m : Model) (a b : Rec) (acc : Diff × Nat)
    (f : String) (hc : m.fieldCounted a b f = false) :
    m.diffUpdateStep a b acc f = .ok (m.diffUpdateTurn a b acc f) := by
  unfold Model.fieldCounted at hc
  unfold Model.diffUpdateStep Model.diffUpdateTurn
  by_cases hid : f = "_type" ∨ f = "id"
  · simp only [hid, if_true]
  · simp only [hid, if_false]
    by_cases hl : looseEq (a.get f) (b.get f) = true
    · simp only [hl, if_true]
    · simp only [hl, Bool.false_eq_true, if_false]
      simp only [hid, decide_False, Bool.not_false, Bool.true_and, hl, Bool.not_eq_true,
        Bool.and_eq_false_imp, Bool.not_eq_false'] at hc
      cases hr : Obj.lookup f m.relationships with
      | none => rw [hr] at hc
      | some info =>
          rw [hr] at hc
          simp only [Option.isSome_some, Bool.true_and, Bool.and_eq_true] at hc
          have ht := hc.1
          have he := hc.2
          simp only [ht, he, if_true, Bool.and_self]
          cases hv : a.get f with
          | prim p => rw [hv] at he; cases he
          | ident i =>
              rw [hv] at he
              have hcall : (Val.ident i).equalsCall (b.get f)
                  = .ok ((Val.ident i).equals (b.get f)) := rfl
              rw [hcall, he]
              rfl
          | oset xs =>
              rw [hv] at he
              have hcall : (Val.oset xs).equalsCall (b.get f)
                  = .ok ((Val.oset xs).equals (b.get f)) := rfl
              rw [hcall, he]
              rfl

theorem Model.foldlM_diffUpdateStep_of_not_counted (m : Model) (a b : Rec)
    (fs : List String) (acc : Diff × Nat)
    (hc : ∀ f ∈ fs, m.fieldCounted a b f = false) :
    fs.foldlM (m.diffUpdateStep a b) acc = .ok (fs.foldl (m.diffUpdateTurn a b) acc) := by
  induction fs generalizing acc with
  | nil => rfl
  | cons f fs ih =>
      rw [List.foldlM_cons, Model.diffUpdateStep_of_not_counted m a b acc f
        (hc f (List.mem_cons_self _ _)), List.foldl_cons]
      exact ih _ (fun g hg => hc g (List.mem_cons_of_mem _ hg))

/-- The result of the update branch of `Model.diff` when it returns. -/
theorem Model.diff_update_eq (m : Model) (a b : Rec) (x : Option Diff)
    (hd : m.diff (some a) (some b) = .ok x) :
    x = if (m.iterFields.foldl (m.diffUpdateTurn a b) ([], 0)).2 = 0 then none
        else some (m.iterFields.foldl (m.diffUpdateTurn a b) ([], 0)).1 := by
  unfold Model.diff at hd
  simp only at hd
  cases hf : m.iterFields.foldlM (m.diffUpdateStep a b) ([], 0) with
  | error e => rw [hf] at hd; cases hd
  | ok r =>
      rw [hf] at hd
      rw [← Model.foldlM_diffUpdateStep_ok m a b _ _ r hf]
      exact (Except.ok.inj hd).symm

/-- The update branch of `Model.diff`, field by field. -/
theorem diff_update_lookup (m : Model) (a b : Rec) (d : Diff)
    (hd : m.diff (some a) (some b) = .ok (some d)) (g : String) :
    Obj.lookup g d = if g ∈ m.iterFields then m.updateEntry a b g else none := by
  have hx := Model.diff_update_eq m a b (some d) hd
  split at hx
  · exact absurd hx (by simp)
  · have hd1 := Option.some.inj hx
    rw [hd1, lookup_foldl_diffUpdateTurn]
    simp [Obj.lookup]

/-! ## Properties of `Model.diff` -/

/-- C5, counterexample: a record whose attribute `title` is `NaN` differs from itself
for `Model.diff`, which compares with `==`; and two records whose attribute `title`
holds two plain objects that convert to the same string differ as well. -/
theorem diff_of_equal_records_counterexample :
    bookModel.diff
        (some [("_type", Val.str "Book"), ("id", Val.str "b1"), ("title", Val.nan)])
        (some [("_type", Val.str "Book"), ("id", Val.str "b1"), ("title", Val.nan)])
      = .ok (some [("_type", (Val.str "Book", Val.str "Book")),
                   ("id", (Val.str "b1", Val.str "b1")),
                   ("title", (Val.nan, Val.nan))]) ∧
    bookModel.diff
        (some [("_type", Val.str "Book"), ("id", Val.str "b1"),
               ("title", Val.prim (.obj 1 "[object Object]"))])
        (some [("_type", Val.str "Book"), ("id", Val.str "b1"),
               ("title", Val.prim (.obj 2 "[object Object]"))])
      = .ok (some [("_type", (Val.str "Book", Val.str "Book")),
                   ("id", (Val.str "b1", Val.str "b1")),
                   ("title", (Val.prim (.obj 1 "[object Object]"),
                              Val.prim (.obj 2 "[object Object]")))]) :=
  ⟨rfl, rfl⟩

/-- C5 (amended): `Model.diff` returns `undefined` when there is no change:
`diff(undefined, undefined)` is `undefined`; `diff(a, a)` is `undefined` for every
record `a` whose attribute and relationship fields hold no `NaN`; and so is `diff(a, b)`
for every two records whose attribute and relationship fields hold the same values
(the same object, where the value is a plain object), none of them `NaN`. -/
theorem diff_undefined_when_no_change (m : Model) :
    m.diff none none = .ok none ∧
    (∀ a : Rec,
      (∀ f ∈ m.attributes.keys ++ m.relationships.keys, a.get f ≠ Val.nan) →
        m.diff (some a) (some a) = .ok none) ∧
    (∀ a b : Rec,
      (∀ f ∈ m.attributes.keys ++ m.relationships.keys,
        a.get f = b.get f ∧ a.get f ≠ Val.nan) →
        m.diff (some a) (some b) = .ok none) := by
  have key : ∀ a b : Rec,
      (∀ f ∈ m.attributes.keys ++ m.relationships.keys,
        a.get f = b.get f ∧ a.get f ≠ Val.nan) →
        m.diff (some a) (some b) = .ok none := by
    intro a b h
    have hnc : ∀ f ∈ m.iterFields, m.fieldCounted a b f = false := by
      intro f hf
      rw [mem_iterFields] at hf
      unfold Model.fieldCounted
      rcases hf with hf | hf | hf | ⟨info, hf, _⟩
      · simp [hf]
      · simp [hf]
      · have := h f (List.mem_append_left _ hf)
        rw [← this.1, looseEq_refl _ this.2]
        simp
      · have hk : f ∈ m.relationships.keys := by
          rw [← Obj.lookup_isSome_iff_mem_keys, hf]; rfl
        have := h f (List.mem_append_right _ hk)
        rw [← this.1, looseEq_refl _ this.2]
        simp
    have hz : (m.iterFields.foldl (m.diffUpdateTurn a b) ([], 0)).2 = 0 := by
      rw [size_foldl_diffUpdateTurn]
      exact ⟨rfl, hnc⟩
    unfold Model.diff
    simp only
    rw [Model.foldlM_diffUpdateStep_of_not_counted m a b _ _ hnc]
    simp [Except.map, hz]
  exact ⟨rfl, fun a ha => key a a (fun f hf => ⟨rfl, ha f hf⟩), key⟩

/-- Witness of the amended C5 on two sample records that differ in their `id` only. -/
theorem diff_undefined_when_no_change_witness :
    (∀ f ∈ bookModel.attributes.keys ++ bookModel.relationships.keys,
        bookX.get f = bookXCopy.get f ∧ bookX.get f ≠ Val.nan) ∧
      bookModel.diff (some bookX) (some bookXCopy) = .ok none :=
  ⟨by decide, (diff_undefined_when_no_change bookModel).2.2 bookX bookXCopy (by decide)⟩

/-- C6: create and remove diffs.  `diff(undefined, b)` has an entry for exactly the
fields yielded by `iterFields` whose value in `b` is defined, each entry being
`[undefined, b[field]]`; `diff(b, undefined)` is its mirror, each entry being
`[b[field], undefined]`. -/
theorem diff_create_and_remove (m : Model) (b : Rec) :
    (∃ d, m.diff none (some b) = .ok (some d) ∧
      ∀ f, Obj.lookup f d
        = if f ∈ m.iterFields ∧ b.get f ≠ Val.undefined then some (Val.undefined, b.get f)
          else none) ∧
    (∃ d, m.diff (some b) none = .ok (some d) ∧
      ∀ f, Obj.lookup f d
        = if f ∈ m.iterFields ∧ b.get f ≠ Val.undefined then some (b.get f, Val.undefined)
          else none) := by
  refine ⟨⟨_, rfl, fun f => ?_⟩, ⟨_, rfl, fun f => ?_⟩⟩
  · rw [lookup_foldl_diffCreateStep]; simp [Obj.lookup]
  · rw [lookup_foldl_diffRemoveStep]; simp [Obj.lookup]

/-- C7: in an update diff, the entry of a many-valued relationship field `f` is
`[a.f minus b.f, b.f minus a.f]`: the removed set holds exactly the identifiers of `a.f`
that are not in `b.f`, the added set exactly those of `b.f` that are not in `a.f`, and
the two sets are disjoint.  (The field is a relationship field, not one of the two
identifier fields `_type` and `id`, and holds a set in both records.) -/
theorem diff_many_entry (m : Model) (a b : Rec) (d : Diff) (f : String)
    (xs ys : List ID) (e : Val × Val)
    (hd : m.diff (some a) (some b) = .ok (some d))
    (hmany : m.relMany f = true) (hty : f ≠ "_type") (hid : f ≠ "id")
    (ha : a.get f = Val.oset xs) (hb : b.get f = Val.oset ys)
    (he : Obj.lookup f d = some e) :
    ∃ removed added : List ID,
      e = (Val.oset removed, Val.oset added) ∧
      e = ((a.get f).subtract (b.get f), (b.get f).subtract (a.get f)) ∧
      (∀ x, x ∈ removed ↔ x ∈ xs ∧ x ∉ ys) ∧
      (∀ x, x ∈ added ↔ x ∈ ys ∧ x ∉ xs) ∧
      (∀ x, ¬ (x ∈ removed ∧ x ∈ added)) := by
  rw [diff_update_lookup m a b d hd] at he
  by_cases hf : f ∈ m.iterFields
  · rw [if_pos hf] at he
    unfold Model.updateEntry at he
    have hni : ¬ (f = "_type" ∨ f = "id") := fun h => h.elim hty hid
    rw [if_neg hni] at he
    by_cases hc : m.fieldCounted a b f = true
    · rw [if_pos hc, if_pos hmany] at he
      have he' := (Option.some.inj he).symm
      refine ⟨xs.filter (fun x => !(ys.contains x)), ys.filter (fun x => !(xs.contains x)),
        ?_, he', ?_, ?_, ?_⟩
      · rw [he', ha, hb]; rfl
      · intro x; simp [List.mem_filter]
      · intro x; simp [List.mem_filter]
      · intro x; simp only [List.mem_filter]; rintro ⟨⟨h1, _⟩, ⟨_, h3⟩⟩; simp [h1] at h3
    · rw [if_neg hc] at he
      exact absurd he (by simp)
  · rw [if_neg hf] at he
    exact absurd he (by simp)

/-- Witness of C7: the sample book loses one of its two tags. -/
theorem diff_many_entry_witness :
    ∃ removed added : List ID,
      (Val.oset [tag1], Val.oset []) = (Val.oset removed, Val.oset added) ∧
      (Val.oset [tag1], Val.oset [])
        = ((bookX.get "tags").subtract (bookZ.get "tags"),
           (bookZ.get "tags").subtract (bookX.get "tags")) ∧
      (∀ x, x ∈ removed ↔ x ∈ [tag1, tag2] ∧ x ∉ [tag2]) ∧
      (∀ x, x ∈ added ↔ x ∈ [tag2] ∧ x ∉ [tag1, tag2]) ∧
      (∀ x, ¬ (x ∈ removed ∧ x ∈ added)) :=
  diff_many_entry bookModel bookX bookZ diffXZ "tags" [tag1, tag2] [tag2] (Val.oset [tag1], Val.oset [])
    rfl (by decide) (by decide) (by decide) (by decide) (by decide) (by decide)

/-- C8, the code at the failing input: two records that differ only in the insertion
order of the many-valued field `tags` do not yield `undefined`; the diff holds an
entry for `tags` whose removed set and added set are both empty. -/
theorem diff_reordered_set_is_counted :
    bookModel.diff (some bookX) (some bookXSwapped)
      = .ok (some [("_type", (Val.str "Book", Val.str "Book")),
              ("id", (Val.str "b1", Val.str "b1")),
              ("tags", (Val.oset [], Val.oset []))]) ∧
    (∀ x : ID, x ∈ (bookX.get "tags").members ↔ x ∈ (bookXSwapped.get "tags").members) ∧
    (∀ f, f ≠ "tags" → bookX.get f = bookXSwapped.get f) := by
  refine ⟨rfl, ?_, ?_⟩
  · intro x
    simp [bookX, bookXSwapped, Rec.get, Obj.lookup, Val.members]
    tauto
  · intro f hf
    simp only [bookX, bookXSwapped, Rec.get, Obj.lookup]
    repeat' split
    all_goals first | rfl | (rename_i h; exact absurd h.symm hf)

/-- C9, counterexample: in the update diff from `bookX` to `bookY` the reverse
single-valued relationship field `cover` is absent although its identifiers differ, and
the attribute `note` is absent although its values (`undefined` and `null`) differ. -/
theorem diff_update_fields_counterexample :
    ∃ d, bookModel.diff (some bookX) (some bookY) = .ok (some d) ∧
      Obj.lookup "cover" bookModel.relationships
        = some ⟨"Cover", false, false, true, some "book"⟩ ∧
      (Obj.lookup "cover" d = none ∧ bookX.get "cover" = Val.ident cover1
        ∧ bookY.get "cover" = Val.ident cover2 ∧ cover1 ≠ cover2) ∧
      ("note" ∈ bookModel.attributes.keys ∧ Obj.lookup "note" d = none
        ∧ bookX.get "note" ≠ bookY.get "note") :=
  ⟨[("_type", (Val.str "Book", Val.str "Book")), ("id", (Val.str "b1", Val.str "b1")),
    ("title", (Val.str "X", Val.str "Y"))], rfl, by decide,
    ⟨by decide, by decide, by decide, by decide⟩, ⟨by decide, by decide, by decide⟩⟩

/-- C9, amended: in an update diff `_type` and `id` are always present; an attribute
field is present iff its two values are unequal for `==`: they are not the same value
(`NaN` is unequal to itself), not `undefined` and `null`, and not a plain object and
the string it converts to; a single-valued relationship field that is not a reverse
field is present iff its two identifiers differ (by value; two empty fields do not
differ); a reverse relationship field is never present. -/
theorem diff_update_fields (m : Model) (a b : Rec) (d : Diff)
    (hd : m.diff (some a) (some b) = .ok (some d)) :
    Obj.lookup "_type" d = some (a.get "_type", b.get "_type") ∧
    Obj.lookup "id" d = some (a.get "id", b.get "id") ∧
    (∀ f, f ∈ m.attributes.keys → Obj.lookup f m.relationships = none →
      f ≠ "_type" → f ≠ "id" →
      ((Obj.lookup f d).isSome = true
        ↔ ¬ ((a.get f = b.get f ∧ a.get f ≠ Val.nan)
              ∨ ((a.get f).isNullish = true ∧ (b.get f).isNullish = true)
              ∨ ∃ r s, (a.get f = Val.prim (.obj r s) ∧ b.get f = Val.str s)
                  ∨ (a.get f = Val.str s ∧ b.get f = Val.prim (.obj r s))))) ∧
    (∀ f info, Obj.lookup f m.relationships = some info → info.many = false →
      info.reverse = false → f ≠ "_type" → f ≠ "id" →
      (a.get f).isSingle = true → (b.get f).isSingle = true →
      ((Obj.lookup f d).isSome = true ↔ (a.get f).toIdent ≠ (b.get f).toIdent)) ∧
    (∀ f info, Obj.lookup f m.relationships = some info → info.reverse = true →
      f ∉ m.attributes.keys → f ≠ "_type" → f ≠ "id" → Obj.lookup f d = none) := by
  have hl := diff_update_lookup m a b d hd
  refine ⟨?_, ?_, ?_, ?_, ?_⟩
  · rw [hl, if_pos (by simp [Model.iterFields])]
    simp [Model.updateEntry]
  · rw [hl, if_pos (by simp [Model.iterFields])]
    simp [Model.updateEntry]
  · intro f hf hr hty hid
    have hmem : f ∈ m.iterFields := (mem_iterFields m f).2 (Or.inr (Or.inr (Or.inl hf)))
    have hni : ¬ (f = "_type" ∨ f = "id") := fun h => h.elim hty hid
    rw [hl, if_pos hmem, ← looseEq_iff]
    unfold Model.updateEntry Model.fieldCounted Model.relMany
    rw [if_neg hni, hr]
    cases hq : looseEq (a.get f) (b.get f) <;> simp [hni]
  · intro f info hr hm hrev hty hid hsa hsb
    have hmem : f ∈ m.iterFields :=
      (mem_iterFields m f).2 (Or.inr (Or.inr (Or.inr ⟨info, hr, hrev⟩)))
    have hni : ¬ (f = "_type" ∨ f = "id") := fun h => h.elim hty hid
    rw [hl, if_pos hmem]
    unfold Model.updateEntry Model.fieldCounted Model.relMany
    rw [if_neg hni, hr]
    generalize a.get f = v at hsa
    generalize b.get f = w at hsb
    cases v with
    | prim p =>
      cases w with
      | prim q =>
        cases p <;> cases q <;>
          simp [Val.isSingle] at hsa hsb <;>
          simp [hni, hm, looseEq, Val.truthy, Val.equals, Val.toIdent]
      | ident j =>
        cases p <;> simp [Val.isSingle] at hsa <;>
          simp [hni, hm, looseEq, Val.truthy, Val.equals, Val.toIdent]
      | oset ys => simp [Val.isSingle] at hsb
    | ident i =>
      cases w with
      | prim q =>
        cases q <;> simp [Val.isSingle] at hsb <;>
          simp [hni, hm, looseEq, Val.truthy, Val.equals, Val.toIdent]
      | ident j =>
        by_cases hij : i = j <;>
          simp [hni, hm, looseEq, Val.truthy, Val.equals, Val.toIdent, hij]
      | oset ys => simp [Val.isSingle] at hsb
    | oset xs => simp [Val.isSingle] at hsa
  · intro f info hr hrev hna hty hid
    have hmem : f ∉ m.iterFields := by
      rw [mem_iterFields]
      rintro (h | h | h | ⟨info2, h1, h2⟩)
      · exact hty h
      · exact hid h
      · exact hna h
      · rw [hr] at h1
        have : info = info2 := Option.some.inj h1
        rw [← this, hrev] at h2
        exact absurd h2 (by simp)
    rw [hl, if_neg hmem]

/-- Witness of the amended C9 on the update diff from `bookX` to `bookZ`. -/
theorem diff_update_fields_witness :
    bookModel.diff (some bookX) (some bookZ) = .ok (some diffXZ) ∧
    Obj.lookup "_type" diffXZ = some (bookX.get "_type", bookZ.get "_type") ∧
    (Obj.lookup "author" diffXZ).isSome = true ∧
    (bookX.get "author").toIdent ≠ (bookZ.get "author").toIdent :=
  have h := diff_update_fields bookModel bookX bookZ diffXZ rfl
  ⟨rfl, h.1,
    (h.2.2.2.1 "author" ⟨"Author", false, true, false, some "books"⟩ (by decide) rfl rfl
      (by decide) (by decide) (by decide) (by decide)).2 (by decide),
    by decide⟩

/-! ## `Model.diffToJsonApi` -/

theorem lookup_foldl_jsonAttrStep (d : Diff) (fs : List String) (acc : Obj Val) (g : String) :
    Obj.lookup g (fs.foldl (Model.jsonAttrStep d) acc)
      = if g ∈ fs ∧ (Obj.lookup g d).isSome = true then (Obj.lookup g d).map (fun e => e.2)
        else Obj.lookup g acc := by
  induction fs generalizing acc with
  | nil => simp
  | cons f fs ih =>
    rw [List.foldl_cons, ih]
    by_cases hg : g ∈ fs ∧ (Obj.lookup g d).isSome = true
    · have : g ∈ f :: fs ∧ (Obj.lookup g d).isSome = true :=
        ⟨List.mem_cons_of_mem _ hg.1, hg.2⟩
      rw [if_pos hg, if_pos this]
    · rw [if_neg hg]
      unfold Model.jsonAttrStep
      by_cases hfg : f = g
      · subst hfg
        cases hl : Obj.lookup f d with
        | none => simp
        | some e => simp [Obj.lookup_set]
      · have hgf : ¬ g = f := fun e => hfg e.symm
        have hn : ¬ (g ∈ f :: fs ∧ (Obj.lookup g d).isSome = true) := by
          simp only [List.mem_cons, not_and]
          rintro (h | h)
          · exact absurd h hgf
          · exact fun h2 => hg ⟨h, h2⟩
        rw [if_neg hn]
        cases hl : Obj.lookup f d with
        | none => rfl
        | some e => simp [Obj.lookup_set, hfg]

theorem lookup_foldl_jsonRelStep (d : Diff) (fs : List String)
    (acc : Obj (Option ResourceId)) (g : String) :
    Obj.lookup g (fs.foldl (Model.jsonRelStep d) acc)
      = if g ∈ fs ∧ (Obj.lookup g d).isSome = true then
          (Obj.lookup g d).map
            (fun e => if e.2.truthy then some ⟨e.2.prop "_type", e.2.prop "id"⟩ else none)
        else Obj.lookup g acc := by
  induction fs generalizing acc with
  | nil => simp
  | cons f fs ih =>
    rw [List.foldl_cons, ih]
    by_cases hg : g ∈ fs ∧ (Obj.lookup g d).isSome = true
    · have : g ∈ f :: fs ∧ (Obj.lookup g d).isSome = true :=
        ⟨List.mem_cons_of_mem _ hg.1, hg.2⟩
      rw [if_pos hg, if_pos this]
    · rw [if_neg hg]
      unfold Model.jsonRelStep
      by_cases hfg : f = g
      · subst hfg
        cases hl : Obj.lookup f d with
        | none => simp
        | some e => simp [Obj.lookup_set]
      · have hgf : ¬ g = f := fun e => hfg e.symm
        have hn : ¬ (g ∈ f :: fs ∧ (Obj.lookup g d).isSome = true) := by
          simp only [List.mem_cons, not_and]
          rintro (h | h)
          · exact absurd h hgf
          · exact fun h2 => hg ⟨h, h2⟩
        rw [if_neg hn]
        cases hl : Obj.lookup f d with
        | none => rfl
        | some e => simp [Obj.lookup_set, hfg]

/-- C10: for a diff `d` (holding its `_type` and `id` entries), `diffToJsonApi(d).data`
is the reference projection: `type` and `id` are the before-side values when `d` is a
remove and the after-side values otherwise; `attributes` maps exactly the attribute
fields present in `d` to their after value; `relationships` maps exactly the
single-valued relationship fields that are not reverse fields and are present in `d`
to `{type, id}` of the after identifier, or to `null` when the after value is empty; a
many-valued relationship field never appears among the relationships, nor (unless an
attribute bears the same name) among the attributes. -/
theorem diffToJsonApi_projection (m : Model) (d : Diff) (ty i : Val × Val)
    (hty : Obj.lookup "_type" d = some ty) (hid : Obj.lookup "id" d = some i) :
    ∃ out, m.diffToJsonApi d = some out ∧
      out.type = (if getDiffOp d = some DiffOp.remove then ty.1 else ty.2) ∧
      out.id = (if getDiffOp d = some DiffOp.remove then i.1 else i.2) ∧
      (∀ f, Obj.lookup f out.attributes
          = if f ∈ m.attributes.keys then (Obj.lookup f d).map (fun e => e.2) else none) ∧
      (∀ f, Obj.lookup f out.relationships
          = if m.fieldIsForeignKey f = true ∧ m.relReverse f = false then
              (Obj.lookup f d).map
                (fun e => if isEmpty e.2 then none
                          else some ⟨e.2.prop "_type", e.2.prop "id"⟩)
            else none) ∧
      (∀ f, m.fieldIsManyToMany f = true →
          Obj.lookup f out.relationships = none ∧
          (f ∉ m.attributes.keys → Obj.lookup f out.attributes = none)) := by
  have hattr : ∀ f, Obj.lookup f (m.attributes.keys.foldl (Model.jsonAttrStep d) [])
      = if f ∈ m.attributes.keys then (Obj.lookup f d).map (fun e => e.2) else none := by
    intro f
    rw [lookup_foldl_jsonAttrStep]
    by_cases hf : f ∈ m.attributes.keys
    · cases hl : Obj.lookup f d <;> simp [hf, Obj.lookup]
    · simp [hf, Obj.lookup]
  have hfk : ∀ f, (f ∈ m.iterForeignKeys false)
      ↔ (m.fieldIsForeignKey f = true ∧ m.relReverse f = false) := by
    intro f
    rw [mem_iterForeignKeys]
    unfold Model.fieldIsForeignKey Model.relReverse
    cases hl : Obj.lookup f m.relationships with
    | none => simp
    | some info => cases h1 : info.reverse <;> cases h2 : info.many <;> simp [h1, h2]
  have hrel : ∀ f, Obj.lookup f ((m.iterForeignKeys false).foldl (Model.jsonRelStep d) [])
      = if m.fieldIsForeignKey f = true ∧ m.relReverse f = false then
          (Obj.lookup f d).map
            (fun e => if isEmpty e.2 then none
                      else some ⟨e.2.prop "_type", e.2.prop "id"⟩)
        else none := by
    intro f
    rw [lookup_foldl_jsonRelStep]
    by_cases hf : f ∈ m.iterForeignKeys false
    · have hf' := (hfk f).1 hf
      rw [if_pos hf']
      cases hl : Obj.lookup f d with
      | none => simp [Obj.lookup]
      | some e => cases he : isEmpty e.2 <;> simp [hf, truthy_eq_not_isEmpty, he]
    · have hf' : ¬ (m.fieldIsForeignKey f = true ∧ m.relReverse f = false) :=
        fun h => hf ((hfk f).2 h)
      rw [if_neg hf']
      simp [hf, Obj.lookup]
  have hout : m.diffToJsonApi d = some
      { type := if (getDiffOp d == some DiffOp.remove) = true then ty.1 else ty.2
        id := if (getDiffOp d == some DiffOp.remove) = true then i.1 else i.2
        attributes := m.attributes.keys.foldl (Model.jsonAttrStep d) []
        relationships := (m.iterForeignKeys false).foldl (Model.jsonRelStep d) [] } := by
    unfold Model.diffToJsonApi
    rw [hty, hid]
  refine ⟨_, hout, ?_, ?_, hattr, hrel, ?_⟩
  · by_cases hr : getDiffOp d = some DiffOp.remove <;> simp [hr]
  · by_cases hr : getDiffOp d = some DiffOp.remove <;> simp [hr]
  · intro f hmany
    have hnfk : ¬ (m.fieldIsForeignKey f = true ∧ m.relReverse f = false) := by
      unfold Model.fieldIsManyToMany at hmany
      unfold Model.fieldIsForeignKey
      cases hl : Obj.lookup f m.relationships with
      | none => rw [hl] at hmany; simp at hmany
      | some info => rw [hl] at hmany; simp at hmany; simp [hmany]
    refine ⟨?_, ?_⟩
    · show Obj.lookup f ((m.iterForeignKeys false).foldl (Model.jsonRelStep d) []) = none
      rw [hrel f, if_neg hnfk]
    · intro hna
      show Obj.lookup f (m.attributes.keys.foldl (Model.jsonAttrStep d) []) = none
      rw [hattr f, if_neg hna]

/-- Witness of C10 on the update diff from `bookX` to `bookZ`. -/
theorem diffToJsonApi_projection_witness :
    Obj.lookup "_type" diffXZ = some (Val.str "Book", Val.str "Book") ∧
    Obj.lookup "id" diffXZ = some (Val.str "b1", Val.str "b1") ∧
    bookModel.diffToJsonApi diffXZ
      = some { type := Val.str "Book", id := Val.str "b1",
               attributes := [("title", Val.str "Z")],
               relationships := [("author", some ⟨Val.str "Author", Val.str "a2"⟩)] } ∧
    ∃ out, bookModel.diffToJsonApi diffXZ = some out ∧
      out.type = (if getDiffOp diffXZ = some DiffOp.remove then Val.str "Book"
                  else Val.str "Book") :=
  ⟨by decide, by decide, by decide,
    (diffToJsonApi_projection bookModel diffXZ (Val.str "Book", Val.str "Book")
      (Val.str "b1", Val.str "b1") (by decide) (by decide)).imp (fun _ h => ⟨h.1, h.2.1⟩)⟩

/-! ## Lemmas on indices -/

theorem Index.lookup_after_set (ix : Index) (k k' : Val) (v : PosSet) :
    Index.lookup k (Index.set ix k' v) = if k' = k then some v else Index.lookup k ix := by
  induction ix with
  | nil => simp [Index.set, Index.lookup]
  | cons p t ih =>
    obtain ⟨k0, v0⟩ := p
    by_cases h0 : k0 = k'
    · subst h0
      by_cases h1 : k0 = k <;> simp [Index.set, Index.lookup, h1]
    · by_cases h1 : k0 = k
      · subst h1
        have h2 : ¬ k' = k0 := fun h => h0 h.symm
        simp [Index.set, Index.lookup, h0, h2]
      · simp [Index.set, Index.lookup, h0, h1, ih]

theorem Index.lookup_after_erase (ix : Index) (k k' : Val) :
    Index.lookup k (Index.erase ix k') = if k' = k then none else Index.lookup k ix := by
  induction ix with
  | nil => simp [Index.erase, Index.lookup]
  | cons p t ih =>
    obtain ⟨k0, v0⟩ := p
    have ih' : Index.lookup k (List.filter (fun p => !decide (p.1 = k')) t)
        = if k' = k then none else Index.lookup k t := ih
    by_cases h0 : k0 = k'
    · subst h0
      by_cases h1 : k0 = k
      · subst h1
        simp [Index.erase, List.filter, Index.lookup, ih']
      · simp [Index.erase, List.filter, Index.lookup, h1, ih']
    · by_cases h1 : k0 = k
      · subst h1
        have h2 : ¬ k' = k0 := fun h => h0 h.symm
        simp [Index.erase, List.filter, Index.lookup, h0, h2]
      · simp [Index.erase, List.filter, Index.lookup, h0, h1, ih']

theorem Obj.keys_set_of_mem {α : Type} (o : Obj α) (k : String) (v : α) (h : k ∈ o.keys) :
    (Obj.set o k v).keys = o.keys := by
  induction o with
  | nil => simp [Obj.keys] at h
  | cons p t ih =>
    obtain ⟨k0, v0⟩ := p
    by_cases h0 : k0 = k
    · simp [Obj.set, Obj.keys, h0]
    · have ht : k ∈ Obj.keys t := by
        simp only [Obj.keys, List.map_cons, List.mem_cons] at h
        rcases h with h | h
        · exact absurd h.symm h0
        · exact h
      have := ih ht
      simp only [Obj.keys] at this
      simp [Obj.set, Obj.keys, h0, this]

theorem TableData.getIndexIn_setIndexIn (d : TableData) (f f' : String) (k k' : Val)
    (x : PosSet) :
    (d.setIndexIn f k x).getIndexIn f' k'
      = if f = f' ∧ k = k' then some x else d.getIndexIn f' k' := by
  unfold TableData.setIndexIn TableData.getIndexIn
  simp only [Obj.lookup_set]
  by_cases hf : f = f'
  · subst hf
    by_cases hk : k = k'
    · simp [hk, Index.lookup_after_set]
    · cases hl : Obj.lookup f d.indices with
      | none => simp [hk, Index.lookup_after_set, Index.lookup]
      | some ix => simp [hk, Index.lookup_after_set]
  · simp [hf]

theorem TableData.getIndexIn_deleteIndexIn (d : TableData) (f f' : String) (k k' : Val) :
    (d.deleteIndexIn f k).getIndexIn f' k'
      = if f = f' ∧ k = k' then none else d.getIndexIn f' k' := by
  unfold TableData.deleteIndexIn TableData.getIndexIn
  cases hl : Obj.lookup f d.indices with
  | none =>
    by_cases hf : f = f'
    · subst hf; simp [hl]
    · simp [hf]
  | some ix =>
    simp only [Obj.lookup_set]
    by_cases hf : f = f'
    · subst hf
      by_cases hk : k = k'
      · simp [hk, hl, Index.lookup_after_erase]
      · simp [hk, hl, Index.lookup_after_erase]
    · simp [hf]

theorem TableData.objects_setIndexIn (d : TableData) (f : String) (k : Val) (x : PosSet) :
    (d.setIndexIn f k x).objects = d.objects := rfl

theorem TableData.objects_deleteIndexIn (d : TableData) (f : String) (k : Val) :
    (d.deleteIndexIn f k).objects = d.objects := by
  unfold TableData.deleteIndexIn
  cases Obj.lookup f d.indices <;> rfl

theorem TableData.keys_setIndexIn (d : TableData) (f : String) (k : Val) (x : PosSet)
    (hf : f ∈ d.indices.keys) : (d.setIndexIn f k x).indices.keys = d.indices.keys := by
  unfold TableData.setIndexIn
  exact Obj.keys_set_of_mem _ _ _ hf

theorem TableData.keys_deleteIndexIn (d : TableData) (f : String) (k : Val)
    (hf : f ∈ d.indices.keys) : (d.deleteIndexIn f k).indices.keys = d.indices.keys := by
  unfold TableData.deleteIndexIn
  cases hl : Obj.lookup f d.indices with
  | none => rfl
  | some ix => exact Obj.keys_set_of_mem _ _ _ hf

theorem TableData.posOf_setIndexIn (d : TableData) (f f' : String) (k k' : Val)
    (x : PosSet) :
    (d.setIndexIn f k x).posOf f' k' = if f = f' ∧ k = k' then x else d.posOf f' k' := by
  unfold TableData.posOf
  rw [TableData.getIndexIn_setIndexIn]
  by_cases h : f = f' ∧ k = k' <;> simp [h]

theorem TableData.posOf_deleteIndexIn (d : TableData) (f f' : String) (k k' : Val) :
    (d.deleteIndexIn f k).posOf f' k' = if f = f' ∧ k = k' then [] else d.posOf f' k' := by
  unfold TableData.posOf
  rw [TableData.getIndexIn_deleteIndexIn]
  by_cases h : f = f' ∧ k = k' <;> simp [h]

theorem PosSet.mem_add (x : PosSet) (ii q : Nat) : q ∈ PosSet.add x ii ↔ q ∈ x ∨ q = ii := by
  unfold PosSet.add
  by_cases h : ii ∈ x
  · rw [if_pos h]
    constructor
    · exact Or.inl
    · rintro (h1 | h1)
      · exact h1
      · rw [h1]; exact h
  · rw [if_neg h]; simp

theorem PosSet.mem_delete (x : PosSet) (ii q : Nat) :
    q ∈ PosSet.delete x ii ↔ q ∈ x ∧ q ≠ ii := by
  unfold PosSet.delete
  simp [List.mem_filter]

/-! ## The index loops of `set` and `_removeFromIndices` -/

theorem Table.addToIndex_spec (t : Table) (object : Rec) (index : Nat) (d : TableData)
    (f : String) :
    (t.addToIndex object index d f).objects = d.objects ∧
    (f ∈ d.indices.keys → (t.addToIndex object index d f).indices.keys = d.indices.keys) ∧
    (∀ k, (t.addToIndex object index d f).getIndexIn "id" k = d.getIndexIn "id" k) ∧
    (∀ f' k', (t.addToIndex object index d f).posOf f' k'
        = if f = f' ∧ f ≠ "id" ∧ t.toIndexable f (object.get f) = k'
          then PosSet.add (d.posOf f' k') index else d.posOf f' k') := by
  unfold Table.addToIndex
  by_cases hid : f = "id"
  · simp [hid]
  · simp only [if_neg hid]
    cases hg : d.getIndexIn f (t.toIndexable f (object.get f)) with
    | none =>
      refine ⟨rfl, fun hf => TableData.keys_setIndexIn _ _ _ _ hf, ?_, ?_⟩
      · intro k
        rw [TableData.getIndexIn_setIndexIn]
        simp [hid]
      · intro f' k'
        simp only [TableData.posOf_setIndexIn]
        by_cases h : f = f' ∧ t.toIndexable f (object.get f) = k'
        · obtain ⟨h1, h2⟩ := h
          subst h1; subst h2
          simp [hid, TableData.posOf, hg, PosSet.add]
        · have h' : ¬ (f = f' ∧ f ≠ "id" ∧ t.toIndexable f (object.get f) = k') :=
            fun hh => h ⟨hh.1, hh.2.2⟩
          rw [if_neg h, if_neg h']
    | some x =>
      refine ⟨rfl, fun hf => TableData.keys_setIndexIn _ _ _ _ hf, ?_, ?_⟩
      · intro k
        rw [TableData.getIndexIn_setIndexIn]
        simp [hid]
      · intro f' k'
        simp only [TableData.posOf_setIndexIn]
        by_cases h : f = f' ∧ t.toIndexable f (object.get f) = k'
        · obtain ⟨h1, h2⟩ := h
          subst h1; subst h2
          simp [hid, TableData.posOf, hg]
        · have h' : ¬ (f = f' ∧ f ≠ "id" ∧ t.toIndexable f (object.get f) = k') :=
            fun hh => h ⟨hh.1, hh.2.2⟩
          rw [if_neg h, if_neg h']

theorem Table.foldl_addToIndex_spec (t : Table) (object : Rec) (index : Nat)
    (fs : List String) (d : TableData) (hnd : fs.Nodup) (hsub : ∀ f ∈ fs, f ∈ d.indices.keys) :
    (fs.foldl (t.addToIndex object index) d).objects = d.objects ∧
    (fs.foldl (t.addToIndex object index) d).indices.keys = d.indices.keys ∧
    (∀ k, (fs.foldl (t.addToIndex object index) d).getIndexIn "id" k = d.getIndexIn "id" k) ∧
    (∀ f' k', (fs.foldl (t.addToIndex object index) d).posOf f' k'
        = if f' ∈ fs ∧ f' ≠ "id" ∧ t.toIndexable f' (object.get f') = k'
          then PosSet.add (d.posOf f' k') index else d.posOf f' k') := by
  induction fs generalizing d with
  | nil => simp
  | cons f fs ih =>
    have hstep := Table.addToIndex_spec t object index d f
    have hfk : f ∈ d.indices.keys := hsub f (List.mem_cons_self _ _)
    have hkeys := hstep.2.1 hfk
    have hnd' : fs.Nodup := (List.nodup_cons.1 hnd).2
    have hfn : f ∉ fs := (List.nodup_cons.1 hnd).1
    have hsub' : ∀ g ∈ fs, g ∈ (t.addToIndex object index d f).indices.keys := by
      intro g hg
      rw [hkeys]
      exact hsub g (List.mem_cons_of_mem _ hg)
    have ih' := ih (t.addToIndex object index d f) hnd' hsub'
    rw [List.foldl_cons]
    refine ⟨ih'.1.trans hstep.1, ih'.2.1.trans hkeys, ?_, ?_⟩
    · intro k
      rw [ih'.2.2.1, hstep.2.2.1]
    · intro f' k'
      rw [ih'.2.2.2, hstep.2.2.2]
      by_cases hff : f = f'
      · subst hff
        simp [hfn]
      · have hff' : ¬ f' = f := fun e => hff e.symm
        simp [hff, hff']

theorem Table.removeFromIndex_spec (t : Table) (object : Rec) (index : Nat) (d : TableData)
    (f : String)
    (hx : f ≠ "id" → (d.getIndexIn f (t.toIndexable f (object.get f))).isSome = true) :
    ∃ d', t.removeFromIndex object index d f = .ok d' ∧
      d'.objects = d.objects ∧
      (f ∈ d.indices.keys → d'.indices.keys = d.indices.keys) ∧
      (∀ f' k', f' ≠ f → d'.getIndexIn f' k' = d.getIndexIn f' k') ∧
      (f = "id" → d' = d) ∧
      (∀ f' k', d'.posOf f' k'
          = if f = f' ∧ f ≠ "id" ∧ t.toIndexable f (object.get f) = k'
            then PosSet.delete (d.posOf f' k') index else d.posOf f' k') := by
  unfold Table.removeFromIndex
  by_cases hid : f = "id"
  · refine ⟨d, by simp [hid], rfl, fun _ => rfl, fun _ _ _ => rfl, fun _ => rfl, ?_⟩
    intro f' k'
    simp [hid]
  · simp only [if_neg hid]
    have hx' := hx hid
    cases hg : d.getIndexIn f (t.toIndexable f (object.get f)) with
    | none => rw [hg] at hx'; simp at hx'
    | some x =>
      simp only []
      by_cases hlen : (PosSet.delete x index).length = 0
      · rw [if_pos hlen]
        refine ⟨_, rfl, ?_, ?_, ?_, fun h => absurd h hid, ?_⟩
        · rw [TableData.objects_deleteIndexIn]; rfl
        · intro hf
          rw [TableData.keys_deleteIndexIn _ _ _ (by rw [TableData.keys_setIndexIn _ _ _ _ hf]; exact hf),
            TableData.keys_setIndexIn _ _ _ _ hf]
        · intro f' k' hne
          have hne' : ¬ f = f' := fun e => hne e.symm
          rw [TableData.getIndexIn_deleteIndexIn, TableData.getIndexIn_setIndexIn]
          simp [hne']
        · intro f' k'
          rw [TableData.posOf_deleteIndexIn, TableData.posOf_setIndexIn]
          by_cases h : f = f' ∧ t.toIndexable f (object.get f) = k'
          · obtain ⟨h1, h2⟩ := h
            subst h1; subst h2
            have : PosSet.delete x index = [] := List.length_eq_zero.1 hlen
            simp [hid, TableData.posOf, hg, this]
          · have h' : ¬ (f = f' ∧ f ≠ "id" ∧ t.toIndexable f (object.get f) = k') :=
              fun hh => h ⟨hh.1, hh.2.2⟩
            rw [if_neg h, if_neg h, if_neg h']
      · rw [if_neg hlen]
        refine ⟨_, rfl, rfl, ?_, ?_, fun h => absurd h hid, ?_⟩
        · intro hf
          exact TableData.keys_setIndexIn _ _ _ _ hf
        · intro f' k' hne
          have hne' : ¬ f = f' := fun e => hne e.symm
          rw [TableData.getIndexIn_setIndexIn]
          simp [hne']
        · intro f' k'
          rw [TableData.posOf_setIndexIn]
          by_cases h : f = f' ∧ t.toIndexable f (object.get f) = k'
          · obtain ⟨h1, h2⟩ := h
            subst h1; subst h2
            simp [hid, TableData.posOf, hg]
          · have h' : ¬ (f = f' ∧ f ≠ "id" ∧ t.toIndexable f (object.get f) = k') :=
              fun hh => h ⟨hh.1, hh.2.2⟩
            rw [if_neg h, if_neg h']

theorem Table.foldlM_removeFromIndex_spec (t : Table) (object : Rec) (index : Nat)
    (fs : List String) (d : TableData) (hnd : fs.Nodup)
    (hsub : ∀ f ∈ fs, f ∈ d.indices.keys)
    (hx : ∀ f ∈ fs, f ≠ "id" →
      (d.getIndexIn f (t.toIndexable f (object.get f))).isSome = true) :
    ∃ d', fs.foldlM (t.removeFromIndex object index) d = .ok d' ∧
      d'.objects = d.objects ∧
      d'.indices.keys = d.indices.keys ∧
      (∀ k, d'.getIndexIn "id" k = d.getIndexIn "id" k) ∧
      (∀ f' k', d'.posOf f' k'
          = if f' ∈ fs ∧ f' ≠ "id" ∧ t.toIndexable f' (object.get f') = k'
            then PosSet.delete (d.posOf f' k') index else d.posOf f' k') := by
  induction fs generalizing d with
  | nil => exact ⟨d, rfl, rfl, rfl, fun _ => rfl, by simp⟩
  | cons f fs ih =>
    have hfk : f ∈ d.indices.keys := hsub f (List.mem_cons_self _ _)
    obtain ⟨d1, hd1, hobj1, hkeys1, hframe1, hsame1, hpos1⟩ :=
      Table.removeFromIndex_spec t object index d f (hx f (List.mem_cons_self _ _))
    have hkeys1' := hkeys1 hfk
    have hnd' : fs.Nodup := (List.nodup_cons.1 hnd).2
    have hfn : f ∉ fs := (List.nodup_cons.1 hnd).1
    have hsub' : ∀ g ∈ fs, g ∈ d1.indices.keys := by
      intro g hg
      rw [hkeys1']
      exact hsub g (List.mem_cons_of_mem _ hg)
    have hx' : ∀ g ∈ fs, g ≠ "id" →
        (d1.getIndexIn g (t.toIndexable g (object.get g))).isSome = true := by
      intro g hg hgid
      have hne : g ≠ f := fun e => hfn (e ▸ hg)
      rw [hframe1 g _ hne]
      exact hx g (List.mem_cons_of_mem _ hg) hgid
    obtain ⟨d2, hd2, hobj2, hkeys2, hid2, hpos2⟩ := ih d1 hnd' hsub' hx'
    refine ⟨d2, ?_, hobj2.trans hobj1, hkeys2.trans hkeys1', ?_, ?_⟩
    · rw [List.foldlM_cons, hd1]
      exact hd2
    · intro k
      rw [hid2]
      by_cases hfid : f = "id"
      · rw [hsame1 hfid]
      · exact hframe1 "id" k (fun e => hfid e.symm)
    · intro f' k'
      rw [hpos2, hpos1]
      by_cases hff : f = f'
      · subst hff
        simp [hfn]
      · have hff' : ¬ f' = f := fun e => hff e.symm
        simp [hff, hff']

/-! ## Exact lookup -/

theorem Table.filter_exact (t : Table) (f : String) (v : Val)
    (hre : Table.filterRegex f = none) (hf : f ∈ t.data.indices.keys) :
    t.filter (.fields [(f, v)])
      = .ok ((t.data.posOf f (t.toIndexable f (t.hooks.toInternal t.model f v))).map
          (fun ii => t.data.row ii)).dedup := by
  have hl : (Obj.lookup f t.data.indices).isSome = true :=
    (Obj.lookup_isSome_iff_mem_keys _ _).2 hf
  cases hix : Obj.lookup f t.data.indices with
  | none => rw [hix] at hl; simp at hl
  | some index =>
    have hfi : t.fieldIndices f v false
        = .ok (Index.lookup (t.toIndexable f (t.hooks.toInternal t.model f v)) index) := by
      unfold Table.fieldIndices
      simp only [hre, hix]
      cases Index.lookup (t.toIndexable f (t.hooks.toInternal t.model f v)) index <;> simp
    have hpos : t.data.posOf f (t.toIndexable f (t.hooks.toInternal t.model f v))
        = (Index.lookup (t.toIndexable f (t.hooks.toInternal t.model f v)) index).getD [] := by
      unfold TableData.posOf TableData.getIndexIn
      rw [hix]; rfl
    have hfilt : t._filterIndices (.fields [(f, v)]) false
        = .ok (some (t.data.posOf f (t.toIndexable f (t.hooks.toInternal t.model f v)))) := by
      unfold Table._filterIndices
      simp only [Query.toFields, List.foldlM_cons, List.foldlM_nil, hfi, hpos]
      cases Index.lookup (t.toIndexable f (t.hooks.toInternal t.model f v)) index <;> rfl
    unfold Table.filter
    simp only [Query.falsy, hfilt]
    rfl

theorem Table.get_some_is_row (t : Table) (q : Query) (required : Bool) (obj : Rec)
    (h : t.get q required = .ok (some obj)) :
    ∃ pos, t.data.row pos = some obj := by
  unfold Table.get at h
  cases hf : t.filter q with
  | error e => rw [hf] at h; simp [Except.bind] at h
  | ok objects =>
    rw [hf] at h
    simp only [Except.bind] at h
    by_cases hq : q.falsy = true
    · simp [hq] at h
      cases required <;> simp at h
    · simp only [hq] at h
      by_cases h0 : objects.length = 0
      · simp [h0] at h
        cases required <;> simp at h
      · by_cases h1 : objects.length > 1
        · simp [h0, h1] at h
        · simp [h0, h1] at h
          have hhead : objects.head? = some (some obj) := by
            cases hh : objects.head? with
            | none => rw [hh] at h; simp at h
            | some x => rw [hh] at h; simp at h; rw [h]
          have hmem : some obj ∈ objects := List.mem_of_mem_head? hhead
          unfold Table.filter at hf
          rw [if_neg hq] at hf
          cases hfi : t._filterIndices q false with
          | error e => rw [hfi] at hf; simp [Except.bind] at hf
          | ok ps =>
            rw [hfi] at hf
            simp only [Except.bind, Table._mapIndices] at hf
            cases ps with
            | none => simp at hf
            | some ps =>
              have hf' : (ps.map (fun ii => t.data.row ii)).dedup = objects :=
                Except.ok.inj hf
              rw [← hf', List.mem_dedup, List.mem_map] at hmem
              obtain ⟨pos, _, hpos⟩ := hmem
              exact ⟨pos, hpos⟩

/-- Under the index invariant a lookup by `id` finds the one live row with that `id`,
or nothing. -/
theorem Table.get_id_of_inv (t : Table) (hI : t.IndexInv) (v : Val) :
    (t.data.getIndexIn "id" v = none ∧ t.get (.fields [("id", v)]) false = .ok none) ∨
    (∃ p r, t.data.getIndexIn "id" v = some [p] ∧ t.data.row p = some r
      ∧ r.get "id" = v ∧ t.get (.fields [("id", v)]) false = .ok (some r)) := by
  have hfilt := Table.filter_exact t "id" v (by decide) hI.id_mem
  have hkey : t.toIndexable "id" (t.hooks.toInternal t.model "id" v) = v := by
    unfold Table.toIndexable
    rw [(hI.id_plain v).2, (hI.id_plain v).1]
  rw [hkey] at hfilt
  cases hg : t.data.getIndexIn "id" v with
  | none =>
    left
    refine ⟨rfl, ?_⟩
    unfold Table.get
    rw [hfilt]
    simp [Except.bind, TableData.posOf, hg, Query.falsy]
  | some ps =>
    right
    obtain ⟨p, hp⟩ := hI.single v ps hg
    subst hp
    have hmem : p ∈ t.data.posOf "id" v := by simp [TableData.posOf, hg]
    obtain ⟨r, hr, hrk⟩ := (hI.mem_iff "id" hI.id_mem v p).1 hmem
    have hrid : r.get "id" = v := by
      unfold Table.toIndexable at hrk
      rw [(hI.id_plain _).1] at hrk
      exact hrk
    refine ⟨p, r, rfl, hr, hrid, ?_⟩
    unfold Table.get
    rw [hfilt]
    simp [Except.bind, TableData.posOf, hg, Query.falsy, hr]

theorem Table.getIndex_of_row (t : Table) (hI : t.IndexInv) (p : Nat) (r : Rec)
    (hr : t.data.row p = some r) :
    t.data.getIndexIn "id" (r.get "id") = some [p] ∧ t._getIndex (r.get "id") = .ok p := by
  have hk : t.toIndexable "id" (r.get "id") = r.get "id" := by
    unfold Table.toIndexable
    exact (hI.id_plain _).1
  have hmem : p ∈ t.data.posOf "id" (r.get "id") :=
    (hI.mem_iff "id" hI.id_mem (r.get "id") p).2 ⟨r, hr, hk⟩
  cases hg : t.data.getIndexIn "id" (r.get "id") with
  | none => simp [TableData.posOf, hg] at hmem
  | some ps =>
    obtain ⟨p', hp'⟩ := hI.single _ ps hg
    subst hp'
    have : p = p' := by simpa [TableData.posOf, hg] using hmem
    subst this
    refine ⟨rfl, ?_⟩
    unfold Table._getIndex
    rw [hk, hg]
    rfl

/-! ## Rows -/

theorem TableData.row_congr (d d' : TableData) (h : d'.objects = d.objects) (p : Nat) :
    d'.row p = d.row p := by
  unfold TableData.row
  rw [h]

theorem TableData.row_lt (d : TableData) (p : Nat) (r : Rec) (h : d.row p = some r) :
    p < d.objects.length := by
  unfold TableData.row at h
  by_contra hlt
  have : d.objects.get? p = none := List.get?_eq_none.2 (Nat.le_of_not_lt hlt)
  rw [this] at h
  simp at h

theorem TableData.row_append (d d' : TableData) (x : Option Rec)
    (h : d'.objects = d.objects ++ [x]) (p : Nat) :
    d'.row p = if p = d.objects.length then x else d.row p := by
  unfold TableData.row
  rw [h]
  by_cases hp : p = d.objects.length
  · subst hp
    simp
  · rw [if_neg hp]
    by_cases hlt : p < d.objects.length
    · simp [List.getElem?_append_left hlt]
    · have h1 : d.objects.length < p := by omega
      have h2 : (d.objects ++ [x]).get? p = none := by
        apply List.get?_eq_none.2
        simp
        omega
      have h3 : d.objects.get? p = none := List.get?_eq_none.2 (by omega)
      rw [h2, h3]

theorem TableData.row_set (d d' : TableData) (i : Nat) (x : Option Rec)
    (h : d'.objects = d.objects.set i x) (hi : i < d.objects.length) (p : Nat) :
    d'.row p = if p = i then x else d.row p := by
  unfold TableData.row
  rw [h]
  by_cases hp : p = i
  · subst hp
    simp [List.getElem?_set_self, hi]
  · rw [if_neg hp]
    have : ¬ i = p := fun e => hp e.symm
    simp [List.getElem?_set_ne this]

theorem Rec.get_set (r : Rec) (f g : String) (v : Val) :
    Rec.get (Obj.set r f v) g = if f = g then v else r.get g := by
  unfold Rec.get
  rw [Obj.lookup_set]
  by_cases h : f = g <;> simp [h]

/-! ## `_removeFromIndices` -/

theorem Table.removeFromIndices_spec (t : Table) (hI : t.IndexInv) (p : Nat) (r : Rec)
    (hr : t.data.row p = some r) :
    ∃ t', t._removeFromIndices r = .ok t' ∧ t'.hooks = t.hooks ∧ t'.model = t.model ∧
      t'.data.objects = t.data.objects ∧
      t'.data.indices.keys = t.data.indices.keys ∧
      (∀ k, t'.data.getIndexIn "id" k = t.data.getIndexIn "id" k) ∧
      (∀ f k, t'.data.posOf f k
          = if f ∈ t.data.indices.keys ∧ f ≠ "id" ∧ t.toIndexable f (r.get f) = k
            then PosSet.delete (t.data.posOf f k) p else t.data.posOf f k) := by
  have hidx := (Table.getIndex_of_row t hI p r hr).2
  have hx : ∀ f ∈ t.data.indices.keys, f ≠ "id" →
      (t.data.getIndexIn f (t.toIndexable f (r.get f))).isSome = true := by
    intro f hf _
    have hmem : p ∈ t.data.posOf f (t.toIndexable f (r.get f)) :=
      (hI.mem_iff f hf _ p).2 ⟨r, hr, rfl⟩
    cases hg : t.data.getIndexIn f (t.toIndexable f (r.get f)) with
    | none => simp [TableData.posOf, hg] at hmem
    | some x => rfl
  obtain ⟨d', hd', hobj, hkeys, hid, hpos⟩ :=
    Table.foldlM_removeFromIndex_spec t r p t.data.indices.keys t.data hI.keys_nodup
      (fun _ h => h) hx
  refine ⟨{ t with data := d' }, ?_, rfl, rfl, hobj, hkeys, hid, hpos⟩
  unfold Table._removeFromIndices
  rw [hidx]
  simp only [Except.bind, hd', Except.map]

/-! ## `set` -/

/-- The method `set` on a record whose `id` is not yet in the table: the record is appended
as a new last row and entered in every index. -/
theorem Table.set_new_spec (t : Table) (hI : t.IndexInv) (object : Rec)
    (hne : isEmpty (object.get "id") = false)
    (hnew : t.data.getIndexIn "id" (object.get "id") = none) :
    ∃ t', t.set object = .ok t' ∧ t'.hooks = t.hooks ∧ t'.model = t.model ∧
      t'.data.objects = t.data.objects ++ [some object] ∧
      t'.data.indices.keys = t.data.indices.keys ∧
      (∀ k, t'.data.getIndexIn "id" k
          = if object.get "id" = k then some [t.data.objects.length]
            else t.data.getIndexIn "id" k) ∧
      (∀ f k, f ≠ "id" → t'.data.posOf f k
          = if f ∈ t.data.indices.keys ∧ t.toIndexable f (object.get f) = k
            then PosSet.add (t.data.posOf f k) t.data.objects.length
            else t.data.posOf f k) := by
  have hget : t.get (.fields [("id", object.get "id")]) false = .ok none := by
    rcases Table.get_id_of_inv t hI (object.get "id") with h | ⟨p, r, h, _⟩
    · exact h.2
    · rw [hnew] at h; simp at h
  have hk : t.toIndexable "id" (object.get "id") = object.get "id" := by
    unfold Table.toIndexable
    exact (hI.id_plain _).1
  let d1 : TableData :=
    ({ t.data with objects := t.data.objects ++ [some object] } : TableData).setIndexIn "id"
      (object.get "id") [t.data.objects.length]
  let t1 : Table := { t with data := d1 }
  have hkeys1 : d1.indices.keys = t.data.indices.keys :=
    TableData.keys_setIndexIn _ _ _ _ hI.id_mem
  have hidx1 : t1._getIndex (object.get "id") = .ok t.data.objects.length := by
    unfold Table._getIndex
    have : t1.toIndexable "id" (object.get "id") = object.get "id" := hk
    rw [this]
    have : t1.data.getIndexIn "id" (object.get "id") = some [t.data.objects.length] := by
      show d1.getIndexIn "id" (object.get "id") = _
      rw [TableData.getIndexIn_setIndexIn]
      simp
    rw [this]
    rfl
  have hfold := Table.foldl_addToIndex_spec t1 object t.data.objects.length
    d1.indices.keys d1 (by rw [hkeys1]; exact hI.keys_nodup) (fun _ h => h)
  let d2 : TableData := d1.indices.keys.foldl (t1.addToIndex object t.data.objects.length) d1
  refine ⟨{ t1 with data := d2 }, ?_, rfl, rfl, ?_, ?_, ?_, ?_⟩
  · unfold Table.set
    simp only [hne, hget, Except.bind, hk]
    show Except.map _ (t1._getIndex (object.get "id")) = _
    rw [hidx1]
    rfl
  · show (d1.indices.keys.foldl (t1.addToIndex object t.data.objects.length) d1).objects = _
    rw [hfold.1]
    rfl
  · show (d1.indices.keys.foldl (t1.addToIndex object t.data.objects.length) d1).indices.keys = _
    rw [hfold.2.1, hkeys1]
  · intro k
    show (d1.indices.keys.foldl (t1.addToIndex object t.data.objects.length) d1).getIndexIn
      "id" k = _
    rw [hfold.2.2.1]
    show TableData.getIndexIn (TableData.setIndexIn _ _ _ _) "id" k = _
    rw [TableData.getIndexIn_setIndexIn]
    by_cases hkk : object.get "id" = k
    · simp [hkk]
    · simp only [hkk, and_false, if_false]
      rfl
  · intro f k hf
    show (d1.indices.keys.foldl (t1.addToIndex object t.data.objects.length) d1).posOf f k = _
    rw [hfold.2.2.2, hkeys1]
    have hd1 : d1.posOf f k = t.data.posOf f k := by
      show TableData.posOf (TableData.setIndexIn _ _ _ _) f k = _
      rw [TableData.posOf_setIndexIn]
      have : ¬ ("id" = f ∧ object.get "id" = k) := fun h => hf h.1.symm
      rw [if_neg this]
      rfl
    rw [hd1]
    have ht1 : t1.toIndexable f (object.get f) = t.toIndexable f (object.get f) := rfl
    rw [ht1]
    by_cases h : f ∈ t.data.indices.keys ∧ t.toIndexable f (object.get f) = k
    · rw [if_pos h, if_pos ⟨h.1, hf, h.2⟩]
    · have : ¬ (f ∈ t.data.indices.keys ∧ f ≠ "id" ∧ t.toIndexable f (object.get f) = k) :=
        fun hh => h ⟨hh.1, hh.2.2⟩
      rw [if_neg h, if_neg this]

/-- The method `set` on a record whose `id` resolves to a live row: the row is replaced in
place by the record carrying the existing `id`, and the indices follow. -/
theorem Table.set_existing_spec (t : Table) (hI : t.IndexInv) (object : Rec)
    (hne : isEmpty (object.get "id") = false) (p : Nat) (ex : Rec)
    (hold : t.data.getIndexIn "id" (object.get "id") = some [p])
    (hrow : t.data.row p = some ex) :
    ∃ t', t.set object = .ok t' ∧ t'.hooks = t.hooks ∧ t'.model = t.model ∧
      t'.data.objects = t.data.objects.set p (some (Obj.set object "id" (ex.get "id"))) ∧
      t'.data.indices.keys = t.data.indices.keys ∧
      (∀ k, t'.data.getIndexIn "id" k = t.data.getIndexIn "id" k) ∧
      (∀ f k, f ≠ "id" → f ∈ t.data.indices.keys → ∀ q,
          q ∈ t'.data.posOf f k
            ↔ (q ∈ t.data.posOf f k ∧ q ≠ p)
              ∨ (q = p ∧ t.toIndexable f (Rec.get (Obj.set object "id" (ex.get "id")) f) = k)) := by
  have hget : t.get (.fields [("id", object.get "id")]) false = .ok (some ex) := by
    rcases Table.get_id_of_inv t hI (object.get "id") with h | ⟨p', r, h1, h2, _, h4⟩
    · rw [hold] at h; simp at h
    · rw [hold] at h1
      have : p = p' := by simpa using h1
      subst this
      rw [hrow] at h2
      have : ex = r := by simpa using h2
      subst this
      exact h4
  have hk : t.toIndexable "id" (object.get "id") = object.get "id" := by
    unfold Table.toIndexable
    exact (hI.id_plain _).1
  have hidx : t._getIndex (object.get "id") = .ok p := by
    unfold Table._getIndex
    rw [hk, hold]
    rfl
  obtain ⟨t2, ht2, hh2, hm2, hobj2, hkeys2, hid2, hpos2⟩ :=
    Table.removeFromIndices_spec t hI p ex hrow
  let object' : Rec := Obj.set object "id" (ex.get "id")
  let d3 : TableData := { t2.data with objects := t2.data.objects.set p (some object') }
  let t3 : Table := { t2 with data := d3 }
  have hkeys3 : d3.indices.keys = t.data.indices.keys := hkeys2
  have hidx3 : t3._getIndex (object.get "id") = .ok p := by
    unfold Table._getIndex
    have h1 : t3.toIndexable "id" (object.get "id") = object.get "id" := by
      show t3.hooks.toIndexable t3.model "id" _ = _
      show t2.hooks.toIndexable t2.model "id" _ = _
      rw [hh2, hm2]
      exact (hI.id_plain _).1
    rw [h1]
    have h2 : t3.data.getIndexIn "id" (object.get "id") = some [p] := by
      show t2.data.getIndexIn "id" (object.get "id") = _
      rw [hid2, hold]
    rw [h2]
    rfl
  have hfold := Table.foldl_addToIndex_spec t3 object' p d3.indices.keys d3
    (by rw [hkeys3]; exact hI.keys_nodup) (fun _ h => h)
  let d4 : TableData := d3.indices.keys.foldl (t3.addToIndex object' p) d3
  refine ⟨{ t3 with data := d4 }, ?_, hh2, hm2, ?_, ?_, ?_, ?_⟩
  · unfold Table.set
    simp only [hne, hget, Except.bind, hidx, ht2, Except.map]
    show Except.map _ (t3._getIndex (object.get "id")) = _
    rw [hidx3]
    rfl
  · show (d3.indices.keys.foldl (t3.addToIndex object' p) d3).objects = _
    rw [hfold.1]
    show t2.data.objects.set p (some object') = _
    rw [hobj2]
  · show (d3.indices.keys.foldl (t3.addToIndex object' p) d3).indices.keys = _
    rw [hfold.2.1, hkeys3]
  · intro k
    show (d3.indices.keys.foldl (t3.addToIndex object' p) d3).getIndexIn "id" k = _
    rw [hfold.2.2.1]
    exact hid2 k
  · intro f k hf hfk q
    show q ∈ (d3.indices.keys.foldl (t3.addToIndex object' p) d3).posOf f k ↔ _
    rw [hfold.2.2.2, hkeys3]
    have hd3 : d3.posOf f k = t2.data.posOf f k := rfl
    have ht3 : t3.toIndexable f (object'.get f) = t.toIndexable f (object'.get f) := by
      show t2.hooks.toIndexable t2.model f _ = t.hooks.toIndexable t.model f _
      rw [hh2, hm2]
    rw [hd3, ht3, hpos2]
    by_cases ha : t.toIndexable f (object'.get f) = k
    · by_cases hb : t.toIndexable f (ex.get f) = k
      · simp only [hfk, hf, ha, hb, ne_eq, not_false_eq_true, and_self, if_true,
          PosSet.mem_add, PosSet.mem_delete]
        tauto
      · simp only [hfk, hf, ha, hb, ne_eq, not_false_eq_true, and_self, and_false, if_true,
          if_false, PosSet.mem_add]
        constructor
        · rintro (h | h)
          · by_cases hqp : q = p
            · exact Or.inr ⟨hqp, trivial⟩
            · exact Or.inl ⟨h, hqp⟩
          · exact Or.inr ⟨h, trivial⟩
        · rintro (h | h)
          · exact Or.inl h.1
          · exact Or.inr h.1
    · by_cases hb : t.toIndexable f (ex.get f) = k
      · simp only [hfk, hf, ha, hb, ne_eq, not_false_eq_true, and_self, and_false, if_true,
          if_false, PosSet.mem_delete, or_false]
      · simp only [hfk, hf, ha, hb, ne_eq, not_false_eq_true, and_false, if_false, or_false]
        constructor
        · intro h
          refine ⟨h, ?_⟩
          intro hqp
          subst hqp
          obtain ⟨r, hr1, hr2⟩ := (hI.mem_iff f hfk k q).1 h
          rw [hrow] at hr1
          have : ex = r := by simpa using hr1
          subst this
          exact hb hr2
        · exact fun h => h.1

/-! ## The index invariant is kept by `set` and `remove` -/

theorem TableData.posOf_id_eq (d d' : TableData)
    (h : ∀ k, d'.getIndexIn "id" k = d.getIndexIn "id" k) (k : Val) :
    d'.posOf "id" k = d.posOf "id" k := by
  unfold TableData.posOf
  rw [h]

theorem Table.reset_indexInv (h : Hooks) (m : Model) (hid : "id" ∈ m.indices)
    (hplain : ∀ v, h.toIndexable m "id" v = v ∧ h.toInternal m "id" v = v) :
    (Table.reset h m).IndexInv := by
  have hkeys : (Table.reset h m).data.indices.keys = m.indices.dedup := by
    have hfun : ((fun p : String × Index => p.1) ∘ fun x => (x, ([] : Index))) = id := rfl
    simp only [Table.reset, Obj.keys, List.map_map, hfun, List.map_id]
  have hget : ∀ f k, (Table.reset h m).data.getIndexIn f k = none := by
    intro f k
    unfold TableData.getIndexIn
    cases hl : Obj.lookup f (Table.reset h m).data.indices with
    | none => rfl
    | some ix =>
      have : ix = [] := by
        have hgen : ∀ (l : List String) (ix : Index),
            Obj.lookup f (l.map (fun x => (x, ([] : Index)))) = some ix → ix = [] := by
          intro l
          induction l with
          | nil => intro ix h; simp [Obj.lookup] at h
          | cons a l ih =>
            intro ix h
            simp only [List.map_cons, Obj.lookup] at h
            by_cases ha : a = f
            · simp [ha] at h; exact h
            · simp [ha] at h; exact ih ix h
        exact hgen _ ix hl
      subst this
      rfl
  refine ⟨?_, ?_, hplain, ?_, ?_⟩
  · rw [hkeys]; exact List.nodup_dedup _
  · rw [hkeys]; exact List.mem_dedup.2 hid
  · intro k ps hk
    rw [hget] at hk
    exact absurd hk (by simp)
  · intro f _ k p
    have hrow : (Table.reset h m).data.row p = none := by
      simp [TableData.row, Table.reset]
    simp [TableData.posOf, hget, hrow]

theorem Table.set_indexInv (t t' : Table) (hI : t.IndexInv) (object : Rec)
    (hset : t.set object = .ok t') : t'.IndexInv := by
  have hne : isEmpty (object.get "id") = false := by
    cases he : isEmpty (object.get "id") with
    | false => rfl
    | true =>
      unfold Table.set at hset
      simp [he] at hset
  have hk : ∀ v, t.toIndexable "id" v = v := fun v => (hI.id_plain v).1
  cases hg : t.data.getIndexIn "id" (object.get "id") with
  | none =>
    obtain ⟨t1, h1, hh, hm, hobj, hkeys, hidx, hpos⟩ := Table.set_new_spec t hI object hne hg
    rw [hset] at h1
    have : t' = t1 := Except.ok.inj h1
    subst this
    have hk' : ∀ f v, t'.toIndexable f v = t.toIndexable f v := by
      intro f v
      unfold Table.toIndexable
      rw [hh, hm]
    have hrow := TableData.row_append t.data t'.data (some object) hobj
    have hold_none : ∀ q r, t.data.row q = some r → t.toIndexable "id" (r.get "id")
        ≠ object.get "id" := by
      intro q r hr hkey
      have := (hI.mem_iff "id" hI.id_mem (object.get "id") q).2 ⟨r, hr, hkey⟩
      simp [TableData.posOf, hg] at this
    refine ⟨?_, ?_, ?_, ?_, ?_⟩
    · rw [hkeys]; exact hI.keys_nodup
    · rw [hkeys]; exact hI.id_mem
    · rw [hh, hm]; exact hI.id_plain
    · intro k ps hps
      rw [hidx] at hps
      by_cases hkk : object.get "id" = k
      · rw [if_pos hkk] at hps
        exact ⟨_, (Option.some.inj hps).symm⟩
      · rw [if_neg hkk] at hps
        exact hI.single k ps hps
    · intro f hf k q
      rw [hkeys] at hf
      rw [hrow]
      simp only [hk']
      by_cases hfid : f = "id"
      · subst hfid
        have hp : t'.data.posOf "id" k
            = if object.get "id" = k then [t.data.objects.length] else t.data.posOf "id" k := by
          unfold TableData.posOf
          rw [hidx]
          by_cases hkk : object.get "id" = k <;> simp [hkk]
        rw [hp]
        by_cases hkk : object.get "id" = k
        · rw [if_pos hkk]
          constructor
          · intro hq
            have hq' : q = t.data.objects.length := by simpa using hq
            refine ⟨object, by simp [hq'], ?_⟩
            rw [hk]; exact hkk
          · rintro ⟨r, hr, hrk⟩
            by_cases hql : q = t.data.objects.length
            · simp [hql]
            · rw [if_neg hql] at hr
              exact absurd (hrk.trans hkk.symm) (hold_none q r hr)
        · rw [if_neg hkk, hI.mem_iff "id" hI.id_mem k q]
          constructor
          · rintro ⟨r, hr, hrk⟩
            have hql : q ≠ t.data.objects.length :=
              Nat.ne_of_lt (TableData.row_lt _ _ _ hr)
            exact ⟨r, by rw [if_neg hql]; exact hr, hrk⟩
          · rintro ⟨r, hr, hrk⟩
            by_cases hql : q = t.data.objects.length
            · rw [if_pos hql] at hr
              have : object = r := by simpa using hr
              subst this
              rw [hk] at hrk
              exact absurd hrk hkk
            · rw [if_neg hql] at hr
              exact ⟨r, hr, hrk⟩
      · rw [hpos f k hfid]
        by_cases ha : t.toIndexable f (object.get f) = k
        · rw [if_pos ⟨hf, ha⟩, PosSet.mem_add, hI.mem_iff f hf k q]
          constructor
          · rintro (⟨r, hr, hrk⟩ | hq)
            · have hql : q ≠ t.data.objects.length :=
                Nat.ne_of_lt (TableData.row_lt _ _ _ hr)
              exact ⟨r, by rw [if_neg hql]; exact hr, hrk⟩
            · exact ⟨object, by rw [if_pos hq], ha⟩
          · rintro ⟨r, hr, hrk⟩
            by_cases hql : q = t.data.objects.length
            · exact Or.inr hql
            · rw [if_neg hql] at hr
              exact Or.inl ⟨r, hr, hrk⟩
        · have : ¬ (f ∈ t.data.indices.keys ∧ t.toIndexable f (object.get f) = k) :=
            fun h => ha h.2
          rw [if_neg this, hI.mem_iff f hf k q]
          constructor
          · rintro ⟨r, hr, hrk⟩
            have hql : q ≠ t.data.objects.length :=
              Nat.ne_of_lt (TableData.row_lt _ _ _ hr)
            exact ⟨r, by rw [if_neg hql]; exact hr, hrk⟩
          · rintro ⟨r, hr, hrk⟩
            by_cases hql : q = t.data.objects.length
            · rw [if_pos hql] at hr
              have : object = r := by simpa using hr
              subst this
              exact absurd hrk ha
            · rw [if_neg hql] at hr
              exact ⟨r, hr, hrk⟩
  | some ps =>
    obtain ⟨p, hp⟩ := hI.single _ ps hg
    subst hp
    have hmem : p ∈ t.data.posOf "id" (object.get "id") := by simp [TableData.posOf, hg]
    obtain ⟨ex, hrow, hexk⟩ := (hI.mem_iff "id" hI.id_mem _ p).1 hmem
    obtain ⟨t1, h1, hh, hm, hobj, hkeys, hidx, hpos⟩ :=
      Table.set_existing_spec t hI object hne p ex hg hrow
    rw [hset] at h1
    have : t' = t1 := Except.ok.inj h1
    subst this
    have hk' : ∀ f v, t'.toIndexable f v = t.toIndexable f v := by
      intro f v
      unfold Table.toIndexable
      rw [hh, hm]
    have hplt := TableData.row_lt _ _ _ hrow
    have hrow' := TableData.row_set t.data t'.data p _ hobj hplt
    refine ⟨?_, ?_, ?_, ?_, ?_⟩
    · rw [hkeys]; exact hI.keys_nodup
    · rw [hkeys]; exact hI.id_mem
    · rw [hh, hm]; exact hI.id_plain
    · intro k ps hps
      rw [hidx] at hps
      exact hI.single k ps hps
    · intro f hf k q
      rw [hkeys] at hf
      rw [hrow']
      simp only [hk']
      by_cases hfid : f = "id"
      · subst hfid
        rw [TableData.posOf_id_eq _ _ hidx, hI.mem_iff "id" hI.id_mem k q]
        by_cases hqp : q = p
        · subst hqp
          rw [if_pos rfl]
          constructor
          · rintro ⟨r, hr, hrk⟩
            rw [hrow] at hr
            have : ex = r := by simpa using hr
            subst this
            exact ⟨_, rfl, by rw [Rec.get_set]; simpa using hrk⟩
          · rintro ⟨r, hr, hrk⟩
            have : Obj.set object "id" (ex.get "id") = r := by simpa using hr
            subst this
            rw [Rec.get_set] at hrk
            exact ⟨ex, hrow, by simpa using hrk⟩
        · rw [if_neg hqp]
      · rw [hpos f k hfid hf q, hI.mem_iff f hf k q]
        by_cases hqp : q = p
        · subst hqp
          rw [if_pos rfl]
          constructor
          · rintro (⟨_, h2⟩ | ⟨_, h2⟩)
            · exact absurd rfl h2
            · exact ⟨_, rfl, h2⟩
          · rintro ⟨r, hr, hrk⟩
            have : Obj.set object "id" (ex.get "id") = r := by simpa using hr
            subst this
            exact Or.inr ⟨rfl, hrk⟩
        · rw [if_neg hqp]
          constructor
          · rintro (⟨h1, _⟩ | ⟨h1, _⟩)
            · exact h1
            · exact absurd h1 hqp
          · intro h
            exact Or.inl ⟨h, hqp⟩

theorem Table.remove_indexInv (t t' : Table) (hI : t.IndexInv) (q : Query)
    (hrem : t.remove q = .ok t') : t'.IndexInv := by
  unfold Table.remove at hrem
  cases hg : t.get q false with
  | error e => rw [hg] at hrem; simp [Except.bind] at hrem
  | ok obj =>
    rw [hg] at hrem
    simp only [Except.bind] at hrem
    cases obj with
    | none =>
      have : t = t' := Except.ok.inj hrem
      rw [← this]; exact hI
    | some obj =>
      obtain ⟨pos, hrow⟩ := Table.get_some_is_row t q false obj hg
      obtain ⟨hgi, hidx⟩ := Table.getIndex_of_row t hI pos obj hrow
      obtain ⟨t2, ht2, hh, hm, hobj, hkeys, hid, hpos⟩ :=
        Table.removeFromIndices_spec t hI pos obj hrow
      simp only [hidx, ht2, Except.map] at hrem
      have ht' := (Except.ok.inj hrem).symm
      have hplt := TableData.row_lt _ _ _ hrow
      have hobj' : t'.data.objects = t.data.objects.set pos none := by
        rw [ht']
        show ((t2.data.deleteIndexIn "id" (obj.get "id")).objects).set pos none = _
        rw [TableData.objects_deleteIndexIn, hobj]
      have hkeys' : t'.data.indices.keys = t.data.indices.keys := by
        rw [ht']
        show (t2.data.deleteIndexIn "id" (obj.get "id")).indices.keys = _
        rw [TableData.keys_deleteIndexIn _ _ _ (by rw [hkeys]; exact hI.id_mem), hkeys]
      have hget' : ∀ f k, t'.data.getIndexIn f k
          = if "id" = f ∧ obj.get "id" = k then none else t2.data.getIndexIn f k := by
        intro f k
        rw [ht']
        show (t2.data.deleteIndexIn "id" (obj.get "id")).getIndexIn f k = _
        rw [TableData.getIndexIn_deleteIndexIn]
      have hk' : ∀ f v, t'.toIndexable f v = t.toIndexable f v := by
        intro f v
        unfold Table.toIndexable
        rw [ht']
        show t2.hooks.toIndexable t2.model f v = _
        rw [hh, hm]
      have hk : ∀ v, t.toIndexable "id" v = v := fun v => (hI.id_plain v).1
      have hrow' := TableData.row_set t.data t'.data pos none hobj' hplt
      refine ⟨?_, ?_, ?_, ?_, ?_⟩
      · rw [hkeys']; exact hI.keys_nodup
      · rw [hkeys']; exact hI.id_mem
      · rw [ht']
        show ∀ v, t2.hooks.toIndexable t2.model "id" v = v ∧ t2.hooks.toInternal t2.model "id" v = v
        rw [hh, hm]; exact hI.id_plain
      · intro k ps hps
        rw [hget'] at hps
        by_cases hkk : obj.get "id" = k
        · simp [hkk] at hps
        · simp only [hkk, and_false, if_false] at hps
          rw [hid] at hps
          exact hI.single k ps hps
      · intro f hf k p
        rw [hkeys'] at hf
        rw [hrow']
        simp only [hk']
        by_cases hfid : f = "id"
        · subst hfid
          have hp : t'.data.posOf "id" k
              = if obj.get "id" = k then [] else t.data.posOf "id" k := by
            unfold TableData.posOf
            rw [hget', hid]
            by_cases hkk : obj.get "id" = k <;> simp [hkk]
          rw [hp]
          by_cases hkk : obj.get "id" = k
          · rw [if_pos hkk]
            constructor
            · intro h; simp at h
            · rintro ⟨r, hr, hrk⟩
              by_cases hpp : p = pos
              · rw [if_pos hpp] at hr; simp at hr
              · rw [if_neg hpp] at hr
                have hmem := (hI.mem_iff "id" hI.id_mem k p).2 ⟨r, hr, hrk⟩
                rw [← hkk] at hmem
                simp [TableData.posOf, hgi] at hmem
                exact absurd hmem hpp
          · rw [if_neg hkk, hI.mem_iff "id" hI.id_mem k p]
            constructor
            · rintro ⟨r, hr, hrk⟩
              by_cases hpp : p = pos
              · subst hpp
                rw [hrow] at hr
                have : obj = r := by simpa using hr
                subst this
                rw [hk] at hrk
                exact absurd hrk hkk
              · exact ⟨r, by rw [if_neg hpp]; exact hr, hrk⟩
            · rintro ⟨r, hr, hrk⟩
              by_cases hpp : p = pos
              · rw [if_pos hpp] at hr; simp at hr
              · rw [if_neg hpp] at hr
                exact ⟨r, hr, hrk⟩
        · have hp : t'.data.posOf f k = t2.data.posOf f k := by
            unfold TableData.posOf
            rw [hget']
            have : ¬ ("id" = f ∧ obj.get "id" = k) := fun h => hfid h.1.symm
            rw [if_neg this]
          rw [hp, hpos]
          by_cases ha : t.toIndexable f (obj.get f) = k
          · rw [if_pos ⟨hf, hfid, ha⟩, PosSet.mem_delete, hI.mem_iff f hf k p]
            constructor
            · rintro ⟨⟨r, hr, hrk⟩, hpp⟩
              exact ⟨r, by rw [if_neg hpp]; exact hr, hrk⟩
            · rintro ⟨r, hr, hrk⟩
              by_cases hpp : p = pos
              · rw [if_pos hpp] at hr; simp at hr
              · rw [if_neg hpp] at hr
                exact ⟨⟨r, hr, hrk⟩, hpp⟩
          · have : ¬ (f ∈ t.data.indices.keys ∧ f ≠ "id" ∧ t.toIndexable f (obj.get f) = k) :=
              fun h => ha h.2.2
            rw [if_neg this, hI.mem_iff f hf k p]
            constructor
            · rintro ⟨r, hr, hrk⟩
              by_cases hpp : p = pos
              · subst hpp
                rw [hrow] at hr
                have : obj = r := by simpa using hr
                subst this
                exact absurd hrk ha
              · exact ⟨r, by rw [if_neg hpp]; exact hr, hrk⟩
            · rintro ⟨r, hr, hrk⟩
              by_cases hpp : p = pos
              · rw [if_pos hpp] at hr; simp at hr
              · rw [if_neg hpp] at hr
                exact ⟨r, hr, hrk⟩

theorem Table.Reachable.indexInv (h : Hooks) (m : Model) (hid : "id" ∈ m.indices)
    (hplain : ∀ v, h.toIndexable m "id" v = v ∧ h.toInternal m "id" v = v)
    (t : Table) (hr : Table.Reachable h m t) : t.IndexInv := by
  induction hr with
  | reset => exact Table.reset_indexInv h m hid hplain
  | set t t' object _ hset ih => exact Table.set_indexInv t t' ih object hset
  | remove t t' q _ hrem ih => exact Table.remove_indexInv t t' ih q hrem

/-! ## Index integrity -/

theorem Table.mem_iterObjects (t : Table) (r : Rec) :
    r ∈ t.iterObjects ↔ ∃ p, t.data.row p = some r := by
  unfold Table.iterObjects TableData.row
  rw [List.mem_filterMap]
  constructor
  · rintro ⟨x, hx, hxr⟩
    obtain ⟨p, hp⟩ := List.get?_of_mem hx
    refine ⟨p, ?_⟩
    rw [hp]
    simpa using hxr
  · rintro ⟨p, hp⟩
    cases hg : t.data.objects.get? p with
    | none => rw [hg] at hp; simp at hp
    | some x =>
      rw [hg] at hp
      refine ⟨x, List.get?_mem hg, ?_⟩
      simpa using hp

theorem Table.set_frame (t t' : Table) (hI : t.IndexInv) (object : Rec)
    (hset : t.set object = .ok t') :
    t'.hooks = t.hooks ∧ t'.model = t.model ∧ t'.data.indices.keys = t.data.indices.keys := by
  have hne : isEmpty (object.get "id") = false := by
    cases he : isEmpty (object.get "id") with
    | false => rfl
    | true =>
      unfold Table.set at hset
      simp [he] at hset
  cases hg : t.data.getIndexIn "id" (object.get "id") with
  | none =>
    obtain ⟨t1, h1, hh, hm, _, hkeys, _, _⟩ := Table.set_new_spec t hI object hne hg
    rw [hset] at h1
    have : t' = t1 := Except.ok.inj h1
    subst this
    exact ⟨hh, hm, hkeys⟩
  | some ps =>
    obtain ⟨p, hp⟩ := hI.single _ ps hg
    subst hp
    have hmem : p ∈ t.data.posOf "id" (object.get "id") := by simp [TableData.posOf, hg]
    obtain ⟨ex, hrow, _⟩ := (hI.mem_iff "id" hI.id_mem _ p).1 hmem
    obtain ⟨t1, h1, hh, hm, _, hkeys, _, _⟩ :=
      Table.set_existing_spec t hI object hne p ex hg hrow
    rw [hset] at h1
    have : t' = t1 := Except.ok.inj h1
    subst this
    exact ⟨hh, hm, hkeys⟩

theorem Table.remove_frame (t t' : Table) (hI : t.IndexInv) (q : Query)
    (hrem : t.remove q = .ok t') :
    t'.hooks = t.hooks ∧ t'.model = t.model ∧ t'.data.indices.keys = t.data.indices.keys := by
  unfold Table.remove at hrem
  cases hg : t.get q false with
  | error e => rw [hg] at hrem; simp [Except.bind] at hrem
  | ok obj =>
    rw [hg] at hrem
    simp only [Except.bind] at hrem
    cases obj with
    | none =>
      have : t = t' := Except.ok.inj hrem
      rw [← this]; exact ⟨rfl, rfl, rfl⟩
    | some obj =>
      obtain ⟨pos, hrow⟩ := Table.get_some_is_row t q false obj hg
      obtain ⟨_, hidx⟩ := Table.getIndex_of_row t hI pos obj hrow
      obtain ⟨t2, ht2, hh, hm, _, hkeys, _, _⟩ :=
        Table.removeFromIndices_spec t hI pos obj hrow
      simp only [hidx, ht2, Except.map] at hrem
      have ht' := (Except.ok.inj hrem).symm
      rw [ht']
      refine ⟨hh, hm, ?_⟩
      show (t2.data.deleteIndexIn "id" (obj.get "id")).indices.keys = _
      rw [TableData.keys_deleteIndexIn _ _ _ (by rw [hkeys]; exact hI.id_mem), hkeys]

theorem Table.Reachable.frame (h : Hooks) (m : Model) (hid : "id" ∈ m.indices)
    (hplain : ∀ v, h.toIndexable m "id" v = v ∧ h.toInternal m "id" v = v)
    (t : Table) (hr : Table.Reachable h m t) :
    t.hooks = h ∧ t.model = m ∧ t.data.indices.keys = m.indices.dedup := by
  induction hr with
  | reset =>
    refine ⟨rfl, rfl, ?_⟩
    have hfun : ((fun p : String × Index => p.1) ∘ fun x => (x, ([] : Index))) = id := rfl
    simp only [Table.reset, Obj.keys, List.map_map, hfun, List.map_id]
  | set t t' object hreach hset ih =>
    have hI := Table.Reachable.indexInv h m hid hplain t hreach
    obtain ⟨h1, h2, h3⟩ := Table.set_frame t t' hI object hset
    exact ⟨h1.trans ih.1, h2.trans ih.2.1, h3.trans ih.2.2⟩
  | remove t t' q hreach hrem ih =>
    have hI := Table.Reachable.indexInv h m hid hplain t hreach
    obtain ⟨h1, h2, h3⟩ := Table.remove_frame t t' hI q hrem
    exact ⟨h1.trans ih.1, h2.trans ih.2.1, h3.trans ih.2.2⟩

/-! ## Lookups: `get`, `_filterIndices` -/

theorem oneBookTable_eq : (Table.reset plainHooks bookModel).set bookX = .ok oneBookTable :=
  rfl

theorem twoBookTable_eq : oneBookTable.set bookXCopy = .ok twoBookTable := rfl

theorem removedBookTable_eq :
    (oneBookTable.set bookW).bind (fun t => t.remove (.value (Val.str "b1")))
      = .ok removedBookTable := rfl

/-- C11: for every table and every query that is given (a query that is not falsy; a falsy
argument of `get` is no query), with `rows` the set of records `filter` finds for the
query: when exactly one record matches, `get` returns that record; when more than one
record matches, `get` throws the error of an ambiguous lookup, "Too many objects returned
in table.", whatever the flag `required` is. -/
theorem get_one_or_ambiguous (t : Table) (q : Query) (required : Bool)
    (rows : List (Option Rec)) (hq : q.falsy = false) (hf : t.filter q = .ok rows) :
    (∀ r, rows = [some r] → t.get q required = .ok (some r)) ∧
    (1 < rows.length →
      t.get q required = .error (.modelError "Too many objects returned in table.")) := by
  constructor
  · intro r hr
    subst hr
    simp [Table.get, hf, hq, Except.bind]
  · intro hlen
    have h0 : rows.length ≠ 0 := by omega
    simp [Table.get, hf, hq, Except.bind, h0, hlen]

/-- Witness of C11: the lookup by title in the table of two books of one title matches
two records, the lookup by id matches one. -/
theorem get_one_or_ambiguous_witness :
    twoBookTable.get (.fields [("title", Val.str "X")]) false
        = .error (.modelError "Too many objects returned in table.") ∧
    twoBookTable.get (.fields [("title", Val.str "X")]) true
        = .error (.modelError "Too many objects returned in table.") ∧
    twoBookTable.get (.value (Val.str "b2")) true = .ok (some bookXCopy) :=
  have h1 : twoBookTable.filter (.fields [("title", Val.str "X")])
      = .ok [some bookX, some bookXCopy] := rfl
  have h2 : twoBookTable.filter (.value (Val.str "b2")) = .ok [some bookXCopy] := rfl
  ⟨(get_one_or_ambiguous twoBookTable (.fields [("title", Val.str "X")]) false _ rfl h1).2
      (by decide),
   (get_one_or_ambiguous twoBookTable (.fields [("title", Val.str "X")]) true _ rfl h1).2
      (by decide),
   (get_one_or_ambiguous twoBookTable (.value (Val.str "b2")) true _ rfl h2).1 bookXCopy rfl⟩

/-- C12, counterexample: a lookup that matches no record and is not marked required does
not fail; `get` returns `undefined`. -/
theorem get_missing_counterexample :
    (Table.reset plainHooks bookModel).filter (.value (Val.str "b1")) = .ok [] ∧
    (Table.reset plainHooks bookModel).get (.value (Val.str "b1")) false = .ok none :=
  ⟨rfl, rfl⟩

/-- C12, amended: for every table and query that matches no record, `get` returns
`undefined` (no record and no error) when the caller did not mark the lookup required, and
throws the `ModelError` "No such object." when the caller did. -/
theorem get_missing (t : Table) (q : Query) (hf : t.filter q = .ok []) :
    t.get q false = .ok none ∧
    t.get q true = .error (.modelError "No such object.") := by
  simp [Table.get, hf, Except.bind]

/-- Witness of the amended C12: the lookup of an unknown id in the table of one book. -/
theorem get_missing_witness :
    oneBookTable.get (.value (Val.str "b9")) false = .ok none ∧
    oneBookTable.get (.value (Val.str "b9")) true = .error (.modelError "No such object.") :=
  get_missing oneBookTable (.value (Val.str "b9")) rfl

theorem oneBookTable_inv : oneBookTable.IndexInv :=
  Table.set_indexInv _ _
    (Table.reset_indexInv plainHooks bookModel (by decide) (fun _ => ⟨rfl, rfl⟩))
    bookX oneBookTable_eq

theorem twoBookTable_inv : twoBookTable.IndexInv :=
  Table.set_indexInv _ _ oneBookTable_inv bookXCopy twoBookTable_eq

/-! ### `_filterIndices`: the conjunction of field predicates -/

theorem Table.mem_reduceIndices (indices other : Option PosSet) (i : Nat) :
    i ∈ Table._reduceIndices indices other
      ↔ (∀ a, indices = some a → i ∈ a) ∧ i ∈ other.getD [] := by
  cases other with
  | none => simp [Table._reduceIndices]
  | some o =>
      cases indices with
      | none => simp [Table._reduceIndices]
      | some a => simp [Table._reduceIndices, PosSet.intersect]

theorem Table.filterIndices_single (t : Table) (p : String × Val) (isNot : Bool) :
    t._filterIndices (.fields [p]) isNot
      = (t.fieldIndices p.1 p.2 isNot).map
          (fun other => some (Table._reduceIndices none other)) := by
  simp only [Table._filterIndices, Query.toFields, List.foldlM_cons, List.foldlM_nil]
  cases t.fieldIndices p.1 p.2 isNot <;> rfl

theorem Table.foldlM_reduceIndices (t : Table) (q : Obj Val) (acc : Option PosSet)
    (hok : ∀ p ∈ q, ∃ o, t.fieldIndices p.1 p.2 false = .ok o) :
    ∃ res, q.foldlM
        (fun (results : Option PosSet) (p : String × Val) =>
          (t.fieldIndices p.1 p.2 false).map
            (fun other => some (Table._reduceIndices results other))) acc = .ok res ∧
      (acc.isSome = true ∨ q ≠ [] → res.isSome = true) ∧
      ∀ i, (∀ a, res = some a → i ∈ a)
        ↔ (∀ a, acc = some a → i ∈ a) ∧
          ∀ p ∈ q, ∃ o, t.fieldIndices p.1 p.2 false = .ok o ∧ i ∈ o.getD [] := by
  induction q generalizing acc with
  | nil =>
      refine ⟨acc, rfl, ?_, ?_⟩
      · intro h
        rcases h with h | h
        · exact h
        · exact absurd rfl h
      · intro i
        simp
  | cons p rest ih =>
      obtain ⟨o, ho⟩ := hok p (List.mem_cons_self _ _)
      obtain ⟨res, hres, hsome, hmem⟩ := ih (some (Table._reduceIndices acc o))
        (fun p' hp' => hok p' (List.mem_cons_of_mem _ hp'))
      refine ⟨res, ?_, ?_, ?_⟩
      · rw [List.foldlM_cons, ho]
        exact hres
      · intro _
        exact hsome (Or.inl rfl)
      · intro i
        rw [hmem i]
        constructor
        · rintro ⟨h1, h2⟩
          have h1' := (Table.mem_reduceIndices acc o i).1 (h1 _ rfl)
          refine ⟨h1'.1, ?_⟩
          intro p' hp'
          rcases List.mem_cons.1 hp' with h | h
          · subst h
            exact ⟨o, ho, h1'.2⟩
          · exact h2 p' h
        · rintro ⟨h1, h2⟩
          refine ⟨?_, fun p' hp' => h2 p' (List.mem_cons_of_mem _ hp')⟩
          intro a ha
          cases ha
          obtain ⟨o', ho', hi⟩ := h2 p (List.mem_cons_self _ _)
          rw [ho] at ho'
          cases ho'
          exact (Table.mem_reduceIndices acc o i).2 ⟨h1, hi⟩

theorem Table.filterIndices_fields_spec (t : Table) (q : Obj Val) (hq : q ≠ [])
    (hok : ∀ p ∈ q, ∃ o, t._filterIndices (.fields [p]) false = .ok (some o)) :
    ∃ ps, t._filterIndices (.fields q) false = .ok (some ps) ∧
      ∀ i, i ∈ ps
        ↔ ∀ p ∈ q, ∃ o, t._filterIndices (.fields [p]) false = .ok (some o) ∧ i ∈ o := by
  have hsingle : ∀ p : String × Val, ∀ o, t._filterIndices (.fields [p]) false = .ok (some o)
      ↔ ∃ o', t.fieldIndices p.1 p.2 false = .ok o' ∧ o = o'.getD [] := by
    intro p o
    rw [Table.filterIndices_single]
    cases hfi : t.fieldIndices p.1 p.2 false with
    | error e => simp [Except.map]
    | ok o' =>
        cases o' with
        | none => simp [Except.map, Table._reduceIndices, eq_comm]
        | some x => simp [Except.map, Table._reduceIndices, eq_comm]
  have hok' : ∀ p ∈ q, ∃ o, t.fieldIndices p.1 p.2 false = .ok o := by
    intro p hp
    obtain ⟨o, ho⟩ := hok p hp
    obtain ⟨o', ho', _⟩ := (hsingle p o).1 ho
    exact ⟨o', ho'⟩
  obtain ⟨res, hres, hsome, hmem⟩ := Table.foldlM_reduceIndices t q none hok'
  have hs := hsome (Or.inr hq)
  cases res with
  | none => simp at hs
  | some ps =>
      refine ⟨ps, hres, ?_⟩
      intro i
      have hm := hmem i
      simp only [Option.some.injEq, forall_eq', false_implies, implies_true, true_and,
        reduceCtorEq] at hm
      rw [hm]
      constructor
      · intro h p hp
        obtain ⟨o', ho', hi⟩ := h p hp
        exact ⟨o'.getD [], (hsingle p _).2 ⟨o', ho', rfl⟩, hi⟩
      · intro h p hp
        obtain ⟨o, ho, hi⟩ := h p hp
        obtain ⟨o', ho', heq⟩ := (hsingle p o).1 ho
        exact ⟨o', ho', heq ▸ hi⟩

/-- C13: for every table and every query object with one field or several, each of whose
field predicates can be evaluated alone, `_filterIndices` selects a set of row positions,
and a position is in it exactly when it is in the set each field predicate selects
alone: the result is the intersection.  In particular, when the set of one field is
empty (no row holds its value) the result is empty, and a query with the same fields in
another order selects the same positions. -/
theorem filterIndices_is_intersection (t : Table) (q : Obj Val) (hq : q ≠ [])
    (hok : ∀ p ∈ q, ∃ o, t._filterIndices (.fields [p]) false = .ok (some o)) :
    ∃ ps, t._filterIndices (.fields q) false = .ok (some ps) ∧
      (∀ i, i ∈ ps
        ↔ ∀ p ∈ q, ∃ o, t._filterIndices (.fields [p]) false = .ok (some o) ∧ i ∈ o) ∧
      (∀ p ∈ q, t._filterIndices (.fields [p]) false = .ok (some []) → ps = []) ∧
      (∀ q', q'.Perm q →
        ∃ ps', t._filterIndices (.fields q') false = .ok (some ps') ∧ ∀ i, i ∈ ps' ↔ i ∈ ps) := by
  obtain ⟨ps, hps, hmem⟩ := Table.filterIndices_fields_spec t q hq hok
  refine ⟨ps, hps, hmem, ?_, ?_⟩
  · intro p hp hempty
    apply List.eq_nil_iff_forall_not_mem.2
    intro i hi
    obtain ⟨o, ho, hio⟩ := (hmem i).1 hi p hp
    rw [hempty] at ho
    cases ho
    simp at hio
  · intro q' hperm
    have hq' : q' ≠ [] := by
      intro h
      subst h
      exact hq (List.Perm.eq_nil hperm.symm)
    obtain ⟨ps', hps', hmem'⟩ := Table.filterIndices_fields_spec t q' hq'
      (fun p hp => hok p (hperm.mem_iff.1 hp))
    refine ⟨ps', hps', ?_⟩
    intro i
    rw [hmem i, hmem' i]
    constructor
    · intro h p hp
      exact h p (hperm.mem_iff.2 hp)
    · intro h p hp
      exact h p (hperm.mem_iff.1 hp)

/-- Witness of C13: in the table of two books of one title, the query for the title both
hold and the id of the second, and the same query with a title no row holds. -/
theorem filterIndices_is_intersection_witness :
    (∃ ps, twoBookTable._filterIndices
        (.fields [("title", Val.str "X"), ("id", Val.str "b2")]) false = .ok (some ps) ∧
      ∀ i, i ∈ ps ↔ i = 1) ∧
    twoBookTable._filterIndices
        (.fields [("title", Val.str "Q"), ("id", Val.str "b2")]) false = .ok (some []) ∧
    twoBookTable._filterIndices
        (.fields [("id", Val.str "b2"), ("title", Val.str "Q")]) false = .ok (some []) :=
  have hok : ∀ p ∈ [("title", Val.str "X"), ("id", Val.str "b2")],
      ∃ o, twoBookTable._filterIndices (.fields [p]) false = .ok (some o) := by
    intro p hp
    simp only [List.mem_cons, List.mem_singleton, List.not_mem_nil, or_false] at hp
    rcases hp with h | h
    · exact ⟨[0, 1], by rw [h]; rfl⟩
    · exact ⟨[1], by rw [h]; rfl⟩
  ⟨(filterIndices_is_intersection twoBookTable
      [("title", Val.str "X"), ("id", Val.str "b2")] (by simp) hok).imp
      (fun ps h => ⟨h.1, fun i => by
        have h1 : twoBookTable._filterIndices
            (.fields [("title", Val.str "X"), ("id", Val.str "b2")]) false
              = .ok (some [1]) := rfl
        rw [h1] at h
        have h2 := h.1
        simp only [Except.ok.injEq, Option.some.injEq] at h2
        subst h2
        simp⟩),
   rfl, rfl⟩

/-- C14, failing runs: in the table of one book, the negated exact-match predicate on the
index field `title` with a title no row holds does not succeed: the index has no entry
for the value, and `r.has` is read on `undefined`.  In the table that holds a removed row
and `bookW`, the negated predicate for the title of `bookW` selects position `0`, the
removed row, though no live row is left unselected by the un-negated predicate. -/
theorem negated_lookup_fails :
    oneBookTable._filterIndices (.fields [("title", Val.str "Q")]) false = .ok (some []) ∧
    oneBookTable._filterIndices (.fields [("title", Val.str "Q")]) true
      = .error (.typeError "has of undefined") ∧
    removedBookTable.data.row 0 = none ∧
    removedBookTable._filterIndices (.fields [("title", Val.str "W")]) false
      = .ok (some [1]) ∧
    removedBookTable._filterIndices (.fields [("title", Val.str "W")]) true
      = .ok (some [0]) :=
  ⟨rfl, rfl, rfl, rfl, rfl⟩

/-! ## `set`, `remove` and `reId` on tables with reassigned identifiers -/

theorem Table.IndexInv.loose (t : Table) (hI : t.IndexInv) : t.LooseInv :=
  { keys_nodup := hI.keys_nodup
    id_mem := hI.id_mem
    id_plain := hI.id_plain
    single := hI.single
    own := fun p r hr => (Table.getIndex_of_row t hI p r hr).1
    mem_iff := fun f hf _ k p => hI.mem_iff f hf k p }

/-- A value that is not an object stands for the query `{id: value}`. -/
theorem Table.get_value (t : Table) (v : Val) (required : Bool) (hv : isEmpty v = false) :
    t.get (.value v) required = t.get (.fields [("id", v)]) required := by
  have htr : v.truthy = true := by
    rw [truthy_eq_not_isEmpty, hv]
    rfl
  simp [Table.get, Table.filter, Query.falsy, htr, Table._filterIndices, Query.toFields]

/-- A lookup by an `id` whose index entry is one position returns the row there. -/
theorem Table.get_id_of_entry (t : Table) (hmem : "id" ∈ t.data.indices.keys)
    (hplain : ∀ v, t.hooks.toIndexable t.model "id" v = v ∧ t.hooks.toInternal t.model "id" v = v)
    (v : Val) (p : Nat) (required : Bool) (h : t.data.getIndexIn "id" v = some [p]) :
    t.get (.fields [("id", v)]) required = .ok (t.data.row p) := by
  have hfilt := Table.filter_exact t "id" v (by decide) hmem
  have hkey : t.toIndexable "id" (t.hooks.toInternal t.model "id" v) = v := by
    unfold Table.toIndexable
    rw [(hplain v).2, (hplain v).1]
  rw [hkey] at hfilt
  unfold Table.get
  rw [hfilt]
  simp [Except.bind, TableData.posOf, h, Query.falsy]

/-- A lookup by an `id` without index entry finds nothing. -/
theorem Table.get_id_of_no_entry (t : Table) (hmem : "id" ∈ t.data.indices.keys)
    (hplain : ∀ v, t.hooks.toIndexable t.model "id" v = v ∧ t.hooks.toInternal t.model "id" v = v)
    (v : Val) (h : t.data.getIndexIn "id" v = none) :
    t.get (.fields [("id", v)]) false = .ok none := by
  have hfilt := Table.filter_exact t "id" v (by decide) hmem
  have hkey : t.toIndexable "id" (t.hooks.toInternal t.model "id" v) = v := by
    unfold Table.toIndexable
    rw [(hplain v).2, (hplain v).1]
  rw [hkey] at hfilt
  unfold Table.get
  rw [hfilt]
  simp [Except.bind, TableData.posOf, h, Query.falsy]

theorem Table.removeFromIndices_core (t : Table) (hnd : t.data.indices.keys.Nodup)
    (hplain : ∀ v, t.hooks.toIndexable t.model "id" v = v ∧ t.hooks.toInternal t.model "id" v = v)
    (p : Nat) (r : Rec)
    (hown : t.data.getIndexIn "id" (r.get "id") = some [p])
    (hent : ∀ f ∈ t.data.indices.keys, f ≠ "id" →
      (t.data.getIndexIn f (t.toIndexable f (r.get f))).isSome = true) :
    ∃ t', t._removeFromIndices r = .ok t' ∧ t'.hooks = t.hooks ∧ t'.model = t.model ∧
      t'.data.objects = t.data.objects ∧
      t'.data.indices.keys = t.data.indices.keys ∧
      (∀ k, t'.data.getIndexIn "id" k = t.data.getIndexIn "id" k) ∧
      (∀ f k, t'.data.posOf f k
          = if f ∈ t.data.indices.keys ∧ f ≠ "id" ∧ t.toIndexable f (r.get f) = k
            then PosSet.delete (t.data.posOf f k) p else t.data.posOf f k) := by
  have hidx : t._getIndex (r.get "id") = .ok p := by
    unfold Table._getIndex Table.toIndexable
    rw [(hplain _).1, hown]
    rfl
  obtain ⟨d', hd', hobj, hkeys, hid, hpos⟩ :=
    Table.foldlM_removeFromIndex_spec t r p t.data.indices.keys t.data hnd
      (fun _ h => h) hent
  refine ⟨{ t with data := d' }, ?_, rfl, rfl, hobj, hkeys, hid, hpos⟩
  unfold Table._removeFromIndices
  rw [hidx]
  simp only [Except.bind, hd', Except.map]

/-- The method `set` on a record whose `id` resolves to a live row that the `id` index
lists under its own `id` too: the row is replaced in place by the record carrying the
`id` of the row. -/
theorem Table.set_existing_core (t : Table) (hnd : t.data.indices.keys.Nodup)
    (hidm : "id" ∈ t.data.indices.keys)
    (hplain : ∀ v, t.hooks.toIndexable t.model "id" v = v ∧ t.hooks.toInternal t.model "id" v = v)
    (object : Rec) (hne : isEmpty (object.get "id") = false) (p : Nat) (ex : Rec)
    (hold : t.data.getIndexIn "id" (object.get "id") = some [p])
    (hrow : t.data.row p = some ex)
    (hown : t.data.getIndexIn "id" (ex.get "id") = some [p])
    (hent : ∀ f ∈ t.data.indices.keys, f ≠ "id" →
      (t.data.getIndexIn f (t.toIndexable f (ex.get f))).isSome = true) :
    ∃ t', t.set object = .ok t' ∧ t'.hooks = t.hooks ∧ t'.model = t.model ∧
      t'.data.objects = t.data.objects.set p (some (Obj.set object "id" (ex.get "id"))) ∧
      t'.data.indices.keys = t.data.indices.keys ∧
      (∀ k, t'.data.getIndexIn "id" k = t.data.getIndexIn "id" k) := by
  have hget : t.get (.fields [("id", object.get "id")]) false = .ok (some ex) := by
    rw [Table.get_id_of_entry t hidm hplain _ p false hold, hrow]
  have hk : t.toIndexable "id" (object.get "id") = object.get "id" := by
    unfold Table.toIndexable
    exact (hplain _).1
  have hidx : t._getIndex (object.get "id") = .ok p := by
    unfold Table._getIndex
    rw [hk, hold]
    rfl
  obtain ⟨t2, ht2, hh2, hm2, hobj2, hkeys2, hid2, _⟩ :=
    Table.removeFromIndices_core t hnd hplain p ex hown hent
  let object' : Rec := Obj.set object "id" (ex.get "id")
  let d3 : TableData := { t2.data with objects := t2.data.objects.set p (some object') }
  let t3 : Table := { t2 with data := d3 }
  have hkeys3 : d3.indices.keys = t.data.indices.keys := hkeys2
  have hidx3 : t3._getIndex (object.get "id") = .ok p := by
    unfold Table._getIndex
    have h1 : t3.toIndexable "id" (object.get "id") = object.get "id" := by
      show t3.hooks.toIndexable t3.model "id" _ = _
      show t2.hooks.toIndexable t2.model "id" _ = _
      rw [hh2, hm2]
      exact (hplain _).1
    rw [h1]
    have h2 : t3.data.getIndexIn "id" (object.get "id") = some [p] := by
      show t2.data.getIndexIn "id" (object.get "id") = _
      rw [hid2, hold]
    rw [h2]
    rfl
  have hfold := Table.foldl_addToIndex_spec t3 object' p d3.indices.keys d3
    (by rw [hkeys3]; exact hnd) (fun _ h => h)
  let d4 : TableData := d3.indices.keys.foldl (t3.addToIndex object' p) d3
  refine ⟨{ t3 with data := d4 }, ?_, hh2, hm2, ?_, ?_, ?_⟩
  · unfold Table.set
    simp only [hne, hget, Except.bind, hidx, ht2, Except.map]
    show Except.map _ (t3._getIndex (object.get "id")) = _
    rw [hidx3]
    rfl
  · show (d3.indices.keys.foldl (t3.addToIndex object' p) d3).objects = _
    rw [hfold.1]
    show t2.data.objects.set p (some object') = _
    rw [hobj2]
  · show (d3.indices.keys.foldl (t3.addToIndex object' p) d3).indices.keys = _
    rw [hfold.2.1, hkeys3]
  · intro k
    show (d3.indices.keys.foldl (t3.addToIndex object' p) d3).getIndexIn "id" k = _
    rw [hfold.2.2.1]
    exact hid2 k

theorem Table.LooseInv.entries (t : Table) (hL : t.LooseInv) (p : Nat) (r : Rec)
    (hr : t.data.row p = some r) :
    ∀ f ∈ t.data.indices.keys, f ≠ "id" →
      (t.data.getIndexIn f (t.toIndexable f (r.get f))).isSome = true := by
  intro f hf hne
  have hmem : p ∈ t.data.posOf f (t.toIndexable f (r.get f)) :=
    (hL.mem_iff f hf hne _ p).2 ⟨r, hr, rfl⟩
  cases hg : t.data.getIndexIn f (t.toIndexable f (r.get f)) with
  | none => simp [TableData.posOf, hg] at hmem
  | some x => rfl

/-- On a table whose `id` index lists one position under every key, a lookup by `id`
that finds a record finds it at the position the index lists. -/
theorem Table.LooseInv.get_some (t : Table) (hL : t.LooseInv) (v : Val) (r : Rec)
    (hv : isEmpty v = false) (hget : t.get (.value v) false = .ok (some r)) :
    ∃ p, t.data.getIndexIn "id" v = some [p] ∧ t.data.row p = some r := by
  rw [Table.get_value t v false hv] at hget
  cases hg : t.data.getIndexIn "id" v with
  | none =>
      rw [Table.get_id_of_no_entry t hL.id_mem hL.id_plain v hg] at hget
      simp at hget
  | some ps =>
      obtain ⟨p, hp⟩ := hL.single v ps hg
      subst hp
      rw [Table.get_id_of_entry t hL.id_mem hL.id_plain v p false hg] at hget
      exact ⟨p, rfl, Except.ok.inj hget⟩

/-- The method `reId(old, new)` on a table that holds a live row under `old`: the row
keeps its position and its fields but `id`, which becomes `new`; the `id` index gains
the entry of `new` and keeps every other entry, the one of `old` included; the other
indices are untouched. -/
theorem Table.reId_spec (t : Table) (hmem : "id" ∈ t.data.indices.keys)
    (hplain : ∀ v, t.hooks.toIndexable t.model "id" v = v ∧ t.hooks.toInternal t.model "id" v = v)
    (old new : Val) (p : Nat) (r : Rec)
    (hold : t.data.getIndexIn "id" old = some [p]) (hrow : t.data.row p = some r) :
    ∃ t', t.reId old new = .ok t' ∧ t'.hooks = t.hooks ∧ t'.model = t.model ∧
      t'.data.objects = t.data.objects.set p (some (Obj.set r "id" new)) ∧
      t'.data.indices.keys = t.data.indices.keys ∧
      (∀ k, t'.data.getIndexIn "id" k
          = if new = k then some [p] else t.data.getIndexIn "id" k) ∧
      (∀ f k, f ≠ "id" → t'.data.getIndexIn f k = t.data.getIndexIn f k) := by
  have hidx : t._getIndex old = .ok p := by
    unfold Table._getIndex Table.toIndexable
    rw [(hplain _).1, hold]
    rfl
  have hk : t.toIndexable "id" new = new := by
    unfold Table.toIndexable
    exact (hplain _).1
  let d := t.data.setIndexIn "id" new [p]
  have hdrow : d.row p = some r :=
    (TableData.row_congr t.data d rfl p).trans hrow
  let d' : TableData := { d with objects := d.objects.set p (some (Obj.set r "id" new)) }
  refine ⟨{ t with data := d' }, ?_, rfl, rfl, rfl, ?_, ?_, ?_⟩
  · unfold Table.reId
    rw [hidx]
    simp only [Except.bind, hk]
    show (match d.row p with
      | none => Except.error (Err.typeError "invalid keyPath")
      | some r => Except.ok _) = _
    rw [hdrow]
  · exact TableData.keys_setIndexIn _ _ _ _ hmem
  · intro k
    show d.getIndexIn "id" k = _
    rw [TableData.getIndexIn_setIndexIn]
    simp
  · intro f k hf
    show d.getIndexIn f k = _
    rw [TableData.getIndexIn_setIndexIn]
    have : ¬ ("id" = f ∧ new = k) := fun h => hf h.1.symm
    rw [if_neg this]

/-! ## `set`, `remove`, `reId`: what a call does to the rows -/

theorem Table.filter_mem_is_row (t : Table) (q : Query) (rows : List (Option Rec))
    (obj : Rec) (hf : t.filter q = .ok rows) (hmem : some obj ∈ rows) :
    ∃ pos, t.data.row pos = some obj := by
  unfold Table.filter at hf
  by_cases hq : q.falsy = true
  · rw [if_pos hq] at hf
    have hrows := Except.ok.inj hf
    subst hrows
    obtain ⟨pos, hpos⟩ := List.mem_iff_getElem?.1 hmem
    exact ⟨pos, by simp [TableData.row, hpos]⟩
  · rw [if_neg hq] at hf
    cases hfi : t._filterIndices q false with
    | error e => rw [hfi] at hf; simp [Except.bind] at hf
    | ok ps =>
      rw [hfi] at hf
      simp only [Except.bind, Table._mapIndices] at hf
      cases ps with
      | none => simp at hf
      | some ps =>
        have hf' : (ps.map (fun ii => t.data.row ii)).dedup = rows := Except.ok.inj hf
        rw [← hf', List.mem_dedup, List.mem_map] at hmem
        obtain ⟨pos, _, hpos⟩ := hmem
        exact ⟨pos, hpos⟩

/-- The method `remove` on a query that finds a live row: the row is emptied and the entry
of its `id` leaves the `id` index. -/
theorem Table.remove_spec (t : Table) (hI : t.IndexInv) (q : Query) (obj : Rec) (p : Nat)
    (hg : t.get q false = .ok (some obj)) (hrow : t.data.row p = some obj) :
    ∃ t', t.remove q = .ok t' ∧ t'.data.objects = t.data.objects.set p none ∧
      ∀ k, t'.data.getIndexIn "id" k
        = if obj.get "id" = k then none else t.data.getIndexIn "id" k := by
  obtain ⟨_, hidx⟩ := Table.getIndex_of_row t hI p obj hrow
  obtain ⟨t2, ht2, _, _, hobj, _, hid, _⟩ := Table.removeFromIndices_spec t hI p obj hrow
  let d := t2.data.deleteIndexIn "id" (obj.get "id")
  let d' : TableData := { d with objects := d.objects.set p none }
  refine ⟨{ t2 with data := d' }, ?_, ?_, ?_⟩
  · unfold Table.remove
    rw [hg]
    simp only [Except.bind, hidx, ht2, Except.map]
  · show ((t2.data.deleteIndexIn "id" (obj.get "id")).objects).set p none = _
    rw [TableData.objects_deleteIndexIn, hobj]
  · intro k
    show (t2.data.deleteIndexIn "id" (obj.get "id")).getIndexIn "id" k = _
    rw [TableData.getIndexIn_deleteIndexIn, hid]
    simp

/-- C15: for every table that satisfies the index invariant and every record whose `id`
is not empty and resolves to no row (`get(id)` finds nothing), `set` returns, and
appends the record as a new last row: the rows are the old rows followed by the record,
so that the row count grows by exactly one and every existing row is unchanged;
afterwards `get(id)` returns the record, and for every index field `f` (a plain field
name, whose value in the record has the same indexable projection in internal form)
`filter({f: record.f})` includes the record. -/
theorem set_appends_new_record (t : Table) (hI : t.IndexInv) (object : Rec)
    (hne : isEmpty (object.get "id") = false)
    (hnew : t.get (.value (object.get "id")) false = .ok none) :
    ∃ t', t.set object = .ok t' ∧
      t'.data.objects = t.data.objects ++ [some object] ∧
      t'.data.objects.length = t.data.objects.length + 1 ∧
      (∀ p, p < t.data.objects.length → t'.data.row p = t.data.row p) ∧
      t'.get (.value (object.get "id")) false = .ok (some object) ∧
      ∀ f, f ∈ t.data.indices.keys → Table.filterRegex f = none →
        t.toIndexable f (t.hooks.toInternal t.model f (object.get f))
          = t.toIndexable f (object.get f) →
        ∃ rows, t'.filter (.fields [(f, object.get f)]) = .ok rows ∧ some object ∈ rows := by
  have hnone : t.data.getIndexIn "id" (object.get "id") = none := by
    rw [Table.get_value t _ false hne] at hnew
    rcases Table.get_id_of_inv t hI (object.get "id") with h | ⟨p, r, _, _, _, h4⟩
    · exact h.1
    · rw [h4] at hnew
      simp at hnew
  obtain ⟨t', hset, hh, hm, hobj, hkeys, hid, hpos⟩ := Table.set_new_spec t hI object hne hnone
  have hI' := Table.set_indexInv t t' hI object hset
  have hrow' := TableData.row_append t.data t'.data (some object) hobj
  have hlast : t'.data.row t.data.objects.length = some object := by
    rw [hrow']
    simp
  have hentry : t'.data.getIndexIn "id" (object.get "id") = some [t.data.objects.length] := by
    rw [hid]
    simp
  refine ⟨t', hset, hobj, ?_, ?_, ?_, ?_⟩
  · rw [hobj]
    simp
  · intro p hp
    rw [hrow', if_neg (Nat.ne_of_lt hp)]
  · rw [Table.get_value t' _ false hne,
      Table.get_id_of_entry t' hI'.id_mem hI'.id_plain _ _ false hentry, hlast]
  · intro f hf hre hint
    have hf' : f ∈ t'.data.indices.keys := by rw [hkeys]; exact hf
    refine ⟨_, Table.filter_exact t' f (object.get f) hre hf', ?_⟩
    rw [List.mem_dedup, List.mem_map]
    refine ⟨t.data.objects.length, ?_, hlast⟩
    have hkey : t'.toIndexable f (t'.hooks.toInternal t'.model f (object.get f))
        = t.toIndexable f (object.get f) := by
      unfold Table.toIndexable
      rw [hh, hm]
      exact hint
    rw [hkey]
    by_cases hfid : f = "id"
    · subst hfid
      unfold TableData.posOf
      have hk : t.toIndexable "id" (object.get "id") = object.get "id" := (hI.id_plain _).1
      rw [hk, hentry]
      simp
    · rw [hpos f _ hfid, if_pos ⟨hf, rfl⟩, PosSet.mem_add]
      exact Or.inr rfl

/-- Witness of C15: `bookXCopy` is set in the table that holds `bookX` alone. -/
theorem set_appends_new_record_witness :
    ∃ t', oneBookTable.set bookXCopy = .ok t' ∧
      t'.data.objects = oneBookTable.data.objects ++ [some bookXCopy] ∧
      t'.data.objects.length = oneBookTable.data.objects.length + 1 ∧
      (∀ p, p < oneBookTable.data.objects.length → t'.data.row p = oneBookTable.data.row p) ∧
      t'.get (.value (bookXCopy.get "id")) false = .ok (some bookXCopy) ∧
      ∀ f, f ∈ oneBookTable.data.indices.keys → Table.filterRegex f = none →
        oneBookTable.toIndexable f (oneBookTable.hooks.toInternal oneBookTable.model f
            (bookXCopy.get f))
          = oneBookTable.toIndexable f (bookXCopy.get f) →
        ∃ rows, t'.filter (.fields [(f, bookXCopy.get f)]) = .ok rows
          ∧ some bookXCopy ∈ rows :=
  set_appends_new_record oneBookTable
    (Table.set_indexInv _ _
      (Table.reset_indexInv plainHooks bookModel (by decide) (fun _ => ⟨rfl, rfl⟩))
      bookX oneBookTable_eq)
    bookXCopy rfl rfl

/-- C16: for every table that satisfies the index invariant, also in the form left by
reassigned identifiers, and every record whose `id` is not empty and resolves to a live
row (`get(id)` returns the record `ex`), `set` returns, leaves the row count unchanged
and replaces that row in place by the record carrying the `id` of `ex`, not the `id`
the caller gave.  In particular, after `reId(id, new)`, for any `new`, `set` of the
record, which still carries the old `id`, stores it with `id` equal to `new` at the same
row position. -/
theorem set_existing_keeps_row_id (t : Table) (hL : t.LooseInv) (object ex : Rec)
    (hne : isEmpty (object.get "id") = false)
    (hget : t.get (.value (object.get "id")) false = .ok (some ex)) :
    (∃ t' p, t.set object = .ok t' ∧ t.data.row p = some ex ∧
      t'.data.objects.length = t.data.objects.length ∧
      t'.data.objects = t.data.objects.set p (some (Obj.set object "id" (ex.get "id"))) ∧
      t'.data.row p = some (Obj.set object "id" (ex.get "id"))) ∧
    (∀ new, ∃ t1 t2 p, t.reId (object.get "id") new = .ok t1 ∧ t1.set object = .ok t2 ∧
      t.data.row p = some ex ∧
      t2.data.objects.length = t.data.objects.length ∧
      t2.data.row p = some (Obj.set object "id" new) ∧
      ∀ q, q ≠ p → t2.data.row q = t.data.row q) := by
  obtain ⟨p, hold, hrow⟩ := Table.LooseInv.get_some t hL _ ex hne hget
  have hplt := TableData.row_lt _ _ _ hrow
  constructor
  · obtain ⟨t', hset, _, _, hobj, _, _⟩ :=
      Table.set_existing_core t hL.keys_nodup hL.id_mem hL.id_plain object hne p ex hold hrow
        (hL.own p ex hrow) (Table.LooseInv.entries t hL p ex hrow)
    refine ⟨t', p, hset, hrow, ?_, hobj, ?_⟩
    · rw [hobj, List.length_set]
    · rw [TableData.row_set t.data t'.data p _ hobj hplt, if_pos rfl]
  · intro new
    obtain ⟨t1, hre, hh1, hm1, hobj1, hkeys1, hid1, hother1⟩ :=
      Table.reId_spec t hL.id_mem hL.id_plain (object.get "id") new p ex hold hrow
    have hrow1 := TableData.row_set t.data t1.data p _ hobj1 hplt
    have hrow1p : t1.data.row p = some (Obj.set ex "id" new) := by
      rw [hrow1, if_pos rfl]
    have hplain1 : ∀ v, t1.hooks.toIndexable t1.model "id" v = v
        ∧ t1.hooks.toInternal t1.model "id" v = v := by
      rw [hh1, hm1]
      exact hL.id_plain
    have hidnew : Rec.get (Obj.set ex "id" new) "id" = new := by
      rw [Rec.get_set, if_pos rfl]
    have hold1 : t1.data.getIndexIn "id" (object.get "id") = some [p] := by
      rw [hid1]
      by_cases h : new = object.get "id"
      · rw [if_pos h]
      · rw [if_neg h, hold]
    have hown1 : t1.data.getIndexIn "id" (Rec.get (Obj.set ex "id" new) "id") = some [p] := by
      rw [hidnew, hid1, if_pos rfl]
    have hent1 : ∀ f ∈ t1.data.indices.keys, f ≠ "id" →
        (t1.data.getIndexIn f (t1.toIndexable f (Rec.get (Obj.set ex "id" new) f))).isSome
          = true := by
      intro f hf hfid
      rw [hkeys1] at hf
      have hk : t1.toIndexable f (Rec.get (Obj.set ex "id" new) f)
          = t.toIndexable f (ex.get f) := by
        unfold Table.toIndexable
        rw [hh1, hm1, Rec.get_set, if_neg (fun h => hfid h.symm)]
      rw [hk, hother1 f _ hfid]
      exact Table.LooseInv.entries t hL p ex hrow f hf hfid
    obtain ⟨t2, hset, _, _, hobj2, _, _⟩ :=
      Table.set_existing_core t1 (by rw [hkeys1]; exact hL.keys_nodup)
        (by rw [hkeys1]; exact hL.id_mem) hplain1 object hne p _ hold1 hrow1p hown1 hent1
    have hplt1 : p < t1.data.objects.length := by
      rw [hobj1, List.length_set]
      exact hplt
    have hrow2 := TableData.row_set t1.data t2.data p _ hobj2 hplt1
    refine ⟨t1, t2, p, hre, hset, hrow, ?_, ?_, ?_⟩
    · rw [hobj2, List.length_set, hobj1, List.length_set]
    · rw [hrow2, if_pos rfl, hidnew]
    · intro q hq
      rw [hrow2, if_neg hq, hrow1, if_neg hq]

/-- Witness of C16: `bookZ`, which carries the `id` of `bookX`, is set in the table that
holds `bookX`. -/
theorem set_existing_keeps_row_id_witness :
    (∃ t' p, oneBookTable.set bookZ = .ok t' ∧ oneBookTable.data.row p = some bookX ∧
      t'.data.objects.length = oneBookTable.data.objects.length ∧
      t'.data.objects
        = oneBookTable.data.objects.set p (some (Obj.set bookZ "id" (bookX.get "id"))) ∧
      t'.data.row p = some (Obj.set bookZ "id" (bookX.get "id"))) ∧
    (∀ new, ∃ t1 t2 p, oneBookTable.reId (bookZ.get "id") new = .ok t1 ∧
      t1.set bookZ = .ok t2 ∧ oneBookTable.data.row p = some bookX ∧
      t2.data.objects.length = oneBookTable.data.objects.length ∧
      t2.data.row p = some (Obj.set bookZ "id" new) ∧
      ∀ q, q ≠ p → t2.data.row q = oneBookTable.data.row q) :=
  set_existing_keeps_row_id oneBookTable (Table.IndexInv.loose _ oneBookTable_inv)
    bookZ bookX rfl rfl

/-- On a table that satisfies the strict index invariant, which holds as long as no
identifier was reassigned, and for every `id` (not empty) of a live record, `remove(id)`
returns and sets the row of that record to empty: the number of rows and every other row
are unchanged; no index lists the position any more; afterwards `get(id)` finds no
record, and no `filter`, whatever the query, returns the removed record. -/
theorem remove_tombstones_row (t : Table) (hI : t.IndexInv) (id : Val) (obj : Rec)
    (hne : isEmpty id = false) (hget : t.get (.value id) false = .ok (some obj)) :
    ∃ t' p, t.remove (.value id) = .ok t' ∧ t.data.row p = some obj ∧
      t'.data.objects = t.data.objects.set p none ∧
      t'.data.objects.length = t.data.objects.length ∧
      t'.data.row p = none ∧
      (∀ q, q ≠ p → t'.data.row q = t.data.row q) ∧
      (∀ f, f ∈ t'.data.indices.keys → ∀ k, p ∉ t'.data.posOf f k) ∧
      t'.data.getIndexIn "id" id = none ∧
      t'.get (.value id) false = .ok none ∧
      (∀ q rows, t'.filter q = .ok rows → some obj ∉ rows) := by
  obtain ⟨p, hold, hrow⟩ := Table.LooseInv.get_some t (Table.IndexInv.loose t hI) _ obj hne hget
  have hplt := TableData.row_lt _ _ _ hrow
  obtain ⟨t', hrem, hobj, hid⟩ := Table.remove_spec t hI (.value id) obj p hget hrow
  have hI' := Table.remove_indexInv t t' hI _ hrem
  have hrow' := TableData.row_set t.data t'.data p none hobj hplt
  have hrowp : t'.data.row p = none := by rw [hrow', if_pos rfl]
  have hobjid : obj.get "id" = id := by
    have h1 := (Table.getIndex_of_row t hI p obj hrow).1
    rcases Table.get_id_of_inv t hI id with h | ⟨p', r, h1', h2, h3, _⟩
    · rw [hold] at h
      simp at h
    · rw [hold] at h1'
      have hp : p = p' := by simpa using h1'
      subst hp
      rw [hrow] at h2
      have hr : obj = r := by simpa using h2
      subst hr
      exact h3
  have hnone : t'.data.getIndexIn "id" id = none := by
    rw [hid, if_pos hobjid]
  refine ⟨t', p, hrem, hrow, hobj, ?_, hrowp, ?_, ?_, hnone, ?_, ?_⟩
  · rw [hobj, List.length_set]
  · intro q hq
    rw [hrow', if_neg hq]
  · intro f hf k hmem
    obtain ⟨r, hr, _⟩ := (hI'.mem_iff f hf k p).1 hmem
    rw [hrowp] at hr
    simp at hr
  · rw [Table.get_value t' id false hne]
    exact Table.get_id_of_no_entry t' hI'.id_mem hI'.id_plain id hnone
  · intro q rows hf hmem
    obtain ⟨pos, hpos⟩ := Table.filter_mem_is_row t' q rows obj hf hmem
    by_cases hpp : pos = p
    · rw [hpp, hrowp] at hpos
      simp at hpos
    · rw [hrow', if_neg hpp] at hpos
      have h1 := (Table.getIndex_of_row t hI p obj hrow).1
      have h2 := (Table.getIndex_of_row t hI pos obj hpos).1
      rw [h1] at h2
      simp at h2
      exact hpp h2.symm

/-- An instance of `remove` on a table without reassigned identifiers: `bookX` is removed
from the table of two books of one title. -/
theorem remove_tombstones_row_witness :
    ∃ t' p, twoBookTable.remove (.value (Val.str "b1")) = .ok t' ∧
      twoBookTable.data.row p = some bookX ∧
      t'.data.objects = twoBookTable.data.objects.set p none ∧
      t'.data.objects.length = twoBookTable.data.objects.length ∧
      t'.data.row p = none ∧
      (∀ q, q ≠ p → t'.data.row q = twoBookTable.data.row q) ∧
      (∀ f, f ∈ t'.data.indices.keys → ∀ k, p ∉ t'.data.posOf f k) ∧
      t'.data.getIndexIn "id" (Val.str "b1") = none ∧
      t'.get (.value (Val.str "b1")) false = .ok none ∧
      (∀ q rows, t'.filter q = .ok rows → some bookX ∉ rows) :=
  remove_tombstones_row twoBookTable twoBookTable_inv (Val.str "b1") bookX rfl rfl

/-- C18: for every table that satisfies the index invariant, also in the form left by
reassigned identifiers, and holds a record `r` under the identifier `old`, `reId(old, new)`
returns; afterwards the row position of `r` holds `r` with `id` equal to `new` and every
other field unchanged, `get(new)` returns that record (for `new` not empty), and the row
count and every other row are unchanged. -/
theorem reId_renames_in_place (t : Table) (hL : t.LooseInv) (old new : Val) (r : Rec)
    (hne : isEmpty old = false) (hnew : isEmpty new = false)
    (hget : t.get (.value old) false = .ok (some r)) :
    ∃ t' p, t.reId old new = .ok t' ∧ t.data.row p = some r ∧
      t'.data.row p = some (Obj.set r "id" new) ∧
      Rec.get (Obj.set r "id" new) "id" = new ∧
      (∀ f, f ≠ "id" → Rec.get (Obj.set r "id" new) f = r.get f) ∧
      t'.get (.value new) false = .ok (some (Obj.set r "id" new)) ∧
      t'.data.objects.length = t.data.objects.length ∧
      (∀ q, q ≠ p → t'.data.row q = t.data.row q) := by
  obtain ⟨p, hold, hrow⟩ := Table.LooseInv.get_some t hL _ r hne hget
  have hplt := TableData.row_lt _ _ _ hrow
  obtain ⟨t', hre, hh, hm, hobj, hkeys, hid, _⟩ :=
    Table.reId_spec t hL.id_mem hL.id_plain old new p r hold hrow
  have hrow' := TableData.row_set t.data t'.data p _ hobj hplt
  have hrowp : t'.data.row p = some (Obj.set r "id" new) := by rw [hrow', if_pos rfl]
  refine ⟨t', p, hre, hrow, hrowp, ?_, ?_, ?_, ?_, ?_⟩
  · rw [Rec.get_set, if_pos rfl]
  · intro f hf
    rw [Rec.get_set, if_neg (fun h => hf h.symm)]
  · rw [Table.get_value t' new false hnew,
      Table.get_id_of_entry t' (by rw [hkeys]; exact hL.id_mem)
        (by rw [hh, hm]; exact hL.id_plain) new p false (by rw [hid, if_pos rfl]), hrowp]
  · rw [hobj, List.length_set]
  · intro q hq
    rw [hrow', if_neg hq]

/-- Witness of C18: the identifier of `bookX` is reassigned in the table of two books. -/
theorem reId_renames_in_place_witness :
    ∃ t' p, twoBookTable.reId (Val.str "b1") (Val.str "s1") = .ok t' ∧
      twoBookTable.data.row p = some bookX ∧
      t'.data.row p = some (Obj.set bookX "id" (Val.str "s1")) ∧
      Rec.get (Obj.set bookX "id" (Val.str "s1")) "id" = Val.str "s1" ∧
      (∀ f, f ≠ "id" → Rec.get (Obj.set bookX "id" (Val.str "s1")) f = bookX.get f) ∧
      t'.get (.value (Val.str "s1")) false = .ok (some (Obj.set bookX "id" (Val.str "s1"))) ∧
      t'.data.objects.length = twoBookTable.data.objects.length ∧
      (∀ q, q ≠ p → t'.data.row q = twoBookTable.data.row q) :=
  reId_renames_in_place twoBookTable (Table.IndexInv.loose _ twoBookTable_inv)
    (Val.str "b1") (Val.str "s1") bookX rfl rfl rfl

/-- C19: the old identifier is not removed by reassignment: for every table that
satisfies the index invariant, also in the form left by reassigned identifiers, and holds
a record `r` under the identifier `old`, after `reId(old, new)` the `id` index lists the
same row position under `old` and under `new`, and `get(old)` returns the record that
now carries the `id` `new`, as `get(new)` does (for `new` not empty). -/
theorem reId_keeps_old_identifier (t : Table) (hL : t.LooseInv) (old new : Val) (r : Rec)
    (hne : isEmpty old = false) (hget : t.get (.value old) false = .ok (some r)) :
    ∃ t' p, t.reId old new = .ok t' ∧
      t'.data.getIndexIn "id" old = some [p] ∧
      t'.data.getIndexIn "id" new = some [p] ∧
      t'.get (.value old) false = .ok (some (Obj.set r "id" new)) ∧
      Rec.get (Obj.set r "id" new) "id" = new ∧
      (isEmpty new = false →
        t'.get (.value new) false = .ok (some (Obj.set r "id" new))) := by
  obtain ⟨p, hold, hrow⟩ := Table.LooseInv.get_some t hL _ r hne hget
  have hplt := TableData.row_lt _ _ _ hrow
  obtain ⟨t', hre, hh, hm, hobj, hkeys, hid, _⟩ :=
    Table.reId_spec t hL.id_mem hL.id_plain old new p r hold hrow
  have hrow' := TableData.row_set t.data t'.data p _ hobj hplt
  have hrowp : t'.data.row p = some (Obj.set r "id" new) := by rw [hrow', if_pos rfl]
  have hidm : "id" ∈ t'.data.indices.keys := by rw [hkeys]; exact hL.id_mem
  have hplain : ∀ v, t'.hooks.toIndexable t'.model "id" v = v
      ∧ t'.hooks.toInternal t'.model "id" v = v := by
    rw [hh, hm]
    exact hL.id_plain
  have hold' : t'.data.getIndexIn "id" old = some [p] := by
    rw [hid]
    by_cases h : new = old
    · rw [if_pos h]
    · rw [if_neg h, hold]
  have hnew' : t'.data.getIndexIn "id" new = some [p] := by rw [hid, if_pos rfl]
  refine ⟨t', p, hre, hold', hnew', ?_, ?_, ?_⟩
  · rw [Table.get_value t' old false hne,
      Table.get_id_of_entry t' hidm hplain old p false hold', hrowp]
  · rw [Rec.get_set, if_pos rfl]
  · intro hnew
    rw [Table.get_value t' new false hnew,
      Table.get_id_of_entry t' hidm hplain new p false hnew', hrowp]

/-- Witness of C19: after the identifier of `bookX` was reassigned in the table of two
books, the old identifier still resolves. -/
theorem reId_keeps_old_identifier_witness :
    ∃ t' p, twoBookTable.reId (Val.str "b1") (Val.str "s1") = .ok t' ∧
      t'.data.getIndexIn "id" (Val.str "b1") = some [p] ∧
      t'.data.getIndexIn "id" (Val.str "s1") = some [p] ∧
      t'.get (.value (Val.str "b1")) false
        = .ok (some (Obj.set bookX "id" (Val.str "s1"))) ∧
      Rec.get (Obj.set bookX "id" (Val.str "s1")) "id" = Val.str "s1" ∧
      (isEmpty (Val.str "s1") = false →
        t'.get (.value (Val.str "s1")) false
          = .ok (some (Obj.set bookX "id" (Val.str "s1")))) :=
  reId_keeps_old_identifier twoBookTable (Table.IndexInv.loose _ twoBookTable_inv)
    (Val.str "b1") (Val.str "s1") bookX rfl rfl

/-! ## The index invariant on tables with reassigned identifiers -/

/-- The method `set` when the lookup by the `id` of the record finds nothing: the record
is appended as a new last row and entered in every index. -/
theorem Table.set_append_loose (t : Table) (hL : t.LooseInv) (object : Rec)
    (hne : isEmpty (object.get "id") = false)
    (hget : t.get (.fields [("id", object.get "id")]) false = .ok none) :
    ∃ t', t.set object = .ok t' ∧ t'.hooks = t.hooks ∧ t'.model = t.model ∧
      t'.data.objects = t.data.objects ++ [some object] ∧
      t'.data.indices.keys = t.data.indices.keys ∧
      (∀ k, t'.data.getIndexIn "id" k
          = if object.get "id" = k then some [t.data.objects.length]
            else t.data.getIndexIn "id" k) ∧
      (∀ f k, f ≠ "id" → t'.data.posOf f k
          = if f ∈ t.data.indices.keys ∧ t.toIndexable f (object.get f) = k
            then PosSet.add (t.data.posOf f k) t.data.objects.length
            else t.data.posOf f k) := by
  have hk : t.toIndexable "id" (object.get "id") = object.get "id" := by
    unfold Table.toIndexable
    exact (hL.id_plain _).1
  let d1 : TableData :=
    ({ t.data with objects := t.data.objects ++ [some object] } : TableData).setIndexIn "id"
      (object.get "id") [t.data.objects.length]
  let t1 : Table := { t with data := d1 }
  have hkeys1 : d1.indices.keys = t.data.indices.keys :=
    TableData.keys_setIndexIn _ _ _ _ hL.id_mem
  have hidx1 : t1._getIndex (object.get "id") = .ok t.data.objects.length := by
    unfold Table._getIndex
    have : t1.toIndexable "id" (object.get "id") = object.get "id" := hk
    rw [this]
    have : t1.data.getIndexIn "id" (object.get "id") = some [t.data.objects.length] := by
      show d1.getIndexIn "id" (object.get "id") = _
      rw [TableData.getIndexIn_setIndexIn]
      simp
    rw [this]
    rfl
  have hfold := Table.foldl_addToIndex_spec t1 object t.data.objects.length
    d1.indices.keys d1 (by rw [hkeys1]; exact hL.keys_nodup) (fun _ h => h)
  let d2 : TableData := d1.indices.keys.foldl (t1.addToIndex object t.data.objects.length) d1
  refine ⟨{ t1 with data := d2 }, ?_, rfl, rfl, ?_, ?_, ?_, ?_⟩
  · unfold Table.set
    simp only [hne, hget, Except.bind, hk]
    show Except.map _ (t1._getIndex (object.get "id")) = _
    rw [hidx1]
    rfl
  · show (d1.indices.keys.foldl (t1.addToIndex object t.data.objects.length) d1).objects = _
    rw [hfold.1]
    rfl
  · show (d1.indices.keys.foldl (t1.addToIndex object t.data.objects.length) d1).indices.keys = _
    rw [hfold.2.1, hkeys1]
  · intro k
    show (d1.indices.keys.foldl (t1.addToIndex object t.data.objects.length) d1).getIndexIn
      "id" k = _
    rw [hfold.2.2.1]
    show TableData.getIndexIn (TableData.setIndexIn _ _ _ _) "id" k = _
    rw [TableData.getIndexIn_setIndexIn]
    by_cases hkk : object.get "id" = k
    · simp [hkk]
    · simp only [hkk, and_false, if_false]
      rfl
  · intro f k hf
    show (d1.indices.keys.foldl (t1.addToIndex object t.data.objects.length) d1).posOf f k = _
    rw [hfold.2.2.2, hkeys1]
    have hd1 : d1.posOf f k = t.data.posOf f k := by
      show TableData.posOf (TableData.setIndexIn _ _ _ _) f k = _
      rw [TableData.posOf_setIndexIn]
      have : ¬ ("id" = f ∧ object.get "id" = k) := fun h => hf h.1.symm
      rw [if_neg this]
      rfl
    rw [hd1]
    have ht1 : t1.toIndexable f (object.get f) = t.toIndexable f (object.get f) := rfl
    rw [ht1]
    by_cases h : f ∈ t.data.indices.keys ∧ t.toIndexable f (object.get f) = k
    · rw [if_pos h, if_pos ⟨h.1, hf, h.2⟩]
    · have : ¬ (f ∈ t.data.indices.keys ∧ f ≠ "id" ∧ t.toIndexable f (object.get f) = k) :=
        fun hh => h ⟨hh.1, hh.2.2⟩
      rw [if_neg h, if_neg this]

/-- The method `set` on a record whose `id` resolves to a live row: the row is replaced in
place by the record carrying the `id` of the row, and the indices follow. -/
theorem Table.set_existing_loose (t : Table) (hL : t.LooseInv) (object : Rec)
    (hne : isEmpty (object.get "id") = false) (p : Nat) (ex : Rec)
    (hold : t.data.getIndexIn "id" (object.get "id") = some [p])
    (hrow : t.data.row p = some ex) :
    ∃ t', t.set object = .ok t' ∧ t'.hooks = t.hooks ∧ t'.model = t.model ∧
      t'.data.objects = t.data.objects.set p (some (Obj.set object "id" (ex.get "id"))) ∧
      t'.data.indices.keys = t.data.indices.keys ∧
      (∀ k, t'.data.getIndexIn "id" k = t.data.getIndexIn "id" k) ∧
      (∀ f k, f ≠ "id" → f ∈ t.data.indices.keys → ∀ q,
          q ∈ t'.data.posOf f k
            ↔ (q ∈ t.data.posOf f k ∧ q ≠ p)
              ∨ (q = p ∧ t.toIndexable f (Rec.get (Obj.set object "id" (ex.get "id")) f) = k)) := by
  have hget : t.get (.fields [("id", object.get "id")]) false = .ok (some ex) := by
    rw [Table.get_id_of_entry t hL.id_mem hL.id_plain _ p false hold, hrow]
  have hk : t.toIndexable "id" (object.get "id") = object.get "id" := by
    unfold Table.toIndexable
    exact (hL.id_plain _).1
  have hidx : t._getIndex (object.get "id") = .ok p := by
    unfold Table._getIndex
    rw [hk, hold]
    rfl
  obtain ⟨t2, ht2, hh2, hm2, hobj2, hkeys2, hid2, hpos2⟩ :=
    Table.removeFromIndices_core t hL.keys_nodup hL.id_plain p ex (hL.own p ex hrow)
      (Table.LooseInv.entries t hL p ex hrow)
  let object' : Rec := Obj.set object "id" (ex.get "id")
  let d3 : TableData := { t2.data with objects := t2.data.objects.set p (some object') }
  let t3 : Table := { t2 with data := d3 }
  have hkeys3 : d3.indices.keys = t.data.indices.keys := hkeys2
  have hidx3 : t3._getIndex (object.get "id") = .ok p := by
    unfold Table._getIndex
    have h1 : t3.toIndexable "id" (object.get "id") = object.get "id" := by
      show t3.hooks.toIndexable t3.model "id" _ = _
      show t2.hooks.toIndexable t2.model "id" _ = _
      rw [hh2, hm2]
      exact (hL.id_plain _).1
    rw [h1]
    have h2 : t3.data.getIndexIn "id" (object.get "id") = some [p] := by
      show t2.data.getIndexIn "id" (object.get "id") = _
      rw [hid2, hold]
    rw [h2]
    rfl
  have hfold := Table.foldl_addToIndex_spec t3 object' p d3.indices.keys d3
    (by rw [hkeys3]; exact hL.keys_nodup) (fun _ h => h)
  let d4 : TableData := d3.indices.keys.foldl (t3.addToIndex object' p) d3
  refine ⟨{ t3 with data := d4 }, ?_, hh2, hm2, ?_, ?_, ?_, ?_⟩
  · unfold Table.set
    simp only [hne, hget, Except.bind, hidx, ht2, Except.map]
    show Except.map _ (t3._getIndex (object.get "id")) = _
    rw [hidx3]
    rfl
  · show (d3.indices.keys.foldl (t3.addToIndex object' p) d3).objects = _
    rw [hfold.1]
    show t2.data.objects.set p (some object') = _
    rw [hobj2]
  · show (d3.indices.keys.foldl (t3.addToIndex object' p) d3).indices.keys = _
    rw [hfold.2.1, hkeys3]
  · intro k
    show (d3.indices.keys.foldl (t3.addToIndex object' p) d3).getIndexIn "id" k = _
    rw [hfold.2.2.1]
    exact hid2 k
  · intro f k hf hfk q
    show q ∈ (d3.indices.keys.foldl (t3.addToIndex object' p) d3).posOf f k ↔ _
    rw [hfold.2.2.2, hkeys3]
    have hd3 : d3.posOf f k = t2.data.posOf f k := rfl
    have ht3 : t3.toIndexable f (object'.get f) = t.toIndexable f (object'.get f) := by
      show t2.hooks.toIndexable t2.model f _ = t.hooks.toIndexable t.model f _
      rw [hh2, hm2]
    rw [hd3, ht3, hpos2]
    by_cases ha : t.toIndexable f (object'.get f) = k
    · by_cases hb : t.toIndexable f (ex.get f) = k
      · simp only [hfk, hf, ha, hb, ne_eq, not_false_eq_true, and_self, if_true,
          PosSet.mem_add, PosSet.mem_delete]
        tauto
      · simp only [hfk, hf, ha, hb, ne_eq, not_false_eq_true, and_self, and_false, if_true,
          if_false, PosSet.mem_add]
        constructor
        · rintro (h | h)
          · by_cases hqp : q = p
            · exact Or.inr ⟨hqp, trivial⟩
            · exact Or.inl ⟨h, hqp⟩
          · exact Or.inr ⟨h, trivial⟩
        · rintro (h | h)
          · exact Or.inl h.1
          · exact Or.inr h.1
    · by_cases hb : t.toIndexable f (ex.get f) = k
      · simp only [hfk, hf, ha, hb, ne_eq, not_false_eq_true, and_self, and_false, if_true,
          if_false, PosSet.mem_delete, or_false]
      · simp only [hfk, hf, ha, hb, ne_eq, not_false_eq_true, and_false, if_false, or_false]
        constructor
        · intro h
          refine ⟨h, ?_⟩
          intro hqp
          subst hqp
          obtain ⟨r, hr1, hr2⟩ := (hL.mem_iff f hfk hf k q).1 h
          rw [hrow] at hr1
          have : ex = r := by simpa using hr1
          subst this
          exact hb hr2
        · exact fun h => h.1

/-! ## `set`, `remove` and `reId` keep the index invariant of renamed tables -/

theorem Table.set_id_not_empty (t t1 : Table) (object : Rec)
    (hset : t.set object = .ok t1) : isEmpty (object.get "id") = false := by
  cases he : isEmpty (object.get "id") with
  | false => rfl
  | true =>
    unfold Table.set at hset
    simp [he] at hset

theorem Table.set_append_inv (t t1 : Table) (olds : List Val) (hL : t.LooseInv)
    (hS : t.StaleWithin olds) (object : Rec)
    (hget : t.get (.fields [("id", object.get "id")]) false = .ok none)
    (hnolive : ∀ q r, t.data.row q = some r → r.get "id" ≠ object.get "id")
    (hset : t.set object = .ok t1) :
    t1.LooseInv ∧ t1.StaleWithin olds ∧ t1.hooks = t.hooks ∧ t1.model = t.model ∧
      t1.data.indices.keys = t.data.indices.keys := by
  have hne := Table.set_id_not_empty t t1 object hset
  obtain ⟨t2, h1, hh, hm, hobj, hkeys, hidx, hpos⟩ :=
    Table.set_append_loose t hL object hne hget
  rw [hset] at h1
  have : t1 = t2 := Except.ok.inj h1
  subst this
  have hk' : ∀ f v, t1.toIndexable f v = t.toIndexable f v := by
    intro f v
    unfold Table.toIndexable
    rw [hh, hm]
  have hrow := TableData.row_append t.data t1.data (some object) hobj
  refine ⟨⟨?_, ?_, ?_, ?_, ?_, ?_⟩, ?_, hh, hm, hkeys⟩
  · rw [hkeys]; exact hL.keys_nodup
  · rw [hkeys]; exact hL.id_mem
  · rw [hh, hm]; exact hL.id_plain
  · intro k ps hps
    rw [hidx] at hps
    by_cases hkk : object.get "id" = k
    · rw [if_pos hkk] at hps
      exact ⟨_, (Option.some.inj hps).symm⟩
    · rw [if_neg hkk] at hps
      exact hL.single k ps hps
  · intro q r hr
    rw [hrow] at hr
    rw [hidx]
    by_cases hql : q = t.data.objects.length
    · rw [if_pos hql] at hr
      have : object = r := Option.some.inj hr
      subst this
      rw [if_pos rfl, hql]
    · rw [if_neg hql] at hr
      rw [if_neg (fun e => hnolive q r hr e.symm)]
      exact hL.own q r hr
  · intro f hf hfid k q
    rw [hkeys] at hf
    rw [hrow]
    simp only [hk']
    rw [hpos f k hfid]
    by_cases ha : t.toIndexable f (object.get f) = k
    · rw [if_pos ⟨hf, ha⟩, PosSet.mem_add, hL.mem_iff f hf hfid k q]
      constructor
      · rintro (⟨r, hr, hrk⟩ | hq)
        · have hql : q ≠ t.data.objects.length :=
            Nat.ne_of_lt (TableData.row_lt _ _ _ hr)
          exact ⟨r, by rw [if_neg hql]; exact hr, hrk⟩
        · exact ⟨object, by rw [if_pos hq], ha⟩
      · rintro ⟨r, hr, hrk⟩
        by_cases hql : q = t.data.objects.length
        · exact Or.inr hql
        · rw [if_neg hql] at hr
          exact Or.inl ⟨r, hr, hrk⟩
    · have : ¬ (f ∈ t.data.indices.keys ∧ t.toIndexable f (object.get f) = k) :=
        fun h => ha h.2
      rw [if_neg this, hL.mem_iff f hf hfid k q]
      constructor
      · rintro ⟨r, hr, hrk⟩
        have hql : q ≠ t.data.objects.length :=
          Nat.ne_of_lt (TableData.row_lt _ _ _ hr)
        exact ⟨r, by rw [if_neg hql]; exact hr, hrk⟩
      · rintro ⟨r, hr, hrk⟩
        by_cases hql : q = t.data.objects.length
        · rw [if_pos hql] at hr
          have : object = r := by simpa using hr
          subst this
          exact absurd hrk ha
        · rw [if_neg hql] at hr
          exact ⟨r, hr, hrk⟩
  · intro v p hv
    rw [hidx] at hv
    by_cases hkk : object.get "id" = v
    · rw [if_pos hkk] at hv
      have hp : t.data.objects.length = p := by
        have := Option.some.inj hv
        exact List.head_eq_of_cons_eq this
      refine Or.inl ⟨object, ?_, hkk⟩
      rw [hrow, if_pos hp.symm]
    · rw [if_neg hkk] at hv
      rcases hS v p hv with ⟨r, hr, hrv⟩ | hold
      · have hql : p ≠ t.data.objects.length :=
          Nat.ne_of_lt (TableData.row_lt _ _ _ hr)
        exact Or.inl ⟨r, by rw [hrow, if_neg hql]; exact hr, hrv⟩
      · exact Or.inr hold

theorem Table.set_existing_inv (t t1 : Table) (olds : List Val) (hL : t.LooseInv)
    (hS : t.StaleWithin olds) (object : Rec) (p : Nat) (ex : Rec)
    (hold : t.data.getIndexIn "id" (object.get "id") = some [p])
    (hrowp : t.data.row p = some ex)
    (hset : t.set object = .ok t1) :
    t1.LooseInv ∧ t1.StaleWithin olds ∧ t1.hooks = t.hooks ∧ t1.model = t.model ∧
      t1.data.indices.keys = t.data.indices.keys := by
  have hne := Table.set_id_not_empty t t1 object hset
  obtain ⟨t2, h1, hh, hm, hobj, hkeys, hidx, hpos⟩ :=
    Table.set_existing_loose t hL object hne p ex hold hrowp
  rw [hset] at h1
  have : t1 = t2 := Except.ok.inj h1
  subst this
  have hk' : ∀ f v, t1.toIndexable f v = t.toIndexable f v := by
    intro f v
    unfold Table.toIndexable
    rw [hh, hm]
  have hplt := TableData.row_lt _ _ _ hrowp
  have hrow := TableData.row_set t.data t1.data p _ hobj hplt
  have hidnew : Rec.get (Obj.set object "id" (ex.get "id")) "id" = ex.get "id" := by
    rw [Rec.get_set, if_pos rfl]
  refine ⟨⟨?_, ?_, ?_, ?_, ?_, ?_⟩, ?_, hh, hm, hkeys⟩
  · rw [hkeys]; exact hL.keys_nodup
  · rw [hkeys]; exact hL.id_mem
  · rw [hh, hm]; exact hL.id_plain
  · intro k ps hps
    rw [hidx] at hps
    exact hL.single k ps hps
  · intro q r hr
    rw [hrow] at hr
    rw [hidx]
    by_cases hqp : q = p
    · rw [if_pos hqp] at hr
      have : Obj.set object "id" (ex.get "id") = r := Option.some.inj hr
      subst this
      rw [hidnew, hqp]
      exact hL.own p ex hrowp
    · rw [if_neg hqp] at hr
      exact hL.own q r hr
  · intro f hf hfid k q
    rw [hkeys] at hf
    rw [hrow]
    simp only [hk']
    rw [hpos f k hfid hf q, hL.mem_iff f hf hfid k q]
    by_cases hqp : q = p
    · subst hqp
      rw [if_pos rfl]
      constructor
      · rintro (⟨_, h2⟩ | ⟨_, h2⟩)
        · exact absurd rfl h2
        · exact ⟨_, rfl, h2⟩
      · rintro ⟨r, hr, hrk⟩
        have : Obj.set object "id" (ex.get "id") = r := by simpa using hr
        subst this
        exact Or.inr ⟨rfl, hrk⟩
    · rw [if_neg hqp]
      constructor
      · rintro (⟨h1, _⟩ | ⟨h1, _⟩)
        · exact h1
        · exact absurd h1 hqp
      · intro h
        exact Or.inl ⟨h, hqp⟩
  · intro v q hv
    rw [hidx] at hv
    rcases hS v q hv with ⟨r, hr, hrv⟩ | hin
    · by_cases hqp : q = p
      · subst hqp
        rw [hrowp] at hr
        have : ex = r := Option.some.inj hr
        subst this
        exact Or.inl ⟨_, by rw [hrow, if_pos rfl], by rw [hidnew]; exact hrv⟩
      · exact Or.inl ⟨r, by rw [hrow, if_neg hqp]; exact hr, hrv⟩
    · exact Or.inr hin

/-- The method `set` keeps the index invariant of a renamed table. -/
theorem Table.set_looseInv (t t1 : Table) (olds : List Val) (hL : t.LooseInv)
    (hS : t.StaleWithin olds) (object : Rec) (hset : t.set object = .ok t1) :
    t1.LooseInv ∧ t1.StaleWithin olds ∧ t1.hooks = t.hooks ∧ t1.model = t.model ∧
      t1.data.indices.keys = t.data.indices.keys := by
  cases hg : t.data.getIndexIn "id" (object.get "id") with
  | none =>
      refine Table.set_append_inv t t1 olds hL hS object
        (Table.get_id_of_no_entry t hL.id_mem hL.id_plain _ hg) ?_ hset
      intro q r hr hrid
      have := hL.own q r hr
      rw [hrid, hg] at this
      cases this
  | some ps =>
      obtain ⟨p, hp⟩ := hL.single _ ps hg
      subst hp
      cases hrow : t.data.row p with
      | none =>
          refine Table.set_append_inv t t1 olds hL hS object ?_ ?_ hset
          · rw [Table.get_id_of_entry t hL.id_mem hL.id_plain _ p false hg, hrow]
          · intro q r hr hrid
            have := hL.own q r hr
            rw [hrid, hg] at this
            have hqp : p = q := List.head_eq_of_cons_eq (Option.some.inj this)
            rw [← hqp, hrow] at hr
            cases hr
      | some ex => exact Table.set_existing_inv t t1 olds hL hS object p ex hg hrow hset

/-- The method `remove` keeps the index invariant of a renamed table. -/
theorem Table.remove_looseInv (t t1 : Table) (olds : List Val) (hL : t.LooseInv)
    (hS : t.StaleWithin olds) (q : Query) (hrem : t.remove q = .ok t1) :
    t1.LooseInv ∧ t1.StaleWithin olds ∧ t1.hooks = t.hooks ∧ t1.model = t.model ∧
      t1.data.indices.keys = t.data.indices.keys := by
  unfold Table.remove at hrem
  cases hg : t.get q false with
  | error e => rw [hg] at hrem; simp [Except.bind] at hrem
  | ok obj =>
    rw [hg] at hrem
    simp only [Except.bind] at hrem
    cases obj with
    | none =>
      have : t = t1 := Except.ok.inj hrem
      rw [← this]; exact ⟨hL, hS, rfl, rfl, rfl⟩
    | some obj =>
      obtain ⟨pos, hrow⟩ := Table.get_some_is_row t q false obj hg
      have hgi := hL.own pos obj hrow
      have hidx : t._getIndex (obj.get "id") = .ok pos := by
        unfold Table._getIndex Table.toIndexable
        rw [(hL.id_plain _).1, hgi]
        rfl
      obtain ⟨t2, ht2, hh, hm, hobj, hkeys, hid, hpos⟩ :=
        Table.removeFromIndices_core t hL.keys_nodup hL.id_plain pos obj hgi
          (Table.LooseInv.entries t hL pos obj hrow)
      simp only [hidx, ht2, Except.map] at hrem
      have ht' := (Except.ok.inj hrem).symm
      have hplt := TableData.row_lt _ _ _ hrow
      have hobj' : t1.data.objects = t.data.objects.set pos none := by
        rw [ht']
        show ((t2.data.deleteIndexIn "id" (obj.get "id")).objects).set pos none = _
        rw [TableData.objects_deleteIndexIn, hobj]
      have hkeys' : t1.data.indices.keys = t.data.indices.keys := by
        rw [ht']
        show (t2.data.deleteIndexIn "id" (obj.get "id")).indices.keys = _
        rw [TableData.keys_deleteIndexIn _ _ _ (by rw [hkeys]; exact hL.id_mem), hkeys]
      have hget' : ∀ f k, t1.data.getIndexIn f k
          = if "id" = f ∧ obj.get "id" = k then none else t2.data.getIndexIn f k := by
        intro f k
        rw [ht']
        show (t2.data.deleteIndexIn "id" (obj.get "id")).getIndexIn f k = _
        rw [TableData.getIndexIn_deleteIndexIn]
      have hh' : t1.hooks = t.hooks := by
        rw [ht']
        exact hh
      have hm' : t1.model = t.model := by
        rw [ht']
        exact hm
      have hk' : ∀ f v, t1.toIndexable f v = t.toIndexable f v := by
        intro f v
        unfold Table.toIndexable
        rw [hh', hm']
      have hrow' := TableData.row_set t.data t1.data pos none hobj' hplt
      have hidget : ∀ k, t1.data.getIndexIn "id" k
          = if obj.get "id" = k then none else t.data.getIndexIn "id" k := by
        intro k
        rw [hget', hid]
        by_cases hkk : obj.get "id" = k <;> simp [hkk]
      refine ⟨⟨?_, ?_, ?_, ?_, ?_, ?_⟩, ?_, hh', hm', hkeys'⟩
      · rw [hkeys']; exact hL.keys_nodup
      · rw [hkeys']; exact hL.id_mem
      · rw [hh', hm']; exact hL.id_plain
      · intro k ps hps
        rw [hidget] at hps
        by_cases hkk : obj.get "id" = k
        · rw [if_pos hkk] at hps; cases hps
        · rw [if_neg hkk] at hps
          exact hL.single k ps hps
      · intro p r hr
        rw [hrow'] at hr
        by_cases hpp : p = pos
        · rw [if_pos hpp] at hr; cases hr
        · rw [if_neg hpp] at hr
          have hown := hL.own p r hr
          rw [hidget]
          have hne : obj.get "id" ≠ r.get "id" := by
            intro e
            rw [← e, hgi] at hown
            exact hpp (List.head_eq_of_cons_eq (Option.some.inj hown)).symm
          rw [if_neg hne]
          exact hown
      · intro f hf hfid k p
        rw [hkeys'] at hf
        rw [hrow']
        simp only [hk']
        have hp : t1.data.posOf f k = t2.data.posOf f k := by
          unfold TableData.posOf
          rw [hget']
          have : ¬ ("id" = f ∧ obj.get "id" = k) := fun h => hfid h.1.symm
          rw [if_neg this]
        rw [hp, hpos]
        by_cases ha : t.toIndexable f (obj.get f) = k
        · rw [if_pos ⟨hf, hfid, ha⟩, PosSet.mem_delete, hL.mem_iff f hf hfid k p]
          constructor
          · rintro ⟨⟨r, hr, hrk⟩, hpp⟩
            exact ⟨r, by rw [if_neg hpp]; exact hr, hrk⟩
          · rintro ⟨r, hr, hrk⟩
            by_cases hpp : p = pos
            · rw [if_pos hpp] at hr; simp at hr
            · rw [if_neg hpp] at hr
              exact ⟨⟨r, hr, hrk⟩, hpp⟩
        · have : ¬ (f ∈ t.data.indices.keys ∧ f ≠ "id" ∧ t.toIndexable f (obj.get f) = k) :=
            fun h => ha h.2.2
          rw [if_neg this, hL.mem_iff f hf hfid k p]
          constructor
          · rintro ⟨r, hr, hrk⟩
            by_cases hpp : p = pos
            · subst hpp
              rw [hrow] at hr
              have : obj = r := by simpa using hr
              subst this
              exact absurd hrk ha
            · exact ⟨r, by rw [if_neg hpp]; exact hr, hrk⟩
          · rintro ⟨r, hr, hrk⟩
            by_cases hpp : p = pos
            · rw [if_pos hpp] at hr; simp at hr
            · rw [if_neg hpp] at hr
              exact ⟨r, hr, hrk⟩
      · intro v p hv
        rw [hidget] at hv
        by_cases hkk : obj.get "id" = v
        · rw [if_pos hkk] at hv; cases hv
        · rw [if_neg hkk] at hv
          rcases hS v p hv with ⟨r, hr, hrv⟩ | hin
          · by_cases hpp : p = pos
            · subst hpp
              rw [hrow] at hr
              have : obj = r := Option.some.inj hr
              subst this
              exact absurd hrv hkk
            · exact Or.inl ⟨r, by rw [hrow', if_neg hpp]; exact hr, hrv⟩
          · exact Or.inr hin

/-- The method `reId(old, new)` keeps the index invariant of a renamed table, when the
`id` index lists `old` at the position of a record and does not list `new`; the `id` the
record had joins the reassigned identifiers. -/
theorem Table.reId_looseInv (t t1 : Table) (olds : List Val) (hL : t.LooseInv)
    (hS : t.StaleWithin olds) (old new : Val) (p : Nat) (r : Rec)
    (hold : t.data.getIndexIn "id" old = some [p]) (hrow : t.data.row p = some r)
    (hfresh : t.data.getIndexIn "id" new = none)
    (hre : t.reId old new = .ok t1) :
    t1.LooseInv ∧ t1.StaleWithin (r.get "id" :: olds) ∧ t1.hooks = t.hooks ∧ t1.model = t.model ∧
      t1.data.indices.keys = t.data.indices.keys := by
  obtain ⟨t2, h1, hh, hm, hobj, hkeys, hidx, hoth⟩ :=
    Table.reId_spec t hL.id_mem hL.id_plain old new p r hold hrow
  rw [hre] at h1
  have : t1 = t2 := Except.ok.inj h1
  subst this
  have hk' : ∀ f v, t1.toIndexable f v = t.toIndexable f v := by
    intro f v
    unfold Table.toIndexable
    rw [hh, hm]
  have hplt := TableData.row_lt _ _ _ hrow
  have hrow' := TableData.row_set t.data t1.data p _ hobj hplt
  have hposOf : ∀ f k, f ≠ "id" → t1.data.posOf f k = t.data.posOf f k := by
    intro f k hf
    unfold TableData.posOf
    rw [hoth f k hf]
  refine ⟨⟨?_, ?_, ?_, ?_, ?_, ?_⟩, ?_, hh, hm, hkeys⟩
  · rw [hkeys]; exact hL.keys_nodup
  · rw [hkeys]; exact hL.id_mem
  · rw [hh, hm]; exact hL.id_plain
  · intro k ps hps
    rw [hidx] at hps
    by_cases hkk : new = k
    · rw [if_pos hkk] at hps
      exact ⟨_, (Option.some.inj hps).symm⟩
    · rw [if_neg hkk] at hps
      exact hL.single k ps hps
  · intro q x hx
    rw [hrow'] at hx
    rw [hidx]
    by_cases hqp : q = p
    · rw [if_pos hqp] at hx
      have : Obj.set r "id" new = x := Option.some.inj hx
      subst this
      rw [Rec.get_set, if_pos rfl, if_pos rfl, hqp]
    · rw [if_neg hqp] at hx
      have hown := hL.own q x hx
      have hne : new ≠ x.get "id" := by
        intro e
        rw [← e, hfresh] at hown
        cases hown
      rw [if_neg hne]
      exact hown
  · intro f hf hfid k q
    rw [hkeys] at hf
    rw [hrow', hposOf f k hfid, hL.mem_iff f hf hfid k q]
    simp only [hk']
    by_cases hqp : q = p
    · subst hqp
      rw [if_pos rfl, hrow]
      have hsame : Rec.get (Obj.set r "id" new) f = r.get f := by
        rw [Rec.get_set, if_neg (fun e => hfid e.symm)]
      constructor
      · rintro ⟨x, hx, hxk⟩
        have : r = x := Option.some.inj hx
        subst this
        exact ⟨_, rfl, by rw [hsame]; exact hxk⟩
      · rintro ⟨x, hx, hxk⟩
        have : Obj.set r "id" new = x := Option.some.inj hx
        subst this
        rw [hsame] at hxk
        exact ⟨r, rfl, hxk⟩
    · rw [if_neg hqp]
  · intro v q hv
    rw [hidx] at hv
    by_cases hkk : new = v
    · rw [if_pos hkk] at hv
      have hqp : p = q := List.head_eq_of_cons_eq (Option.some.inj hv)
      refine Or.inl ⟨Obj.set r "id" new, ?_, ?_⟩
      · rw [hrow', if_pos hqp.symm]
      · rw [Rec.get_set, if_pos rfl]
        exact hkk
    · rw [if_neg hkk] at hv
      rcases hS v q hv with ⟨x, hx, hxv⟩ | hin
      · by_cases hqp : q = p
        · subst hqp
          rw [hrow] at hx
          have : r = x := Option.some.inj hx
          subst this
          refine Or.inr ?_
          rw [← hxv]
          exact List.mem_cons_self _ _
        · exact Or.inl ⟨x, by rw [hrow', if_neg hqp]; exact hx, hxv⟩
      · exact Or.inr (List.mem_cons_of_mem _ hin)

theorem Table.reset_looseInv (h : Hooks) (m : Model) (hid : "id" ∈ m.indices)
    (hplain : ∀ v, h.toIndexable m "id" v = v ∧ h.toInternal m "id" v = v) :
    (Table.reset h m).LooseInv ∧ (Table.reset h m).StaleWithin [] := by
  have hI := Table.reset_indexInv h m hid hplain
  refine ⟨hI.loose, ?_⟩
  intro v p hv
  have hmem : p ∈ (Table.reset h m).data.posOf "id" v := by
    simp [TableData.posOf, hv]
  obtain ⟨r, hr, _⟩ := (hI.mem_iff "id" hI.id_mem v p).1 hmem
  simp [TableData.row, Table.reset] at hr

/-- Every renamed table satisfies the index invariant that allows entries of reassigned
identifiers, and holds such entries under reassigned identifiers only. -/
theorem Table.Renamed.inv (h : Hooks) (m : Model) (hid : "id" ∈ m.indices)
    (hplain : ∀ v, h.toIndexable m "id" v = v ∧ h.toInternal m "id" v = v)
    (olds : List Val) (t : Table) (hr : Table.Renamed h m olds t) :
    t.LooseInv ∧ t.StaleWithin olds ∧ t.hooks = h ∧ t.model = m ∧
      t.data.indices.keys = m.indices.dedup := by
  induction hr with
  | reset =>
      obtain ⟨h1, h2⟩ := Table.reset_looseInv h m hid hplain
      refine ⟨h1, h2, rfl, rfl, ?_⟩
      have hfun : ((fun p : String × Index => p.1) ∘ fun x => (x, ([] : Index))) = id := rfl
      simp only [Table.reset, Obj.keys, List.map_map, hfun, List.map_id]
  | set olds t t1 object _ hset ih =>
      obtain ⟨a1, a2, a3, a4, a5⟩ := Table.set_looseInv t t1 olds ih.1 ih.2.1 object hset
      exact ⟨a1, a2, a3.trans ih.2.2.1, a4.trans ih.2.2.2.1, a5.trans ih.2.2.2.2⟩
  | remove olds t t1 q _ hrem ih =>
      obtain ⟨a1, a2, a3, a4, a5⟩ := Table.remove_looseInv t t1 olds ih.1 ih.2.1 q hrem
      exact ⟨a1, a2, a3.trans ih.2.2.1, a4.trans ih.2.2.2.1, a5.trans ih.2.2.2.2⟩
  | reId olds t t1 old new p r _ hold hrow hfresh hre ih =>
      obtain ⟨a1, a2, a3, a4, a5⟩ :=
        Table.reId_looseInv t t1 olds ih.1 ih.2.1 old new p r hold hrow hfresh hre
      exact ⟨a1, a2, a3.trans ih.2.2.1, a4.trans ih.2.2.2.1, a5.trans ih.2.2.2.2⟩

/-- On a renamed table every call `reId(old, new)` that returns, with `new` not in the
`id` index, is a step of `Table.Renamed`: the `id` index lists `old` at the position of
a record. -/
theorem Table.Renamed.of_reId (h : Hooks) (m : Model) (hid : "id" ∈ m.indices)
    (hplain : ∀ v, h.toIndexable m "id" v = v ∧ h.toInternal m "id" v = v)
    (olds : List Val) (t t1 : Table) (hr : Table.Renamed h m olds t) (old new : Val)
    (hfresh : t.data.getIndexIn "id" new = none) (hre : t.reId old new = .ok t1) :
    ∃ v, Table.Renamed h m (v :: olds) t1 := by
  obtain ⟨hL, _, _, _, _⟩ := Table.Renamed.inv h m hid hplain olds t hr
  have hk : t.toIndexable "id" old = old := (hL.id_plain old).1
  have hkn : t.toIndexable "id" new = new := (hL.id_plain new).1
  unfold Table.reId Table._getIndex at hre
  rw [hk, hkn] at hre
  cases hg : t.data.getIndexIn "id" old with
  | none => rw [hg] at hre; simp [Except.bind] at hre
  | some ps =>
    obtain ⟨p, hp⟩ := hL.single old ps hg
    subst hp
    rw [hg] at hre
    simp only [List.head?_cons, Except.bind] at hre
    cases hrow : (t.data.setIndexIn "id" new [p]).row p with
    | none => rw [hrow] at hre; simp at hre
    | some r =>
      have hrow1 : t.data.row p = some r := by
        rw [← hrow]
        rfl
      refine ⟨r.get "id", Table.Renamed.reId olds t t1 old new p r hr hg hrow1 hfresh ?_⟩
      unfold Table.reId Table._getIndex
      rw [hk, hkn, hg]
      simp only [List.head?_cons, Except.bind]
      exact hre

/-- C3, counterexample: on the table reached from the empty table by `set(bookX)` and
`reId('b1', 's1')`, `filter({id: 'b1'})` returns one record, and its `id` is `s1`. -/
theorem index_integrity_counterexample :
    ((Table.reset plainHooks bookModel).set bookX).bind
        (fun t => (t.reId (Val.str "b1") (Val.str "s1")).bind
          (fun t => t.filter (.fields [("id", Val.str "b1")])))
      = .ok [some (Obj.set bookX "id" (Val.str "s1"))] ∧
    Rec.get (Obj.set bookX "id" (Val.str "s1")) "id" ≠ Val.str "b1" := by
  constructor
  · rfl
  · decide

/-- C3, amended: on every table reached from an empty table by calls of `set`, `remove`
and `reId`, where `reId` is given a new `id` that the `id` index does not list, for every
index field `f` (including `id`) and value `v`, `filter({f: v})` returns, and every live
record whose field `f` equals `v` is returned.  When `f` is not `id`, or `v` is not one of
the identifiers `olds` that a `reId` took from a record, or `v` is the `id` of a live
record, `filter({f: v})` returns exactly the live records whose field `f` equals `v`:
every returned row is then a live record with that field value.  Field and value are
compared as the index compares them, by their indexable projection; `id` is indexed by
its own value (and is an index field, which the constructor requires), and `f` is a plain
field name, not a `field__predicate` key. -/
theorem index_integrity (h : Hooks) (m : Model) (hid : "id" ∈ m.indices)
    (hplain : ∀ v, h.toIndexable m "id" v = v ∧ h.toInternal m "id" v = v)
    (olds : List Val) (t : Table) (hr : Table.Renamed h m olds t)
    (f : String) (hf : f ∈ m.indices) (hre : Table.filterRegex f = none) (v : Val) :
    ∃ rows, t.filter (.fields [(f, v)]) = .ok rows ∧
      (∀ r, r ∈ t.iterObjects →
        h.toIndexable m f (r.get f) = h.toIndexable m f (h.toInternal m f v) →
          some r ∈ rows) ∧
      ((f ≠ "id" ∨ v ∉ olds ∨ ∃ r, r ∈ t.iterObjects ∧ r.get "id" = v) →
        ∀ row, row ∈ rows
          ↔ ∃ r, row = some r ∧ r ∈ t.iterObjects
              ∧ h.toIndexable m f (r.get f) = h.toIndexable m f (h.toInternal m f v)) := by
  obtain ⟨hL, hS, hh, hm, hkeys⟩ := Table.Renamed.inv h m hid hplain olds t hr
  have hfk : f ∈ t.data.indices.keys := by
    rw [hkeys]; exact List.mem_dedup.2 hf
  refine ⟨_, Table.filter_exact t f v hre hfk, ?_, ?_⟩
  · intro r hmem hkey
    obtain ⟨p, hp⟩ := (Table.mem_iterObjects t r).1 hmem
    rw [List.mem_dedup, List.mem_map]
    refine ⟨p, ?_, hp⟩
    have hkey1 : t.toIndexable f (r.get f)
        = t.toIndexable f (t.hooks.toInternal t.model f v) := by
      unfold Table.toIndexable
      rw [hh, hm]
      exact hkey
    by_cases hfid : f = "id"
    · subst hfid
      have hown := hL.own p r hp
      rw [← hkey1]
      have : t.toIndexable "id" (r.get "id") = r.get "id" := (hL.id_plain _).1
      rw [this]
      unfold TableData.posOf
      rw [hown]
      simp
    · exact (hL.mem_iff f hfk hfid _ p).2 ⟨r, hp, hkey1⟩
  · intro hcase row
    rw [List.mem_dedup, List.mem_map]
    have hti : ∀ x, t.toIndexable f x = h.toIndexable m f x := by
      intro x
      unfold Table.toIndexable
      rw [hh, hm]
    constructor
    · rintro ⟨p, hp, hrow⟩
      by_cases hfid : f = "id"
      · subst hfid
        have hkv : t.toIndexable "id" (t.hooks.toInternal t.model "id" v) = v := by
          rw [(hL.id_plain _).2]
          exact (hL.id_plain _).1
        have hkv1 : h.toIndexable m "id" (h.toInternal m "id" v) = v := by
          rw [(hplain _).2]
          exact (hplain _).1
        rw [hkv] at hp
        unfold TableData.posOf at hp
        cases hg : t.data.getIndexIn "id" v with
        | none => rw [hg] at hp; simp at hp
        | some ps =>
          obtain ⟨q, hq⟩ := hL.single v ps hg
          subst hq
          rw [hg] at hp
          have hpq : p = q := by simpa using hp
          subst hpq
          have hlive : ∃ r, t.data.row p = some r ∧ r.get "id" = v := by
            rcases hcase with hne | hnot | ⟨r, hmem, hrv⟩
            · exact absurd rfl hne
            · rcases hS v p hg with hl | hin
              · exact hl
              · exact absurd hin hnot
            · obtain ⟨q, hq⟩ := (Table.mem_iterObjects t r).1 hmem
              have hown := hL.own q r hq
              rw [hrv, hg] at hown
              have hpq : p = q := List.head_eq_of_cons_eq (Option.some.inj hown)
              subst hpq
              exact ⟨r, hq, hrv⟩
          obtain ⟨r, hr1, hr2⟩ := hlive
          refine ⟨r, ?_, (Table.mem_iterObjects t r).2 ⟨p, hr1⟩, ?_⟩
          · rw [← hrow, hr1]
          · rw [hkv1, (hplain _).1]
            exact hr2
      · obtain ⟨r, hr1, hr2⟩ := (hL.mem_iff f hfk hfid _ p).1 hp
        rw [hr1] at hrow
        refine ⟨r, hrow.symm, (Table.mem_iterObjects t r).2 ⟨p, hr1⟩, ?_⟩
        rw [hti, hti, hh, hm] at hr2
        exact hr2
    · rintro ⟨r, hrow, hmem, hkey⟩
      obtain ⟨p, hp⟩ := (Table.mem_iterObjects t r).1 hmem
      have hkey1 : t.toIndexable f (r.get f)
          = t.toIndexable f (t.hooks.toInternal t.model f v) := by
        rw [hti, hti, hh, hm]
        exact hkey
      refine ⟨p, ?_, by rw [hp, hrow]⟩
      by_cases hfid : f = "id"
      · subst hfid
        have hown := hL.own p r hp
        rw [← hkey1]
        have : t.toIndexable "id" (r.get "id") = r.get "id" := (hL.id_plain _).1
        rw [this]
        unfold TableData.posOf
        rw [hown]
        simp
      · exact (hL.mem_iff f hfk hfid _ p).2 ⟨r, hp, hkey1⟩

/-- Witness of the amended C3: the table holding `bookX` and `bookXCopy`, after `bookX` got
the `id` `s1`, looked up by its new `id`, which is the `id` of a live record and not a
reassigned one. -/
theorem index_integrity_witness :
    ∃ t, Table.Renamed plainHooks bookModel [Val.str "b1"] t ∧
      Val.str "s1" ∉ [Val.str "b1"] ∧
      ∃ rows, t.filter (.fields [("id", Val.str "s1")]) = .ok rows ∧
        (∀ r, r ∈ t.iterObjects → r.get "id" = Val.str "s1" → some r ∈ rows) ∧
        ∀ row, row ∈ rows
          ↔ ∃ r, row = some r ∧ r ∈ t.iterObjects ∧ r.get "id" = Val.str "s1" :=
  have h1 : (Table.reset plainHooks bookModel).set bookX
      = .ok ⟨plainHooks, bookModel,
          ⟨[some bookX], [("id", [(Val.str "b1", [0])]), ("title", [(Val.str "X", [0])])]⟩⟩ :=
    rfl
  have h2 : Table.set ⟨plainHooks, bookModel,
          ⟨[some bookX], [("id", [(Val.str "b1", [0])]), ("title", [(Val.str "X", [0])])]⟩⟩
        bookXCopy
      = .ok ⟨plainHooks, bookModel,
          ⟨[some bookX, some bookXCopy],
           [("id", [(Val.str "b1", [0]), (Val.str "b2", [1])]),
            ("title", [(Val.str "X", [0, 1])])]⟩⟩ :=
    rfl
  have h3 : Table.reId ⟨plainHooks, bookModel,
          ⟨[some bookX, some bookXCopy],
           [("id", [(Val.str "b1", [0]), (Val.str "b2", [1])]),
            ("title", [(Val.str "X", [0, 1])])]⟩⟩
        (Val.str "b1") (Val.str "s1")
      = .ok ⟨plainHooks, bookModel,
          ⟨[some (Obj.set bookX "id" (Val.str "s1")), some bookXCopy],
           [("id", [(Val.str "b1", [0]), (Val.str "b2", [1]), (Val.str "s1", [0])]),
            ("title", [(Val.str "X", [0, 1])])]⟩⟩ :=
    rfl
  have hreach := Table.Renamed.reId _ _ _ (Val.str "b1") (Val.str "s1") 0 bookX
    (Table.Renamed.set _ _ _ _ (Table.Renamed.set _ _ _ _ Table.Renamed.reset h1) h2)
    rfl rfl rfl h3
  have hthm := index_integrity plainHooks bookModel (by decide) (fun _ => ⟨rfl, rfl⟩)
    [Val.str "b1"] _ hreach "id" (by decide) rfl (Val.str "s1")
  ⟨_, hreach, by decide,
    hthm.elim (fun rows hrows => ⟨rows, hrows.1, hrows.2.1, hrows.2.2 (Or.inr (Or.inl (by decide)))⟩)⟩

/-- C17: on the `Book` table after `set(bookX)`, `reId('b1', 's1')` and `remove('s1')`, the
row of the removed record is empty and the `id` index has no entry for `s1`, but it still
has the entry of `b1`, which lists the removed row: `filter({id: 'b1'})` returns the empty
row.  The comment in `remove` reads "Remove from extra indices and also the ID index." -/
theorem remove_leaves_old_id_entry :
    ∃ t0 t1, ((Table.reset plainHooks bookModel).set bookX).bind
          (fun t => t.reId (Val.str "b1") (Val.str "s1")) = .ok t0 ∧
      t0.get (.value (Val.str "s1")) false = .ok (some (Obj.set bookX "id" (Val.str "s1"))) ∧
      t0.data.getIndexIn "id" (Val.str "b1") = some [0] ∧
      t0.remove (.value (Val.str "s1")) = .ok t1 ∧
      t1.data.row 0 = none ∧
      t1.data.getIndexIn "id" (Val.str "s1") = none ∧
      t1.data.getIndexIn "id" (Val.str "b1") = some [0] ∧
      t1.filter (.fields [("id", Val.str "b1")]) = .ok [none] :=
  ⟨_, _, rfl, rfl, rfl, rfl, rfl, rfl, rfl, rfl⟩

/-! ## Runs -/

theorem Run.bind_ok {σ α β : Type} (m : Run σ α) (f : α → Run σ β) (s s' : σ) (a : α)
    (h : m s = (s', .ok a)) : Run.bind m f s = f a s' := by
  unfold Run.bind
  rw [h]

theorem Run.bind_error {σ α β : Type} (m : Run σ α) (f : α → Run σ β) (s s' : σ) (e : Err)
    (h : m s = (s', .error e)) : Run.bind m f s = (s', .error e) := by
  unfold Run.bind
  rw [h]

theorem Run.bind_ok_inv {σ α β : Type} (m : Run σ α) (f : α → Run σ β) (s : σ) (b : β)
    (h : (Run.bind m f s).2 = .ok b) :
    ∃ s' a, m s = (s', .ok a) ∧ Run.bind m f s = f a s' := by
  cases hm : m s with
  | mk s' r =>
    cases r with
    | ok a => exact ⟨s', a, rfl, Run.bind_ok m f s s' a hm⟩
    | error e =>
      rw [Run.bind_error m f s s' e hm] at h
      simp at h

theorem Run.forEach_append {σ α : Type} (body : α → Run σ Unit) (xs ys : List α) :
    Run.forEach body (xs ++ ys)
      = Run.bind (Run.forEach body xs) (fun _ => Run.forEach body ys) := by
  induction xs with
  | nil =>
    funext s
    simp [Run.forEach, Run.bind, Run.ret]
  | cons x xs ih =>
    funext s
    show Run.bind (body x) (fun _ => Run.forEach body (xs ++ ys)) s
      = Run.bind (Run.bind (body x) (fun _ => Run.forEach body xs))
          (fun _ => Run.forEach body ys) s
    rw [ih]
    unfold Run.bind
    cases body x s with
    | mk s' r => cases r <;> rfl

/-- A property of the state that a call keeps, whatever way the call ends. -/
theorem Run.keeps_bind {σ α β : Type} (P : σ → Prop) (m : Run σ α) (f : α → Run σ β)
    (hm : ∀ s, P s → P (m s).1) (hf : ∀ a s, P s → P (f a s).1) :
    ∀ s, P s → P (Run.bind m f s).1 := by
  intro s hs
  unfold Run.bind
  cases h : m s with
  | mk s' r =>
    have hs' : P s' := by
      have := hm s hs
      rw [h] at this
      exact this
    cases r with
    | ok a => exact hf a s' hs'
    | error e => exact hs'

theorem Run.keeps_forEach {σ α : Type} (P : σ → Prop) (body : α → Run σ Unit)
    (hb : ∀ a s, P s → P (body a s).1) (xs : List α) :
    ∀ s, P s → P (Run.forEach body xs s).1 := by
  induction xs with
  | nil => intro s hs; exact hs
  | cons x xs ih =>
    intro s hs
    exact Run.keeps_bind P (body x) (fun _ => Run.forEach body xs) (hb x) (fun _ => ih) s hs

/-! ## The call `get(type, id)` -/

/-- The method `getRecord` throws a `TypeError` for every value that is not an
identifier record. -/
theorem Schema.getRecord_of_not_ident (S : Schema) (s : Store) (v : Val)
    (h : ∀ i, v ≠ Val.ident i) :
    S.getRecord s v = .error (.typeError "property of undefined") := by
  cases v with
  | ident i => exact absurd rfl (h i)
  | prim p => rfl
  | oset xs => rfl

/-- The method `get` leaves the store as it is. -/
theorem Schema.get_state (S : Schema) (options : Val) (s : Store) :
    (S.get options s).1 = s := by
  unfold Schema.get
  cases S.getRecord s options with
  | error e => rfl
  | ok r => cases r <;> rfl

/-- The call `get(type, id)`, which reads the type as its `options`, throws a `TypeError`
for every type that is not an identifier record, and leaves the store as it is. -/
theorem Schema.get_of_not_ident (S : Schema) (s : Store) (v : Val)
    (h : ∀ i, v ≠ Val.ident i) :
    S.get v s = (s, .error (.typeError "property of undefined")) := by
  unfold Schema.get
  rw [Schema.getRecord_of_not_ident S s v h]

/-- The method `update` throws a `TypeError` for every record whose `_type` is not an
identifier record, and leaves the store as it is. -/
theorem Schema.update_throws (S : Schema) (full : Rec) (values : Option Rec) (s : Store)
    (h : ∀ i, full.get "_type" ≠ Val.ident i) :
    S.update full values s = (s, .error (.typeError "property of undefined")) := by
  unfold Schema.update
  exact Run.bind_error _ _ s s _ (Schema.get_of_not_ident S s _ h)

/-- The method `remove` throws a `TypeError` for every type that is not an identifier
record, and leaves the store as it is. -/
theorem Schema.remove_throws (S : Schema) (type id : Val) (s : Store)
    (h : ∀ i, type ≠ Val.ident i) :
    S.remove type id s = (s, .error (.typeError "property of undefined")) := by
  unfold Schema.remove
  cases S.getModel type with
  | none => exact Run.bind_error _ _ s s _ (Schema.get_of_not_ident S s _ h)
  | some model => exact Run.bind_error _ _ s s _ (Schema.get_of_not_ident S s _ h)

/-! ## Head derivation -/

/-- C1: in the empty store, whose `head` is `tail` with the log applied, `create` of the
sample author succeeds; it leaves the author in `head` and its diff in the list `diffs`,
while `resetHead`, which derives `head` from `tail` and the list `deltas`, returns with an
empty `head`: after the call `head` is not `tail` with the log applied.  The calls
`update` and `remove` of the same record throw a `TypeError`. -/
theorem create_breaks_head_derivation :
    librarySchema.HeadDerived emptyStore ∧
    (librarySchema.create adaData "u1" emptyStore).2 = .ok (authorModel.toObject adaData) ∧
    (librarySchema.create adaData "u1" emptyStore).1.head
      = [("Author",
          { objects := [some (authorModel.toObject adaData)]
            indices := [("id", [(Val.str "a1", [0])])] })] ∧
    (librarySchema.create adaData "u1" emptyStore).1.tail = [] ∧
    (librarySchema.create adaData "u1" emptyStore).1.diffs
      = [[("_type", (Val.undefined, Val.str "Author")), ("id", (Val.undefined, Val.str "a1")),
          ("name", (Val.undefined, Val.str "Ada"))]] ∧
    (librarySchema.create adaData "u1" emptyStore).1.deltas = [] ∧
    (librarySchema.resetHead (librarySchema.create adaData "u1" emptyStore).1).2 = .ok () ∧
    (librarySchema.resetHead (librarySchema.create adaData "u1" emptyStore).1).1.head = [] ∧
    ¬ librarySchema.HeadDerived (librarySchema.create adaData "u1" emptyStore).1 ∧
    (librarySchema.update adaData (some [("name", Val.str "Eve")])
        (librarySchema.create adaData "u1" emptyStore).1).2
      = .error (.typeError "property of undefined") ∧
    (librarySchema.remove (Val.str "Author") (Val.str "a1")
        (librarySchema.create adaData "u1" emptyStore).1).2
      = .error (.typeError "property of undefined") := by
  refine ⟨⟨rfl, rfl⟩, rfl, rfl, rfl, rfl, rfl, rfl, rfl, ?_, rfl, rfl⟩
  intro h
  have h2 : (librarySchema.resetHead (librarySchema.create adaData "u1" emptyStore).1).1.head
      = [] := rfl
  have h3 := h.2
  rw [h2] at h3
  exact absurd h3 (by decide)

/-! ## The tail pointer -/

theorem Store.tailPtrInRange_of_eq (s s' : Store) (h1 : s'.diffs.length = s.diffs.length)
    (h2 : s'.tailptr = s.tailptr) (hs : s.TailPtrInRange) : s'.TailPtrInRange := by
  unfold Store.TailPtrInRange at hs ⊢
  rw [h1, h2]
  exact hs

theorem Schema.onTable_keeps (S : Schema) (br : BranchName) (type : Val)
    (op : Table → Except Err Table) :
    ∀ s : Store, s.TailPtrInRange → (S.onTable br type op s).1.TailPtrInRange := by
  intro s hs
  unfold Schema.onTable
  cases (S.getTable s type).bind op with
  | error e => exact hs
  | ok t =>
    refine Store.tailPtrInRange_of_eq s _ ?_ ?_ hs
    · cases br <;> rfl
    · cases br <;> rfl

theorem Run.ofExcept_keeps {α : Type} (x : Except Err α) :
    ∀ s : Store, s.TailPtrInRange → (Run.ofExcept x s).1.TailPtrInRange :=
  fun _ hs => hs

theorem Run.ret_keeps {α : Type} (a : α) :
    ∀ s : Store, s.TailPtrInRange → (Run.ret a s).1.TailPtrInRange :=
  fun _ hs => hs

theorem Run.fail_keeps {α : Type} (e : Err) :
    ∀ s : Store, s.TailPtrInRange → ((Run.fail e : Run Store α) s).1.TailPtrInRange :=
  fun _ hs => hs

theorem Schema.relationshipStep_keeps (S : Schema) (diff : Diff) (model : Model) (id : ID)
    (reverse : Bool) (br : BranchName) (field : String) :
    ∀ s : Store, s.TailPtrInRange →
      (S.relationshipStep diff model id reverse br field s).1.TailPtrInRange := by
  unfold Schema.relationshipStep
  cases Obj.lookup field diff with
  | none => exact Run.ret_keeps _
  | some e =>
    cases Obj.lookup field model.relationships with
    | none => exact Run.ret_keeps _
    | some relInfo =>
      simp only
      cases relInfo.relatedName with
      | none => exact Run.ret_keeps _
      | some relName =>
        simp only
        split
        · exact Run.ret_keeps _
        · exact S.onTable_keeps _ _ _

theorem Schema.applyDiffRelationships_keeps (S : Schema) (diff : Diff) (reverse : Bool)
    (br : BranchName) :
    ∀ s : Store, s.TailPtrInRange →
      (S._applyDiffRelationships diff reverse br s).1.TailPtrInRange := by
  unfold Schema._applyDiffRelationships
  cases getDiffId diff with
  | none => exact Run.fail_keeps _
  | some did =>
    simp only
    apply Run.keeps_bind _ _ _ (Run.ofExcept_keeps _)
    intro id
    cases S.getModel did.1 with
    | none => exact Run.fail_keeps _
    | some model =>
      exact Run.keeps_forEach _ _ (fun field => S.relationshipStep_keeps _ _ _ _ _ field) _

theorem Schema.applyDiff_keeps (S : Schema) (diff : Diff) (reverse : Bool)
    (br : BranchName) :
    ∀ s : Store, s.TailPtrInRange → (S.applyDiff diff reverse br s).1.TailPtrInRange := by
  unfold Schema.applyDiff
  cases getDiffId diff with
  | none => exact Run.fail_keeps _
  | some id =>
    simp only
    apply Run.keeps_bind _ _ _ (S.onTable_keeps _ _ _)
    intro _
    exact S.applyDiffRelationships_keeps _ _ _

theorem Store.pushDiff_keeps (diff : Diff) :
    ∀ s : Store, s.TailPtrInRange → (Store.pushDiff diff s).1.TailPtrInRange := by
  intro s hs
  unfold Store.TailPtrInRange at hs ⊢
  simp only [Store.pushDiff, List.length_append, List.length_singleton, Nat.cast_add,
    Nat.cast_one]
  omega

theorem Schema.get_keeps (S : Schema) (options : Val) :
    ∀ s : Store, s.TailPtrInRange → (S.get options s).1.TailPtrInRange := by
  intro s hs
  rw [Schema.get_state]
  exact hs

theorem Schema.create_keeps (S : Schema) (data : Rec) (fresh : String) :
    ∀ s : Store, s.TailPtrInRange → (S.create data fresh s).1.TailPtrInRange := by
  unfold Schema.create
  apply Run.keeps_bind _ _ _ (Run.ofExcept_keeps _)
  intro object0
  cases S.getModel (data.get "_type") with
  | none => exact Run.fail_keeps _
  | some model =>
    simp only
    apply Run.keeps_bind _ _ _ (Run.ofExcept_keeps _)
    intro made
    cases made with
    | none => exact Run.fail_keeps _
    | some diff =>
      apply Run.keeps_bind _ _ _ (S.applyDiff_keeps _ _ _)
      intro _
      apply Run.keeps_bind _ _ _ (Store.pushDiff_keeps _)
      intro _
      exact Run.ret_keeps _

theorem Schema.update_keeps (S : Schema) (full : Rec) (values : Option Rec) :
    ∀ s : Store, s.TailPtrInRange → (S.update full values s).1.TailPtrInRange := by
  unfold Schema.update
  apply Run.keeps_bind _ _ _ (S.get_keeps _)
  intro existing
  cases S.getModel (existing.get "_type") with
  | none => exact Run.fail_keeps _
  | some model =>
    simp only
    apply Run.keeps_bind
    · cases values with
      | some vs => exact Run.ret_keeps _
      | none => exact Run.ofExcept_keeps _
    · intro updated
      apply Run.keeps_bind _ _ _ (Run.ofExcept_keeps _)
      intro made
      cases made with
      | none => exact Run.ret_keeps _
      | some diff =>
        apply Run.keeps_bind _ _ _ (Store.pushDiff_keeps _)
        intro _
        exact S.applyDiff_keeps _ _ _

theorem Schema.remove_keeps (S : Schema) (type id : Val) :
    ∀ s : Store, s.TailPtrInRange → (S.remove type id s).1.TailPtrInRange := by
  unfold Schema.remove
  cases S.getModel type with
  | none =>
    apply Run.keeps_bind _ _ _ (S.get_keeps _)
    intro _
    exact Run.fail_keeps _
  | some model =>
    simp only
    apply Run.keeps_bind _ _ _ (S.get_keeps _)
    intro object
    apply Run.keeps_bind _ _ _ (Run.ofExcept_keeps _)
    intro _
    apply Run.keeps_bind _ _ _ (Run.ofExcept_keeps _)
    intro made
    cases made with
    | none => exact Run.fail_keeps _
    | some diff =>
      apply Run.keeps_bind _ _ _ (S.applyDiff_keeps _ _ _)
      intro _
      exact Store.pushDiff_keeps _

theorem sliceTo_length (diffs : List Diff) (tp : Int) (h0 : 0 ≤ tp)
    (h1 : tp ≤ (diffs.length : Int)) : ((sliceTo diffs tp).length : Int) = tp := by
  unfold sliceTo
  have : ¬ tp < 0 := by omega
  rw [if_neg this, List.length_take]
  omega

theorem Schema.commit_keeps (S : Schema) (getDiffs : Store → Except Err (List Diff)) :
    ∀ s : Store, s.TailPtrInRange → (S.commit getDiffs s).1.TailPtrInRange := by
  intro s hs
  unfold Schema.commit
  cases (getDiffs s).bind (fun diffs => diffs.mapM (S.commitDiffs s)) with
  | error e => exact hs
  | ok groups =>
    unfold Store.TailPtrInRange at hs ⊢
    have hl := sliceTo_length s.diffs s.tailptr hs.1 hs.2
    simp only [List.length_append, Nat.cast_add, hl]
    omega

theorem Schema.reIdDiffs_keeps (S : Schema) (id newId : Val) (fromId toId : ID) :
    ∀ s : Store, s.TailPtrInRange → (S.reIdDiffs id newId fromId toId s).1.TailPtrInRange := by
  intro s hs
  unfold Schema.reIdDiffs
  have key : ∀ (l : List Nat) (acc : Store × Except Err Unit), acc.1.TailPtrInRange →
      (l.foldl (fun (acc : Store × Except Err Unit) ii =>
        match acc.2, s.diffs.get? ii with
        | .ok _, some diff =>
            match S.reIdDiff id newId fromId toId diff with
            | .ok diff' => ({ acc.1 with diffs := acc.1.diffs.set ii diff' }, .ok ())
            | .error e => (acc.1, .error e)
        | _, _ => acc) acc).1.TailPtrInRange := by
    intro l
    induction l with
    | nil => intro acc h; exact h
    | cons ii l ih =>
      intro acc h
      rw [List.foldl_cons]
      apply ih
      obtain ⟨st, r⟩ := acc
      cases r with
      | error e => exact h
      | ok u =>
        cases hg : s.diffs.get? ii with
        | none => simp only [hg]; exact h
        | some diff =>
          simp only [hg]
          cases S.reIdDiff id newId fromId toId diff with
          | error e => exact h
          | ok diff' =>
            refine Store.tailPtrInRange_of_eq st _ ?_ rfl h
            simp
  exact key _ (s, .ok ()) hs

theorem Schema.reIdTable_keeps (S : Schema) (type id newId : Val) (br : BranchName) :
    ∀ s : Store, s.TailPtrInRange → (S.reIdTable type id newId br s).1.TailPtrInRange := by
  intro s hs
  unfold Schema.reIdTable
  cases (S.getTable s type).bind (fun tbl => tbl.reId id newId) with
  | error e => exact hs
  | ok t =>
    refine Store.tailPtrInRange_of_eq s _ ?_ ?_ hs
    · cases br <;> rfl
    · cases br <;> rfl

theorem Schema.reId_keeps (S : Schema) (type id newId : Val) (branch : Option BranchName) :
    ∀ s : Store, s.TailPtrInRange → (S.reId type id newId branch s).1.TailPtrInRange := by
  unfold Schema.reId
  apply Run.keeps_forEach
  intro br
  unfold Schema.reIdBranch
  apply Run.keeps_bind _ _ _ (S.reIdTable_keeps _ _ _ _)
  intro tbl
  apply Run.keeps_bind _ _ _ (Run.ofExcept_keeps _)
  intro fromId
  apply Run.keeps_bind _ _ _ (Run.ofExcept_keeps _)
  intro toId
  apply Run.keeps_bind _ _ _ (Run.ofExcept_keeps _)
  · intro related
    apply Run.keeps_bind
    · apply Run.keeps_forEach
      intro p
      unfold Schema.reIdRelated
      cases p.2 with
      | none => exact Run.ret_keeps _
      | some reverseField =>
        simp only
        by_cases hr : reverseField = ""
        · rw [if_pos hr]; exact Run.ret_keeps _
        · rw [if_neg hr]
          apply Run.keeps_bind _ _ _ (S.get_keeps _)
          intro obj
          exact S.onTable_keeps _ _ _
    · intro _
      exact S.reIdDiffs_keeps id newId fromId toId

theorem Schema.postCommitDiff_rest_keeps (S : Schema) (newId : Val) (popped : Option Diff) :
    ∀ s : Store, s.TailPtrInRange →
      ((match popped with
        | none => (Run.fail (.typeError "property of undefined") : Run Store Bool)
        | some d =>
            match getDiffOp d with
            | none => Run.fail (.typeError "property of undefined")
            | some DiffOp.create =>
                match Obj.lookup "_type" d, Obj.lookup "id" d with
                | some ty, some i =>
                    Run.bind (S.reId ty.2 i.2 newId none) (fun _ => Run.ret true)
                | _, _ => Run.fail (.typeError "property of undefined")
            | some _ => Run.ret false) s).1.TailPtrInRange := by
  cases popped with
  | none => exact Run.fail_keeps _
  | some d =>
    simp only
    cases getDiffOp d with
    | none => exact Run.fail_keeps _
    | some op =>
      cases op with
      | create =>
        simp only
        cases Obj.lookup "_type" d with
        | none => exact Run.fail_keeps _
        | some ty =>
          cases Obj.lookup "id" d with
          | none => exact Run.fail_keeps _
          | some i =>
            apply Run.keeps_bind _ _ _ (S.reId_keeps _ _ _ _)
            intro _
            exact Run.ret_keeps _
      | remove => exact Run.ret_keeps _
      | update => exact Run.ret_keeps _

/-- The tail pointer stays between `0` and the length of the delta log across `create`,
`update`, `remove`, `commit` and `reId`, however the call ends, and across
`postCommitDiff` when a diff is passed or when the tail pointer is at least `1`. -/
theorem tailptr_in_range_kept (S : Schema) (s : Store) (hs : s.TailPtrInRange) :
    (∀ data fresh, (S.create data fresh s).1.TailPtrInRange) ∧
    (∀ full values, (S.update full values s).1.TailPtrInRange) ∧
    (∀ type id, (S.remove type id s).1.TailPtrInRange) ∧
    (∀ getDiffs, (S.commit getDiffs s).1.TailPtrInRange) ∧
    (∀ type id newId branch, (S.reId type id newId branch s).1.TailPtrInRange) ∧
    (∀ newId d, (S.postCommitDiff newId (some d) s).1.TailPtrInRange) ∧
    (1 ≤ s.tailptr → ∀ newId, (S.postCommitDiff newId none s).1.TailPtrInRange) := by
  refine ⟨fun data fresh => S.create_keeps data fresh s hs,
    fun full values => S.update_keeps full values s hs,
    fun type id => S.remove_keeps type id s hs,
    fun getDiffs => S.commit_keeps getDiffs s hs,
    fun type id newId branch => S.reId_keeps type id newId branch s hs, ?_, ?_⟩
  · intro newId d
    unfold Schema.postCommitDiff
    exact Run.keeps_bind _ _ _ (Run.ret_keeps _)
      (fun popped => S.postCommitDiff_rest_keeps newId popped) s hs
  · intro h1 newId
    unfold Schema.postCommitDiff
    simp only [Run.bind]
    apply S.postCommitDiff_rest_keeps newId
    unfold Store.TailPtrInRange at hs ⊢
    simp only [List.length_tail]
    have hlen : 1 ≤ s.diffs.length := by omega
    omega

/-- C4, the code at the failing input: in the store left by one `create` in the empty
store (one diff in the log, tail pointer `0`, within range), `postCommitDiff(response)`
without a diff pops the diff and leaves the tail pointer at `-1`, below `0`; the diff is
a create, so that the call reassigns the identifier and returns `true`. -/
theorem postCommitDiff_tailptr_below_zero :
    (librarySchema.create adaData "u1" emptyStore).2 = .ok (authorModel.toObject adaData) ∧
    (librarySchema.create adaData "u1" emptyStore).1.diffs.length = 1 ∧
    (librarySchema.create adaData "u1" emptyStore).1.tailptr = 0 ∧
    (librarySchema.create adaData "u1" emptyStore).1.TailPtrInRange ∧
    (librarySchema.postCommitDiff (Val.str "srv1") none
      (librarySchema.create adaData "u1" emptyStore).1).2
      = .ok true ∧
    (librarySchema.postCommitDiff (Val.str "srv1") none
      (librarySchema.create adaData "u1" emptyStore).1).1.diffs
      = [] ∧
    (librarySchema.postCommitDiff (Val.str "srv1") none
      (librarySchema.create adaData "u1" emptyStore).1).1.tailptr
      = -1 ∧
    ¬ (librarySchema.postCommitDiff (Val.str "srv1") none
      (librarySchema.create adaData "u1" emptyStore).1).1.TailPtrInRange := by
  refine ⟨rfl, rfl, rfl, ?_, rfl, rfl, rfl, ?_⟩
  · unfold Store.TailPtrInRange
    decide
  · unfold Store.TailPtrInRange
    decide

/-! ## `commit` -/

theorem Obj.erase_of_lookup_none {α : Type} (o : Obj α) (k : String)
    (h : Obj.lookup k o = none) : Obj.erase o k = o := by
  induction o with
  | nil => rfl
  | cons p t ih =>
      obtain ⟨k', v⟩ := p
      by_cases hk : k' = k
      · simp [Obj.lookup, hk] at h
      · simp only [Obj.lookup, hk, if_false] at h
        have := ih h
        simp only [Obj.erase] at this ⊢
        simp [List.filter_cons, hk, this]

theorem Obj.lookup_foldl_erase {α : Type} (fields : List String) (o : Obj α) (f : String) :
    Obj.lookup f (fields.foldl Obj.erase o) = if f ∈ fields then none else Obj.lookup f o := by
  induction fields generalizing o with
  | nil => simp
  | cons g rest ih =>
      rw [List.foldl_cons, ih, Obj.lookup_erase]
      by_cases h1 : f ∈ rest
      · simp [h1]
      · by_cases h2 : g = f
        · simp [h2]
        · have h3 : ¬ f = g := fun h => h2 h.symm
          simp [h1, h2, h3]

theorem Schema.extraDiffs_erase (id : Val × Val) (diff : Diff) (f g : String) (h : f ≠ g) :
    Schema.extraDiffs id (Obj.erase diff f) g = Schema.extraDiffs id diff g := by
  unfold Schema.extraDiffs
  rw [Obj.lookup_erase, if_neg h]

theorem Schema.foldl_commitStep (id : Val × Val) (fields : List String) (hnd : fields.Nodup)
    (hty : "_type" ∉ fields) (hidf : "id" ∉ fields) (diff : Diff) (extra : List Diff) :
    fields.foldl (Schema.commitStep id) (diff, extra)
      = (fields.foldl Obj.erase diff,
          extra ++ (fields.map (Schema.extraDiffs id diff)).flatten) := by
  induction fields generalizing diff extra with
  | nil => simp
  | cons f rest ih =>
      have hnd' := (List.nodup_cons.1 hnd).2
      have hf : f ∉ rest := (List.nodup_cons.1 hnd).1
      have hft : f ≠ "_type" := fun h => hty (h ▸ List.mem_cons_self _ _)
      have hfi : f ≠ "id" := fun h => hidf (h ▸ List.mem_cons_self _ _)
      have hty' : "_type" ∉ rest := fun h => hty (List.mem_cons_of_mem _ h)
      have hidf' : "id" ∉ rest := fun h => hidf (List.mem_cons_of_mem _ h)
      have hcongr : ∀ d' : Diff, d' = Obj.erase diff f ∨ d' = diff →
          (rest.map (Schema.extraDiffs id d')) = rest.map (Schema.extraDiffs id diff) := by
        intro d' hd'
        apply List.map_congr_left
        intro g hg
        rcases hd' with h | h
        · rw [h]
          exact Schema.extraDiffs_erase id diff f g (fun hfg => hf (hfg ▸ hg))
        · rw [h]
      rw [List.foldl_cons]
      cases hl : Obj.lookup f diff with
      | none =>
          have hstep : Schema.commitStep id (diff, extra) f = (diff, extra) := by
            simp [Schema.commitStep, hl]
          rw [hstep, ih hnd' hty' hidf', List.foldl_cons, Obj.erase_of_lookup_none diff f hl]
          simp [Schema.extraDiffs, hl]
      | some e =>
          have hstep : Schema.commitStep id (diff, extra) f
              = (Obj.erase diff f, extra ++ Schema.extraDiffs id diff f) := by
            simp [Schema.commitStep, Schema.extraDiffs, hl, Obj.set, Ne.symm hft, Ne.symm hfi,
              List.append_assoc]
          rw [hstep, ih hnd' hty' hidf', List.foldl_cons, hcongr _ (Or.inl rfl)]
          simp [List.append_assoc]

theorem Obj.keys_nodup_erase {α : Type} (o : Obj α) (k : String) (h : o.keys.Nodup) :
    (Obj.erase o k).keys.Nodup := by
  unfold Obj.erase Obj.keys
  exact List.Nodup.sublist (List.Sublist.map _ (List.filter_sublist _)) h

theorem Obj.keys_nodup_foldl_erase {α : Type} (fields : List String) (o : Obj α)
    (h : o.keys.Nodup) : (fields.foldl Obj.erase o).keys.Nodup := by
  induction fields generalizing o with
  | nil => exact h
  | cons g rest ih =>
      rw [List.foldl_cons]
      exact ih _ (Obj.keys_nodup_erase o g h)

theorem List.two_lt_length_iff_mem_other (l : List String) (hnd : l.Nodup) (a b : String)
    (hab : a ≠ b) (ha : a ∈ l) (hb : b ∈ l) :
    2 < l.length ↔ ∃ x, x ∈ l ∧ x ≠ a ∧ x ≠ b := by
  constructor
  · intro hlen
    by_contra hno
    have hsub : l ⊆ [a, b] := by
      intro x hx
      by_cases hxa : x = a
      · simp [hxa]
      · by_cases hxb : x = b
        · simp [hxb]
        · exact absurd ⟨x, hx, hxa, hxb⟩ hno
    have := (List.Nodup.subperm hnd hsub).length_le
    simp at this
    omega
  · rintro ⟨x, hx, hxa, hxb⟩
    have hnd3 : [a, b, x].Nodup := by
      simp [hab, Ne.symm hxa, Ne.symm hxb]
    have hsub : [a, b, x] ⊆ l := by
      intro y hy
      simp only [List.mem_cons, List.mem_singleton, List.not_mem_nil, or_false] at hy
      rcases hy with h | h | h
      · rw [h]; exact ha
      · rw [h]; exact hb
      · rw [h]; exact hx
    have := (List.Nodup.subperm hnd3 hsub).length_le
    simp at this
    omega

/-- C20: for every store whose tail pointer `tp` lies in the log, with `pending` the diffs
`commit` starts from and `groups` the diffs the compaction loop makes of them, `commit`
returns; afterwards the delta log is the first `tp` entries of the old log followed by
the compacted diffs (the entries after the tail pointer are discarded), the tail pointer is
`tp` plus the number of compacted diffs, which is the length of the new log, and `tail`
is `head`. -/
theorem commit_replaces_local_suffix (S : Schema)
    (getDiffs : Store → Except Err (List Diff)) (s : Store) (pending : List Diff)
    (groups : List (List Diff)) (hin : s.TailPtrInRange) (hp : getDiffs s = .ok pending)
    (hg : pending.mapM (S.commitDiffs s) = .ok groups) :
    S.commit getDiffs s
      = ({ s with
            diffs := s.diffs.take s.tailptr.toNat ++ groups.flatten
            tailptr := s.tailptr + groups.flatten.length
            tail := s.head }, .ok ()) ∧
    (S.commit getDiffs s).1.tailptr = ((S.commit getDiffs s).1.diffs.length : Int) ∧
    (S.commit getDiffs s).1.tail = (S.commit getDiffs s).1.head := by
  have hslice : sliceTo s.diffs s.tailptr = s.diffs.take s.tailptr.toNat := by
    unfold sliceTo
    rw [if_neg (not_lt.2 hin.1)]
  have hc : S.commit getDiffs s
      = ({ s with
            diffs := s.diffs.take s.tailptr.toNat ++ groups.flatten
            tailptr := s.tailptr + groups.flatten.length
            tail := s.head }, .ok ()) := by
    unfold Schema.commit
    simp only [hp, Except.bind, hg, hslice]
  refine ⟨hc, ?_, ?_⟩
  · rw [hc]
    have hlen := sliceTo_length s.diffs s.tailptr hin.1 hin.2
    rw [hslice] at hlen
    simp only [List.length_append, Nat.cast_add]
    rw [hlen]
  · rw [hc]

/-- Witness of C20: the store after the creation of a tag and of a book that carries it
is committed. -/
theorem commit_replaces_local_suffix_witness :
    librarySchema.commit Store.getDiffs tagOnlyStore
      = ({ tagOnlyStore with
            diffs := tagOnlyStore.diffs.take tagOnlyStore.tailptr.toNat
              ++ [[[("_type", (Val.undefined, Val.str "Tag")),
                    ("id", (Val.undefined, Val.str "t1")),
                    ("label", (Val.undefined, Val.str "new"))]],
                  [[("_type", (Val.str "Book", Val.str "Book")),
                    ("id", (Val.str "b1", Val.str "b1")),
                    ("tags", (Val.oset [], Val.oset [tag1]))]]].flatten
            tailptr := tagOnlyStore.tailptr
              + [[[("_type", (Val.undefined, Val.str "Tag")),
                   ("id", (Val.undefined, Val.str "t1")),
                   ("label", (Val.undefined, Val.str "new"))]],
                 [[("_type", (Val.str "Book", Val.str "Book")),
                   ("id", (Val.str "b1", Val.str "b1")),
                   ("tags", (Val.oset [], Val.oset [tag1]))]]].flatten.length
            tail := tagOnlyStore.head }, .ok ()) ∧
    (librarySchema.commit Store.getDiffs tagOnlyStore).1.tailptr
      = ((librarySchema.commit Store.getDiffs tagOnlyStore).1.diffs.length : Int) ∧
    (librarySchema.commit Store.getDiffs tagOnlyStore).1.tail
      = (librarySchema.commit Store.getDiffs tagOnlyStore).1.head :=
  commit_replaces_local_suffix librarySchema Store.getDiffs tagOnlyStore
    [[("_type", (Val.undefined, Val.str "Tag")), ("id", (Val.undefined, Val.str "t1")),
      ("label", (Val.undefined, Val.str "new"))],
     [("_type", (Val.undefined, Val.str "Book")), ("id", (Val.undefined, Val.str "b1")),
      ("tags", (Val.undefined, Val.oset [tag1]))]]
    [[[("_type", (Val.undefined, Val.str "Tag")), ("id", (Val.undefined, Val.str "t1")),
       ("label", (Val.undefined, Val.str "new"))]],
     [[("_type", (Val.str "Book", Val.str "Book")), ("id", (Val.str "b1", Val.str "b1")),
       ("tags", (Val.oset [], Val.oset [tag1]))]]]
    (by unfold Store.TailPtrInRange; decide) rfl rfl

/-- What the body of the loop of `commit` adds to the output for one diff (a diff with
its `_type` and `id` entries, of a type with a model whose many-to-many fields are
distinct names other than `_type` and `id`), with `found` the record of the diff in
`head`: the original diff without its many-to-many fields, if the record does not exist
in `head` or the diff still has more than two keys, followed by the extracted diffs of
the many-to-many fields in order. -/
theorem Schema.commitDiffs_spec (S : Schema) (s : Store) (diff : Diff)
    (id : Val × Val) (iid : ID) (model : Model) (found : Option Rec)
    (hid : getDiffId diff = some id) (hm : S.getModel id.1 = some model)
    (hnd : (model.iterManyToMany false).Nodup)
    (hty : "_type" ∉ model.iterManyToMany false) (hidf : "id" ∉ model.iterManyToMany false)
    (hmk : makeId id.1 id.2 = .ok iid)
    (hfound : S.getRecord s (Val.ident iid) = .ok found) :
    S.commitDiffs s diff
      = .ok ((if found.isNone || decide
                (((model.iterManyToMany false).foldl Obj.erase diff).keys.length > 2)
              then [(model.iterManyToMany false).foldl Obj.erase diff] else [])
            ++ ((model.iterManyToMany false).map (Schema.extraDiffs id diff)).flatten) := by
  have hlt := Obj.lookup_foldl_erase (model.iterManyToMany false) diff "_type"
  have hli := Obj.lookup_foldl_erase (model.iterManyToMany false) diff "id"
  rw [if_neg hty] at hlt
  rw [if_neg hidf] at hli
  have hid' : getDiffId ((model.iterManyToMany false).foldl Obj.erase diff) = some id := by
    unfold getDiffId at hid ⊢
    rw [hlt, hli]
    exact hid
  unfold Schema.commitDiffs
  simp only [hid, hm, Schema.foldl_commitStep id _ hnd hty hidf, hid', hmk, Except.bind,
    Schema.exists, hfound, Except.map, List.nil_append]
  cases found <;> simp

/-- C21: in the store after the creation of a tag and of a book that carries only that
tag, `tail` holds no book and the create diff of the book is pending.  The body of the
loop of `commit` takes the field `tags` out of that diff and makes the update diff
`[empty, added]` of it; the create diff, left with `_type` and `id`, is not kept, although
the record does not exist in `tail`: the test `exists(id, 'tail')` finds it in `head`.
After `commit` the log holds no create diff of the book.  The comment on the test reads
"Only add the original diff if it either does not exist in the tail, or has attributes to
be set." -/
theorem commit_drops_create_diff :
    Store.getDiffs tagOnlyStore
      = .ok [[("_type", (Val.undefined, Val.str "Tag")), ("id", (Val.undefined, Val.str "t1")),
              ("label", (Val.undefined, Val.str "new"))],
             [("_type", (Val.undefined, Val.str "Book")), ("id", (Val.undefined, Val.str "b1")),
              ("tags", (Val.undefined, Val.oset [tag1]))]] ∧
    (librarySchema.tableOf tagOnlyStore.tail (Val.str "Book")).bind
        (fun t => t.get (.fields [("id", Val.str "b1")]) false) = .ok none ∧
    librarySchema.exists tagOnlyStore (Val.ident ⟨.str "Book", .str "b1"⟩) = .ok true ∧
    librarySchema.commitDiffs tagOnlyStore
        [("_type", (Val.undefined, Val.str "Book")), ("id", (Val.undefined, Val.str "b1")),
         ("tags", (Val.undefined, Val.oset [tag1]))]
      = .ok [[("_type", (Val.str "Book", Val.str "Book")), ("id", (Val.str "b1", Val.str "b1")),
              ("tags", (Val.oset [], Val.oset [tag1]))]] ∧
    (librarySchema.commit Store.getDiffs tagOnlyStore).2 = .ok () ∧
    (librarySchema.commit Store.getDiffs tagOnlyStore).1.diffs
      = [[("_type", (Val.undefined, Val.str "Tag")), ("id", (Val.undefined, Val.str "t1")),
          ("label", (Val.undefined, Val.str "new"))],
         [("_type", (Val.str "Book", Val.str "Book")), ("id", (Val.str "b1", Val.str "b1")),
          ("tags", (Val.oset [], Val.oset [tag1]))]] :=
  ⟨rfl, rfl, rfl, rfl, rfl, rfl⟩

/-- C22: commit idempotence: for every store whose tail pointer lies in the log, when
`commit` has returned, a second `commit` right after it returns as well and changes
nothing: it adds no diff to the delta log and leaves the tail pointer and both branches
as they are. -/
theorem commit_idempotent (S : Schema) (s : Store) (hin : s.TailPtrInRange)
    (h1 : (S.commit Store.getDiffs s).2 = .ok ()) :
    S.commit Store.getDiffs (S.commit Store.getDiffs s).1
      = ((S.commit Store.getDiffs s).1, .ok ()) := by
  have hslice : sliceTo s.diffs s.tailptr = s.diffs.take s.tailptr.toNat := by
    unfold sliceTo
    rw [if_neg (not_lt.2 hin.1)]
  have hlen := sliceTo_length s.diffs s.tailptr hin.1 hin.2
  rw [hslice] at hlen
  cases hg : (Store.getDiffs s).bind (fun diffs => diffs.mapM (S.commitDiffs s)) with
  | error e =>
      unfold Schema.commit at h1
      simp only [hg] at h1
      cases h1
  | ok groups =>
      have hc : S.commit Store.getDiffs s
          = ({ s with
                diffs := s.diffs.take s.tailptr.toNat ++ groups.flatten
                tailptr := s.tailptr + groups.flatten.length
                tail := s.head }, .ok ()) := by
        unfold Schema.commit
        simp only [hg, hslice]
      rw [hc]
      have h0 : (0 : Int) ≤ s.tailptr + groups.flatten.length := by
        have := hin.1
        omega
      have htn : (s.tailptr + (groups.flatten.length : Int)).toNat
          = (s.diffs.take s.tailptr.toNat ++ groups.flatten).length := by
        apply Int.ofNat.inj
        simp only [Int.ofNat_eq_coe, Int.toNat_of_nonneg h0, List.length_append, Nat.cast_add]
        rw [hlen]
      unfold Schema.commit Store.getDiffs sliceFrom sliceTo
      simp only [if_neg (not_lt.2 h0), htn, List.drop_length, List.take_length, Except.bind,
        List.mapM_nil, pure, Except.pure, List.flatten_nil, List.append_nil, List.length_nil,
        Nat.cast_zero, add_zero]

/-- Witness of C22: the store after the creation of a tag and of a book that carries it
is committed twice. -/
theorem commit_idempotent_witness :
    librarySchema.commit Store.getDiffs (librarySchema.commit Store.getDiffs tagOnlyStore).1
      = ((librarySchema.commit Store.getDiffs tagOnlyStore).1, .ok ()) :=
  commit_idempotent librarySchema tagOnlyStore (by unfold Store.TailPtrInRange; decide) rfl

/-! ## The selection loop of `makeDeltas` -/

theorem scanReady_spec (l : List (String × DepEntry)) (next : Option (String × DepEntry))
    (hnext : ∀ n, next = some n → n.2.required = []) :
    ∀ n, scanReady l next = some n → (n ∈ l ∨ next = some n) ∧ n.2.required = [] := by
  induction l generalizing next with
  | nil =>
      intro n h
      exact ⟨Or.inr h, hnext n h⟩
  | cons p rest ih =>
      obtain ⟨id, e⟩ := p
      intro n h
      unfold scanReady at h
      simp only at h
      by_cases hreq : e.required.length = 0
      · have hreq' : e.required = [] := List.length_eq_zero.1 hreq
        rw [if_pos hreq] at h
        cases next with
        | none =>
            simp only at h
            by_cases ho : e.optional.length = 0
            · rw [if_pos ho] at h
              cases h
              exact ⟨Or.inl (List.mem_cons_self _ _), hreq'⟩
            · rw [if_neg ho] at h
              have := ih (some (id, e)) (fun m hm => by cases hm; exact hreq') n h
              rcases this.1 with h1 | h1
              · exact ⟨Or.inl (List.mem_cons_of_mem _ h1), this.2⟩
              · cases h1
                exact ⟨Or.inl (List.mem_cons_self _ _), hreq'⟩
        | some m =>
            simp only at h
            by_cases hlt : e.optional.length < m.2.optional.length
            · rw [if_pos hlt] at h
              simp only at h
              by_cases ho : e.optional.length = 0
              · rw [if_pos ho] at h
                cases h
                exact ⟨Or.inl (List.mem_cons_self _ _), hreq'⟩
              · rw [if_neg ho] at h
                have := ih (some (id, e)) (fun m hm => by cases hm; exact hreq') n h
                rcases this.1 with h1 | h1
                · exact ⟨Or.inl (List.mem_cons_of_mem _ h1), this.2⟩
                · cases h1
                  exact ⟨Or.inl (List.mem_cons_self _ _), hreq'⟩
            · rw [if_neg hlt] at h
              simp only at h
              by_cases ho : m.2.optional.length = 0
              · rw [if_pos ho] at h
                cases h
                exact ⟨Or.inr rfl, hnext _ rfl⟩
              · rw [if_neg ho] at h
                have := ih (some m) hnext n h
                rcases this.1 with h1 | h1
                · exact ⟨Or.inl (List.mem_cons_of_mem _ h1), this.2⟩
                · exact ⟨Or.inr h1, this.2⟩
      · rw [if_neg hreq] at h
        cases next with
        | none =>
            simp only at h
            have := ih none (fun m hm => by cases hm) n h
            rcases this.1 with h1 | h1
            · exact ⟨Or.inl (List.mem_cons_of_mem _ h1), this.2⟩
            · cases h1
        | some m =>
            simp only at h
            by_cases ho : m.2.optional.length = 0
            · rw [if_pos ho] at h
              cases h
              exact ⟨Or.inr rfl, hnext _ rfl⟩
            · rw [if_neg ho] at h
              have := ih (some m) hnext n h
              rcases this.1 with h1 | h1
              · exact ⟨Or.inl (List.mem_cons_of_mem _ h1), this.2⟩
              · exact ⟨Or.inr h1, this.2⟩

theorem scanReady_none (l : List (String × DepEntry)) (next : Option (String × DepEntry))
    (h : scanReady l next = none) : next = none ∧ ∀ p, p ∈ l → p.2.required ≠ [] := by
  induction l generalizing next with
  | nil =>
      refine ⟨h, ?_⟩
      intro p hp
      cases hp
  | cons p rest ih =>
      obtain ⟨id, e⟩ := p
      unfold scanReady at h
      simp only at h
      by_cases hreq : e.required.length = 0
      · rw [if_pos hreq] at h
        cases next with
        | none =>
            simp only at h
            by_cases ho : e.optional.length = 0
            · rw [if_pos ho] at h
              cases h
            · rw [if_neg ho] at h
              have := (ih _ h).1
              cases this
        | some m =>
            simp only at h
            by_cases hlt : e.optional.length < m.2.optional.length
            · rw [if_pos hlt] at h
              simp only at h
              by_cases ho : e.optional.length = 0
              · rw [if_pos ho] at h
                cases h
              · rw [if_neg ho] at h
                have := (ih _ h).1
                cases this
            · rw [if_neg hlt] at h
              simp only at h
              by_cases ho : m.2.optional.length = 0
              · rw [if_pos ho] at h
                cases h
              · rw [if_neg ho] at h
                have := (ih _ h).1
                cases this
      · rw [if_neg hreq] at h
        have hreq' : e.required ≠ [] := fun hh => hreq (by rw [hh]; rfl)
        cases next with
        | none =>
            simp only at h
            have := ih _ h
            refine ⟨rfl, ?_⟩
            intro p hp
            rcases List.mem_cons.1 hp with h1 | h1
            · rw [h1]
              exact hreq'
            · exact this.2 p h1
        | some m =>
            simp only at h
            by_cases ho : m.2.optional.length = 0
            · rw [if_pos ho] at h
              cases h
            · rw [if_neg ho] at h
              have := (ih _ h).1
              cases this

/-! ### Objects: membership -/

theorem Obj.mem_of_lookup {α : Type} (o : Obj α) (k : String) (v : α)
    (h : Obj.lookup k o = some v) : (k, v) ∈ o := by
  induction o with
  | nil => simp [Obj.lookup] at h
  | cons p t ih =>
      obtain ⟨k', v'⟩ := p
      by_cases hk : k' = k
      · simp only [Obj.lookup, hk, if_true, Option.some.injEq] at h
        rw [hk, h]
        exact List.mem_cons_self _ _
      · simp only [Obj.lookup, hk, if_false] at h
        exact List.mem_cons_of_mem _ (ih h)

theorem Obj.lookup_of_mem {α : Type} (o : Obj α) (k : String) (v : α)
    (hnd : o.keys.Nodup) (h : (k, v) ∈ o) : Obj.lookup k o = some v := by
  induction o with
  | nil => cases h
  | cons p t ih =>
      obtain ⟨k', v'⟩ := p
      have hnd' : (Obj.keys t).Nodup := (List.nodup_cons.1 hnd).2
      have hk' : k' ∉ Obj.keys t := (List.nodup_cons.1 hnd).1
      rcases List.mem_cons.1 h with h1 | h1
      · cases h1
        simp [Obj.lookup]
      · have hkt : k ∈ Obj.keys t := List.mem_map.2 ⟨(k, v), h1, rfl⟩
        have hne : k' ≠ k := fun hh => hk' (hh ▸ hkt)
        simp only [Obj.lookup, hne, if_false]
        exact ih hnd' h1

theorem Obj.lookup_map {α β : Type} (o : Obj α) (g : α → β) (k : String) :
    Obj.lookup k (o.map (fun (p : String × α) => (p.1, g p.2))) = (Obj.lookup k o).map g := by
  induction o with
  | nil => rfl
  | cons p t ih =>
      obtain ⟨k', v'⟩ := p
      by_cases hk : k' = k
      · simp [Obj.lookup, hk]
      · simp only [List.map_cons, Obj.lookup, hk, if_false]
        exact ih

theorem Obj.keys_map {α β : Type} (o : Obj α) (g : α → β) :
    Obj.keys (o.map (fun (p : String × α) => (p.1, g p.2))) = o.keys := by
  unfold Obj.keys
  rw [List.map_map]
  rfl

theorem Obj.mem_set {α : Type} (o : Obj α) (k : String) (v : α) (p : String × α)
    (hnd : o.keys.Nodup) (h : p ∈ Obj.set o k v) : p = (k, v) ∨ (p ∈ o ∧ p.1 ≠ k) := by
  induction o with
  | nil =>
      simp only [Obj.set, List.mem_singleton] at h
      exact Or.inl h
  | cons q t ih =>
      obtain ⟨k', v'⟩ := q
      have hnd' : (Obj.keys t).Nodup := (List.nodup_cons.1 hnd).2
      have hk' : k' ∉ Obj.keys t := (List.nodup_cons.1 hnd).1
      by_cases hk : k' = k
      · simp only [Obj.set, hk, if_true] at h
        rcases List.mem_cons.1 h with h1 | h1
        · exact Or.inl h1
        · have hp : p.1 ≠ k := by
            intro hh
            apply hk'
            rw [hk, ← hh]
            exact List.mem_map.2 ⟨p, h1, rfl⟩
          exact Or.inr ⟨List.mem_cons_of_mem _ h1, hp⟩
      · simp only [Obj.set, hk, if_false] at h
        rcases List.mem_cons.1 h with h1 | h1
        · right
          rw [h1]
          exact ⟨List.mem_cons_self _ _, hk⟩
        · rcases ih hnd' h1 with h2 | h2
          · exact Or.inl h2
          · exact Or.inr ⟨List.mem_cons_of_mem _ h2.1, h2.2⟩

theorem Obj.mem_erase {α : Type} (o : Obj α) (k : String) (p : String × α) :
    p ∈ Obj.erase o k ↔ p ∈ o ∧ p.1 ≠ k := by
  simp [Obj.erase, List.mem_filter]

/-! ### The selection loop: one turn -/

/-- The update of an entry by `_getNextReady`: the key leaves both sets. -/
theorem getNextReady_cases (tbl : DepTable) :
    (_getNextReady tbl = (tbl, none) ∧ ∀ p, p ∈ tbl → p.2.required ≠ []) ∨
    (∃ e, ("", e) ∈ tbl ∧ _getNextReady tbl = (tbl, some "")) ∨
    (∃ k e, (k, e) ∈ tbl ∧ e.required = [] ∧ k ≠ "" ∧
      _getNextReady tbl
        = (tbl.map (fun (p : String × DepEntry) => (p.1, p.2.withoutKey (depKey e.id))),
           some k)) := by
  unfold _getNextReady
  cases hs : scanReady tbl none with
  | none =>
      left
      exact ⟨rfl, (scanReady_none tbl none hs).2⟩
  | some n =>
      obtain ⟨k, e⟩ := n
      right
      have hspec := scanReady_spec tbl none (fun m hm => by cases hm) (k, e) hs
      have hmem : (k, e) ∈ tbl := by
        rcases hspec.1 with h | h
        · exact h
        · cases h
      by_cases hk : k = ""
      · left
        subst hk
        exact ⟨e, hmem, by simp⟩
      · right
        exact ⟨k, e, hmem, hspec.2, hk, by simp [hk]⟩

theorem depKey_ne_empty (i : ID) : depKey i ≠ "" := by
  intro h
  have hlen := congrArg String.length h
  unfold depKey at hlen
  simp only [String.length_append] at hlen
  have h1 : "|".length = 1 := rfl
  have h0 : "".length = 0 := rfl
  rw [h1, h0] at hlen
  omega

theorem DepTable.WellKeyed.erasure (tbl : DepTable) (hwk : tbl.WellKeyed) (x : String) :
    DepTable.WellKeyed (tbl.map (fun (p : String × DepEntry) => (p.1, p.2.withoutKey x))) := by
  constructor
  · rw [Obj.keys_map _ (fun y => DepEntry.withoutKey y _)]
    exact hwk.1
  · intro p hp
    obtain ⟨q, hq, hqp⟩ := List.mem_map.1 hp
    rw [← hqp]
    exact hwk.2 q hq

/-- A turn of the loop that ends it: no entry of the table is ready. -/
theorem Schema.selectStep_none (S : Schema) (st : DeltaState) (hwk : st.tbl.WellKeyed)
    (h : S.selectStep st = .ok none) : ∀ p, p ∈ st.tbl → p.2.required ≠ [] := by
  rcases getNextReady_cases st.tbl with ⟨_, h1⟩ | ⟨e, hmem, _⟩ | ⟨k, e, hmem, hreq, hk, hg⟩
  · exact h1
  · exact absurd (hwk.2 _ hmem).symm (depKey_ne_empty e.id)
  · exfalso
    unfold Schema.selectStep at h
    rw [hg] at h
    simp only [hk, if_false] at h
    have hl : Obj.lookup k st.tbl = some e := Obj.lookup_of_mem _ _ _ hwk.1 hmem
    rw [Obj.lookup_map _ (fun y => DepEntry.withoutKey y (depKey e.id)), hl] at h
    simp only [Option.map_some'] at h
    split at h
    · cases hsp : S.splitDelta (e.withoutKey (depKey e.id)).diff
        (e.withoutKey (depKey e.id)).optional with
      | error err => rw [hsp] at h; cases h
      | ok p => rw [hsp] at h; cases h
    · cases h

/-- A turn of the loop that goes on: an entry without required keys was selected and a
diff of it emitted; its key left the sets of the other entries. -/
theorem Schema.selectStep_some (S : Schema) (st st1 : DeltaState) (hwk : st.tbl.WellKeyed)
    (h : S.selectStep st = .ok (some st1)) :
    ∃ k e d, (k, e) ∈ st.tbl ∧ e.required = [] ∧ st1.deltas = st.deltas ++ [(k, d)] ∧
      st1.tbl.WellKeyed ∧
      (∀ p, p ∈ st1.tbl →
        p.1 = k ∨ ∃ e', (p.1, e') ∈ st.tbl ∧ p.2.required = keysRemove e'.required k) ∧
      (∀ p, p ∈ st1.tbl → p.1 ∈ st.tbl.keys) ∧
      (∀ q, q ∈ st.tbl.keys → q = k ∨ q ∈ st1.tbl.keys) := by
  rcases getNextReady_cases st.tbl with ⟨hg, _⟩ | ⟨e, hmem, _⟩ | ⟨k, e, hmem, hreq, hk, hg⟩
  · unfold Schema.selectStep at h
    rw [hg] at h
    cases h
  · exact absurd (hwk.2 _ hmem).symm (depKey_ne_empty e.id)
  · have hke : k = depKey e.id := hwk.2 _ hmem
    have hwk1 := DepTable.WellKeyed.erasure st.tbl hwk (depKey e.id)
    have hl : Obj.lookup k st.tbl = some e := Obj.lookup_of_mem _ _ _ hwk.1 hmem
    have hmem1 : ∀ p, p ∈ st.tbl.map (fun (p : String × DepEntry) => (p.1, p.2.withoutKey (depKey e.id))) →
        ∃ e', (p.1, e') ∈ st.tbl ∧ p.2.required = keysRemove e'.required k := by
      intro p hp
      obtain ⟨q, hq, hqp⟩ := List.mem_map.1 hp
      rw [← hqp, hke]
      exact ⟨q.2, hq, rfl⟩
    have hkeys1 : ∀ p, p ∈ st.tbl.map (fun (p : String × DepEntry) => (p.1, p.2.withoutKey (depKey e.id))) →
        p.1 ∈ st.tbl.keys := by
      intro p hp
      obtain ⟨q, hq, hqp⟩ := List.mem_map.1 hp
      rw [← hqp]
      exact List.mem_map.2 ⟨q, hq, rfl⟩
    unfold Schema.selectStep at h
    rw [hg] at h
    simp only [hk, if_false] at h
    rw [Obj.lookup_map _ (fun y => DepEntry.withoutKey y (depKey e.id)), hl] at h
    simp only [Option.map_some'] at h
    split at h
    · cases hsp : S.splitDelta (e.withoutKey (depKey e.id)).diff
        (e.withoutKey (depKey e.id)).optional with
      | error err => rw [hsp] at h; cases h
      | ok p =>
          rw [hsp] at h
          simp only [Except.map, Except.ok.injEq, Option.some.injEq] at h
          subst h
          have hkin : k ∈ Obj.keys (st.tbl.map (fun (p : String × DepEntry) => (p.1, p.2.withoutKey (depKey e.id)))) := by
            rw [Obj.keys_map _ (fun y => DepEntry.withoutKey y _)]
            exact List.mem_map.2 ⟨(k, e), hmem, rfl⟩
          refine ⟨k, e, p.1, hmem, hreq, rfl, ⟨?_, ?_⟩, ?_, ?_, ?_⟩
          · show (Obj.keys (Obj.set _ k _)).Nodup
            rw [Obj.keys_set_of_mem _ _ _ hkin]
            exact hwk1.1
          · intro q hq
            rcases Obj.mem_set _ _ _ q hwk1.1 hq with h1 | h1
            · rw [h1]
              exact hke
            · exact hwk1.2 q h1.1
          · intro q hq
            rcases Obj.mem_set _ _ _ q hwk1.1 hq with h1 | h1
            · left
              rw [h1]
            · right
              exact hmem1 q h1.1
          · intro q hq
            rcases Obj.mem_set _ _ _ q hwk1.1 hq with h1 | h1
            · rw [h1]
              exact List.mem_map.2 ⟨(k, e), hmem, rfl⟩
            · exact hkeys1 q h1.1
          · intro q hq
            right
            show q ∈ Obj.keys (Obj.set _ k _)
            rw [Obj.keys_set_of_mem _ _ _ hkin, Obj.keys_map _ (fun y => DepEntry.withoutKey y _)]
            exact hq
    · simp only [Except.ok.injEq, Option.some.injEq] at h
      subst h
      refine ⟨k, e, e.diff, hmem, hreq, rfl, ⟨?_, ?_⟩, ?_, ?_, ?_⟩
      · exact Obj.keys_nodup_erase _ k hwk1.1
      · intro q hq
        exact hwk1.2 q ((Obj.mem_erase _ _ _).1 hq).1
      · intro q hq
        right
        exact hmem1 q ((Obj.mem_erase _ _ _).1 hq).1
      · intro q hq
        exact hkeys1 q ((Obj.mem_erase _ _ _).1 hq).1
      · intro q hq
        by_cases hqk : q = k
        · exact Or.inl hqk
        · right
          obtain ⟨p, hp, hpq⟩ := List.mem_map.1 hq
          refine List.mem_map.2 ⟨(p.1, p.2.withoutKey (depKey e.id)), ?_, hpq⟩
          refine (Obj.mem_erase _ _ _).2 ⟨List.mem_map.2 ⟨p, hp, rfl⟩, ?_⟩
          show p.1 ≠ k
          have hpq' : p.1 = q := hpq
          rw [hpq']
          exact hqk

/-! ### The selection loop: termination -/

theorem DepEntry.weight_pos (e : DepEntry) : 1 ≤ e.weight := by
  unfold DepEntry.weight
  split <;> omega

theorem DepEntry.weight_withoutKey_le (e : DepEntry) (x : String) :
    (e.withoutKey x).weight ≤ e.weight := by
  unfold DepEntry.weight DepEntry.withoutKey keysRemove
  have hle : (e.optional.filter (fun y => !decide (y = x))).length ≤ e.optional.length :=
    List.length_filter_le _ _
  simp only
  split <;> split <;> omega

theorem DepTable.sum_withoutKey_le (tbl : DepTable) (x : String) :
    ((tbl.map (fun (p : String × DepEntry) => (p.1, p.2.withoutKey x))).map
        (fun (p : String × DepEntry) => p.2.weight)).sum
      ≤ (tbl.map (fun (p : String × DepEntry) => p.2.weight)).sum := by
  induction tbl with
  | nil => simp
  | cons p t ih =>
      simp only [List.map_cons, List.sum_cons]
      have := DepEntry.weight_withoutKey_le p.2 x
      omega

theorem DepTable.sum_set (tbl : DepTable) (k : String) (old v : DepEntry)
    (h : Obj.lookup k tbl = some old) :
    ((Obj.set tbl k v).map (fun (p : String × DepEntry) => p.2.weight)).sum + old.weight
      = (tbl.map (fun (p : String × DepEntry) => p.2.weight)).sum + v.weight := by
  induction tbl with
  | nil => simp [Obj.lookup] at h
  | cons p t ih =>
      obtain ⟨k', v'⟩ := p
      by_cases hk : k' = k
      · simp only [Obj.lookup, hk, if_true, Option.some.injEq] at h
        subst h
        simp only [Obj.set, hk, if_true, List.map_cons, List.sum_cons]
        omega
      · simp only [Obj.lookup, hk, if_false] at h
        have := ih h
        simp only [Obj.set, hk, if_false, List.map_cons, List.sum_cons]
        omega

theorem DepTable.sum_erase (tbl : DepTable) (k : String) (old : DepEntry)
    (h : Obj.lookup k tbl = some old) :
    ((Obj.erase tbl k).map (fun (p : String × DepEntry) => p.2.weight)).sum + old.weight
      ≤ (tbl.map (fun (p : String × DepEntry) => p.2.weight)).sum := by
  have hle : ∀ t : DepTable,
      ((Obj.erase t k).map (fun (p : String × DepEntry) => p.2.weight)).sum
        ≤ (t.map (fun (p : String × DepEntry) => p.2.weight)).sum := by
    intro t
    induction t with
    | nil => simp [Obj.erase]
    | cons p t ih =>
        by_cases hk : p.1 = k
        · have : Obj.erase (p :: t) k = Obj.erase t k := by
            simp [Obj.erase, List.filter_cons, hk]
          rw [this]
          simp only [List.map_cons, List.sum_cons]
          omega
        · have : Obj.erase (p :: t) k = p :: Obj.erase t k := by
            simp [Obj.erase, List.filter_cons, hk]
          rw [this]
          simp only [List.map_cons, List.sum_cons]
          omega
  induction tbl with
  | nil => simp [Obj.lookup] at h
  | cons p t ih =>
      obtain ⟨k', v'⟩ := p
      by_cases hk : k' = k
      · simp only [Obj.lookup, hk, if_true, Option.some.injEq] at h
        subst h
        have : Obj.erase ((k', v') :: t) k = Obj.erase t k := by
          simp [Obj.erase, List.filter_cons, hk]
        rw [this]
        simp only [List.map_cons, List.sum_cons]
        have := hle t
        omega
      · simp only [Obj.lookup, hk, if_false] at h
        have : Obj.erase ((k', v') :: t) k = (k', v') :: Obj.erase t k := by
          simp [Obj.erase, List.filter_cons, hk]
        rw [this]
        simp only [List.map_cons, List.sum_cons]
        have := ih h
        omega

/-- A turn of the loop that goes on emits one diff and uses up a turn of the table. -/
theorem Schema.selectStep_turns (S : Schema) (st st1 : DeltaState)
    (h : S.selectStep st = .ok (some st1)) :
    st1.tbl.turns < st.tbl.turns ∧ st1.deltas.length = st.deltas.length + 1 := by
  rcases getNextReady_cases st.tbl with ⟨hg, _⟩ | ⟨e, _, hg⟩ | ⟨k, e, _, _, hk, hg⟩
  · unfold Schema.selectStep at h
    rw [hg] at h
    cases h
  · unfold Schema.selectStep at h
    rw [hg] at h
    simp at h
  · unfold Schema.selectStep at h
    rw [hg] at h
    simp only [hk, if_false] at h
    have hle := DepTable.sum_withoutKey_le st.tbl (depKey e.id)
    cases hl : Obj.lookup k
        (st.tbl.map (fun (p : String × DepEntry) => (p.1, p.2.withoutKey (depKey e.id)))) with
    | none => rw [hl] at h; cases h
    | some entry =>
        rw [hl] at h
        simp only at h
        split at h
        · rename_i hopt
          cases hsp : S.splitDelta entry.diff entry.optional with
          | error err => rw [hsp] at h; cases h
          | ok p =>
              rw [hsp] at h
              simp only [Except.map, Except.ok.injEq, Option.some.injEq] at h
              subst h
              have hs := DepTable.sum_set _ k entry
                { entry with diff := p.2, required := entry.optional, optional := [] } hl
              have hw : entry.weight = 2 := by
                unfold DepEntry.weight
                rw [if_pos hopt]
              have hw' : DepEntry.weight
                  { entry with diff := p.2, required := entry.optional, optional := [] } = 1 := by
                simp [DepEntry.weight]
              rw [hw, hw'] at hs
              constructor
              · unfold DepTable.turns
                simp only
                omega
              · simp
        · simp only [Except.ok.injEq, Option.some.injEq] at h
          subst h
          have hs := DepTable.sum_erase _ k entry hl
          have hw := DepEntry.weight_pos entry
          constructor
          · unfold DepTable.turns
            simp only
            omega
          · simp

theorem Schema.selectLoop_ends (S : Schema) (fuel : Nat) (st : DeltaState)
    (h : st.tbl.turns ≤ fuel) : S.selectLoop fuel st ≠ .ok none := by
  induction fuel generalizing st with
  | zero =>
      unfold DepTable.turns at h
      omega
  | succ n ih =>
      unfold Schema.selectLoop
      cases hs : S.selectStep st with
      | error e => simp [Except.bind]
      | ok r =>
          cases r with
          | none => simp [Except.bind]
          | some st1 =>
              simp only [Except.bind]
              apply ih
              have := (S.selectStep_turns st st1 hs).1
              omega

theorem Schema.selectLoop_succ (S : Schema) (fuel : Nat) (st : DeltaState)
    (h : S.selectLoop fuel st ≠ .ok none) :
    S.selectLoop (fuel + 1) st = S.selectLoop fuel st := by
  induction fuel generalizing st with
  | zero => exact absurd rfl h
  | succ n ih =>
      rw [Schema.selectLoop.eq_def S (n + 1 + 1), Schema.selectLoop.eq_def S (n + 1)]
      simp only
      cases hs : S.selectStep st with
      | error e => rfl
      | ok r =>
          cases r with
          | none => rfl
          | some st1 =>
              simp only [Except.bind]
              apply ih
              intro hh
              apply h
              unfold Schema.selectLoop
              rw [hs]
              simp only [Except.bind]
              exact hh

theorem Schema.selectLoop_more (S : Schema) (fuel extra : Nat) (st : DeltaState)
    (h : S.selectLoop fuel st ≠ .ok none) :
    S.selectLoop (fuel + extra) st = S.selectLoop fuel st := by
  induction extra with
  | zero => rfl
  | succ m ih =>
      rw [← Nat.add_assoc, Schema.selectLoop_succ S (fuel + m) st (by rw [ih]; exact h), ih]

theorem Schema.selectLoop_count (S : Schema) (fuel : Nat) (st st' : DeltaState)
    (h : S.selectLoop fuel st = .ok (some st')) :
    st'.deltas.length + st'.tbl.turns ≤ st.deltas.length + st.tbl.turns := by
  induction fuel generalizing st with
  | zero =>
      unfold Schema.selectLoop at h
      cases h
  | succ n ih =>
      unfold Schema.selectLoop at h
      cases hs : S.selectStep st with
      | error e => rw [hs] at h; cases h
      | ok r =>
          rw [hs] at h
          cases r with
          | none =>
              simp only [Except.bind, Except.ok.injEq, Option.some.injEq] at h
              rw [h]
          | some st1 =>
              simp only [Except.bind] at h
              have h1 := ih st1 h
              have h2 := S.selectStep_turns st st1 hs
              omega

theorem DepTable.turns_le (tbl : DepTable) : tbl.turns ≤ 2 * tbl.length + 1 := by
  unfold DepTable.turns
  have : (tbl.map (fun (p : String × DepEntry) => p.2.weight)).sum ≤ 2 * tbl.length := by
    induction tbl with
    | nil => simp
    | cons p t ih =>
        simp only [List.map_cons, List.sum_cons, List.length_cons]
        have : p.2.weight ≤ 2 := by
          unfold DepEntry.weight
          split <;> omega
        omega
  omega

/-- C24: for every dependency table, with or without a cycle of required references or a
dependency on a record that is never selected, and whatever was emitted before, the
selection loop of `makeDeltas` ends: a number of turns bounded by twice the number of
entries, plus one, suffices; with that many turns or more the loop has ended (with the
final state, or with an error thrown by `splitDelta`), the outcome does not depend on the
number of turns granted, and the number of selections (the diffs emitted) is less than
the bound. -/
theorem makeDeltas_loop_terminates (S : Schema) (st : DeltaState) :
    st.tbl.turns ≤ 2 * st.tbl.length + 1 ∧
    ∀ fuel, st.tbl.turns ≤ fuel →
      S.selectLoop fuel st ≠ .ok none ∧
      S.selectLoop fuel st = S.selectLoop st.tbl.turns st ∧
      ∀ st', S.selectLoop fuel st = .ok (some st') →
        st'.deltas.length < st.deltas.length + st.tbl.turns := by
  refine ⟨DepTable.turns_le st.tbl, ?_⟩
  intro fuel hfuel
  refine ⟨S.selectLoop_ends fuel st hfuel, ?_, ?_⟩
  · obtain ⟨extra, hextra⟩ := Nat.exists_eq_add_of_le hfuel
    rw [hextra]
    exact S.selectLoop_more _ extra st (S.selectLoop_ends _ st (le_refl _))
  · intro st' h
    have h1 := S.selectLoop_count fuel st st' h
    have h2 : 1 ≤ st'.tbl.turns := by
      unfold DepTable.turns
      omega
    omega

/-! ### The selection loop: what it emits and what it leaves -/

theorem Schema.selectLoop_blocked (S : Schema) (fuel : Nat) (st st' : DeltaState)
    (hwk : st.tbl.WellKeyed) (h : S.selectLoop fuel st = .ok (some st')) :
    (∀ p, p ∈ st'.tbl → p.2.required ≠ []) ∧
    (∀ q, q ∈ st.tbl.keys → q ∈ st'.tbl.keys ∨ q ∈ st'.deltas.map (fun x => x.1)) ∧
    (∀ x, x ∈ st.deltas → x ∈ st'.deltas) := by
  induction fuel generalizing st with
  | zero =>
      unfold Schema.selectLoop at h
      cases h
  | succ n ih =>
      unfold Schema.selectLoop at h
      cases hs : S.selectStep st with
      | error e => rw [hs] at h; cases h
      | ok r =>
          rw [hs] at h
          cases r with
          | none =>
              simp only [Except.bind, Except.ok.injEq, Option.some.injEq] at h
              subst h
              exact ⟨S.selectStep_none st hwk hs, fun q hq => Or.inl hq, fun x hx => hx⟩
          | some st1 =>
              simp only [Except.bind] at h
              obtain ⟨k, e, d, _, _, hd, hwk1, _, _, hkeys⟩ := S.selectStep_some st st1 hwk hs
              obtain ⟨h1, h2, h3⟩ := ih st1 hwk1 h
              refine ⟨h1, ?_, ?_⟩
              · intro q hq
                rcases hkeys q hq with hqk | hq1
                · right
                  refine List.mem_map.2 ⟨(k, d), h3 _ ?_, hqk.symm⟩
                  rw [hd]
                  simp
                · exact h2 q hq1
              · intro x hx
                apply h3
                rw [hd]
                exact List.mem_append_left _ hx

theorem Schema.selectStep_ordered (S : Schema) (T0 : DepTable) (st st1 : DeltaState)
    (hwk : st.tbl.WellKeyed) (hord : T0.Ordered st.deltas) (hwait : T0.Waiting st)
    (hs : S.selectStep st = .ok (some st1)) :
    st1.tbl.WellKeyed ∧ T0.Ordered st1.deltas ∧ T0.Waiting st1 := by
  obtain ⟨k, e, d, hmem, hreq, hd, hwk1, htbl, _, _⟩ := S.selectStep_some st st1 hwk hs
  have hready : ∀ e0, (k, e0) ∈ T0 → ∀ r, r ∈ e0.required →
      r ∈ st.deltas.map (fun x => x.1) := by
    intro e0 he0 r hr
    rcases hwait (k, e) hmem e0 he0 r hr with h | h
    · exact h
    · rw [hreq] at h
      cases h
  refine ⟨hwk1, ?_, ?_⟩
  · intro i k' d' hi e0 he0 r hr
    rw [hd] at hi ⊢
    by_cases hlt : i < st.deltas.length
    · rw [List.getElem?_append_left hlt] at hi
      obtain ⟨j, dj, hj, hget⟩ := hord i k' d' hi e0 he0 r hr
      refine ⟨j, dj, hj, ?_⟩
      rw [List.getElem?_append_left (by omega)]
      exact hget
    · have hge : st.deltas.length ≤ i := Nat.le_of_not_lt hlt
      rw [List.getElem?_append_right hge] at hi
      have hi0 : i - st.deltas.length = 0 := by
        by_contra hne
        have : [(k, d)][i - st.deltas.length]? = none := by
          apply List.getElem?_eq_none
          simp
          omega
        rw [this] at hi
        cases hi
      rw [hi0] at hi
      simp only [List.getElem?_cons_zero, Option.some.injEq, Prod.mk.injEq] at hi
      obtain ⟨hk', _⟩ := hi
      subst hk'
      have hin := hready e0 he0 r hr
      obtain ⟨x, hx, hxr⟩ := List.mem_map.1 hin
      obtain ⟨j, hjlt, hj⟩ := List.getElem_of_mem hx
      refine ⟨j, x.2, by omega, ?_⟩
      rw [List.getElem?_append_left hjlt, List.getElem?_eq_getElem hjlt, hj]
      simp only [Option.some.injEq]
      rw [← hxr]
  · intro p hp e0 he0 r hr
    have hmap : ∀ x, x ∈ st.deltas.map (fun x => x.1) → x ∈ st1.deltas.map (fun x => x.1) := by
      intro x hx
      rw [hd, List.map_append]
      exact List.mem_append_left _ hx
    rcases htbl p hp with hpk | ⟨e', he', hreq'⟩
    · left
      rw [hpk] at he0
      exact hmap r (hready e0 he0 r hr)
    · rcases hwait (p.1, e') he' e0 he0 r hr with h | h
      · exact Or.inl (hmap r h)
      · by_cases hrk : r = k
        · left
          rw [hd, List.map_append]
          apply List.mem_append_right
          simp [hrk]
        · right
          rw [hreq']
          unfold keysRemove
          simp [List.mem_filter, h, hrk]

theorem Schema.selectLoop_ordered (S : Schema) (T0 : DepTable) (fuel : Nat)
    (st st' : DeltaState) (hwk : st.tbl.WellKeyed) (hord : T0.Ordered st.deltas)
    (hwait : T0.Waiting st) (h : S.selectLoop fuel st = .ok (some st')) :
    T0.Ordered st'.deltas := by
  induction fuel generalizing st with
  | zero =>
      unfold Schema.selectLoop at h
      cases h
  | succ n ih =>
      unfold Schema.selectLoop at h
      cases hs : S.selectStep st with
      | error e => rw [hs] at h; cases h
      | ok r =>
          rw [hs] at h
          cases r with
          | none =>
              simp only [Except.bind, Except.ok.injEq, Option.some.injEq] at h
              subst h
              exact hord
          | some st1 =>
              simp only [Except.bind] at h
              obtain ⟨hwk1, hord1, hwait1⟩ := S.selectStep_ordered T0 st st1 hwk hord hwait hs
              exact ih st1 hwk1 hord1 hwait1 h

theorem DepTable.ordered_nil (T0 : DepTable) : T0.Ordered [] := by
  intro i k d hi
  simp at hi

theorem DepTable.waiting_start (T0 : DepTable) (hwk : T0.WellKeyed) :
    T0.Waiting { tbl := T0, deltas := [] } := by
  intro p hp e0 he0 r hr
  right
  have h1 := Obj.lookup_of_mem T0 p.1 p.2 hwk.1 hp
  have h2 := Obj.lookup_of_mem T0 p.1 e0 hwk.1 he0
  rw [h1] at h2
  cases h2
  exact hr

/-! ### The dependency table of `_makeDependencyTable` -/

theorem Except.foldlM_invariant {α β : Type} (P : β → Prop) (f : β → α → Except Err β)
    (l : List α) (init r : β)
    (hstep : ∀ acc x acc', x ∈ l → f acc x = .ok acc' → P acc → P acc')
    (h : l.foldlM f init = .ok r) (h0 : P init) : P r := by
  induction l generalizing init with
  | nil =>
      simp only [List.foldlM_nil, pure, Except.pure, Except.ok.injEq] at h
      rw [← h]
      exact h0
  | cons x rest ih =>
      rw [List.foldlM_cons] at h
      cases hx : f init x with
      | error e =>
          rw [hx] at h
          simp [bind, Except.bind] at h
      | ok acc' =>
          rw [hx] at h
          simp only [bind, Except.bind] at h
          exact ih acc' (fun acc y acc'' hy => hstep acc y acc'' (List.mem_cons_of_mem _ hy)) h
            (hstep init x acc' (List.mem_cons_self _ _) hx h0)

theorem keysAdd_mem (xs : List String) (k x : String) :
    x ∈ keysAdd xs k ↔ x ∈ xs ∨ x = k := by
  unfold keysAdd
  by_cases h : k ∈ xs
  · rw [if_pos h]
    constructor
    · exact Or.inl
    · rintro (h1 | h1)
      · exact h1
      · rw [h1]; exact h
  · rw [if_neg h]
    simp

theorem Schema.depAddRelated_id (S : Schema) (s : Store) (isRequired : Bool)
    (entry entry' : DepEntry) (relId : ID)
    (h : S.depAddRelated s isRequired entry relId = .ok entry') :
    entry'.id = entry.id := by
  unfold Schema.depAddRelated at h
  cases hg : S.exists s (Val.ident relId) with
  | error e => rw [hg] at h; cases h
  | ok found =>
      rw [hg] at h
      simp only [Except.map, Except.ok.injEq] at h
      subst h
      cases found with
      | true => rfl
      | false => cases isRequired <;> rfl

theorem Schema.depAddField_id (S : Schema) (s : Store) (model : Model)
    (entry entry' : DepEntry) (f : String)
    (h : S.depAddField s model entry f = .ok entry') :
    entry'.id = entry.id := by
  unfold Schema.depAddField at h
  cases hf : model.getField f with
  | error e => rw [hf] at h; cases h
  | ok field =>
      rw [hf] at h
      simp only [Except.bind] at h
      cases hl : Obj.lookup f entry.diff with
      | none =>
          rw [hl] at h
          simp only [Except.ok.injEq] at h
          rw [← h]
      | some e =>
          rw [hl] at h
          simp only at h
          by_cases hemp : isEmpty e.2 = true
          · rw [if_pos hemp] at h
            simp only [Except.ok.injEq] at h
            rw [← h]
          · rw [if_neg hemp] at h
            cases hr : relatedIds field.many e.2 with
            | error err => rw [hr] at h; cases h
            | ok related =>
                rw [hr] at h
                simp only at h
                exact Except.foldlM_invariant (fun (x : DepEntry) => x.id = entry.id) _
                  related entry entry'
                  (fun acc x acc' _ hx hacc =>
                    (S.depAddRelated_id s field.required acc acc' x hx).trans hacc)
                  h rfl

theorem Obj.mem_set_weak {α : Type} (o : Obj α) (k : String) (v : α) (p : String × α)
    (h : p ∈ Obj.set o k v) : p = (k, v) ∨ p ∈ o := by
  induction o with
  | nil =>
      simp only [Obj.set, List.mem_singleton] at h
      exact Or.inl h
  | cons q t ih =>
      obtain ⟨k', v'⟩ := q
      by_cases hk : k' = k
      · simp only [Obj.set, hk, if_true] at h
        rcases List.mem_cons.1 h with h1 | h1
        · exact Or.inl h1
        · exact Or.inr (List.mem_cons_of_mem _ h1)
      · simp only [Obj.set, hk, if_false] at h
        rcases List.mem_cons.1 h with h1 | h1
        · exact Or.inr (h1 ▸ List.mem_cons_self _ _)
        · rcases ih h1 with h2 | h2
          · exact Or.inl h2
          · exact Or.inr (List.mem_cons_of_mem _ h2)

theorem Obj.keys_nodup_set {α : Type} (o : Obj α) (k : String) (v : α)
    (h : o.keys.Nodup) : (Obj.set o k v).keys.Nodup := by
  induction o with
  | nil => simp [Obj.set, Obj.keys]
  | cons q t ih =>
      obtain ⟨k', v'⟩ := q
      have hnd' : (Obj.keys t).Nodup := (List.nodup_cons.1 h).2
      have hk' : k' ∉ Obj.keys t := (List.nodup_cons.1 h).1
      by_cases hk : k' = k
      · simp only [Obj.set, hk, if_true]
        rw [hk] at h
        exact h
      · simp only [Obj.set, hk, if_false]
        show (k' :: Obj.keys (Obj.set t k v)).Nodup
        refine List.nodup_cons.2 ⟨?_, ih hnd'⟩
        intro hmem
        obtain ⟨p, hp, hpk⟩ := List.mem_map.1 hmem
        rcases Obj.mem_set_weak t k v p hp with h1 | h1
        · rw [h1] at hpk
          exact hk hpk.symm
        · exact hk' (List.mem_map.2 ⟨p, h1, hpk⟩)

/-- The table `_makeDependencyTable` returns: every entry is stored under the key of its
own identifier, once. -/
theorem Schema.makeDependencyTable_wellKeyed (S : Schema) (s : Store) (T0 : DepTable)
    (h : S._makeDependencyTable s = .ok T0) : T0.WellKeyed := by
  unfold Schema._makeDependencyTable at h
  refine Except.foldlM_invariant (fun (tbl : DepTable) => tbl.WellKeyed)
    _ S.models [] T0 ?_ h ?_
  · intro acc pm acc' hpm hstep hacc
    cases hh : S.getTable s (Val.str pm.2.type) with
    | error e => rw [hh] at hstep; cases hstep
    | ok headTbl =>
        rw [hh] at hstep
        simp only [Except.bind] at hstep
        refine Except.foldlM_invariant (fun (tbl : DepTable) => tbl.WellKeyed)
          _ headTbl.iterObjects acc acc' ?_ hstep hacc
        intro tbl headObj tbl' _ hrec htbl
        unfold Schema.depAddRecord at hrec
        cases hg : headTbl.get (.value (headObj.get "id")) false with
        | error e => rw [hg] at hrec; cases hrec
        | ok tailObj =>
            rw [hg] at hrec
            simp only [Except.bind] at hrec
            cases hd : pm.2.diff tailObj (some headObj) with
            | error e => rw [hd] at hrec; cases hrec
            | ok made =>
              rw [hd] at hrec
              simp only at hrec
              cases made with
              | none =>
                  simp only [Except.ok.injEq] at hrec
                  rw [← hrec]
                  exact htbl
              | some diff =>
                  simp only at hrec
                  cases hid : makeId (headObj.get "_type") (headObj.get "id") with
                  | error e => rw [hid] at hrec; cases hrec
                  | ok id =>
                      rw [hid] at hrec
                      simp only at hrec
                      cases hfold : pm.2.iterRelationships.foldlM (S.depAddField s pm.2)
                          { id := id, diff := diff, required := [], optional := [] } with
                      | error e => rw [hfold] at hrec; cases hrec
                      | ok entry =>
                          rw [hfold] at hrec
                          simp only [Except.map, Except.ok.injEq] at hrec
                          have a1 : entry.id = id :=
                            Except.foldlM_invariant (fun (x : DepEntry) => x.id = id) _
                              pm.2.iterRelationships _ entry
                              (fun acc x acc' _ hx hacc =>
                                (S.depAddField_id s pm.2 acc acc' x hx).trans hacc)
                              hfold rfl
                          rw [← hrec]
                          refine ⟨Obj.keys_nodup_set _ _ _ htbl.1, ?_⟩
                          intro p hp
                          rcases Obj.mem_set_weak _ _ _ p hp with h1 | h1
                          · rw [h1]
                            show depKey id = depKey entry.id
                            rw [a1]
                          · exact htbl.2 p h1
  · refine ⟨?_, ?_⟩
    · simp [Obj.keys]
    · intro p hp
      cases hp

/-! ## Dependency-ordered diff emission: the properties -/

/-- C23: `makeDeltas` returns no sequence.  For every store the call throws a `TypeError`
at its first statement, the call `this.makeDependencyTable()`: the classes define no
method of that name; the method that builds the dependency table is
`_makeDependencyTable`, and the one that selects an entry is `_getNextReady`, while the
loop calls `this.getNextReady`. -/
theorem makeDeltas_throws (S : Schema) (fuel : Nat) (s : Store) :
    "makeDependencyTable" ∉ storeMethods ∧ "_makeDependencyTable" ∈ storeMethods ∧
    "getNextReady" ∉ storeMethods ∧ "_getNextReady" ∈ storeMethods ∧
    S.makeDeltas fuel s
      = .error (.typeError "this.makeDependencyTable is not a function") :=
  ⟨by decide, by decide, by decide, by decide, rfl⟩

/-- C25: on the table of two new records that require each other the selection loop of
`makeDeltas` ends at its first turn, for want of an entry without required keys: both
records remain in the table and no diff was emitted.  The comment on the loop reads
"Process IIDs in turn until they're all gone." -/
theorem loop_stops_with_records_left :
    cycleTable.WellKeyed ∧
    _getNextReady cycleTable = (cycleTable, none) ∧
    librarySchema.selectLoop cycleTable.turns { tbl := cycleTable, deltas := [] }
      = .ok (some { tbl := cycleTable, deltas := [] }) ∧
    cycleTable.length = 2 := by
  refine ⟨?_, rfl, rfl, rfl⟩
  unfold DepTable.WellKeyed
  decide

/-- What the selection loop of `makeDeltas` leaves: for every dependency table whose
entries are stored under the keys of their identifiers, when the loop stops, every
record that remains in the table has a required key left (it waits for a record that was
never selected), and a diff was emitted for every record of the table that does not
remain. -/
theorem Schema.selectLoop_leaves_only_blocked (S : Schema) (tbl : DepTable) (fuel : Nat)
    (st : DeltaState) (hwk : tbl.WellKeyed)
    (h : S.selectLoop fuel { tbl := tbl, deltas := [] } = .ok (some st)) :
    (∀ p, p ∈ st.tbl → p.2.required ≠ []) ∧
    (∀ q, q ∈ tbl.keys → q ∈ st.tbl.keys ∨ q ∈ st.deltas.map (fun x => x.1)) := by
  obtain ⟨h1, h2, _⟩ := S.selectLoop_blocked fuel _ st hwk h
  exact ⟨h1, h2⟩

/-- The selection loop on the table of a new book that requires a new author: the diff of
the author is emitted first, and the loop leaves no record. -/
theorem Schema.selectLoop_chainTable :
    ∃ st, librarySchema.selectLoop 5 { tbl := chainTable, deltas := [] } = .ok (some st) ∧
      st.tbl = [] ∧ st.deltas.map (fun x => x.1) = ["Author|a1", "Book|b1"] ∧
      chainTable.Ordered st.deltas :=
  ⟨_, rfl, rfl, rfl,
    librarySchema.selectLoop_ordered chainTable 5 _ _
      (by unfold DepTable.WellKeyed; decide) (DepTable.ordered_nil chainTable)
      (DepTable.waiting_start chainTable (by unfold DepTable.WellKeyed; decide)) rfl⟩

/-- C26, failing runs: `splitDelta` on the update diff of a review that sets the book
`b9` and adds the tags `t1` and `t2`, with the book `b9` and the tag `t2` pending.  The
field `book`, whose target is pending, stays in the main diff and is absent from the
auxiliary diff; the auxiliary diff holds both tags, of which `t1` is not pending, and the
main diff holds none.  On a create diff, whose side the diff starts from is `undefined`,
the call throws. -/
theorem splitDelta_ignores_pending_set :
    depKey bookNine ∈ ["Book|b9", "Tag|t2"] ∧ depKey tag2 ∈ ["Book|b9", "Tag|t2"] ∧
    depKey tag1 ∉ ["Book|b9", "Tag|t2"] ∧
    reviewSchema.splitDelta reviewDiff ["Book|b9", "Tag|t2"]
      = .ok ([("_type", (Val.str "Review", Val.str "Review")),
              ("id", (Val.str "r1", Val.str "r1")),
              ("book", (Val.undefined, Val.ident bookNine)),
              ("tags", (Val.oset [], Val.oset []))],
             [("tags", (Val.oset [], Val.oset [tag1, tag2]))]) ∧
    reviewSchema.splitDelta reviewCreateDiff ["Tag|t2"]
      = .error (.typeError "filter of undefined") := by
  refine ⟨by decide, by decide, by decide, rfl, rfl⟩

/-! ## `reId`: the delta log -/

theorem Schema.onTable_log (S : Schema) (br : BranchName) (type : Val)
    (op : Table → Except Err Table) (s : Store) :
    (S.onTable br type op s).1.diffs = s.diffs ∧
      (S.onTable br type op s).1.tailptr = s.tailptr := by
  unfold Schema.onTable
  cases (S.getTable s type).bind op with
  | error e => exact ⟨rfl, rfl⟩
  | ok t => cases br <;> exact ⟨rfl, rfl⟩

theorem Schema.reIdTable_log (S : Schema) (type id newId : Val) (br : BranchName)
    (s : Store) :
    (S.reIdTable type id newId br s).1.diffs = s.diffs ∧
      (S.reIdTable type id newId br s).1.tailptr = s.tailptr := by
  unfold Schema.reIdTable
  cases (S.getTable s type).bind (fun tbl => tbl.reId id newId) with
  | error e => exact ⟨rfl, rfl⟩
  | ok t => cases br <;> exact ⟨rfl, rfl⟩

theorem Schema.reIdRelated_log (S : Schema) (br : BranchName) (fromId toId : ID)
    (p : Val × Option String) (L : List Diff) (n : Int) :
    ∀ s : Store, (s.diffs = L ∧ s.tailptr = n) →
      ((S.reIdRelated br fromId toId p s).1.diffs = L
        ∧ (S.reIdRelated br fromId toId p s).1.tailptr = n) := by
  unfold Schema.reIdRelated
  cases p.2 with
  | none => exact fun s hs => hs
  | some reverseField =>
      simp only
      by_cases hr : reverseField = ""
      · rw [if_pos hr]
        exact fun s hs => hs
      · rw [if_neg hr]
        refine Run.keeps_bind (fun (s : Store) => s.diffs = L ∧ s.tailptr = n) _ _ ?_ ?_
        · intro s hs
          rw [Schema.get_state]
          exact hs
        · intro obj s hs
          have := S.onTable_log br (obj.get "_type") (fun relTbl =>
            if relTbl.model.fieldIsForeignKey reverseField = false then
              (relTbl.removeRelationship (obj.get "id") reverseField fromId).bind
                (fun t => t.addRelationship (obj.get "id") reverseField toId)
            else relTbl.set (Obj.set obj reverseField (Val.ident toId))) s
          exact ⟨this.1.trans hs.1, this.2.trans hs.2⟩

/-- The diff loop of `reId`, when it returns: every diff of the log was replaced by its
rewriting, at its position; nothing else in the store changed. -/
theorem Schema.reIdDiffs_ok (S : Schema) (id newId : Val) (fromId toId : ID) (s : Store)
    (h : (S.reIdDiffs id newId fromId toId s).2 = .ok ()) :
    (S.reIdDiffs id newId fromId toId s).1.head = s.head ∧
    (S.reIdDiffs id newId fromId toId s).1.tail = s.tail ∧
    (S.reIdDiffs id newId fromId toId s).1.tailptr = s.tailptr ∧
    (S.reIdDiffs id newId fromId toId s).1.diffs.length = s.diffs.length ∧
    ∀ (i : Nat) (d : Diff), s.diffs[i]? = some d →
      ∃ d', S.reIdDiff id newId fromId toId d = .ok d' ∧
        (S.reIdDiffs id newId fromId toId s).1.diffs[i]? = some d' := by
  have key : ∀ n, n ≤ s.diffs.length →
      ((List.range n).foldl (fun (acc : Store × Except Err Unit) ii =>
        match acc.2, s.diffs.get? ii with
        | .ok _, some diff =>
            match S.reIdDiff id newId fromId toId diff with
            | .ok diff' => ({ acc.1 with diffs := acc.1.diffs.set ii diff' }, .ok ())
            | .error e => (acc.1, .error e)
        | _, _ => acc) (s, .ok ())).2 = .ok () →
      let acc := (List.range n).foldl (fun (acc : Store × Except Err Unit) ii =>
        match acc.2, s.diffs.get? ii with
        | .ok _, some diff =>
            match S.reIdDiff id newId fromId toId diff with
            | .ok diff' => ({ acc.1 with diffs := acc.1.diffs.set ii diff' }, .ok ())
            | .error e => (acc.1, .error e)
        | _, _ => acc) (s, .ok ())
      acc.1.head = s.head ∧ acc.1.tail = s.tail ∧ acc.1.tailptr = s.tailptr ∧
      acc.1.diffs.length = s.diffs.length ∧
      (∀ (i : Nat) (d : Diff), i < n → s.diffs[i]? = some d →
        ∃ d', S.reIdDiff id newId fromId toId d = .ok d' ∧ acc.1.diffs[i]? = some d') ∧
      (∀ (i : Nat), n ≤ i → acc.1.diffs[i]? = s.diffs[i]?) := by
    intro n
    induction n with
    | zero =>
        intro _ _
        exact ⟨rfl, rfl, rfl, rfl, fun i d hi => absurd hi (Nat.not_lt_zero _), fun _ _ => rfl⟩
    | succ n ih =>
        intro hn hok
        rw [List.range_succ, List.foldl_append] at hok ⊢
        simp only [List.foldl_cons, List.foldl_nil] at hok ⊢
        generalize hacc : (List.range n).foldl (fun (acc : Store × Except Err Unit) ii =>
          match acc.2, s.diffs.get? ii with
          | .ok _, some diff =>
              match S.reIdDiff id newId fromId toId diff with
              | .ok diff' => ({ acc.1 with diffs := acc.1.diffs.set ii diff' }, .ok ())
              | .error e => (acc.1, .error e)
          | _, _ => acc) (s, .ok ()) = acc at hok ih ⊢
        obtain ⟨st, r⟩ := acc
        cases r with
        | error e => simp at hok
        | ok u =>
            obtain ⟨a1, a2, a3, a4, a5, a6⟩ := ih (by omega) rfl
            have hlt : n < s.diffs.length := by omega
            have hget : s.diffs.get? n = some (s.diffs[n]) := by
              rw [List.get?_eq_getElem?, List.getElem?_eq_getElem hlt]
            simp only [hget] at hok ⊢
            cases hre : S.reIdDiff id newId fromId toId (s.diffs[n]) with
            | error e => rw [hre] at hok; simp at hok
            | ok diff' =>
                simp only
                refine ⟨a1, a2, a3, ?_, ?_, ?_⟩
                · simp only [List.length_set]
                  exact a4
                · intro i d hi hd
                  by_cases hin : i = n
                  · subst hin
                    rw [List.getElem?_eq_getElem hlt] at hd
                    cases hd
                    refine ⟨diff', hre, ?_⟩
                    rw [List.getElem?_set_self (by rw [a4]; exact hlt)]
                  · obtain ⟨d', hd1, hd2⟩ := a5 i d (by omega) hd
                    refine ⟨d', hd1, ?_⟩
                    rw [List.getElem?_set_ne (fun h => hin h.symm)]
                    exact hd2
                · intro i hi
                  rw [List.getElem?_set_ne (by omega)]
                  exact a6 i (by omega)
  unfold Schema.reIdDiffs at h ⊢
  obtain ⟨a1, a2, a3, a4, a5, _⟩ := key s.diffs.length (le_refl _) h
  refine ⟨a1, a2, a3, a4, ?_⟩
  intro i d hd
  have hi : i < s.diffs.length := by
    by_contra hge
    rw [List.getElem?_eq_none (by omega)] at hd
    cases hd
  exact a5 i d hi hd

theorem Run.forEach_log {α : Type} (body : α → Run Store Unit) (L : List Diff) (n : Int)
    (hb : ∀ a (s : Store), (s.diffs = L ∧ s.tailptr = n) →
      ((body a s).1.diffs = L ∧ (body a s).1.tailptr = n))
    (xs : List α) (s : Store) (hs : s.diffs = L ∧ s.tailptr = n) :
    (Run.forEach body xs s).1.diffs = L ∧ (Run.forEach body xs s).1.tailptr = n :=
  Run.keeps_forEach (fun (s : Store) => s.diffs = L ∧ s.tailptr = n) body hb xs s hs

/-- The body of the branch loop of `reId`, when it returns: the log as the diff loop
leaves it. -/
theorem Schema.reIdBranch_ok (S : Schema) (type id newId : Val) (br : BranchName)
    (s : Store) (h : (S.reIdBranch type id newId br s).2 = .ok ()) :
    ∃ fromId toId, makeId type id = .ok fromId ∧ makeId type newId = .ok toId ∧
      (S.reIdBranch type id newId br s).1.tailptr = s.tailptr ∧
      (S.reIdBranch type id newId br s).1.diffs.length = s.diffs.length ∧
      ∀ (i : Nat) (d : Diff), s.diffs[i]? = some d →
        ∃ d', S.reIdDiff id newId fromId toId d = .ok d' ∧
          (S.reIdBranch type id newId br s).1.diffs[i]? = some d' := by
  unfold Schema.reIdBranch at h ⊢
  obtain ⟨s1, a1, h1, e1⟩ := Run.bind_ok_inv _ _ s () h
  rw [e1] at h ⊢
  have hs1 : s1.diffs = s.diffs ∧ s1.tailptr = s.tailptr := by
    have := S.reIdTable_log type id newId br s
    rw [h1] at this
    exact this
  obtain ⟨s2, fromId, h2, e2⟩ := Run.bind_ok_inv _ _ s1 () h
  rw [e2] at h ⊢
  have hs2 : s2 = s1 ∧ makeId type id = .ok fromId := by
    unfold Run.ofExcept at h2
    simp only [Prod.mk.injEq] at h2
    exact ⟨h2.1.symm, h2.2⟩
  obtain ⟨s3, toId, h3, e3⟩ := Run.bind_ok_inv _ _ s2 () h
  rw [e3] at h ⊢
  have hs3 : s3 = s2 ∧ makeId type newId = .ok toId := by
    unfold Run.ofExcept at h3
    simp only [Prod.mk.injEq] at h3
    exact ⟨h3.1.symm, h3.2⟩
  obtain ⟨s4, related, h4, e4⟩ := Run.bind_ok_inv _ _ s3 () h
  rw [e4] at h ⊢
  have hs4 : s4 = s3 := by
    unfold Run.ofExcept at h4
    simp only [Prod.mk.injEq] at h4
    exact h4.1.symm
  obtain ⟨s5, a5, h5, e5⟩ := Run.bind_ok_inv _ _ s4 () h
  rw [e5] at h ⊢
  have hs5 : s5.diffs = s.diffs ∧ s5.tailptr = s.tailptr := by
    have := Run.forEach_log (S.reIdRelated br fromId toId) s.diffs s.tailptr
      (fun a st hst => S.reIdRelated_log br fromId toId a s.diffs s.tailptr st hst)
      related s4 (by rw [hs4, hs3.1, hs2.1]; exact hs1)
    rw [h5] at this
    exact this
  obtain ⟨_, _, b3, b4, b5⟩ := S.reIdDiffs_ok id newId fromId toId s5 h
  refine ⟨fromId, toId, hs2.2, hs3.2, b3.trans hs5.2, ?_, ?_⟩
  · rw [b4, hs5.1]
  · intro i d hd
    rw [← hs5.1] at hd
    exact b5 i d hd

/-- The method `reId`, whatever way the call ends: the tail pointer and the length of the
log are as before. -/
theorem Schema.reId_shape (S : Schema) (type id newId : Val) (branch : Option BranchName)
    (s : Store) :
    (S.reId type id newId branch s).1.tailptr = s.tailptr ∧
    (S.reId type id newId branch s).1.diffs.length = s.diffs.length := by
  have key : ∀ st : Store,
      (st.tailptr = s.tailptr ∧ st.diffs.length = s.diffs.length) →
      ((S.reId type id newId branch st).1.tailptr = s.tailptr
        ∧ (S.reId type id newId branch st).1.diffs.length = s.diffs.length) := by
    unfold Schema.reId
    refine Run.keeps_forEach
      (fun (st : Store) => st.tailptr = s.tailptr ∧ st.diffs.length = s.diffs.length) _ ?_ _
    intro br
    unfold Schema.reIdBranch
    refine Run.keeps_bind
      (fun (st : Store) => st.tailptr = s.tailptr ∧ st.diffs.length = s.diffs.length) _ _ ?_ ?_
    · intro st hst
      have := S.reIdTable_log type id newId br st
      exact ⟨this.2.trans hst.1, by rw [this.1]; exact hst.2⟩
    · intro tbl
      refine Run.keeps_bind
        (fun (st : Store) => st.tailptr = s.tailptr ∧ st.diffs.length = s.diffs.length) _ _
        (fun st hst => hst) ?_
      intro fromId
      refine Run.keeps_bind
        (fun (st : Store) => st.tailptr = s.tailptr ∧ st.diffs.length = s.diffs.length) _ _
        (fun st hst => hst) ?_
      intro toId
      refine Run.keeps_bind
        (fun (st : Store) => st.tailptr = s.tailptr ∧ st.diffs.length = s.diffs.length) _ _
        (fun st hst => hst) ?_
      intro related
      refine Run.keeps_bind
        (fun (st : Store) => st.tailptr = s.tailptr ∧ st.diffs.length = s.diffs.length) _ _
        ?_ ?_
      · refine Run.keeps_forEach
          (fun (st : Store) => st.tailptr = s.tailptr ∧ st.diffs.length = s.diffs.length) _ ?_ _
        intro p st hst
        have := S.reIdRelated_log br fromId toId p st.diffs st.tailptr st ⟨rfl, rfl⟩
        exact ⟨this.2.trans hst.1, by rw [this.1]; exact hst.2⟩
      · intro _ st hst
        have hin : ∀ st0 : Store, (S.reIdDiffs id newId fromId toId st0).1.tailptr = st0.tailptr
            ∧ (S.reIdDiffs id newId fromId toId st0).1.diffs.length = st0.diffs.length := by
          intro st0
          unfold Schema.reIdDiffs
          have key2 : ∀ (l : List Nat) (acc : Store × Except Err Unit),
              (acc.1.tailptr = st0.tailptr ∧ acc.1.diffs.length = st0.diffs.length) →
              ((l.foldl (fun (acc : Store × Except Err Unit) ii =>
                match acc.2, st0.diffs.get? ii with
                | .ok _, some diff =>
                    match S.reIdDiff id newId fromId toId diff with
                    | .ok diff' => ({ acc.1 with diffs := acc.1.diffs.set ii diff' }, .ok ())
                    | .error e => (acc.1, .error e)
                | _, _ => acc) acc).1.tailptr = st0.tailptr ∧
               (l.foldl (fun (acc : Store × Except Err Unit) ii =>
                match acc.2, st0.diffs.get? ii with
                | .ok _, some diff =>
                    match S.reIdDiff id newId fromId toId diff with
                    | .ok diff' => ({ acc.1 with diffs := acc.1.diffs.set ii diff' }, .ok ())
                    | .error e => (acc.1, .error e)
                | _, _ => acc) acc).1.diffs.length = st0.diffs.length) := by
            intro l
            induction l with
            | nil => intro acc hacc; exact hacc
            | cons ii l ih =>
                intro acc hacc
                rw [List.foldl_cons]
                apply ih
                obtain ⟨st1, r⟩ := acc
                cases r with
                | error e => exact hacc
                | ok u =>
                    cases hg : st0.diffs.get? ii with
                    | none => simp only [hg]; exact hacc
                    | some diff =>
                        simp only [hg]
                        cases S.reIdDiff id newId fromId toId diff with
                        | error e => exact hacc
                        | ok diff' =>
                            refine ⟨hacc.1, ?_⟩
                            simp only [List.length_set]
                            exact hacc.2
          exact key2 _ (st0, .ok ()) ⟨rfl, rfl⟩
        have := hin st
        exact ⟨this.1.trans hst.1, this.2.trans hst.2⟩
  exact key s ⟨rfl, rfl⟩

/-- The method `reId` on both branches, when it returns: every diff of the log went
through the rewriting of the diff loop twice, once for each branch, at its position. -/
theorem Schema.reId_both_ok (S : Schema) (type id newId : Val) (s : Store)
    (h : (S.reId type id newId none s).2 = .ok ()) :
    ∃ fromId toId, makeId type id = .ok fromId ∧ makeId type newId = .ok toId ∧
      ∀ (i : Nat) (d : Diff), s.diffs[i]? = some d →
        ∃ d1 d2, S.reIdDiff id newId fromId toId d = .ok d1 ∧
          S.reIdDiff id newId fromId toId d1 = .ok d2 ∧
          (S.reId type id newId none s).1.diffs[i]? = some d2 := by
  unfold Schema.reId at h ⊢
  simp only [Run.forEach] at h ⊢
  obtain ⟨s1, _, h1, e1⟩ := Run.bind_ok_inv _ _ s () h
  rw [e1] at h ⊢
  obtain ⟨s2, _, h2, e2⟩ := Run.bind_ok_inv _ _ s1 () h
  rw [e2] at h ⊢
  have hb1 : (S.reIdBranch type id newId .head s).2 = .ok () := by rw [h1]
  have hb2 : (S.reIdBranch type id newId .tail s1).2 = .ok () := by rw [h2]
  obtain ⟨fromId, toId, hf, ht, _, _, hp1⟩ := S.reIdBranch_ok type id newId .head s hb1
  obtain ⟨fromId', toId', hf', ht', _, _, hp2⟩ := S.reIdBranch_ok type id newId .tail s1 hb2
  rw [hf] at hf'
  rw [ht] at ht'
  cases hf'
  cases ht'
  rw [h1] at hp1
  rw [h2] at hp2
  refine ⟨fromId, toId, hf, ht, ?_⟩
  intro i d hd
  obtain ⟨d1, hd1, hg1⟩ := hp1 i d hd
  obtain ⟨d2, hd2, hg2⟩ := hp2 i d1 hg1
  exact ⟨d1, d2, hd1, hd2, hg2⟩

/-- C30: for every store whose delta log has an oldest entry `d`, followed by `rest`,
`postCommitDiff` called without a diff removes exactly `d` from the log and decreases the
tail pointer by exactly one, whatever way the call ends: the log keeps the length of
`rest`.  When `d` is an update or a remove the call returns `false` and the log is
`rest`.  When `d` is a create the call goes on with `reId` of the record, from the `id`
of the diff to the `id` of the response, and returns `true` when `reId` returns; the log
then holds the entries of `rest` in their order, each as the diff loop of `reId` rewrote
it (once for each branch).  So a call that returns, returns `true` exactly when `d` is a
create. -/
theorem postCommitDiff_pops_oldest (S : Schema) (newId : Val) (s : Store) (d : Diff)
    (rest : List Diff) (hlog : s.diffs = d :: rest) :
    (S.postCommitDiff newId none s).1.tailptr = s.tailptr - 1 ∧
    (S.postCommitDiff newId none s).1.diffs.length = rest.length ∧
    (∀ b, (S.postCommitDiff newId none s).2 = .ok b →
      (b = true ↔ getDiffOp d = some DiffOp.create)) ∧
    (getDiffOp d = some DiffOp.update ∨ getDiffOp d = some DiffOp.remove →
      S.postCommitDiff newId none s
        = ({ s with diffs := rest, tailptr := s.tailptr - 1 }, .ok false)) ∧
    (getDiffOp d = some DiffOp.create →
      ∀ ty i, Obj.lookup "_type" d = some ty → Obj.lookup "id" d = some i →
        (S.postCommitDiff newId none s).1
          = (S.reId ty.2 i.2 newId none { s with diffs := rest, tailptr := s.tailptr - 1 }).1 ∧
        ((S.postCommitDiff newId none s).2 = .ok true
          ↔ (S.reId ty.2 i.2 newId none
              { s with diffs := rest, tailptr := s.tailptr - 1 }).2 = .ok ()) ∧
        ((S.postCommitDiff newId none s).2 = .ok true →
          ∃ fromId toId, makeId ty.2 i.2 = .ok fromId ∧ makeId ty.2 newId = .ok toId ∧
            ∀ (j : Nat) (x : Diff), rest[j]? = some x →
              ∃ x1 x2, S.reIdDiff i.2 newId fromId toId x = .ok x1 ∧
                S.reIdDiff i.2 newId fromId toId x1 = .ok x2 ∧
                (S.postCommitDiff newId none s).1.diffs[j]? = some x2)) := by
  have hpop : S.postCommitDiff newId none s
      = (match getDiffOp d with
          | none => (Run.fail (.typeError "property of undefined") : Run Store Bool)
          | some DiffOp.create =>
              match Obj.lookup "_type" d, Obj.lookup "id" d with
              | some ty, some i =>
                  Run.bind (S.reId ty.2 i.2 newId none) (fun _ => Run.ret true)
              | _, _ => Run.fail (.typeError "property of undefined")
          | some _ => Run.ret false) { s with diffs := rest, tailptr := s.tailptr - 1 } := by
    unfold Schema.postCommitDiff
    simp only [Run.bind, hlog, List.tail_cons, List.head?_cons]
    all_goals rfl
  have hcreate : ∀ ty i, Obj.lookup "_type" d = some ty → Obj.lookup "id" d = some i →
      getDiffOp d = some DiffOp.create →
      S.postCommitDiff newId none s
        = Run.bind (S.reId ty.2 i.2 newId none) (fun _ => Run.ret true)
            { s with diffs := rest, tailptr := s.tailptr - 1 } := by
    intro ty i hty hi hop
    rw [hpop, hop]
    simp only [hty, hi]
  have hbind : ∀ (m : Run Store Unit) (st : Store),
      (Run.bind m (fun _ => (Run.ret true : Run Store Bool)) st).1 = (m st).1 ∧
      ((Run.bind m (fun _ => (Run.ret true : Run Store Bool)) st).2 = .ok true
        ↔ (m st).2 = .ok ()) ∧
      (∀ b, (Run.bind m (fun _ => (Run.ret true : Run Store Bool)) st).2 = .ok b → b = true) := by
    intro m st
    unfold Run.bind Run.ret
    cases hm : m st with
    | mk st' r =>
        cases r with
        | ok u => simp
        | error e => simp
  cases hop : getDiffOp d with
  | none =>
      rw [hpop, hop]
      refine ⟨rfl, rfl, ?_, ?_, ?_⟩
      · intro b hb
        cases hb
      · rintro (h | h) <;> cases h
      · intro h
        cases h
  | some op =>
      cases op with
      | create =>
          cases hty : Obj.lookup "_type" d with
          | none =>
              unfold getDiffOp at hop
              rw [hty] at hop
              cases hop
          | some ty =>
              cases hi : Obj.lookup "id" d with
              | none =>
                  rw [hpop, hop]
                  simp only [hty, hi]
                  refine ⟨rfl, rfl, ?_, ?_, ?_⟩
                  · intro b hb
                    cases hb
                  · rintro (h | h) <;> cases h
                  · intro _ ty' i' _ hi'
                    cases hi'
              | some i =>
                  have hc := hcreate ty i hty hi hop
                  obtain ⟨b1, b2, b3⟩ := hbind (S.reId ty.2 i.2 newId none)
                    { s with diffs := rest, tailptr := s.tailptr - 1 }
                  have hshape := S.reId_shape ty.2 i.2 newId none
                    { s with diffs := rest, tailptr := s.tailptr - 1 }
                  rw [hc]
                  refine ⟨?_, ?_, ?_, ?_, ?_⟩
                  · rw [b1]
                    exact hshape.1
                  · rw [b1]
                    exact hshape.2
                  · intro b hb
                    exact ⟨fun _ => rfl, fun _ => b3 b hb⟩
                  · rintro (h | h) <;> cases h
                  · intro _ ty' i' hty' hi'
                    cases hty'
                    cases hi'
                    refine ⟨b1, b2, ?_⟩
                    intro hret
                    obtain ⟨fromId, toId, hf, ht, hp⟩ := S.reId_both_ok ty.2 i.2 newId
                      { s with diffs := rest, tailptr := s.tailptr - 1 } (b2.1 hret)
                    refine ⟨fromId, toId, hf, ht, ?_⟩
                    intro j x hx
                    rw [b1]
                    exact hp j x hx
      | remove =>
          rw [hpop, hop]
          refine ⟨rfl, rfl, ?_, fun _ => rfl, ?_⟩
          · intro b hb
            have : b = false := by
              simp only [Run.ret, Except.ok.injEq] at hb
              exact hb.symm
            subst this
            simp
          · intro h
            cases h
      | update =>
          rw [hpop, hop]
          refine ⟨rfl, rfl, ?_, fun _ => rfl, ?_⟩
          · intro b hb
            have : b = false := by
              simp only [Run.ret, Except.ok.injEq] at hb
              exact hb.symm
            subst this
            simp
          · intro h
            cases h

/-! ### The rewriting of one diff by `reId` -/

theorem reIdValue_fst (fromId toId : ID) (x : Val) :
    (reIdValue fromId toId x).1 = if x = Val.ident fromId then Val.ident toId else x := by
  unfold reIdValue
  by_cases h : x = Val.ident fromId
  · subst h
    simp [Val.truthy]
  · simp [h]

theorem reIdValue_snd (fromId toId : ID) (x : Val) :
    (reIdValue fromId toId x).2 = true ↔ x = Val.ident fromId := by
  unfold reIdValue
  by_cases h : x = Val.ident fromId
  · subst h
    simp [Val.truthy]
  · simp [h]

theorem reIdSet_spec (fromId toId : ID) (x : Val) (a : Val × Bool)
    (h : reIdSet fromId toId x = .ok a) :
    (a.2 = true ↔ fromId ∈ x.members) ∧
    (fromId ∉ x.members → a.1 = x) ∧
    (fromId ≠ toId → fromId ∉ a.1.members) ∧
    (fromId ∈ x.members → toId ∈ a.1.members) ∧
    (∀ y, y ≠ fromId → y ≠ toId → (y ∈ a.1.members ↔ y ∈ x.members)) := by
  unfold reIdSet at h
  cases x with
  | prim p =>
      cases p with
      | undefined =>
          simp [Val.truthy] at h
          subst h
          simp [Val.members]
      | null =>
          simp [Val.truthy] at h
          subst h
          simp [Val.members]
      | str s =>
          by_cases hs : s = ""
          · simp [Val.truthy, hs] at h
            subst h
            simp [Val.members, hs]
          · simp [Val.truthy, hs, Val.has, Except.bind] at h
      | nan =>
          simp [Val.truthy] at h
          subst h
          simp [Val.members]
      | obj r text => simp [Val.truthy, Val.has, Except.bind] at h
  | ident i =>
      simp [Val.truthy, Val.has, Except.bind] at h
      subst h
      simp [Val.members]
  | oset xs =>
      simp only [Val.truthy, if_true, Val.has, Except.bind] at h
      by_cases hc : xs.contains fromId = true
      · simp only [hc, if_true, Val.delete, Val.add, Except.map, Except.ok.injEq] at h
        subst h
        have hmem : fromId ∈ xs := by simpa using hc
        refine ⟨by simp [Val.members, hmem], fun hn => absurd hmem hn, ?_, ?_, ?_⟩
        · intro hne
          simp only [Val.members]
          split
          · simp
          · simp [hne]
        · intro _
          simp only [Val.members]
          split
          · rename_i hin
            simpa using hin
          · simp
        · intro y hy1 hy2
          simp only [Val.members]
          split
          · simp [hy1]
          · simp [hy1, hy2]
      · simp only [hc, Bool.false_eq_true, if_false, Except.ok.injEq] at h
        subst h
        have hmem : fromId ∉ xs := by simpa using hc
        simp [Val.members, hmem]

theorem lookup_foldl_reIdFkStep (fromId toId : ID) (d : Diff) (l : List String)
    (acc : Diff × Bool) (g : String) :
    Obj.lookup g (l.foldl (reIdFkStep fromId toId d) acc).1
      = if g ∈ l then
          (match Obj.lookup g d with
           | some e => some ((reIdValue fromId toId e.1).1, (reIdValue fromId toId e.2).1)
           | none => Obj.lookup g acc.1)
        else Obj.lookup g acc.1 := by
  induction l generalizing acc with
  | nil => simp
  | cons f rest ih =>
      rw [List.foldl_cons, ih]
      have hstep : Obj.lookup g (reIdFkStep fromId toId d acc f).1
          = if f = g then
              (match Obj.lookup g d with
               | some e => some ((reIdValue fromId toId e.1).1, (reIdValue fromId toId e.2).1)
               | none => Obj.lookup g acc.1)
            else Obj.lookup g acc.1 := by
        unfold reIdFkStep
        by_cases hfg : f = g
        · subst hfg
          cases hl : Obj.lookup f d with
          | none => simp
          | some e => simp [Obj.lookup_set]
        · cases hl : Obj.lookup f d with
          | none => simp [hfg]
          | some e => simp [Obj.lookup_set, hfg]
      by_cases hg : g ∈ rest
      · simp only [hg, if_true, List.mem_cons, or_true]
        cases hl : Obj.lookup g d with
        | some e => rfl
        | none =>
            simp only
            rw [hstep]
            by_cases hfg : f = g
            · simp [hfg, hl]
            · simp [hfg]
      · simp only [hg, if_false, List.mem_cons, or_false]
        rw [hstep]
        by_cases hfg : f = g
        · simp [hfg]
        · have : ¬ g = f := fun h => hfg h.symm
          simp [hfg, this]

theorem flag_foldl_reIdFkStep (fromId toId : ID) (d : Diff) (l : List String)
    (acc : Diff × Bool) :
    (l.foldl (reIdFkStep fromId toId d) acc).2 = true
      ↔ acc.2 = true ∨ ∃ f e, f ∈ l ∧ Obj.lookup f d = some e
          ∧ (e.1 = Val.ident fromId ∨ e.2 = Val.ident fromId) := by
  induction l generalizing acc with
  | nil => simp
  | cons f rest ih =>
      rw [List.foldl_cons, ih]
      have hstep : (reIdFkStep fromId toId d acc f).2 = true
          ↔ acc.2 = true ∨ ∃ e, Obj.lookup f d = some e
              ∧ (e.1 = Val.ident fromId ∨ e.2 = Val.ident fromId) := by
        unfold reIdFkStep
        cases hl : Obj.lookup f d with
        | none => simp
        | some e =>
            simp only [Bool.or_eq_true, reIdValue_snd, Option.some.injEq, exists_eq_left']
            tauto
      rw [hstep]
      constructor
      · rintro ((h | ⟨e, he, h⟩) | ⟨f', e, hf', he, h⟩)
        · exact Or.inl h
        · exact Or.inr ⟨f, e, List.mem_cons_self _ _, he, h⟩
        · exact Or.inr ⟨f', e, List.mem_cons_of_mem _ hf', he, h⟩
      · rintro (h | ⟨f', e, hf', he, h⟩)
        · exact Or.inl (Or.inl h)
        · rcases List.mem_cons.1 hf' with h1 | h1
          · subst h1
            exact Or.inl (Or.inr ⟨e, he, h⟩)
          · exact Or.inr ⟨f', e, h1, he, h⟩

theorem keys_foldl_reIdFkStep (fromId toId : ID) (d : Diff) (l : List String)
    (acc : Diff × Bool) (h : acc.1.keys.Nodup) :
    (l.foldl (reIdFkStep fromId toId d) acc).1.keys.Nodup := by
  induction l generalizing acc with
  | nil => exact h
  | cons f rest ih =>
      rw [List.foldl_cons]
      apply ih
      unfold reIdFkStep
      cases Obj.lookup f d with
      | none => exact h
      | some e => exact Obj.keys_nodup_set _ _ _ h

theorem foldlM_reIdManyStep (fromId toId : ID) (d : Diff) (l : List String)
    (acc r : Diff × Bool) (h : l.foldlM (reIdManyStep fromId toId d) acc = .ok r) :
    (∀ g e, g ∈ l → Obj.lookup g d = some e →
      ∃ a b, reIdSet fromId toId e.1 = .ok a ∧ reIdSet fromId toId e.2 = .ok b
        ∧ Obj.lookup g r.1 = some (a.1, b.1)) ∧
    (∀ g, (g ∉ l ∨ Obj.lookup g d = none) → Obj.lookup g r.1 = Obj.lookup g acc.1) ∧
    (r.2 = true ↔ acc.2 = true ∨ ∃ f e, f ∈ l ∧ Obj.lookup f d = some e
        ∧ (fromId ∈ e.1.members ∨ fromId ∈ e.2.members)) ∧
    (acc.1.keys.Nodup → r.1.keys.Nodup) := by
  induction l generalizing acc with
  | nil =>
      simp only [List.foldlM_nil, pure, Except.pure, Except.ok.injEq] at h
      subst h
      refine ⟨?_, fun _ _ => rfl, ?_, fun hn => hn⟩
      · intro g e hg
        cases hg
      · simp
  | cons f rest ih =>
      rw [List.foldlM_cons] at h
      cases hx : reIdManyStep fromId toId d acc f with
      | error err =>
          rw [hx] at h
          simp [bind, Except.bind] at h
      | ok acc1 =>
          rw [hx] at h
          simp only [bind, Except.bind] at h
          obtain ⟨b1, b2, b3, b4⟩ := ih acc1 h
          -- the step
          have hstep : (∀ e, Obj.lookup f d = some e →
                ∃ a b, reIdSet fromId toId e.1 = .ok a ∧ reIdSet fromId toId e.2 = .ok b
                  ∧ acc1 = (acc.1.set f (a.1, b.1), acc.2 || a.2 || b.2)) ∧
              (Obj.lookup f d = none → acc1 = acc) := by
            unfold reIdManyStep at hx
            cases hl : Obj.lookup f d with
            | none =>
                rw [hl] at hx
                simp only [Except.ok.injEq] at hx
                exact ⟨fun e he => (by cases he), fun _ => hx.symm⟩
            | some e =>
                rw [hl] at hx
                simp only at hx
                cases ha : reIdSet fromId toId e.1 with
                | error err => rw [ha] at hx; cases hx
                | ok a =>
                    rw [ha] at hx
                    simp only [Except.bind] at hx
                    cases hb : reIdSet fromId toId e.2 with
                    | error err => rw [hb] at hx; cases hx
                    | ok b =>
                        rw [hb] at hx
                        simp only [Except.map, Except.ok.injEq] at hx
                        refine ⟨?_, fun hn => (by cases hn)⟩
                        intro e' he'
                        cases he'
                        exact ⟨a, b, ha, hb, hx.symm⟩
          refine ⟨?_, ?_, ?_, ?_⟩
          · intro g e hg he
            by_cases hgr : g ∈ rest
            · exact b1 g e hgr he
            · have hgf : g = f := by
                rcases List.mem_cons.1 hg with h1 | h1
                · exact h1
                · exact absurd h1 hgr
              subst hgf
              obtain ⟨a, b, ha, hb, hacc1⟩ := hstep.1 e he
              refine ⟨a, b, ha, hb, ?_⟩
              rw [b2 g (Or.inl hgr), hacc1]
              simp [Obj.lookup_set]
          · intro g hg
            have hg' : g ∉ rest ∨ Obj.lookup g d = none := by
              rcases hg with h1 | h1
              · exact Or.inl (fun hh => h1 (List.mem_cons_of_mem _ hh))
              · exact Or.inr h1
            rw [b2 g hg']
            cases hl : Obj.lookup f d with
            | none => rw [hstep.2 hl]
            | some e =>
                obtain ⟨a, b, _, _, hacc1⟩ := hstep.1 e hl
                rw [hacc1]
                simp only [Obj.lookup_set]
                have hfg : f ≠ g := by
                  intro hfg
                  subst hfg
                  rcases hg with h1 | h1
                  · exact h1 (List.mem_cons_self _ _)
                  · rw [hl] at h1
                    cases h1
                rw [if_neg hfg]
          · rw [b3]
            have hflag : acc1.2 = true ↔ acc.2 = true ∨ ∃ e, Obj.lookup f d = some e
                ∧ (fromId ∈ e.1.members ∨ fromId ∈ e.2.members) := by
              cases hl : Obj.lookup f d with
              | none =>
                  rw [hstep.2 hl]
                  simp
              | some e =>
                  obtain ⟨a, b, ha, hb, hacc1⟩ := hstep.1 e hl
                  rw [hacc1]
                  have ha' := (reIdSet_spec fromId toId e.1 a ha).1
                  have hb' := (reIdSet_spec fromId toId e.2 b hb).1
                  show (acc.2 || a.2 || b.2) = true ↔ _
                  rw [Bool.or_eq_true, Bool.or_eq_true, ha', hb']
                  constructor
                  · rintro ((h1 | h1) | h1)
                    · exact Or.inl h1
                    · exact Or.inr ⟨e, rfl, Or.inl h1⟩
                    · exact Or.inr ⟨e, rfl, Or.inr h1⟩
                  · rintro (h1 | ⟨e', he', h1⟩)
                    · exact Or.inl (Or.inl h1)
                    · cases he'
                      rcases h1 with h2 | h2
                      · exact Or.inl (Or.inr h2)
                      · exact Or.inr h2
            rw [hflag]
            constructor
            · rintro ((h1 | ⟨e, he, h1⟩) | ⟨f', e, hf', he, h1⟩)
              · exact Or.inl h1
              · exact Or.inr ⟨f, e, List.mem_cons_self _ _, he, h1⟩
              · exact Or.inr ⟨f', e, List.mem_cons_of_mem _ hf', he, h1⟩
            · rintro (h1 | ⟨f', e, hf', he, h1⟩)
              · exact Or.inl (Or.inl h1)
              · rcases List.mem_cons.1 hf' with h2 | h2
                · subst h2
                  exact Or.inl (Or.inr ⟨e, he, h1⟩)
                · exact Or.inr ⟨f', e, h2, he, h1⟩
          · intro hn
            apply b4
            cases hl : Obj.lookup f d with
            | none =>
                rw [hstep.2 hl]
                exact hn
            | some e =>
                obtain ⟨a, b, _, _, hacc1⟩ := hstep.1 e hl
                rw [hacc1]
                exact Obj.keys_nodup_set _ _ _ hn

theorem Obj.lookup_merge {α : Type} (nd o : Obj α) (h : nd.keys.Nodup) (g : String) :
    Obj.lookup g (nd.foldl (fun (x : Obj α) (p : String × α) => Obj.set x p.1 p.2) o)
      = match Obj.lookup g nd with
        | some v => some v
        | none => Obj.lookup g o := by
  induction nd generalizing o with
  | nil => rfl
  | cons p rest ih =>
      obtain ⟨k, v⟩ := p
      have hnd' : (Obj.keys rest).Nodup := (List.nodup_cons.1 h).2
      have hk' : k ∉ Obj.keys rest := (List.nodup_cons.1 h).1
      rw [List.foldl_cons, ih _ hnd']
      by_cases hkg : k = g
      · subst hkg
        have hnone : Obj.lookup k rest = none := (Obj.lookup_eq_none_iff rest k).2 hk'
        simp [Obj.lookup, hnone, Obj.lookup_set]
      · simp only [Obj.lookup, hkg, if_false, Obj.lookup_set]

theorem Model.fk_not_many (m : Model) (f : String) (h1 : f ∈ m.iterForeignKeys false)
    (h2 : f ∈ m.iterManyToMany false) : False := by
  obtain ⟨i1, hl1, _, hm1⟩ := (mem_iterForeignKeys m f).1 h1
  obtain ⟨i2, hl2, _, hm2⟩ := (mem_iterManyToMany m f).1 h2
  rw [hl1] at hl2
  cases hl2
  rw [hm1] at hm2
  cases hm2

theorem Model.fk_mem_keys (m : Model) (f : String) (h : f ∈ m.iterForeignKeys false) :
    f ∈ m.relationships.keys := by
  unfold Model.iterForeignKeys at h
  exact (List.mem_filter.1 h).1

theorem Model.many_mem_keys (m : Model) (f : String) (h : f ∈ m.iterManyToMany false) :
    f ∈ m.relationships.keys := by
  unfold Model.iterManyToMany at h
  exact (List.mem_filter.1 h).1

/-- The body of the diff loop of `reId`, when it returns: the diff it yields is the diff
with the identifier replaced, and it is the diff itself when the diff does not mention
the identifier. -/
theorem Schema.reIdDiff_spec (S : Schema) (id newId : Val) (fromId toId : ID) (d d1 : Diff)
    (m : Model) (hm : (getDiffId d).bind (fun x => S.getModel x.1) = some m)
    (hid : "id" ∉ m.relationships.keys)
    (h : S.reIdDiff id newId fromId toId d = .ok d1) :
    Schema.Rewritten m id newId fromId toId d d1 ∧
    (¬ Schema.diffMentions m id fromId d → d1 = d) ∧
    (Schema.diffMentions m id fromId d → ∀ g, Obj.lookup g d1 = none → Obj.lookup g d = none) := by
  have hidfk : "id" ∉ m.iterForeignKeys false := fun hh => hid (m.fk_mem_keys _ hh)
  have hidmm : "id" ∉ m.iterManyToMany false := fun hh => hid (m.many_mem_keys _ hh)
  unfold Schema.reIdDiff at h
  cases hi : Obj.lookup "id" d with
  | none => rw [hi] at h; cases h
  | some i =>
      rw [hi] at h
      simp only [hm] at h
      cases hfold : (m.iterManyToMany false).foldlM (reIdManyStep fromId toId d)
          ((m.iterForeignKeys false).foldl (reIdFkStep fromId toId d)
            ([("id", (if looseEq i.1 id then newId else i.1,
                      if looseEq i.2 id then newId else i.2))],
              looseEq i.1 id || looseEq i.2 id)) with
      | error e => rw [hfold] at h; cases h
      | ok r =>
          rw [hfold] at h
          simp only [Except.map, Except.ok.injEq] at h
          obtain ⟨b1, b2, b3, b4⟩ := foldlM_reIdManyStep fromId toId d _ _ r hfold
          have hAl := lookup_foldl_reIdFkStep fromId toId d (m.iterForeignKeys false)
            ([("id", (if looseEq i.1 id then newId else i.1,
                      if looseEq i.2 id then newId else i.2))],
              looseEq i.1 id || looseEq i.2 id)
          have hAf := flag_foldl_reIdFkStep fromId toId d (m.iterForeignKeys false)
            ([("id", (if looseEq i.1 id then newId else i.1,
                      if looseEq i.2 id then newId else i.2))],
              looseEq i.1 id || looseEq i.2 id)
          have hAk := keys_foldl_reIdFkStep fromId toId d (m.iterForeignKeys false)
            ([("id", (if looseEq i.1 id then newId else i.1,
                      if looseEq i.2 id then newId else i.2))],
              looseEq i.1 id || looseEq i.2 id) (by simp [Obj.keys])
          have hrk := b4 hAk
          -- lookups in `newDiff`
          have hLid : Obj.lookup "id" r.1
              = some (reIdSide id newId i.1, reIdSide id newId i.2) := by
            rw [b2 "id" (Or.inl hidmm), hAl, if_neg hidfk]
            simp [Obj.lookup, reIdSide]
          have hLfk : ∀ f, f ∈ m.iterForeignKeys false →
              Obj.lookup f r.1 = (Obj.lookup f d).map (fun e =>
                ((reIdValue fromId toId e.1).1, (reIdValue fromId toId e.2).1)) := by
            intro f hf
            have hfid : f ≠ "id" := fun hh => hidfk (hh ▸ hf)
            rw [b2 f (Or.inl (fun hh => m.fk_not_many f hf hh)), hAl, if_pos hf]
            cases Obj.lookup f d with
            | none => simp [Obj.lookup, Ne.symm hfid]
            | some e => rfl
          have hLmmn : ∀ f, f ∈ m.iterManyToMany false → Obj.lookup f d = none →
              Obj.lookup f r.1 = none := by
            intro f hf hn
            have hfid : f ≠ "id" := fun hh => hidmm (hh ▸ hf)
            rw [b2 f (Or.inr hn), hAl, if_neg (fun hh => m.fk_not_many f hh hf)]
            simp [Obj.lookup, Ne.symm hfid]
          have hLo : ∀ g, g ≠ "id" → g ∉ m.iterForeignKeys false →
              g ∉ m.iterManyToMany false → Obj.lookup g r.1 = none := by
            intro g hg1 hg2 hg3
            rw [b2 g (Or.inl hg3), hAl, if_neg hg2]
            simp [Obj.lookup, Ne.symm hg1]
          have hflag : r.2 = true ↔ Schema.diffMentions m id fromId d := by
            rw [b3, hAf]
            unfold Schema.diffMentions
            constructor
            · rintro ((h1 | h1) | h1)
              · left
                refine ⟨i, hi, ?_⟩
                have h2 : (looseEq i.1 id || looseEq i.2 id) = true := h1
                rw [Bool.or_eq_true] at h2
                exact h2
              · exact Or.inr (Or.inl h1)
              · exact Or.inr (Or.inr h1)
            · rintro (⟨i', hi', h1⟩ | h1 | h1)
              · left
                left
                rw [hi] at hi'
                cases hi'
                show (looseEq i.1 id || looseEq i.2 id) = true
                rw [Bool.or_eq_true]
                exact h1
              · exact Or.inl (Or.inr h1)
              · exact Or.inr h1
          by_cases hr : r.2 = true
          · rw [if_pos hr] at h
            have hmerge := fun g => Obj.lookup_merge r.1 d hrk g
            refine ⟨⟨?_, ?_, ?_, ?_, ?_⟩, fun hn => absurd (hflag.1 hr) hn, ?_⟩
            · rw [← h, hmerge, hLid, hi]
              rfl
            · intro f hf
              rw [← h, hmerge, hLfk f hf]
              cases Obj.lookup f d with
              | none => rfl
              | some e => rfl
            · intro f e hf he
              obtain ⟨a, b, ha, hb, hl⟩ := b1 f e hf he
              refine ⟨a, b, ha, hb, ?_⟩
              rw [← h, hmerge, hl]
            · intro f hf hn
              rw [← h, hmerge, hLmmn f hf hn]
              exact hn
            · intro g hg1 hg2 hg3
              rw [← h, hmerge, hLo g hg1 hg2 hg3]
            · intro _ g hg
              rw [← h, hmerge] at hg
              cases hl : Obj.lookup g r.1 with
              | none => rw [hl] at hg; exact hg
              | some v => rw [hl] at hg; cases hg
          · rw [if_neg hr] at h
            subst h
            have hno : ¬ Schema.diffMentions m id fromId d := fun hh => hr (hflag.2 hh)
            refine ⟨⟨?_, ?_, ?_, ?_, ?_⟩, fun _ => rfl, fun hh => absurd hh hno⟩
            · rw [hi]
              simp only [Option.map_some', Option.some.injEq]
              have h1 : looseEq i.1 id ≠ true := fun hh =>
                hno (Or.inl ⟨i, hi, Or.inl hh⟩)
              have h2 : looseEq i.2 id ≠ true := fun hh =>
                hno (Or.inl ⟨i, hi, Or.inr hh⟩)
              simp [reIdSide, h1, h2]
            · intro f hf
              cases hl : Obj.lookup f d with
              | none => rfl
              | some e =>
                  have h1 : e.1 ≠ Val.ident fromId := fun hh =>
                    hno (Or.inr (Or.inl ⟨f, e, hf, hl, Or.inl hh⟩))
                  have h2 : e.2 ≠ Val.ident fromId := fun hh =>
                    hno (Or.inr (Or.inl ⟨f, e, hf, hl, Or.inr hh⟩))
                  simp [reIdValue_fst, h1, h2]
            · intro f e hf he
              obtain ⟨a, b, ha, hb, _⟩ := b1 f e hf he
              have h1 : fromId ∉ e.1.members := fun hh =>
                hno (Or.inr (Or.inr ⟨f, e, hf, he, Or.inl hh⟩))
              have h2 : fromId ∉ e.2.members := fun hh =>
                hno (Or.inr (Or.inr ⟨f, e, hf, he, Or.inr hh⟩))
              refine ⟨a, b, ha, hb, ?_⟩
              rw [he, (reIdSet_spec fromId toId e.1 a ha).2.1 h1,
                (reIdSet_spec fromId toId e.2 b hb).2.1 h2]
            · intro f _ hn
              exact hn
            · intro g _ _ _
              rfl

theorem Schema.Rewritten.clean (m : Model) (id newId : Val) (fromId toId : ID) (d d1 : Diff)
    (hne : looseEq newId id = false) (hft : fromId ≠ toId)
    (h : Schema.Rewritten m id newId fromId toId d d1) :
    ¬ Schema.diffMentions m id fromId d1 := by
  obtain ⟨h1, h2, h3, h4, _⟩ := h
  have hside : ∀ x, looseEq (reIdSide id newId x) id = false := by
    intro x
    unfold reIdSide
    by_cases hx : looseEq x id = true
    · rw [if_pos hx]
      exact hne
    · rw [if_neg hx]
      simpa using hx
  rintro (⟨i, hi, hm⟩ | ⟨f, e, hf, he, hm⟩ | ⟨f, e, hf, he, hm⟩)
  · rw [h1] at hi
    cases hl : Obj.lookup "id" d with
    | none => rw [hl] at hi; cases hi
    | some i0 =>
        rw [hl] at hi
        simp only [Option.map_some', Option.some.injEq] at hi
        rw [← hi] at hm
        simp only [hside] at hm
        rcases hm with hm | hm <;> cases hm
  · rw [h2 f hf] at he
    cases hl : Obj.lookup f d with
    | none => rw [hl] at he; cases he
    | some e0 =>
        rw [hl] at he
        simp only [Option.map_some', Option.some.injEq] at he
        rw [← he] at hm
        simp only [reIdValue_fst] at hm
        rcases hm with hm | hm
        · by_cases hx : e0.1 = Val.ident fromId
          · rw [if_pos hx] at hm
            exact hft (Val.ident.inj hm).symm
          · rw [if_neg hx] at hm
            exact hx hm
        · by_cases hx : e0.2 = Val.ident fromId
          · rw [if_pos hx] at hm
            exact hft (Val.ident.inj hm).symm
          · rw [if_neg hx] at hm
            exact hx hm
  · cases hl : Obj.lookup f d with
    | none =>
        rw [h4 f hf hl] at he
        cases he
    | some e0 =>
        obtain ⟨a, b, ha, hb, hab⟩ := h3 f e0 hf hl
        rw [hab] at he
        cases he
        rcases hm with hm | hm
        · exact (reIdSet_spec fromId toId e0.1 a ha).2.2.1 hft hm
        · exact (reIdSet_spec fromId toId e0.2 b hb).2.2.1 hft hm

theorem Schema.Rewritten.model (S : Schema) (m : Model) (id newId : Val) (fromId toId : ID)
    (d d1 : Diff) (hty : "_type" ∉ m.relationships.keys)
    (h : Schema.Rewritten m id newId fromId toId d d1) :
    (getDiffId d1).bind (fun x => S.getModel x.1) = (getDiffId d).bind (fun x => S.getModel x.1) := by
  obtain ⟨h1, _, _, _, h5⟩ := h
  have ht : Obj.lookup "_type" d1 = Obj.lookup "_type" d :=
    h5 "_type" (by decide) (fun hh => hty (m.fk_mem_keys _ hh))
      (fun hh => hty (m.many_mem_keys _ hh))
  unfold getDiffId
  rw [ht, h1]
  cases Obj.lookup "_type" d with
  | none => rfl
  | some t =>
      cases Obj.lookup "id" d with
      | none => rfl
      | some i => rfl

theorem makeId_ne (type id newId : Val) (fromId toId : ID)
    (hne : looseEq newId id = false) (hnan : id ≠ Val.nan)
    (hfrom : makeId type id = .ok fromId)
    (hto : makeId type newId = .ok toId) : fromId ≠ toId := by
  intro heq
  unfold makeId at hfrom hto
  cases type with
  | prim t =>
      cases id with
      | prim p =>
          cases newId with
          | prim q =>
              simp only [Except.ok.injEq] at hfrom hto
              rw [← hfrom, ← hto] at heq
              have hpq : p = q := (ID.mk.inj heq).2
              rw [← hpq, looseEq_refl _ hnan] at hne
              cases hne
          | ident j => cases hto
          | oset ys => cases hto
      | ident j => cases hfrom
      | oset ys => cases hfrom
  | ident j => cases hfrom
  | oset ys => cases hfrom

theorem Schema.getModel_mem (S : Schema) (ty : Val) (m : Model) (h : S.getModel ty = some m) :
    ∃ p, p ∈ S.models ∧ p.2 = m := by
  unfold Schema.getModel at h
  cases hs : ty.asString with
  | none => rw [hs] at h; cases h
  | some name =>
      rw [hs] at h
      exact ⟨(name, m), Obj.mem_of_lookup _ _ _ h, rfl⟩

theorem Schema.reId_one_ok (S : Schema) (type id newId : Val) (br : BranchName) (s : Store)
    (h : (S.reId type id newId (some br) s).2 = .ok ()) :
    ∃ fromId toId, makeId type id = .ok fromId ∧ makeId type newId = .ok toId ∧
      ∀ (i : Nat) (d : Diff), s.diffs[i]? = some d →
        ∃ d1, S.reIdDiff id newId fromId toId d = .ok d1 ∧
          (S.reId type id newId (some br) s).1.diffs[i]? = some d1 := by
  unfold Schema.reId at h ⊢
  simp only [Run.forEach] at h ⊢
  obtain ⟨s1, _, h1, e1⟩ := Run.bind_ok_inv _ _ s () h
  rw [e1] at h ⊢
  have hb1 : (S.reIdBranch type id newId br s).2 = .ok () := by rw [h1]
  obtain ⟨fromId, toId, hf, ht, _, _, hp1⟩ := S.reIdBranch_ok type id newId br s hb1
  rw [h1] at hp1
  exact ⟨fromId, toId, hf, ht, hp1⟩

/-- C27: for every store and every `reId(type, old, new, branch)` that returns, with `new`
different from `old` (for `!=`, and `old` is not `NaN`, which `!=` tells from itself), in a
schema that has no relationship field named `_type` or `id`:
the delta log keeps its length, and every diff of the log (sent prefix and local suffix
alike) is replaced, at its position, by the diff with the identifier replaced: its `id`
entry, its foreign keys and the removed and added sets of its many-to-many fields read
the new identifier wherever they read the old one, its other entries are unchanged, and
the diff no longer mentions the old identifier. -/
theorem reId_rewrites_log (S : Schema) (type id newId : Val) (branch : Option BranchName)
    (s : Store) (fromId toId : ID)
    (hnames : ∀ p, p ∈ S.models →
      "id" ∉ p.2.relationships.keys ∧ "_type" ∉ p.2.relationships.keys)
    (hne : looseEq newId id = false) (hnan : id ≠ Val.nan)
    (hfrom : makeId type id = .ok fromId) (hto : makeId type newId = .ok toId)
    (hok : (S.reId type id newId branch s).2 = .ok ()) :
    (S.reId type id newId branch s).1.diffs.length = s.diffs.length ∧
    ∀ (i : Nat) (d : Diff), s.diffs[i]? = some d →
      ∃ d1 m, (S.reId type id newId branch s).1.diffs[i]? = some d1 ∧
        (getDiffId d).bind (fun x => S.getModel x.1) = some m ∧
        (getDiffId d1).bind (fun x => S.getModel x.1) = some m ∧
        Schema.Rewritten m id newId fromId toId d d1 ∧
        ¬ Schema.diffMentions m id fromId d1 := by
  have hft := makeId_ne type id newId fromId toId hne hnan hfrom hto
  refine ⟨(S.reId_shape type id newId branch s).2, ?_⟩
  -- one pass of the diff loop
  have hpass : ∀ d d1, S.reIdDiff id newId fromId toId d = .ok d1 →
      ∃ m, (getDiffId d).bind (fun x => S.getModel x.1) = some m ∧
        (getDiffId d1).bind (fun x => S.getModel x.1) = some m ∧
        Schema.Rewritten m id newId fromId toId d d1 ∧
        ¬ Schema.diffMentions m id fromId d1 ∧
        (∀ d2, S.reIdDiff id newId fromId toId d1 = .ok d2 → d2 = d1) := by
    intro d d1 hd
    cases hm : (getDiffId d).bind (fun x => S.getModel x.1) with
    | none =>
        unfold Schema.reIdDiff at hd
        cases hi : Obj.lookup "id" d with
        | none => rw [hi] at hd; cases hd
        | some i =>
            rw [hi] at hd
            simp only [hm] at hd
            cases hd
    | some m =>
        have hmem : ∃ p, p ∈ S.models ∧ p.2 = m := by
          cases hg : getDiffId d with
          | none => rw [hg] at hm; cases hm
          | some x =>
              rw [hg] at hm
              exact S.getModel_mem x.1 m hm
        obtain ⟨p, hp, hpm⟩ := hmem
        have hn := hnames p hp
        rw [hpm] at hn
        obtain ⟨hrw, _, _⟩ := S.reIdDiff_spec id newId fromId toId d d1 m hm hn.1 hd
        have hclean := Schema.Rewritten.clean m id newId fromId toId d d1 hne hft hrw
        have hm1 : (getDiffId d1).bind (fun x => S.getModel x.1) = some m := by
          rw [Schema.Rewritten.model S m id newId fromId toId d d1 hn.2 hrw, hm]
        refine ⟨m, rfl, hm1, hrw, hclean, ?_⟩
        intro d2 hd2
        exact (S.reIdDiff_spec id newId fromId toId d1 d2 m hm1 hn.1 hd2).2.1 hclean
  intro i d hd
  cases branch with
  | some br =>
      obtain ⟨fromId', toId', hf, ht, hp⟩ := S.reId_one_ok type id newId br s hok
      rw [hfrom] at hf
      rw [hto] at ht
      cases hf
      cases ht
      obtain ⟨d1, hd1, hg1⟩ := hp i d hd
      obtain ⟨m, hm, hm1, hrw, hclean, _⟩ := hpass d d1 hd1
      exact ⟨d1, m, hg1, hm, hm1, hrw, hclean⟩
  | none =>
      obtain ⟨fromId', toId', hf, ht, hp⟩ := S.reId_both_ok type id newId s hok
      rw [hfrom] at hf
      rw [hto] at ht
      cases hf
      cases ht
      obtain ⟨d1, d2, hd1, hd2, hg2⟩ := hp i d hd
      obtain ⟨m, hm, hm1, hrw, hclean, hsame⟩ := hpass d d1 hd1
      have h21 := hsame d2 hd2
      rw [h21] at hg2
      exact ⟨d1, m, hg2, hm, hm1, hrw, hclean⟩

/-- The store `writtenStore`, field by field. -/
theorem writtenStore_eq :
    writtenStore
      = { head := [("Author", ⟨[some [("_type", Val.str "Author"), ("id", Val.str "a1"), ("name",
            Val.str "Ada"), ("books", Val.oset [⟨.str "Book", .str "b1"⟩])]], [("id",
            [(Val.str "a1", [0])])]⟩), ("Book", ⟨[some [("_type", Val.str "Book"), ("id",
            Val.str "b1"), ("title", Val.str "X"), ("note", Val.undefined), ("author",
            Val.ident ⟨.str "Author", .str "a1"⟩), ("tags", Val.oset []), ("reviews", Val.oset []),
            ("cover", Val.undefined)]], [("id", [(Val.str "b1", [0])]), ("title", [(Val.str "X",
            [0])])]⟩), ("Tag", ⟨[], [("id", [])]⟩)]
          tail := [("Author", ⟨[some [("_type", Val.str "Author"), ("id", Val.str "a1"), ("name",
            Val.str "Ada"), ("books", Val.oset [⟨.str "Book", .str "b1"⟩])]], [("id",
            [(Val.str "a1", [0])])]⟩), ("Book", ⟨[some [("_type", Val.str "Book"), ("id",
            Val.str "b1"), ("title", Val.str "X"), ("note", Val.undefined), ("author",
            Val.ident ⟨.str "Author", .str "a1"⟩), ("tags", Val.oset []), ("reviews", Val.oset []),
            ("cover", Val.undefined)]], [("id", [(Val.str "b1", [0])]), ("title", [(Val.str "X",
            [0])])]⟩), ("Tag", ⟨[], [("id", [])]⟩)]
          diffs := [[("_type", Val.undefined, Val.str "Author"), ("id", Val.undefined, Val.str "a1"),
            ("name", Val.undefined, Val.str "Ada")], [("_type", Val.undefined, Val.str "Book"),
            ("id", Val.undefined, Val.str "b1"), ("title", Val.undefined, Val.str "X"), ("author",
            Val.undefined, Val.ident ⟨.str "Author", .str "a1"⟩)]]
          deltas := []
          tailptr := 2 } :=
  rfl

/-- The pass of `reId` over `head` on the store `writtenStore`. -/
theorem reIdBranch_head_writtenStore :
    librarySchema.reIdBranch (Val.str "Author") (Val.str "a1") (Val.str "A1") .head
        writtenStore
      = ({ head := [("Author", ⟨[some [("_type", Val.str "Author"), ("id", Val.str "A1"), ("name",
             Val.str "Ada"), ("books", Val.oset [⟨.str "Book", .str "b1"⟩])]], [("id",
             [(Val.str "a1", [0]), (Val.str "A1", [0])])]⟩), ("Book", ⟨[some [("_type",
             Val.str "Book"), ("id", Val.str "b1"), ("title", Val.str "X"), ("note", Val.undefined),
             ("author", Val.ident ⟨.str "Author", .str "A1"⟩), ("tags", Val.oset []), ("reviews",
             Val.oset []), ("cover", Val.undefined)]], [("id", [(Val.str "b1", [0])]), ("title",
             [(Val.str "X", [0])])]⟩), ("Tag", ⟨[], [("id", [])]⟩)]
           tail := [("Author", ⟨[some [("_type", Val.str "Author"), ("id", Val.str "a1"), ("name",
             Val.str "Ada"), ("books", Val.oset [⟨.str "Book", .str "b1"⟩])]], [("id",
             [(Val.str "a1", [0])])]⟩), ("Book", ⟨[some [("_type", Val.str "Book"), ("id",
             Val.str "b1"), ("title", Val.str "X"), ("note", Val.undefined), ("author",
             Val.ident ⟨.str "Author", .str "a1"⟩), ("tags", Val.oset []), ("reviews", Val.oset []),
             ("cover", Val.undefined)]], [("id", [(Val.str "b1", [0])]), ("title", [(Val.str "X",
             [0])])]⟩), ("Tag", ⟨[], [("id", [])]⟩)]
           diffs := [[("_type", Val.undefined, Val.str "Author"), ("id", Val.undefined, Val.str "A1"),
             ("name", Val.undefined, Val.str "Ada")], [("_type", Val.undefined, Val.str "Book"),
             ("id", Val.undefined, Val.str "b1"), ("title", Val.undefined, Val.str "X"), ("author",
             Val.undefined, Val.ident ⟨.str "Author", .str "A1"⟩)]]
           deltas := []
           tailptr := 2 },
         .ok ()) := by
  rw [writtenStore_eq]
  rfl

/-- The pass of `reId` over `tail` on the store `writtenStore`, after the pass over
`head`. -/
theorem reIdBranch_tail_writtenStore :
    librarySchema.reIdBranch (Val.str "Author") (Val.str "a1") (Val.str "A1") .tail
        { head := [("Author", ⟨[some [("_type", Val.str "Author"), ("id", Val.str "A1"), ("name",
            Val.str "Ada"), ("books", Val.oset [⟨.str "Book", .str "b1"⟩])]], [("id",
            [(Val.str "a1", [0]), (Val.str "A1", [0])])]⟩), ("Book", ⟨[some [("_type",
            Val.str "Book"), ("id", Val.str "b1"), ("title", Val.str "X"), ("note", Val.undefined),
            ("author", Val.ident ⟨.str "Author", .str "A1"⟩), ("tags", Val.oset []), ("reviews",
            Val.oset []), ("cover", Val.undefined)]], [("id", [(Val.str "b1", [0])]), ("title",
            [(Val.str "X", [0])])]⟩), ("Tag", ⟨[], [("id", [])]⟩)]
          tail := [("Author", ⟨[some [("_type", Val.str "Author"), ("id", Val.str "a1"), ("name",
            Val.str "Ada"), ("books", Val.oset [⟨.str "Book", .str "b1"⟩])]], [("id",
            [(Val.str "a1", [0])])]⟩), ("Book", ⟨[some [("_type", Val.str "Book"), ("id",
            Val.str "b1"), ("title", Val.str "X"), ("note", Val.undefined), ("author",
            Val.ident ⟨.str "Author", .str "a1"⟩), ("tags", Val.oset []), ("reviews", Val.oset []),
            ("cover", Val.undefined)]], [("id", [(Val.str "b1", [0])]), ("title", [(Val.str "X",
            [0])])]⟩), ("Tag", ⟨[], [("id", [])]⟩)]
          diffs := [[("_type", Val.undefined, Val.str "Author"), ("id", Val.undefined, Val.str "A1"),
            ("name", Val.undefined, Val.str "Ada")], [("_type", Val.undefined, Val.str "Book"),
            ("id", Val.undefined, Val.str "b1"), ("title", Val.undefined, Val.str "X"), ("author",
            Val.undefined, Val.ident ⟨.str "Author", .str "A1"⟩)]]
          deltas := []
          tailptr := 2 }
      = ({ head := [("Author", ⟨[some [("_type", Val.str "Author"), ("id", Val.str "A1"), ("name",
             Val.str "Ada"), ("books", Val.oset [⟨.str "Book", .str "b1"⟩])]], [("id",
             [(Val.str "a1", [0]), (Val.str "A1", [0])])]⟩), ("Book", ⟨[some [("_type",
             Val.str "Book"), ("id", Val.str "b1"), ("title", Val.str "X"), ("note", Val.undefined),
             ("author", Val.ident ⟨.str "Author", .str "A1"⟩), ("tags", Val.oset []), ("reviews",
             Val.oset []), ("cover", Val.undefined)]], [("id", [(Val.str "b1", [0])]), ("title",
             [(Val.str "X", [0])])]⟩), ("Tag", ⟨[], [("id", [])]⟩)]
           tail := [("Author", ⟨[some [("_type", Val.str "Author"), ("id", Val.str "A1"), ("name",
             Val.str "Ada"), ("books", Val.oset [⟨.str "Book", .str "b1"⟩])]], [("id",
             [(Val.str "a1", [0]), (Val.str "A1", [0])])]⟩), ("Book", ⟨[some [("_type",
             Val.str "Book"), ("id", Val.str "b1"), ("title", Val.str "X"), ("note", Val.undefined),
             ("author", Val.ident ⟨.str "Author", .str "A1"⟩), ("tags", Val.oset []), ("reviews",
             Val.oset []), ("cover", Val.undefined)]], [("id", [(Val.str "b1", [0])]), ("title",
             [(Val.str "X", [0])])]⟩), ("Tag", ⟨[], [("id", [])]⟩)]
           diffs := [[("_type", Val.undefined, Val.str "Author"), ("id", Val.undefined, Val.str "A1"),
             ("name", Val.undefined, Val.str "Ada")], [("_type", Val.undefined, Val.str "Book"),
             ("id", Val.undefined, Val.str "b1"), ("title", Val.undefined, Val.str "X"), ("author",
             Val.undefined, Val.ident ⟨.str "Author", .str "A1"⟩)]]
           deltas := []
           tailptr := 2 },
         .ok ()) :=
  rfl

/-- The call `reId('Author', 'a1', 'A1')` on the store `writtenStore`. -/
theorem reId_writtenStore :
    librarySchema.reId (Val.str "Author") (Val.str "a1") (Val.str "A1") none writtenStore
      = ({ head := [("Author", ⟨[some [("_type", Val.str "Author"), ("id", Val.str "A1"), ("name",
             Val.str "Ada"), ("books", Val.oset [⟨.str "Book", .str "b1"⟩])]], [("id",
             [(Val.str "a1", [0]), (Val.str "A1", [0])])]⟩), ("Book", ⟨[some [("_type",
             Val.str "Book"), ("id", Val.str "b1"), ("title", Val.str "X"), ("note", Val.undefined),
             ("author", Val.ident ⟨.str "Author", .str "A1"⟩), ("tags", Val.oset []), ("reviews",
             Val.oset []), ("cover", Val.undefined)]], [("id", [(Val.str "b1", [0])]), ("title",
             [(Val.str "X", [0])])]⟩), ("Tag", ⟨[], [("id", [])]⟩)]
           tail := [("Author", ⟨[some [("_type", Val.str "Author"), ("id", Val.str "A1"), ("name",
             Val.str "Ada"), ("books", Val.oset [⟨.str "Book", .str "b1"⟩])]], [("id",
             [(Val.str "a1", [0]), (Val.str "A1", [0])])]⟩), ("Book", ⟨[some [("_type",
             Val.str "Book"), ("id", Val.str "b1"), ("title", Val.str "X"), ("note", Val.undefined),
             ("author", Val.ident ⟨.str "Author", .str "A1"⟩), ("tags", Val.oset []), ("reviews",
             Val.oset []), ("cover", Val.undefined)]], [("id", [(Val.str "b1", [0])]), ("title",
             [(Val.str "X", [0])])]⟩), ("Tag", ⟨[], [("id", [])]⟩)]
           diffs := [[("_type", Val.undefined, Val.str "Author"), ("id", Val.undefined, Val.str "A1"),
             ("name", Val.undefined, Val.str "Ada")], [("_type", Val.undefined, Val.str "Book"),
             ("id", Val.undefined, Val.str "b1"), ("title", Val.undefined, Val.str "X"), ("author",
             Val.undefined, Val.ident ⟨.str "Author", .str "A1"⟩)]]
           deltas := []
           tailptr := 2 },
         .ok ()) := by
  unfold Schema.reId
  simp only [Run.forEach]
  rw [Run.bind_ok _ _ _ _ _ reIdBranch_head_writtenStore,
    Run.bind_ok _ _ _ _ _ reIdBranch_tail_writtenStore]
  rfl

/-- Witness of C27: the identifier of the author is reassigned in the store that holds the
create diffs of the author and of a book of the author. -/
theorem reId_rewrites_log_witness :
    (librarySchema.reId (Val.str "Author") (Val.str "a1") (Val.str "A1") none
        writtenStore).1.diffs
      = [[("_type", (Val.undefined, Val.str "Author")), ("id", (Val.undefined, Val.str "A1")),
          ("name", (Val.undefined, Val.str "Ada"))],
         [("_type", (Val.undefined, Val.str "Book")), ("id", (Val.undefined, Val.str "b1")),
          ("title", (Val.undefined, Val.str "X")),
          ("author", (Val.undefined, Val.ident ⟨.str "Author", .str "A1"⟩))]] ∧
    ∀ (i : Nat) (d : Diff), writtenStore.diffs[i]? = some d →
      ∃ d1 m, (librarySchema.reId (Val.str "Author") (Val.str "a1") (Val.str "A1") none
            writtenStore).1.diffs[i]? = some d1 ∧
        (getDiffId d).bind (fun x => librarySchema.getModel x.1) = some m ∧
        (getDiffId d1).bind (fun x => librarySchema.getModel x.1) = some m ∧
        Schema.Rewritten m (Val.str "a1") (Val.str "A1") ⟨.str "Author", .str "a1"⟩
          ⟨.str "Author", .str "A1"⟩ d d1 ∧
        ¬ Schema.diffMentions m (Val.str "a1") ⟨.str "Author", .str "a1"⟩ d1 :=
  ⟨by rw [reId_writtenStore],
    (reId_rewrites_log librarySchema (Val.str "Author") (Val.str "a1") (Val.str "A1") none
      writtenStore ⟨.str "Author", .str "a1"⟩ ⟨.str "Author", .str "A1"⟩
      (by decide) rfl (by decide) rfl rfl (by rw [reId_writtenStore])).2⟩

/-- Witness of C30: the create diff of the author is acknowledged with the `id` the
server gave. -/
theorem postCommitDiff_pops_oldest_witness :
    (librarySchema.postCommitDiff (Val.str "A1") none createdStore).2 = .ok true ∧
    (librarySchema.postCommitDiff (Val.str "A1") none createdStore).1.tailptr
      = createdStore.tailptr - 1 ∧
    (librarySchema.postCommitDiff (Val.str "A1") none createdStore).1.diffs.length = 0 :=
  have h := postCommitDiff_pops_oldest librarySchema (Val.str "A1") createdStore
    [("_type", (Val.undefined, Val.str "Author")), ("id", (Val.undefined, Val.str "a1")),
     ("name", (Val.undefined, Val.str "Ada"))] [] rfl
  ⟨((h.2.2.2.2 rfl (Val.undefined, Val.str "Author") (Val.undefined, Val.str "a1")
      rfl rfl).2.1).2 rfl, h.1, h.2.1⟩

/-! ## Relationship maintenance on a table -/

theorem Table.updateField_spec (t t1 : Table) (idx : Nat) (fld : String)
    (f : Val → Except Err Val) (h : t.updateField idx fld f = .ok t1) :
    ∃ r v, t.data.row idx = some r ∧ f (r.get fld) = .ok v ∧
      t1.hooks = t.hooks ∧ t1.model = t.model ∧ t1.data.indices = t.data.indices ∧
      t1.data.objects = t.data.objects.set idx (some (Obj.set r fld v)) := by
  unfold Table.updateField at h
  cases hr : t.data.row idx with
  | none => rw [hr] at h; cases h
  | some r =>
      rw [hr] at h
      simp only at h
      cases hv : f (r.get fld) with
      | error e => rw [hv] at h; cases h
      | ok v =>
          rw [hv] at h
          simp only [Except.map, Except.ok.injEq] at h
          subst h
          exact ⟨r, v, rfl, hv, rfl, rfl, rfl, rfl⟩

theorem Table.getIndex_congr (t t1 : Table) (hh : t1.hooks = t.hooks) (hm : t1.model = t.model)
    (hi : t1.data.indices = t.data.indices) (id : Val) : t1._getIndex id = t._getIndex id := by
  unfold Table._getIndex Table.toIndexable TableData.getIndexIn
  rw [hh, hm, hi]

theorem Table.rowHas_set (t t1 : Table) (idx : Nat) (r : Rec) (fld : String) (v : Val)
    (hr : t.data.row idx = some r)
    (hobj : t1.data.objects = t.data.objects.set idx (some (Obj.set r fld v)))
    (p : Nat) (g : String) (y : ID) :
    t1.rowHas p g y
      = if p = idx ∧ g = fld then v.members.contains y else t.rowHas p g y := by
  have hlt := TableData.row_lt _ _ _ hr
  unfold Table.rowHas
  rw [TableData.row_set t.data t1.data idx _ hobj hlt p]
  by_cases hp : p = idx
  · subst hp
    rw [if_pos rfl, hr]
    simp only [Rec.get_set]
    by_cases hg : g = fld
    · subst hg
      simp
    · have : ¬ fld = g := fun h => hg h.symm
      simp [hg, this]
  · simp [hp]

/-- The method `removeRelationship(id, field, relatedId)`, when it returns: the row the
`id` index lists under `id` no longer holds the identifier in the field; no other row,
field or identifier is touched, and the indices stay as they are. -/
theorem Table.removeRelationship_spec (t t1 : Table) (id : Val) (fld : String) (x : ID)
    (h : t.removeRelationship id fld x = .ok t1) :
    t1.hooks = t.hooks ∧ t1.model = t.model ∧ t1.data.indices = t.data.indices ∧
    ∃ idx, t._getIndex id = .ok idx ∧ (t.data.row idx).isSome = true ∧
      (∀ p, (t1.data.row p).isSome = (t.data.row p).isSome) ∧
      (∀ p g y, t1.rowHas p g y
        = if p = idx ∧ g = fld ∧ y = x then false else t.rowHas p g y) := by
  unfold Table.removeRelationship at h
  cases hi : t._getIndex id with
  | error e => rw [hi] at h; cases h
  | ok idx =>
      rw [hi] at h
      simp only [Except.bind] at h
      obtain ⟨r, v, hr, hv, hh, hm, hind, hobj⟩ := Table.updateField_spec t t1 idx fld _ h
      refine ⟨hh, hm, hind, idx, rfl, by rw [hr]; rfl, ?_, ?_⟩
      · intro p
        rw [TableData.row_set t.data t1.data idx _ hobj (TableData.row_lt _ _ _ hr) p]
        by_cases hp : p = idx
        · rw [if_pos hp, hp, hr]
          rfl
        · rw [if_neg hp]
      · intro p g y
        rw [Table.rowHas_set t t1 idx r fld v hr hobj p g y]
        cases hx : r.get fld with
        | prim q => rw [hx] at hv; cases hv
        | ident j =>
            rw [hx] at hv
            simp only [Val.delete, Except.ok.injEq] at hv
            subst hv
            by_cases hpg : p = idx ∧ g = fld
            · rw [if_pos hpg]
              obtain ⟨hp, hg⟩ := hpg
              subst hp
              subst hg
              have hrow : t.rowHas p g y = false := by
                simp only [Table.rowHas, hr, hx]
                rfl
              rw [hrow]
              by_cases hy : y = x
              · simp [hy, Val.members]
              · simp [hy, Val.members]
            · rw [if_neg hpg]
              have : ¬ (p = idx ∧ g = fld ∧ y = x) := fun hh => hpg ⟨hh.1, hh.2.1⟩
              rw [if_neg this]
        | oset xs =>
            rw [hx] at hv
            simp only [Val.delete, Except.ok.injEq] at hv
            subst hv
            by_cases hpg : p = idx ∧ g = fld
            · rw [if_pos hpg]
              obtain ⟨hp, hg⟩ := hpg
              subst hp
              subst hg
              by_cases hy : y = x
              · subst hy
                simp [Val.members]
              · simp only [hy, and_false, if_false]
                simp only [Table.rowHas, hr, hx]
                simp [Val.members, hy]
            · rw [if_neg hpg]
              have : ¬ (p = idx ∧ g = fld ∧ y = x) := fun hh => hpg ⟨hh.1, hh.2.1⟩
              rw [if_neg this]

/-- The method `addRelationship(id, fldName, relatedId)`, when it returns: the row the
`id` index lists under `id` holds the identifier in the field; no other row, field or
identifier is touched, and the indices stay as they are. -/
theorem Table.addRelationship_spec (t t1 : Table) (id : Val) (fld : String) (x : ID)
    (h : t.addRelationship id fld x = .ok t1) :
    t1.hooks = t.hooks ∧ t1.model = t.model ∧ t1.data.indices = t.data.indices ∧
    ∃ idx, t._getIndex id = .ok idx ∧ (t.data.row idx).isSome = true ∧
      (∀ p, (t1.data.row p).isSome = (t.data.row p).isSome) ∧
      (∀ p g y, t1.rowHas p g y
        = if p = idx ∧ g = fld ∧ y = x then true else t.rowHas p g y) := by
  unfold Table.addRelationship at h
  cases hf : t.model.getField fld with
  | error e => rw [hf] at h; cases h
  | ok info =>
      rw [hf] at h
      simp only [Except.bind] at h
      split at h
      · cases h
      · cases hi : t._getIndex id with
        | error e => rw [hi] at h; cases h
        | ok idx =>
            rw [hi] at h
            simp only at h
            obtain ⟨r, v, hr, hv, hh, hm, hind, hobj⟩ := Table.updateField_spec t t1 idx fld _ h
            refine ⟨hh, hm, hind, idx, rfl, by rw [hr]; rfl, ?_, ?_⟩
            · intro p
              rw [TableData.row_set t.data t1.data idx _ hobj (TableData.row_lt _ _ _ hr) p]
              by_cases hp : p = idx
              · rw [if_pos hp, hp, hr]
                rfl
              · rw [if_neg hp]
            · intro p g y
              rw [Table.rowHas_set t t1 idx r fld v hr hobj p g y]
              cases hx : r.get fld with
              | prim q => rw [hx] at hv; cases hv
              | ident j => rw [hx] at hv; cases hv
              | oset xs =>
                  rw [hx] at hv
                  simp only [Val.add, Except.ok.injEq] at hv
                  subst hv
                  by_cases hpg : p = idx ∧ g = fld
                  · rw [if_pos hpg]
                    obtain ⟨hp, hg⟩ := hpg
                    subst hp
                    subst hg
                    by_cases hy : y = x
                    · subst hy
                      simp only [and_self, if_true, Val.members]
                      by_cases hc : y ∈ xs
                      · simp [hc]
                      · simp [hc]
                    · simp only [hy, and_false, if_false]
                      simp only [Table.rowHas, hr, hx, Val.members]
                      by_cases hc : x ∈ xs
                      · simp [hc]
                      · simp [hc, hy]
                  · rw [if_neg hpg]
                    have : ¬ (p = idx ∧ g = fld ∧ y = x) := fun hh => hpg ⟨hh.1, hh.2.1⟩
                    rw [if_neg this]

/-! ## `addRelationship` -/

/-- C32, as the code has it on a single-valued relationship field: the type of the
identifier agrees with the type declared for the field `author` and the record exists,
but the value of the field is an identifier, which has no method `add`: the call throws
and the field does not come to contain the identifier. -/
theorem addRelationship_single_valued_counterexample :
    bookModel.getField "author"
        = .ok (.relationship ⟨"Author", false, true, false, some "books"⟩) ∧
      Val.prim authorB._type = Val.str "Author" ∧
      oneBookTable._getIndex (Val.str "b1") = .ok 0 ∧
      oneBookTable.data.row 0 = some bookX ∧
      oneBookTable.addRelationship (Val.str "b1") "author" authorB
        = .error (.typeError "add is not a function") :=
  ⟨rfl, rfl, rfl, rfl, rfl⟩

/-- C32, amended: for every table, record id, relationship field and identifier whose
type differs (for `!=`) from the type declared for the field, `addRelationship` throws
the error "Cannot add incompatible type" and yields no new table; when the types agree,
the record exists and its field holds an ordered set (the value of a many-valued field),
the call returns, the `id` index still lists the record at its position, and the field of
the record holds the identifier exactly once, also if it was a member already. -/
theorem addRelationship_adds_once (t : Table) (id : Val) (f : String) (x : ID)
    (info : RelInfo) (hfield : t.model.getField f = .ok (.relationship info)) :
    (looseEq (Val.prim x._type) (Val.str info.type) = false →
      t.addRelationship id f x = .error (.modelError "Cannot add incompatible type: ")) ∧
    (Val.prim x._type = Val.str info.type →
      ∀ (p : Nat) (r : Rec) (xs : List ID), t._getIndex id = .ok p → t.data.row p = some r →
        r.get f = Val.oset xs → xs.Nodup →
        ∃ t1 r1, t.addRelationship id f x = .ok t1 ∧ t1._getIndex id = .ok p ∧
          t1.data.row p = some r1 ∧ (r1.get f).members.count x = 1 ∧
          (∀ y, y ∈ (r1.get f).members ↔ y = x ∨ y ∈ xs)) := by
  have hloose : Val.prim x._type = Val.str info.type →
      looseEq (Val.prim x._type) (Val.str info.type) = true := by
    intro h
    rw [h]
    simp [looseEq]
  constructor
  · intro hl
    unfold Table.addRelationship
    rw [hfield]
    simp only [Except.bind, FieldInfo.type, hl, if_true]
  · intro heq p r xs hidx hrow hset hnd
    have hl : looseEq (Val.prim x._type) (Val.str info.type) = true := hloose heq
    let v : Val := Val.oset (if xs.contains x then xs else xs ++ [x])
    let t1 : Table :=
      { t with data := { t.data with objects := t.data.objects.set p (some (Obj.set r f v)) } }
    have hrun : t.addRelationship id f x = .ok t1 := by
      unfold Table.addRelationship
      rw [hfield]
      simp only [Except.bind, FieldInfo.type, hl, hidx]
      unfold Table.updateField
      rw [hrow]
      simp only [hset, Val.add, Except.map]
      rfl
    have hrow1 : t1.data.row p = some (Obj.set r f v) := by
      rw [TableData.row_set t.data t1.data p _ rfl (TableData.row_lt _ _ _ hrow) p, if_pos rfl]
    refine ⟨t1, Obj.set r f v, hrun, ?_, hrow1, ?_, ?_⟩
    · rw [Table.getIndex_congr t t1 rfl rfl rfl id]
      exact hidx
    · simp only [Rec.get_set, if_true, v, Val.members]
      by_cases hc : x ∈ xs
      · have hcb : xs.contains x = true := by simpa using hc
        simp only [hcb, if_true]
        exact List.count_eq_one_of_mem hnd hc
      · have hcb : xs.contains x = false := by simpa using hc
        simp only [hcb, Bool.false_eq_true, if_false]
        rw [List.count_append, List.count_eq_zero_of_not_mem hc]
        simp
    · intro y
      simp only [Rec.get_set, if_true, v, Val.members]
      by_cases hc : x ∈ xs
      · have hcb : xs.contains x = true := by simpa using hc
        simp only [hcb, if_true]
        constructor
        · exact fun h => Or.inr h
        · rintro (h | h)
          · rw [h]; exact hc
          · exact h
      · have hcb : xs.contains x = false := by simpa using hc
        simp only [hcb, Bool.false_eq_true, if_false]
        rw [List.mem_append, List.mem_singleton]
        tauto

/-- Witness of C32 on the sample table: the type of a cover differs from the type of
`tags`; a tag that is a member already stays in the set once. -/
theorem addRelationship_adds_once_witness :
    oneBookTable.addRelationship (Val.str "b1") "tags" cover1
        = .error (.modelError "Cannot add incompatible type: ") ∧
      ∃ t1 r1, oneBookTable.addRelationship (Val.str "b1") "tags" tag1 = .ok t1 ∧
        t1._getIndex (Val.str "b1") = .ok 0 ∧ t1.data.row 0 = some r1 ∧
        (r1.get "tags").members.count tag1 = 1 ∧
        (∀ y, y ∈ (r1.get "tags").members ↔ y = tag1 ∨ y ∈ [tag1, tag2]) :=
  ⟨(addRelationship_adds_once oneBookTable (Val.str "b1") "tags" cover1
      ⟨"Tag", true, false, false, some "books"⟩ rfl).1 rfl,
   (addRelationship_adds_once oneBookTable (Val.str "b1") "tags" tag1
      ⟨"Tag", true, false, false, some "books"⟩ rfl).2 rfl 0 bookX [tag1, tag2] rfl rfl rfl
      (by decide)⟩

/-! ## `update`: the call `get(full._type, full.id)` -/

/-- C31: `update` throws a `TypeError` for every record, in every store, and leaves the
store as it was.  The method starts with the call `this.get(full._type, full.id)`; `get`
has one parameter, so that it looks for the record that the type, a string, identifies,
and no table can be made for it.  In the store after the creation of the sample book,
where `head` holds the book: the `update` of a record that does not exist throws this
`TypeError` and not the error "Unknown record", and the `update` of the book with the
values it has throws as well, where it should return. -/
theorem update_throws_for_every_record (S : Schema) (s : Store) (t : Prim) (rest : Rec)
    (values : Option Rec) :
    S.update (("_type", Val.prim t) :: rest) values s
      = (s, .error (.typeError "property of undefined")) ∧
    (librarySchema.create plainBookData "u1" emptyStore).2
      = .ok (bookModel.toObject plainBookData) ∧
    librarySchema.getRecord (librarySchema.create plainBookData "u1" emptyStore).1
        (Val.ident ⟨.str "Book", .str "b1"⟩)
      = .ok (some (bookModel.toObject plainBookData)) ∧
    librarySchema.getRecord (librarySchema.create plainBookData "u1" emptyStore).1
        (Val.ident ⟨.str "Book", .str "b7"⟩)
      = .ok none ∧
    librarySchema.update [("_type", Val.str "Book"), ("id", Val.str "b7")] none
        (librarySchema.create plainBookData "u1" emptyStore).1
      = ((librarySchema.create plainBookData "u1" emptyStore).1,
          .error (.typeError "property of undefined")) ∧
    librarySchema.update plainBookData (some [("title", Val.str "X")])
        (librarySchema.create plainBookData "u1" emptyStore).1
      = ((librarySchema.create plainBookData "u1" emptyStore).1,
          .error (.typeError "property of undefined")) ∧
    librarySchema.update plainBookData none
        (librarySchema.create plainBookData "u1" emptyStore).1
      = ((librarySchema.create plainBookData "u1" emptyStore).1,
          .error (.typeError "property of undefined")) := by
  refine ⟨?_, rfl, rfl, rfl, ?_, ?_, ?_⟩
  · exact Schema.update_throws S _ values s (fun i h => by cases h)
  · exact Schema.update_throws librarySchema _ none _ (fun i h => by cases h)
  · exact Schema.update_throws librarySchema _ _ _ (fun i h => by cases h)
  · exact Schema.update_throws librarySchema _ none _ (fun i h => by cases h)

/-! ## `_getNextReady` -/

theorem scanReady_min (l : List (String × DepEntry)) (next : Option (String × DepEntry))
    (n : String × DepEntry) (h : scanReady l next = some n) :
    (∀ m, next = some m → n.2.optional.length ≤ m.2.optional.length) ∧
    (∀ p, p ∈ l → p.2.required.length = 0 → n.2.optional.length ≤ p.2.optional.length) := by
  induction l generalizing next with
  | nil =>
      unfold scanReady at h
      refine ⟨?_, ?_⟩
      · intro m hm
        rw [hm] at h
        cases h
        exact Nat.le_refl _
      · intro p hp
        cases hp
  | cons q rest ih =>
      obtain ⟨id, e⟩ := q
      unfold scanReady at h
      simp only at h
      by_cases hreq : e.required.length = 0
      · rw [if_pos hreq] at h
        cases next with
        | none =>
            simp only at h
            refine ⟨fun m hm => (by cases hm), ?_⟩
            intro p hp hr
            by_cases ho : e.optional.length = 0
            · rw [if_pos ho] at h
              cases h
              rw [ho]
              exact Nat.zero_le _
            · rw [if_neg ho] at h
              have hi := ih _ h
              rcases List.mem_cons.1 hp with hpe | hpr
              · subst hpe
                exact hi.1 _ rfl
              · exact hi.2 p hpr hr
        | some m =>
            simp only at h
            by_cases hlt : e.optional.length < m.2.optional.length
            · rw [if_pos hlt] at h
              simp only at h
              by_cases ho : e.optional.length = 0
              · rw [if_pos ho] at h
                cases h
                refine ⟨fun m' _ => ?_, fun p _ _ => ?_⟩
                · rw [ho]
                  exact Nat.zero_le _
                · rw [ho]
                  exact Nat.zero_le _
              · rw [if_neg ho] at h
                have hi := ih _ h
                refine ⟨?_, ?_⟩
                · intro m' hm'
                  cases hm'
                  exact Nat.le_trans (hi.1 _ rfl) (Nat.le_of_lt hlt)
                · intro p hp hr
                  rcases List.mem_cons.1 hp with hpe | hpr
                  · subst hpe
                    exact hi.1 _ rfl
                  · exact hi.2 p hpr hr
            · rw [if_neg hlt] at h
              simp only at h
              by_cases ho : m.2.optional.length = 0
              · rw [if_pos ho] at h
                cases h
                refine ⟨fun m' _ => ?_, fun p _ _ => ?_⟩
                · rw [ho]
                  exact Nat.zero_le _
                · rw [ho]
                  exact Nat.zero_le _
              · rw [if_neg ho] at h
                have hi := ih _ h
                refine ⟨?_, ?_⟩
                · intro m' hm'
                  cases hm'
                  exact hi.1 _ rfl
                · intro p hp hr
                  rcases List.mem_cons.1 hp with hpe | hpr
                  · subst hpe
                    exact Nat.le_trans (hi.1 _ rfl) (Nat.le_of_not_lt hlt)
                  · exact hi.2 p hpr hr
      · rw [if_neg hreq] at h
        cases next with
        | none =>
            simp only at h
            have hi := ih _ h
            refine ⟨fun m hm => (by cases hm), ?_⟩
            intro p hp hr
            rcases List.mem_cons.1 hp with hpe | hpr
            · subst hpe
              exact absurd hr hreq
            · exact hi.2 p hpr hr
        | some m =>
            simp only at h
            by_cases ho : m.2.optional.length = 0
            · rw [if_pos ho] at h
              cases h
              refine ⟨fun m' _ => ?_, fun p _ _ => ?_⟩
              · rw [ho]
                exact Nat.zero_le _
              · rw [ho]
                exact Nat.zero_le _
            · rw [if_neg ho] at h
              have hi := ih _ h
              refine ⟨?_, ?_⟩
              · intro m' hm'
                cases hm'
                exact hi.1 _ rfl
              · intro p hp hr
                rcases List.mem_cons.1 hp with hpe | hpr
                · subst hpe
                  exact absurd hr hreq
                · exact hi.2 p hpr hr

theorem keysRemove_not_mem (xs : List String) (k : String) : k ∉ keysRemove xs k := by
  unfold keysRemove
  intro h
  have := (List.mem_filter.1 h).2
  simp at this

/-- C33: for every dependency table (the keys are distinct and every entry stands under
the key of its own identifier), `_getNextReady` returns the key of an entry whose
`required` set is empty and whose `optional` set is no larger than that of any entry with
an empty `required` set; it returns no key exactly when no entry has an empty `required`
set; and when it returns a key, the table it leaves has the same keys and that key is a
member of no entry's `required` or `optional` set. -/
theorem getNextReady_selects_ready (tbl : DepTable) (hwk : tbl.WellKeyed) :
    ((_getNextReady tbl).2 = none ↔ ∀ p, p ∈ tbl → p.2.required ≠ []) ∧
    (∀ k, (_getNextReady tbl).2 = some k →
      (∃ e, (k, e) ∈ tbl ∧ e.required = [] ∧
        ∀ p, p ∈ tbl → p.2.required = [] → e.optional.length ≤ p.2.optional.length) ∧
      Obj.keys (_getNextReady tbl).1 = Obj.keys tbl ∧
      ∀ p, p ∈ (_getNextReady tbl).1 → k ∉ p.2.required ∧ k ∉ p.2.optional) := by
  unfold _getNextReady
  cases hs : scanReady tbl none with
  | none =>
      refine ⟨⟨fun _ => (scanReady_none tbl none hs).2, fun _ => rfl⟩, ?_⟩
      intro k hk
      cases hk
  | some n =>
      obtain ⟨k, e⟩ := n
      have hspec := scanReady_spec tbl none (fun m hm => by cases hm) (k, e) hs
      have hmin := (scanReady_min tbl none (k, e) hs).2
      have hmem : (k, e) ∈ tbl := by
        rcases hspec.1 with h | h
        · exact h
        · cases h
      have hkey : k = depKey e.id := hwk.2 (k, e) hmem
      have hk : ¬ k = "" := by
        rw [hkey]
        exact depKey_ne_empty e.id
      simp only [hk, if_false]
      refine ⟨⟨?_, ?_⟩, ?_⟩
      · intro h
        cases h
      · intro h
        exact absurd hspec.2 (h (k, e) hmem)
      · intro k' hk'
        cases hk'
        refine ⟨⟨e, hmem, hspec.2, ?_⟩, ?_, ?_⟩
        · intro p hp hr
          exact hmin p hp (by rw [hr]; rfl)
        · exact Obj.keys_map tbl (fun y => DepEntry.withoutKey y (depKey e.id))
        · intro p hp
          obtain ⟨q, _, hqp⟩ := List.mem_map.1 hp
          rw [← hqp, hkey]
          exact ⟨keysRemove_not_mem _ _, keysRemove_not_mem _ _⟩

/-- Witness of C33 on the table of a new book that requires a new author: the key of the
author is returned, and no entry of the table left holds it. -/
theorem getNextReady_selects_ready_witness :
    chainTable.WellKeyed ∧ (_getNextReady chainTable).2 = some "Author|a1" ∧
      (∃ e, ("Author|a1", e) ∈ chainTable ∧ e.required = [] ∧
        ∀ p, p ∈ chainTable → p.2.required = [] → e.optional.length ≤ p.2.optional.length) ∧
      Obj.keys (_getNextReady chainTable).1 = Obj.keys chainTable ∧
      ∀ p, p ∈ (_getNextReady chainTable).1 →
        "Author|a1" ∉ p.2.required ∧ "Author|a1" ∉ p.2.optional :=
  ⟨by unfold DepTable.WellKeyed; decide, rfl,
   (getNextReady_selects_ready chainTable (by unfold DepTable.WellKeyed; decide)).2
     "Author|a1" rfl⟩

/-! ## `splitDelta` -/

/-- One turn of the loop of `splitDelta`, when it returns: the entries of the other fields
stay, and the entry of the field is divided between the two diffs. -/
theorem Schema.splitStep_spec (model : Model) (optional : List String) (acc acc1 : Diff × Diff)
    (f : String) (h : Schema.splitStep model optional acc f = .ok acc1) :
    (∀ g, g ≠ f → Obj.lookup g acc1.1 = Obj.lookup g acc.1 ∧
      Obj.lookup g acc1.2 = Obj.lookup g acc.2) ∧
    (Obj.lookup f acc.1 = none → acc1 = acc) ∧
    (∀ e, Obj.lookup f acc.1 = some e → ∃ field, model.getField f = .ok field ∧
      (field.many = true → ∃ xs ys, e = (Val.oset xs, Val.oset ys) ∧
        Obj.lookup f acc1.1
          = some (Val.oset (xs.filter (fun x => optionalHas optional (.ident x))),
                  Val.oset (ys.filter (fun x => optionalHas optional (.ident x)))) ∧
        Obj.lookup f acc1.2
          = some (Val.oset (xs.filter (fun x => !optionalHas optional (.ident x))),
                  Val.oset (ys.filter (fun x => !optionalHas optional (.ident x))))) ∧
      (field.many = false →
        (optionalHas optional e.2 = true →
          Obj.lookup f acc1.1 = none ∧ Obj.lookup f acc1.2 = some e) ∧
        (optionalHas optional e.2 = false → acc1 = acc))) := by
  unfold Schema.splitStep at h
  cases hl : Obj.lookup f acc.1 with
  | none =>
      rw [hl] at h
      simp only [Except.ok.injEq] at h
      subst h
      exact ⟨fun g _ => ⟨rfl, rfl⟩, fun _ => rfl, fun e he => (by cases he)⟩
  | some e =>
      rw [hl] at h
      simp only at h
      cases hf : model.getField f with
      | error err => rw [hf] at h; cases h
      | ok field =>
          rw [hf] at h
          simp only [Except.bind] at h
          cases hm : field.many with
          | true =>
              rw [hm] at h
              simp only [if_true] at h
              obtain ⟨e1, e2⟩ := e
              cases e1 with
              | prim p => cases h
              | ident i => cases h
              | oset xs =>
                  cases e2 with
                  | prim p => cases h
                  | ident i => cases h
                  | oset ys =>
                      simp only [Val.filterSet, Except.map, Except.ok.injEq] at h
                      subst h
                      refine ⟨?_, (fun hn => by cases hn), ?_⟩
                      · intro g hg
                        have hg' : ¬ f = g := fun hh => hg hh.symm
                        simp only [Obj.lookup_set, hg', if_false, and_self]
                      · intro e he
                        cases he
                        refine ⟨field, rfl, ?_, ?_⟩
                        · intro _
                          refine ⟨xs, ys, rfl, ?_, ?_⟩
                          · simp only [Obj.lookup_set, if_true]
                          · simp only [Obj.lookup_set, if_true]
                        · intro hc
                          rw [hm] at hc
                          cases hc
          | false =>
              rw [hm] at h
              simp only [Bool.false_eq_true, if_false] at h
              cases ho : optionalHas optional e.2 with
              | true =>
                  rw [ho] at h
                  simp only [if_true, Except.ok.injEq] at h
                  subst h
                  refine ⟨?_, (fun hn => by cases hn), ?_⟩
                  · intro g hg
                    have hg' : ¬ f = g := fun hh => hg hh.symm
                    simp only [Obj.lookup_set, Obj.lookup_erase, hg', if_false, and_self]
                  · intro e' he
                    cases he
                    refine ⟨field, rfl, fun hc => ?_, fun _ => ⟨fun _ => ?_, fun hc => ?_⟩⟩
                    · rw [hm] at hc
                      cases hc
                    · simp only [Obj.lookup_set, Obj.lookup_erase, if_true, and_self]
                    · rw [ho] at hc
                      cases hc
              | false =>
                  rw [ho] at h
                  simp only [Bool.false_eq_true, if_false, Except.ok.injEq] at h
                  subst h
                  refine ⟨fun g _ => ⟨rfl, rfl⟩, fun _ => rfl, ?_⟩
                  intro e' he
                  cases he
                  refine ⟨field, rfl, fun hc => ?_, fun _ => ⟨fun hc => ?_, fun _ => rfl⟩⟩
                  · rw [hm] at hc
                    cases hc
                  · rw [ho] at hc
                    cases hc

/-- The loop of `splitDelta` over distinct fields, when it returns. -/
theorem Schema.foldlM_splitStep (model : Model) (optional : List String) (fs : List String)
    (acc r : Diff × Diff) (hnd : fs.Nodup)
    (h : fs.foldlM (Schema.splitStep model optional) acc = .ok r) :
    (∀ g, g ∉ fs → Obj.lookup g r.1 = Obj.lookup g acc.1 ∧
      Obj.lookup g r.2 = Obj.lookup g acc.2) ∧
    (∀ g, g ∈ fs →
      (Obj.lookup g acc.1 = none →
        Obj.lookup g r.1 = none ∧ Obj.lookup g r.2 = Obj.lookup g acc.2) ∧
      (∀ e, Obj.lookup g acc.1 = some e → ∃ field, model.getField g = .ok field ∧
        (field.many = true → ∃ xs ys, e = (Val.oset xs, Val.oset ys) ∧
          Obj.lookup g r.1
            = some (Val.oset (xs.filter (fun x => optionalHas optional (.ident x))),
                    Val.oset (ys.filter (fun x => optionalHas optional (.ident x)))) ∧
          Obj.lookup g r.2
            = some (Val.oset (xs.filter (fun x => !optionalHas optional (.ident x))),
                    Val.oset (ys.filter (fun x => !optionalHas optional (.ident x))))) ∧
        (field.many = false →
          (optionalHas optional e.2 = true →
            Obj.lookup g r.1 = none ∧ Obj.lookup g r.2 = some e) ∧
          (optionalHas optional e.2 = false →
            Obj.lookup g r.1 = some e ∧ Obj.lookup g r.2 = Obj.lookup g acc.2)))) := by
  induction fs generalizing acc with
  | nil =>
      simp only [List.foldlM_nil, pure, Except.pure, Except.ok.injEq] at h
      subst h
      exact ⟨fun g _ => ⟨rfl, rfl⟩, fun g hg => by cases hg⟩
  | cons f rest ih =>
      rw [List.foldlM_cons] at h
      cases hx : Schema.splitStep model optional acc f with
      | error e =>
          rw [hx] at h
          simp [bind, Except.bind] at h
      | ok acc1 =>
          rw [hx] at h
          simp only [bind, Except.bind] at h
          obtain ⟨hfr, hndr⟩ := List.nodup_cons.1 hnd
          obtain ⟨ih1, ih2⟩ := ih acc1 hndr h
          obtain ⟨s1, s2, s3⟩ := Schema.splitStep_spec model optional acc acc1 f hx
          refine ⟨?_, ?_⟩
          · intro g hg
            have hgf : g ≠ f := fun hh => hg (hh ▸ List.mem_cons_self _ _)
            have hgr : g ∉ rest := fun hh => hg (List.mem_cons_of_mem _ hh)
            rw [(ih1 g hgr).1, (ih1 g hgr).2]
            exact s1 g hgf
          · intro g hg
            rcases List.mem_cons.1 hg with hgf | hgr
            · subst hgf
              obtain ⟨k1, k2⟩ := ih1 g hfr
              rw [k1, k2]
              refine ⟨?_, ?_⟩
              · intro hn
                rw [s2 hn]
                exact ⟨hn, rfl⟩
              · intro e he
                obtain ⟨field, hfield, hmany, hsingle⟩ := s3 e he
                refine ⟨field, hfield, hmany, ?_⟩
                intro hm
                refine ⟨(hsingle hm).1, ?_⟩
                intro ho
                rw [(hsingle hm).2 ho]
                exact ⟨he, rfl⟩
            · have hgf : g ≠ f := fun hh => hfr (hh ▸ hgr)
              obtain ⟨k1, k2⟩ := s1 g hgf
              have := ih2 g hgr
              rw [k1, k2] at this
              exact this

/-- The loop of `splitDelta` over distinct fields returns when the entry of every
many-valued field holds an ordered set on both sides. -/
theorem Schema.foldlM_splitStep_ok (model : Model) (optional : List String)
    (fs : List String) (acc : Diff × Diff) (hnd : fs.Nodup)
    (hok : ∀ f e, f ∈ fs → Obj.lookup f acc.1 = some e → ∃ field,
      model.getField f = .ok field ∧
      (field.many = true → ∃ xs ys, e = (Val.oset xs, Val.oset ys))) :
    ∃ r, fs.foldlM (Schema.splitStep model optional) acc = .ok r := by
  induction fs generalizing acc with
  | nil => exact ⟨acc, rfl⟩
  | cons f rest ih =>
      obtain ⟨hfr, hndr⟩ := List.nodup_cons.1 hnd
      have hstep : ∃ acc1, Schema.splitStep model optional acc f = .ok acc1 := by
        unfold Schema.splitStep
        cases hl : Obj.lookup f acc.1 with
        | none => exact ⟨acc, rfl⟩
        | some e =>
            obtain ⟨field, hfield, hmany⟩ := hok f e (List.mem_cons_self _ _) hl
            rw [hfield]
            simp only [Except.bind]
            cases hm : field.many with
            | true =>
                obtain ⟨xs, ys, he⟩ := hmany hm
                subst he
                exact ⟨_, rfl⟩
            | false =>
                simp only [Bool.false_eq_true, if_false]
                cases optionalHas optional e.2 with
                | true => exact ⟨_, rfl⟩
                | false => exact ⟨_, rfl⟩
      obtain ⟨acc1, hacc1⟩ := hstep
      obtain ⟨s1, _, _⟩ := Schema.splitStep_spec model optional acc acc1 f hacc1
      have hok1 : ∀ g e, g ∈ rest → Obj.lookup g acc1.1 = some e → ∃ field,
          model.getField g = .ok field ∧
          (field.many = true → ∃ xs ys, e = (Val.oset xs, Val.oset ys)) := by
        intro g e hg he
        have hgf : g ≠ f := fun hh => hfr (hh ▸ hg)
        rw [(s1 g hgf).1] at he
        exact hok g e (List.mem_cons_of_mem _ hg) he
      obtain ⟨r, hr⟩ := ih acc1 hndr hok1
      refine ⟨r, ?_⟩
      rw [List.foldlM_cons, hacc1]
      exact hr

theorem Model.getField_relationship (m : Model) (f : String) (info : RelInfo)
    (hattr : Obj.lookup f m.attributes = none) (hrel : Obj.lookup f m.relationships = some info) :
    m.getField f = .ok (.relationship info) := by
  unfold Model.getField
  rw [hattr, hrel]

/-- C34: `splitDelta` divides a diff.  For every diff of a record whose model has
distinct relationship fields, none of them named as an attribute, and for every pending
set: the call returns when the entry of every many-valued relationship field in the diff
holds an ordered set on both sides; and when it returns the main and the auxiliary diff,
then for each many-valued relationship field in the diff the removed sets of the two
diffs have no common member and together hold the members of the removed set of the diff
(likewise the added sets); every single-valued relationship field in the diff is in
exactly one of the two diffs, with the entry it has in the diff; and every other field
(an attribute, `_type`, `id`) has in the main diff the entry it has in the diff and is
not in the auxiliary diff. -/
theorem splitDelta_partitions (S : Schema) (diff : Diff) (optional : List String)
    (model : Model) (ty : Val × Val) (hty : Obj.lookup "_type" diff = some ty)
    (hmodel : S.getModel ty.2 = some model) (hnd : model.iterRelationships.Nodup)
    (hattr : ∀ f, f ∈ model.iterRelationships → Obj.lookup f model.attributes = none) :
    ((∀ f e, f ∈ model.iterManyToMany false → Obj.lookup f diff = some e →
        ∃ xs ys, e = (Val.oset xs, Val.oset ys)) →
      ∃ r, S.splitDelta diff optional = .ok r) ∧
    (∀ main aux, S.splitDelta diff optional = .ok (main, aux) →
      (∀ f e, f ∈ model.iterManyToMany false → Obj.lookup f diff = some e →
        ∃ m a, Obj.lookup f main = some m ∧ Obj.lookup f aux = some a ∧
          (∀ x, x ∈ e.1.members ↔ x ∈ m.1.members ∨ x ∈ a.1.members) ∧
          (∀ x, ¬ (x ∈ m.1.members ∧ x ∈ a.1.members)) ∧
          (∀ x, x ∈ e.2.members ↔ x ∈ m.2.members ∨ x ∈ a.2.members) ∧
          (∀ x, ¬ (x ∈ m.2.members ∧ x ∈ a.2.members))) ∧
      (∀ f e, f ∈ model.iterForeignKeys false → Obj.lookup f diff = some e →
        (Obj.lookup f main = some e ∧ Obj.lookup f aux = none) ∨
        (Obj.lookup f main = none ∧ Obj.lookup f aux = some e)) ∧
      (∀ f, f ∉ model.iterRelationships →
        Obj.lookup f main = Obj.lookup f diff ∧ Obj.lookup f aux = none)) := by
  have hunfold : S.splitDelta diff optional
      = model.iterRelationships.foldlM (Schema.splitStep model optional) (diff, []) := by
    unfold Schema.splitDelta
    rw [hty]
    simp only [hmodel]
  have hmanyField : ∀ f, f ∈ model.iterManyToMany false →
      ∃ info, model.getField f = .ok (.relationship info) ∧ info.many = true := by
    intro f hf
    obtain ⟨info, hl, _, hm⟩ := (mem_iterManyToMany model f).1 hf
    exact ⟨info, Model.getField_relationship model f info
      (hattr f (List.mem_append_right _ hf)) hl, hm⟩
  have hfkField : ∀ f, f ∈ model.iterForeignKeys false →
      ∃ info, model.getField f = .ok (.relationship info) ∧ info.many = false := by
    intro f hf
    obtain ⟨info, hl, _, hm⟩ := (mem_iterForeignKeys model f).1 hf
    exact ⟨info, Model.getField_relationship model f info
      (hattr f (List.mem_append_left _ hf)) hl, hm⟩
  rw [hunfold]
  refine ⟨?_, ?_⟩
  · intro hsets
    apply Schema.foldlM_splitStep_ok model optional _ _ hnd
    intro f e hf he
    rcases List.mem_append.1 hf with hfk | hmany
    · obtain ⟨info, hg, hm⟩ := hfkField f hfk
      refine ⟨_, hg, ?_⟩
      intro hc
      simp only [FieldInfo.many] at hc
      rw [hm] at hc
      cases hc
    · obtain ⟨info, hg, _⟩ := hmanyField f hmany
      exact ⟨_, hg, fun _ => hsets f e hmany he⟩
  · intro main aux h
    obtain ⟨k1, k2⟩ := Schema.foldlM_splitStep model optional _ _ _ hnd h
    refine ⟨?_, ?_, ?_⟩
    · intro f e hf he
      obtain ⟨info, hg, hm⟩ := hmanyField f hf
      obtain ⟨field, hfield, hmany, _⟩ := (k2 f (List.mem_append_right _ hf)).2 e he
      rw [hg] at hfield
      cases hfield
      obtain ⟨xs, ys, hxy, hmain, haux⟩ := hmany hm
      subst hxy
      refine ⟨_, _, hmain, haux, ?_, ?_, ?_, ?_⟩
      · intro x
        simp only [Val.members, List.mem_filter]
        cases optionalHas optional (Val.ident x) <;> simp
      · intro x
        simp only [Val.members, List.mem_filter]
        cases optionalHas optional (Val.ident x) <;> simp
      · intro x
        simp only [Val.members, List.mem_filter]
        cases optionalHas optional (Val.ident x) <;> simp
      · intro x
        simp only [Val.members, List.mem_filter]
        cases optionalHas optional (Val.ident x) <;> simp
    · intro f e hf he
      obtain ⟨info, hg, hm⟩ := hfkField f hf
      obtain ⟨field, hfield, _, hsingle⟩ := (k2 f (List.mem_append_left _ hf)).2 e he
      rw [hg] at hfield
      cases hfield
      cases ho : optionalHas optional e.2 with
      | true => exact Or.inr ((hsingle hm).1 ho)
      | false => exact Or.inl ((hsingle hm).2 ho)
    · intro f hf
      exact k1 f hf

/-- Witness of C34 on the update diff of a sample review, with the book and one of the
tags pending. -/
theorem splitDelta_partitions_witness :
    (∃ r, reviewSchema.splitDelta reviewDiff ["Book|b9", "Tag|t2"] = .ok r) ∧
    (∀ main aux, reviewSchema.splitDelta reviewDiff ["Book|b9", "Tag|t2"] = .ok (main, aux) →
      (∃ m a, Obj.lookup "tags" main = some m ∧ Obj.lookup "tags" aux = some a ∧
          (∀ x, x ∈ [tag1, tag2] ↔ x ∈ m.2.members ∨ x ∈ a.2.members) ∧
          (∀ x, ¬ (x ∈ m.2.members ∧ x ∈ a.2.members))) ∧
      ((Obj.lookup "book" main = some (Val.undefined, Val.ident bookNine) ∧
          Obj.lookup "book" aux = none) ∨
        (Obj.lookup "book" main = none ∧
          Obj.lookup "book" aux = some (Val.undefined, Val.ident bookNine))) ∧
      Obj.lookup "id" main = some (Val.str "r1", Val.str "r1") ∧ Obj.lookup "id" aux = none) :=
  ⟨(splitDelta_partitions reviewSchema reviewDiff ["Book|b9", "Tag|t2"] reviewModel
      (Val.str "Review", Val.str "Review") rfl rfl (by decide) (by decide)).1
      (by
        intro f e hf he
        have hfs : reviewModel.iterManyToMany false = ["tags"] := by decide
        rw [hfs] at hf
        have hf1 : f = "tags" := by simpa using hf
        subst hf1
        have hl : Obj.lookup "tags" reviewDiff = some (Val.oset [], Val.oset [tag1, tag2]) := rfl
        rw [hl] at he
        cases he
        exact ⟨_, _, rfl⟩),
   fun main aux h =>
    have hp := (splitDelta_partitions reviewSchema reviewDiff ["Book|b9", "Tag|t2"] reviewModel
      (Val.str "Review", Val.str "Review") rfl rfl (by decide) (by decide)).2 main aux h
    ⟨(hp.1 "tags" (Val.oset [], Val.oset [tag1, tag2]) (by decide) rfl).imp
        (fun m hm => hm.imp (fun a ha => ⟨ha.1, ha.2.1, ha.2.2.2.2.1, ha.2.2.2.2.2⟩)),
     hp.2.1 "book" (Val.undefined, Val.ident bookNine) (by decide) rfl,
     hp.2.2 "id" (by decide)⟩⟩

/-! ## `reId` and the diffs of records of another type -/

/-- The store `twinStore`, field by field. -/
theorem twinStore_eq :
    twinStore
      = { head := [("Author", ⟨[some [("_type", Val.str "Author"), ("id", Val.str "b1"), ("name",
            Val.str "Ada"), ("books", Val.oset [])]], [("id", [(Val.str "b1", [0])])]⟩), ("Book",
            ⟨[some [("_type", Val.str "Book"), ("id", Val.str "b1"), ("title", Val.str "X"),
            ("note", Val.undefined), ("author", Val.undefined), ("tags", Val.oset []), ("reviews",
            Val.oset []), ("cover", Val.undefined)]], [("id", [(Val.str "b1", [0])]), ("title",
            [(Val.str "X", [0])])]⟩), ("Tag", ⟨[], [("id", [])]⟩)]
          tail := []
          diffs := [[("_type", Val.undefined, Val.str "Author"), ("id", Val.undefined, Val.str "b1"),
            ("name", Val.undefined, Val.str "Ada")], [("_type", Val.undefined, Val.str "Book"),
            ("id", Val.undefined, Val.str "b1"), ("title", Val.undefined, Val.str "X"), ("tags",
            Val.undefined, Val.oset [])]]
          deltas := []
          tailptr := 0 } :=
  rfl

/-- The pass of `reId` over `head` on the store `twinStore`. -/
theorem reIdBranch_head_twinStore :
    librarySchema.reIdBranch (Val.str "Book") (Val.str "b1") (Val.str "srv") .head twinStore
      = ({ head := [("Author", ⟨[some [("_type", Val.str "Author"), ("id", Val.str "b1"), ("name",
             Val.str "Ada"), ("books", Val.oset [])]], [("id", [(Val.str "b1", [0])])]⟩), ("Book",
             ⟨[some [("_type", Val.str "Book"), ("id", Val.str "srv"), ("title", Val.str "X"),
             ("note", Val.undefined), ("author", Val.undefined), ("tags", Val.oset []), ("reviews",
             Val.oset []), ("cover", Val.undefined)]], [("id", [(Val.str "b1", [0]), (Val.str "srv",
             [0])]), ("title", [(Val.str "X", [0])])]⟩), ("Tag", ⟨[], [("id", [])]⟩)]
           tail := []
           diffs := [[("_type", Val.undefined, Val.str "Author"), ("id", Val.undefined, Val.str "srv"),
             ("name", Val.undefined, Val.str "Ada")], [("_type", Val.undefined, Val.str "Book"),
             ("id", Val.undefined, Val.str "srv"), ("title", Val.undefined, Val.str "X"), ("tags",
             Val.undefined, Val.oset [])]]
           deltas := []
           tailptr := 0 },
         .ok ()) := by
  rw [twinStore_eq]
  rfl

/-- The pass of `reId` over `tail` on the store `twinStore`, after the pass over
`head`. -/
theorem reIdBranch_tail_twinStore :
    librarySchema.reIdBranch (Val.str "Book") (Val.str "b1") (Val.str "srv") .tail
        { head := [("Author", ⟨[some [("_type", Val.str "Author"), ("id", Val.str "b1"), ("name",
            Val.str "Ada"), ("books", Val.oset [])]], [("id", [(Val.str "b1", [0])])]⟩), ("Book",
            ⟨[some [("_type", Val.str "Book"), ("id", Val.str "srv"), ("title", Val.str "X"),
            ("note", Val.undefined), ("author", Val.undefined), ("tags", Val.oset []), ("reviews",
            Val.oset []), ("cover", Val.undefined)]], [("id", [(Val.str "b1", [0]), (Val.str "srv",
            [0])]), ("title", [(Val.str "X", [0])])]⟩), ("Tag", ⟨[], [("id", [])]⟩)]
          tail := []
          diffs := [[("_type", Val.undefined, Val.str "Author"), ("id", Val.undefined, Val.str "srv"),
            ("name", Val.undefined, Val.str "Ada")], [("_type", Val.undefined, Val.str "Book"),
            ("id", Val.undefined, Val.str "srv"), ("title", Val.undefined, Val.str "X"), ("tags",
            Val.undefined, Val.oset [])]]
          deltas := []
          tailptr := 0 }
      = ({ head := [("Author", ⟨[some [("_type", Val.str "Author"), ("id", Val.str "b1"), ("name",
             Val.str "Ada"), ("books", Val.oset [])]], [("id", [(Val.str "b1", [0])])]⟩), ("Book",
             ⟨[some [("_type", Val.str "Book"), ("id", Val.str "srv"), ("title", Val.str "X"),
             ("note", Val.undefined), ("author", Val.undefined), ("tags", Val.oset []), ("reviews",
             Val.oset []), ("cover", Val.undefined)]], [("id", [(Val.str "b1", [0]), (Val.str "srv",
             [0])]), ("title", [(Val.str "X", [0])])]⟩), ("Tag", ⟨[], [("id", [])]⟩)]
           tail := [("Book", ⟨[some [("_type", Val.str "Book"), ("id", Val.str "srv"), ("title",
             Val.str "X"), ("note", Val.undefined), ("author", Val.undefined), ("tags",
             Val.oset []), ("reviews", Val.oset []), ("cover", Val.undefined)]], [("id",
             [(Val.str "b1", [0]), (Val.str "srv", [0])]), ("title", [(Val.str "X", [0])])]⟩)]
           diffs := [[("_type", Val.undefined, Val.str "Author"), ("id", Val.undefined, Val.str "srv"),
             ("name", Val.undefined, Val.str "Ada")], [("_type", Val.undefined, Val.str "Book"),
             ("id", Val.undefined, Val.str "srv"), ("title", Val.undefined, Val.str "X"), ("tags",
             Val.undefined, Val.oset [])]]
           deltas := []
           tailptr := 0 },
         .ok ()) :=
  rfl

/-- The call `reId('Book', 'b1', 'srv')` on the store `twinStore`. -/
theorem reId_twinStore :
    librarySchema.reId (Val.str "Book") (Val.str "b1") (Val.str "srv") none twinStore
      = ({ head := [("Author", ⟨[some [("_type", Val.str "Author"), ("id", Val.str "b1"), ("name",
             Val.str "Ada"), ("books", Val.oset [])]], [("id", [(Val.str "b1", [0])])]⟩), ("Book",
             ⟨[some [("_type", Val.str "Book"), ("id", Val.str "srv"), ("title", Val.str "X"),
             ("note", Val.undefined), ("author", Val.undefined), ("tags", Val.oset []), ("reviews",
             Val.oset []), ("cover", Val.undefined)]], [("id", [(Val.str "b1", [0]), (Val.str "srv",
             [0])]), ("title", [(Val.str "X", [0])])]⟩), ("Tag", ⟨[], [("id", [])]⟩)]
           tail := [("Book", ⟨[some [("_type", Val.str "Book"), ("id", Val.str "srv"), ("title",
             Val.str "X"), ("note", Val.undefined), ("author", Val.undefined), ("tags",
             Val.oset []), ("reviews", Val.oset []), ("cover", Val.undefined)]], [("id",
             [(Val.str "b1", [0]), (Val.str "srv", [0])]), ("title", [(Val.str "X", [0])])]⟩)]
           diffs := [[("_type", Val.undefined, Val.str "Author"), ("id", Val.undefined, Val.str "srv"),
             ("name", Val.undefined, Val.str "Ada")], [("_type", Val.undefined, Val.str "Book"),
             ("id", Val.undefined, Val.str "srv"), ("title", Val.undefined, Val.str "X"), ("tags",
             Val.undefined, Val.oset [])]]
           deltas := []
           tailptr := 0 },
         .ok ()) := by
  unfold Schema.reId
  simp only [Run.forEach]
  rw [Run.bind_ok _ _ _ _ _ reIdBranch_head_twinStore,
    Run.bind_ok _ _ _ _ _ reIdBranch_tail_twinStore]
  rfl

/-- C35, failing run: the store holds the book `b1` and an author whose `id` is `b1` as
well, both created, so that the log holds the create diff of the author, a diff of a
record of type `Author` that has no relationship entry at all.  The call
`reId("Book", "b1", "srv")` returns and replaces the `id` entry of that diff: the loop
over the diffs compares the `id` alone, not the type. -/
theorem reId_rewrites_diff_of_other_type :
    twinStore.diffs
        = [twinAuthorDiff,
           [("_type", (Val.undefined, Val.str "Book")), ("id", (Val.undefined, Val.str "b1")),
            ("title", (Val.undefined, Val.str "X")), ("tags", (Val.undefined, Val.oset []))]] ∧
      getDiffId twinAuthorDiff = some (Val.str "Author", Val.str "b1") ∧
      (∀ f, f ∈ authorModel.relationships.keys → Obj.lookup f twinAuthorDiff = none) ∧
      (librarySchema.reId (Val.str "Book") (Val.str "b1") (Val.str "srv") none twinStore).2
        = .ok () ∧
      (librarySchema.reId (Val.str "Book") (Val.str "b1") (Val.str "srv") none
          twinStore).1.diffs
        = [[("_type", (Val.undefined, Val.str "Author")),
            ("id", (Val.undefined, Val.str "srv")),
            ("name", (Val.undefined, Val.str "Ada"))],
           [("_type", (Val.undefined, Val.str "Book")), ("id", (Val.undefined, Val.str "srv")),
            ("title", (Val.undefined, Val.str "X")), ("tags", (Val.undefined, Val.oset []))]] ∧
      [("_type", (Val.undefined, Val.str "Author")), ("id", (Val.undefined, Val.str "srv")),
          ("name", (Val.undefined, Val.str "Ada"))] ≠ twinAuthorDiff := by
  refine ⟨?_, rfl, by decide, by rw [reId_twinStore], by rw [reId_twinStore], by decide⟩
  rw [twinStore_eq]
  rfl

/-! ## Filters on a table with a removed row -/

theorem removedBookTable_reachable : Table.Reachable plainHooks bookModel removedBookTable := by
  have h1 : Table.Reachable plainHooks bookModel oneBookTable :=
    Table.Reachable.set _ _ bookX Table.Reachable.reset oneBookTable_eq
  have h := removedBookTable_eq
  cases h2 : oneBookTable.set bookW with
  | error e =>
      rw [h2] at h
      cases h
  | ok t2 =>
      rw [h2] at h
      exact Table.Reachable.remove t2 _ _ (Table.Reachable.set _ _ _ h1 h2) h

theorem toLower_contains : "contains".toLower = "contains" := by
  rw [String.toLower, String.map_eq]
  decide

theorem toLower_isnull : "isnull".toLower = "isnull" := by
  rw [String.toLower, String.map_eq]
  decide

theorem toLower_in : "in".toLower = "in" := by
  rw [String.toLower, String.map_eq]
  decide

theorem removedBookTable_contains :
    removedBookTable.filter (.fields [("title__contains", Val.str "W")])
      = .error (.typeError "get of null") := by
  have hre : Table.filterRegex "title__contains" = some ("title", "contains") := rfl
  unfold Table.filter Table._filterIndices
  simp only [Query.falsy, Query.toFields, List.foldlM_cons, List.foldlM_nil, Table.fieldIndices,
    hre, toLower_contains]
  all_goals rfl

theorem removedBookTable_isnull :
    removedBookTable.filter (.fields [("note__isnull", Val.str "true")])
      = .error (.typeError "get of null") := by
  have hre : Table.filterRegex "note__isnull" = some ("note", "isnull") := rfl
  unfold Table.filter Table._filterIndices
  simp only [Query.falsy, Query.toFields, List.foldlM_cons, List.foldlM_nil, Table.fieldIndices,
    hre, toLower_isnull]
  all_goals rfl

theorem removedBookTable_in :
    removedBookTable.filter (.fields [("tags__in", Val.ident tag1)])
      = .error (.typeError "get of null") := by
  have hre : Table.filterRegex "tags__in" = some ("tags", "in") := rfl
  unfold Table.filter Table._filterIndices
  simp only [Query.falsy, Query.toFields, List.foldlM_cons, List.foldlM_nil, Table.fieldIndices,
    hre, toLower_in]
  all_goals rfl

/-- C36, failing runs: the table reached by `set(bookX)`, `set(bookW)` and `remove("b1")`
holds a removed row and the book `bookW`.  `filter()` with no query returns the rows as
they are, the removed row (`null`) among them; a filter with a compound predicate
(`title__contains`, `note__isnull`, `tags__in`) throws, as the scan reads a field of the
removed row. -/
theorem filter_meets_removed_row :
    Table.Reachable plainHooks bookModel removedBookTable ∧
      removedBookTable.data.objects = [none, some bookW] ∧
      removedBookTable.filter (.value Val.undefined) = .ok [none, some bookW] ∧
      removedBookTable.filter (.fields [("title__contains", Val.str "W")])
        = .error (.typeError "get of null") ∧
      removedBookTable.filter (.fields [("note__isnull", Val.str "true")])
        = .error (.typeError "get of null") ∧
      removedBookTable.filter (.fields [("tags__in", Val.ident tag1)])
        = .error (.typeError "get of null") :=
  ⟨removedBookTable_reachable, rfl, rfl, removedBookTable_contains, removedBookTable_isnull,
    removedBookTable_in⟩

/-! ## The identifier pair of the diffs of `makeDeltas` -/

/-- C37: the auxiliary diff of `splitDelta` carries no identifier.  `splitDelta` makes the
auxiliary diff from the empty object and gives it relationship entries only: for the
create diff of the node `n1` with the key of `n2` in `optional` it is the empty object.
The loop of `makeDeltas`, run on a dependency table in which two new nodes name each other
through the optional foreign key `next`, selects `n1` while `n2` is pending, emits the
main diff, keeps the auxiliary diff as the diff of the entry and emits it on a later
selection: the last diff of the sequence has no `_type` and no `id` entry.  The table is
given as such: on the store that holds the two nodes `_makeDependencyTable`, which reads
both tables from `head`, builds the empty table, and `makeDeltas` itself returns no
sequence there, it throws, as on every store. -/
theorem auxiliary_diff_without_identifier :
    nodeSchema.splitDelta
        [("_type", (Val.undefined, Val.str "Node")), ("id", (Val.undefined, Val.str "n1")),
         ("next", (Val.undefined, Val.ident node2))] ["Node|n2"]
      = .ok ([("_type", (Val.undefined, Val.str "Node")), ("id", (Val.undefined, Val.str "n1")),
              ("next", (Val.undefined, Val.ident node2))], []) ∧
    ringTable.WellKeyed ∧
    nodeSchema.selectLoop ringTable.turns { tbl := ringTable, deltas := [] }
      = .ok (some
          { tbl := []
            deltas :=
              [("Node|n1",
                [("_type", (Val.undefined, Val.str "Node")),
                 ("id", (Val.undefined, Val.str "n1")),
                 ("next", (Val.undefined, Val.ident node2))]),
               ("Node|n2",
                [("_type", (Val.undefined, Val.str "Node")),
                 ("id", (Val.undefined, Val.str "n2")),
                 ("next", (Val.undefined, Val.ident node1))]),
               ("Node|n1", [])] }) ∧
    Obj.lookup "_type" ([] : Diff) = none ∧ Obj.lookup "id" ([] : Diff) = none ∧
    getDiffId [] = none ∧
    nodeSchema._makeDependencyTable ringStore = .ok [] ∧
    nodeSchema.makeDeltas ringTable.turns ringStore
      = .error (.typeError "this.makeDependencyTable is not a function") := by
  refine ⟨rfl, ?_, rfl, rfl, rfl, rfl, rfl, rfl⟩
  unfold DepTable.WellKeyed
  decide

/-! ## Loops of `removeRelationship` and `addRelationship` -/

theorem Table.positionsOf_congr (t t1 : Table) (hh : t1.hooks = t.hooks)
    (hm : t1.model = t.model) (hi : t1.data.indices = t.data.indices) (ids : List ID)
    (p : Nat) : t1.positionsOf ids p ↔ t.positionsOf ids p := by
  unfold Table.positionsOf
  constructor
  · rintro ⟨y, hy, h⟩
    exact ⟨y, hy, by rw [← Table.getIndex_congr t t1 hh hm hi]; exact h⟩
  · rintro ⟨y, hy, h⟩
    exact ⟨y, hy, by rw [Table.getIndex_congr t t1 hh hm hi]; exact h⟩

/-- A loop that marks, for each identifier of a list, the row the `id` index lists for it:
the field `g` of the rows reached holds (`val = true`) or does not hold (`val = false`) the
identifier `x`, and nothing else changes. -/
theorem Table.foldlM_mark (op : Table → Val → Except Err Table) (g : String) (x : ID)
    (val : Bool)
    (hop : ∀ t id t1, op t id = .ok t1 →
      t1.hooks = t.hooks ∧ t1.model = t.model ∧ t1.data.indices = t.data.indices ∧
      ∃ idx, t._getIndex id = .ok idx ∧ (t.data.row idx).isSome = true ∧
        (∀ p, (t1.data.row p).isSome = (t.data.row p).isSome) ∧
        (∀ p g1 y, t1.rowHas p g1 y
          = if p = idx ∧ g1 = g ∧ y = x then val else t.rowHas p g1 y))
    (ids : List ID) (t t1 : Table)
    (h : ids.foldlM (fun (t : Table) (relId : ID) => op t (Val.prim relId.id)) t = .ok t1) :
    t1.hooks = t.hooks ∧ t1.model = t.model ∧ t1.data.indices = t.data.indices ∧
    (∀ p, (t1.data.row p).isSome = (t.data.row p).isSome) ∧
    (∀ y, y ∈ ids → ∃ p, t._getIndex (Val.prim y.id) = .ok p ∧ (t.data.row p).isSome = true) ∧
    (∀ p g1 y, (g1 ≠ g ∨ y ≠ x) → t1.rowHas p g1 y = t.rowHas p g1 y) ∧
    (∀ p, t.positionsOf ids p → t1.rowHas p g x = val) ∧
    (∀ p, ¬ t.positionsOf ids p → t1.rowHas p g x = t.rowHas p g x) := by
  induction ids generalizing t with
  | nil =>
      simp only [List.foldlM_nil, pure, Except.pure, Except.ok.injEq] at h
      subst h
      refine ⟨rfl, rfl, rfl, fun _ => rfl, ?_, fun _ _ _ _ => rfl, ?_, fun _ _ => rfl⟩
      · intro y hy
        cases hy
      · rintro p ⟨y, hy, _⟩
        cases hy
  | cons y rest ih =>
      rw [List.foldlM_cons] at h
      cases hx : op t (Val.prim y.id) with
      | error e =>
          rw [hx] at h
          simp [bind, Except.bind] at h
      | ok ta =>
          rw [hx] at h
          simp only [bind, Except.bind] at h
          obtain ⟨hh, hm, hi, idx, hidx, hlive, hsome, hrow⟩ := hop t _ ta hx
          obtain ⟨ihh, ihm, ihi, ihsome, ihids, ihframe, ihpos, ihneg⟩ := ih ta h
          have hpos : ∀ p, ta.positionsOf rest p ↔ t.positionsOf rest p :=
            Table.positionsOf_congr t ta hh hm hi rest
          refine ⟨ihh.trans hh, ihm.trans hm, ihi.trans hi, ?_, ?_, ?_, ?_, ?_⟩
          · intro p
            rw [ihsome p, hsome p]
          · intro y1 hy1
            rcases List.mem_cons.1 hy1 with hy1 | hy1
            · subst hy1
              exact ⟨idx, hidx, hlive⟩
            · obtain ⟨p, hp, hpl⟩ := ihids y1 hy1
              refine ⟨p, ?_, ?_⟩
              · rw [← Table.getIndex_congr t ta hh hm hi]
                exact hp
              · rw [← hsome p]
                exact hpl
          · intro p g1 y1 hne
            rw [ihframe p g1 y1 hne, hrow p g1 y1]
            have : ¬ (p = idx ∧ g1 = g ∧ y1 = x) := by
              rintro ⟨_, h1, h2⟩
              rcases hne with hne | hne
              · exact hne h1
              · exact hne h2
            rw [if_neg this]
          · intro p hp
            by_cases hr : ta.positionsOf rest p
            · exact ihpos p hr
            · rw [ihneg p hr, hrow p g x]
              obtain ⟨y1, hy1, hp1⟩ := hp
              rcases List.mem_cons.1 hy1 with hy1 | hy1
              · subst hy1
                rw [hidx] at hp1
                cases hp1
                simp
              · exact absurd ((hpos p).2 ⟨y1, hy1, hp1⟩) hr
          · intro p hp
            have hr : ¬ ta.positionsOf rest p := by
              intro hr
              obtain ⟨y1, hy1, hp1⟩ := (hpos p).1 hr
              exact hp ⟨y1, List.mem_cons_of_mem _ hy1, hp1⟩
            have hne : ¬ p = idx := by
              intro he
              subst he
              exact hp ⟨y, List.mem_cons_self _ _, hidx⟩
            rw [ihneg p hr, hrow p g x]
            simp [hne]

theorem Table.memberOf_eq (t : Table) (id : Val) (g : String) (x : ID) (p : Nat)
    (hidx : t._getIndex id = .ok p) (hlive : (t.data.row p).isSome = true) :
    t.memberOf id g x = .ok (t.rowHas p g x) := by
  unfold Table.memberOf Table.rowHas
  rw [hidx]
  simp only [Except.bind]
  cases hr : t.data.row p with
  | none => rw [hr] at hlive; cases hlive
  | some r => rfl

/-- The body of the loop of `_applyDiffRelationships` for a field, when it returns: only
the field `relName` of rows of the paired table changes, and only as to the identifier of
the record of the diff. -/
theorem Schema.relationshipOps_frame (relInfo : RelInfo) (relName : String) (x : ID)
    (e : Val × Val) (reverse : Bool) (t t1 : Table)
    (h : Schema.relationshipOps relInfo relName x e reverse t = .ok t1) :
    t1.hooks = t.hooks ∧ t1.model = t.model ∧ t1.data.indices = t.data.indices ∧
    (∀ p, (t1.data.row p).isSome = (t.data.row p).isSome) ∧
    (∀ p g1 y, (g1 ≠ relName ∨ y ≠ x) → t1.rowHas p g1 y = t.rowHas p g1 y) := by
  have hrem : ∀ (ta tb : Table) (id : Val), ta.removeRelationship id relName x = .ok tb →
      tb.hooks = ta.hooks ∧ tb.model = ta.model ∧ tb.data.indices = ta.data.indices ∧
      (∀ p, (tb.data.row p).isSome = (ta.data.row p).isSome) ∧
      (∀ p g1 y, (g1 ≠ relName ∨ y ≠ x) → tb.rowHas p g1 y = ta.rowHas p g1 y) := by
    intro ta tb id hr
    obtain ⟨a1, a2, a3, idx, _, _, a4, a5⟩ := Table.removeRelationship_spec ta tb id relName x hr
    refine ⟨a1, a2, a3, a4, ?_⟩
    intro p g1 y hne
    rw [a5 p g1 y]
    have : ¬ (p = idx ∧ g1 = relName ∧ y = x) := by
      rintro ⟨_, h1, h2⟩
      rcases hne with hne | hne
      · exact hne h1
      · exact hne h2
    rw [if_neg this]
  have hadd : ∀ (ta tb : Table) (id : Val), ta.addRelationship id relName x = .ok tb →
      tb.hooks = ta.hooks ∧ tb.model = ta.model ∧ tb.data.indices = ta.data.indices ∧
      (∀ p, (tb.data.row p).isSome = (ta.data.row p).isSome) ∧
      (∀ p g1 y, (g1 ≠ relName ∨ y ≠ x) → tb.rowHas p g1 y = ta.rowHas p g1 y) := by
    intro ta tb id hr
    obtain ⟨a1, a2, a3, idx, _, _, a4, a5⟩ := Table.addRelationship_spec ta tb id relName x hr
    refine ⟨a1, a2, a3, a4, ?_⟩
    intro p g1 y hne
    rw [a5 p g1 y]
    have : ¬ (p = idx ∧ g1 = relName ∧ y = x) := by
      rintro ⟨_, h1, h2⟩
      rcases hne with hne | hne
      · exact hne h1
      · exact hne h2
    rw [if_neg this]
  have hrefl : t.hooks = t.hooks ∧ t.model = t.model ∧ t.data.indices = t.data.indices ∧
      (∀ p, (t.data.row p).isSome = (t.data.row p).isSome) ∧
      (∀ p g1 y, (g1 ≠ relName ∨ y ≠ x) → t.rowHas p g1 y = t.rowHas p g1 y) :=
    ⟨rfl, rfl, rfl, fun _ => rfl, fun _ _ _ _ => rfl⟩
  have htrans : ∀ (ta tb tc : Table),
      (tb.hooks = ta.hooks ∧ tb.model = ta.model ∧ tb.data.indices = ta.data.indices ∧
        (∀ p, (tb.data.row p).isSome = (ta.data.row p).isSome) ∧
        (∀ p g1 y, (g1 ≠ relName ∨ y ≠ x) → tb.rowHas p g1 y = ta.rowHas p g1 y)) →
      (tc.hooks = tb.hooks ∧ tc.model = tb.model ∧ tc.data.indices = tb.data.indices ∧
        (∀ p, (tc.data.row p).isSome = (tb.data.row p).isSome) ∧
        (∀ p g1 y, (g1 ≠ relName ∨ y ≠ x) → tc.rowHas p g1 y = tb.rowHas p g1 y)) →
      (tc.hooks = ta.hooks ∧ tc.model = ta.model ∧ tc.data.indices = ta.data.indices ∧
        (∀ p, (tc.data.row p).isSome = (ta.data.row p).isSome) ∧
        (∀ p g1 y, (g1 ≠ relName ∨ y ≠ x) → tc.rowHas p g1 y = ta.rowHas p g1 y)) := by
    intro ta tb tc ⟨a1, a2, a3, a4, a5⟩ ⟨b1, b2, b3, b4, b5⟩
    exact ⟨b1.trans a1, b2.trans a2, b3.trans a3, fun p => (b4 p).trans (a4 p),
      fun p g1 y hne => (b5 p g1 y hne).trans (a5 p g1 y hne)⟩
  have hfold : ∀ (op : Table → Val → Except Err Table),
      (∀ (ta tb : Table) (id : Val), op ta id = .ok tb →
        tb.hooks = ta.hooks ∧ tb.model = ta.model ∧ tb.data.indices = ta.data.indices ∧
        (∀ p, (tb.data.row p).isSome = (ta.data.row p).isSome) ∧
        (∀ p g1 y, (g1 ≠ relName ∨ y ≠ x) → tb.rowHas p g1 y = ta.rowHas p g1 y)) →
      ∀ (ids : List ID) (ta tb : Table),
        ids.foldlM (fun (t : Table) (relId : ID) => op t (Val.prim relId.id)) ta = .ok tb →
        tb.hooks = ta.hooks ∧ tb.model = ta.model ∧ tb.data.indices = ta.data.indices ∧
        (∀ p, (tb.data.row p).isSome = (ta.data.row p).isSome) ∧
        (∀ p g1 y, (g1 ≠ relName ∨ y ≠ x) → tb.rowHas p g1 y = ta.rowHas p g1 y) := by
    intro op hop ids
    induction ids with
    | nil =>
        intro ta tb hf
        simp only [List.foldlM_nil, pure, Except.pure, Except.ok.injEq] at hf
        subst hf
        exact ⟨rfl, rfl, rfl, fun _ => rfl, fun _ _ _ _ => rfl⟩
    | cons y rest ih =>
        intro ta tb hf
        rw [List.foldlM_cons] at hf
        cases hx : op ta (Val.prim y.id) with
        | error e =>
            rw [hx] at hf
            simp [bind, Except.bind] at hf
        | ok tm =>
            rw [hx] at hf
            simp only [bind, Except.bind] at hf
            exact htrans ta tm tb (hop ta tm _ hx) (ih tm tb hf)
  unfold Schema.relationshipOps at h
  simp only at h
  generalize (if reverse = true then e.2 else e.1) = vi at h
  generalize (if reverse = true then e.1 else e.2) = vj at h
  by_cases hmany : relInfo.many = true
  · rw [if_pos hmany] at h
    have h1 : ∃ ta, ((if vi ≠ Val.undefined then
        vi.members.foldlM (fun (t : Table) relId =>
          t.removeRelationship (.prim relId.id) relName x) t
        else .ok t) : Except Err Table) = .ok ta ∧
        ((if vj ≠ Val.undefined then
          vj.members.foldlM (fun (t : Table) relId =>
            t.addRelationship (.prim relId.id) relName x) ta
          else .ok ta) : Except Err Table) = .ok t1 := by
      cases hc : ((if vi ≠ Val.undefined then
          vi.members.foldlM (fun (t : Table) relId =>
            t.removeRelationship (.prim relId.id) relName x) t
          else .ok t) : Except Err Table) with
      | error err =>
          rw [hc] at h
          cases h
      | ok ta =>
          rw [hc] at h
          exact ⟨ta, rfl, h⟩
    obtain ⟨ta, h1, h2⟩ := h1
    have s1 : ta.hooks = t.hooks ∧ ta.model = t.model ∧ ta.data.indices = t.data.indices ∧
        (∀ p, (ta.data.row p).isSome = (t.data.row p).isSome) ∧
        (∀ p g1 y, (g1 ≠ relName ∨ y ≠ x) → ta.rowHas p g1 y = t.rowHas p g1 y) := by
      by_cases hvi : vi ≠ Val.undefined
      · rw [if_pos hvi] at h1
        exact hfold (fun t id => t.removeRelationship id relName x) hrem _ t ta h1
      · rw [if_neg hvi] at h1
        cases h1
        exact hrefl
    have s2 : t1.hooks = ta.hooks ∧ t1.model = ta.model ∧
        t1.data.indices = ta.data.indices ∧
        (∀ p, (t1.data.row p).isSome = (ta.data.row p).isSome) ∧
        (∀ p g1 y, (g1 ≠ relName ∨ y ≠ x) → t1.rowHas p g1 y = ta.rowHas p g1 y) := by
      by_cases hvj : vj ≠ Val.undefined
      · rw [if_pos hvj] at h2
        exact hfold (fun t id => t.addRelationship id relName x) hadd _ ta t1 h2
      · rw [if_neg hvj] at h2
        cases h2
        exact ⟨rfl, rfl, rfl, fun _ => rfl, fun _ _ _ _ => rfl⟩
    exact htrans t ta t1 s1 s2
  · rw [if_neg hmany] at h
    by_cases hl : looseEq vi vj = false
    · rw [if_pos hl] at h
      have h1 : ∃ ta, ((if vi.truthy = true then
          t.removeRelationship (vi.prop "id") relName x
          else .ok t) : Except Err Table) = .ok ta ∧
          ((if vj.truthy = true then ta.addRelationship (vj.prop "id") relName x
            else .ok ta) : Except Err Table) = .ok t1 := by
        cases hc : ((if vi.truthy = true then
            t.removeRelationship (vi.prop "id") relName x
            else .ok t) : Except Err Table) with
        | error err =>
            rw [hc] at h
            cases h
        | ok ta =>
            rw [hc] at h
            exact ⟨ta, rfl, h⟩
      obtain ⟨ta, h1, h2⟩ := h1
      have s1 : ta.hooks = t.hooks ∧ ta.model = t.model ∧
          ta.data.indices = t.data.indices ∧
          (∀ p, (ta.data.row p).isSome = (t.data.row p).isSome) ∧
          (∀ p g1 y, (g1 ≠ relName ∨ y ≠ x) → ta.rowHas p g1 y = t.rowHas p g1 y) := by
        by_cases hvi : vi.truthy = true
        · rw [if_pos hvi] at h1
          exact hrem t ta _ h1
        · rw [if_neg hvi] at h1
          cases h1
          exact hrefl
      have s2 : t1.hooks = ta.hooks ∧ t1.model = ta.model ∧
          t1.data.indices = ta.data.indices ∧
          (∀ p, (t1.data.row p).isSome = (ta.data.row p).isSome) ∧
          (∀ p g1 y, (g1 ≠ relName ∨ y ≠ x) → t1.rowHas p g1 y = ta.rowHas p g1 y) := by
        by_cases hvj : vj.truthy = true
        · rw [if_pos hvj] at h2
          exact hadd ta t1 _ h2
        · rw [if_neg hvj] at h2
          cases h2
          exact ⟨rfl, rfl, rfl, fun _ => rfl, fun _ _ _ _ => rfl⟩
      exact htrans t ta t1 s1 s2
    · rw [if_neg hl] at h
      cases h
      exact hrefl

/-! ## The paired table after `_applyDiffRelationships` -/

theorem Table.SameShape.refl (t : Table) : t.SameShape t := ⟨rfl, rfl, rfl, fun _ => rfl⟩

theorem Table.SameShape.trans (t ta tb : Table) (h1 : t.SameShape ta) (h2 : ta.SameShape tb) :
    t.SameShape tb :=
  ⟨h2.1.trans h1.1, h2.2.1.trans h1.2.1, h2.2.2.1.trans h1.2.2.1,
    fun p => (h2.2.2.2 p).trans (h1.2.2.2 p)⟩

theorem Table.SameShape.getIndex (t t1 : Table) (h : t.SameShape t1) (id : Val) :
    t1._getIndex id = t._getIndex id :=
  Table.getIndex_congr t t1 h.1 h.2.1 h.2.2.1 id

theorem Table.SameShape.positionsOf (t t1 : Table) (h : t.SameShape t1) (ids : List ID)
    (p : Nat) : t1.positionsOf ids p ↔ t.positionsOf ids p :=
  Table.positionsOf_congr t t1 h.1 h.2.1 h.2.2.1 ids p

/-- The body of the loop of `_applyDiffRelationships` for a many-valued field, when it
returns: the rows the `id` index lists for the identifiers of the added set hold the
identifier of the record in the field `relName`, the rows listed for the removed set
alone do not, and the other rows hold it as before. -/
theorem Schema.relationshipOps_many (relInfo : RelInfo) (relName : String) (x : ID)
    (e : Val × Val) (reverse : Bool) (t t1 : Table) (hmany : relInfo.many = true)
    (h : Schema.relationshipOps relInfo relName x e reverse t = .ok t1) :
    t.SameShape t1 ∧
    (∀ y, y ∈ (if reverse = true then e.2 else e.1).members ∨
        y ∈ (if reverse = true then e.1 else e.2).members →
      ∃ p, t._getIndex (Val.prim y.id) = .ok p ∧ (t.data.row p).isSome = true) ∧
    (∀ p, t.positionsOf (if reverse = true then e.1 else e.2).members p →
      t1.rowHas p relName x = true) ∧
    (∀ p, ¬ t.positionsOf (if reverse = true then e.1 else e.2).members p →
      t.positionsOf (if reverse = true then e.2 else e.1).members p →
      t1.rowHas p relName x = false) ∧
    (∀ p, ¬ t.positionsOf (if reverse = true then e.1 else e.2).members p →
      ¬ t.positionsOf (if reverse = true then e.2 else e.1).members p →
      t1.rowHas p relName x = t.rowHas p relName x) := by
  unfold Schema.relationshipOps at h
  simp only at h
  generalize (if reverse = true then e.2 else e.1) = vi at h ⊢
  generalize (if reverse = true then e.1 else e.2) = vj at h ⊢
  rw [if_pos hmany] at h
  have hguard : ∀ (v : Val) (F : Table → ID → Except Err Table) (ta : Table),
      ((if v ≠ Val.undefined then v.members.foldlM F ta else .ok ta) : Except Err Table)
        = v.members.foldlM F ta := by
    intro v F ta
    by_cases hv : v ≠ Val.undefined
    · rw [if_pos hv]
    · rw [if_neg hv]
      have hv1 : v = Val.undefined := by
        by_contra hc
        exact hv hc
      subst hv1
      rfl
  simp only [hguard] at h
  cases hc : vi.members.foldlM (fun (t : Table) relId =>
      t.removeRelationship (.prim relId.id) relName x) t with
  | error err =>
      rw [hc] at h
      cases h
  | ok ta =>
      rw [hc] at h
      simp only [Except.bind] at h
      obtain ⟨r1, r2, r3, r4, r5, _, r7, r8⟩ :=
        Table.foldlM_mark (fun t id => t.removeRelationship id relName x) relName x false
          (fun t id t1 hh => Table.removeRelationship_spec t t1 id relName x hh)
          vi.members t ta hc
      obtain ⟨a1, a2, a3, a4, a5, _, a7, a8⟩ :=
        Table.foldlM_mark (fun t id => t.addRelationship id relName x) relName x true
          (fun t id t1 hh => Table.addRelationship_spec t t1 id relName x hh)
          vj.members ta t1 h
      have hs1 : t.SameShape ta := ⟨r1, r2, r3, r4⟩
      have hs2 : ta.SameShape t1 := ⟨a1, a2, a3, a4⟩
      refine ⟨Table.SameShape.trans t ta t1 hs1 hs2, ?_, ?_, ?_, ?_⟩
      · rintro y (hy | hy)
        · exact r5 y hy
        · obtain ⟨p, hp, hl⟩ := a5 y hy
          refine ⟨p, ?_, ?_⟩
          · rw [← Table.SameShape.getIndex t ta hs1]
            exact hp
          · rw [← r4 p]
            exact hl
      · intro p hp
        exact a7 p ((Table.SameShape.positionsOf t ta hs1 _ p).2 hp)
      · intro p hna hr
        rw [a8 p (fun hh => hna ((Table.SameShape.positionsOf t ta hs1 _ p).1 hh))]
        exact r7 p hr
      · intro p hna hnr
        rw [a8 p (fun hh => hna ((Table.SameShape.positionsOf t ta hs1 _ p).1 hh))]
        exact r8 p hnr

/-! ### Tables of a branch -/

theorem Schema.tableOf_saveTable_same (S : Schema) (b : Branch) (ty : Val) (t t1 : Table)
    (h : S.tableOf b ty = .ok t) (hh : t1.hooks = t.hooks) (hm : t1.model = t.model) :
    S.tableOf (b.saveTable ty t1) ty = .ok t1 := by
  unfold Schema.tableOf at h ⊢
  unfold Branch.saveTable
  cases hn : ty.asString with
  | none =>
      rw [hn] at h
      cases h
  | some name =>
      rw [hn] at h
      cases hmo : S.getModel ty with
      | none =>
          rw [hmo] at h
          cases h
      | some m =>
          rw [hmo] at h
          simp only at h ⊢
          by_cases hid : "id" ∈ m.indices
          · rw [if_pos hid] at h ⊢
            simp only [Except.ok.injEq] at h
            have hth : t.hooks = S.hooks := by
              rw [← h]
              cases Obj.lookup name b <;> rfl
            have htm : t.model = m := by
              rw [← h]
              cases Obj.lookup name b <;> rfl
            rw [Obj.lookup_set, if_pos rfl]
            simp only [Except.ok.injEq]
            cases t1 with
            | mk h1 m1 d1 =>
                simp only at hh hm
                rw [hh, hth, hm, htm]
          · rw [if_neg hid] at h
            cases h

theorem Schema.tableOf_saveTable_other (S : Schema) (b : Branch) (ty ty1 : Val) (t1 : Table)
    (hne : ty.asString ≠ ty1.asString) :
    S.tableOf (b.saveTable ty1 t1) ty = S.tableOf b ty := by
  unfold Schema.tableOf Branch.saveTable
  cases hn1 : ty1.asString with
  | none => rfl
  | some name1 =>
      cases hn : ty.asString with
      | none => rfl
      | some name =>
          have hnn : ¬ name1 = name := by
            intro hc
            apply hne
            rw [hn, hn1, hc]
          cases hmo : S.getModel ty with
          | none => rfl
          | some m =>
              simp only [Obj.lookup_set]
              rw [if_neg hnn]

theorem Schema.onTable_ok (S : Schema) (br : BranchName) (ty : Val)
    (op : Table → Except Err Table) (s s1 : Store)
    (h : S.onTable br ty op s = (s1, .ok ())) :
    ∃ t t1, S.tableOf s.head ty = .ok t ∧ op t = .ok t1 ∧ s1 = s.saveTable br ty t1 := by
  unfold Schema.onTable Schema.getTable at h
  cases hg : S.tableOf s.head ty with
  | error e =>
      rw [hg] at h
      simp only [Except.bind] at h
      cases h
  | ok t =>
      rw [hg] at h
      simp only [Except.bind] at h
      cases ho : op t with
      | error e =>
          rw [ho] at h
          cases h
      | ok t1 =>
          rw [ho] at h
          simp only [Prod.mk.injEq] at h
          exact ⟨t, t1, rfl, ho, h.1.symm⟩

/-! ### The loop of `_applyDiffRelationships` -/

theorem Schema.applyDiffRelationships_eq (S : Schema) (d : Diff) (did : Val × Val) (x : ID)
    (m : Model) (reverse : Bool) (hdid : getDiffId d = some did)
    (hx : makeId did.1 did.2 = .ok x) (hm : S.getModel did.1 = some m) (br : BranchName)
    (s : Store) :
    S._applyDiffRelationships d reverse br s
      = Run.forEach (S.relationshipStep d m x reverse br) m.iterFields s := by
  unfold Schema._applyDiffRelationships
  rw [hdid]
  simp only [Run.bind, Run.ofExcept, hx, hm]
  all_goals rfl

/-- A turn of the loop of `_applyDiffRelationships` that returns leaves the store as it
is, or saves in the branch the paired table of the field, as `head` has it, after the
calls on it. -/
theorem Schema.relationshipStep_ok (S : Schema) (d : Diff) (m : Model) (x : ID)
    (reverse : Bool) (br : BranchName) (f1 : String) (b b1 : Store)
    (h : S.relationshipStep d m x reverse br f1 b = (b1, .ok ())) :
    b1 = b ∨
    ∃ e info rn t t1, Obj.lookup f1 d = some e ∧ Obj.lookup f1 m.relationships = some info ∧
      info.relatedName = some rn ∧ S.tableOf b.head (Val.str info.type) = .ok t ∧
      Schema.relationshipOps info rn x e reverse t = .ok t1 ∧
      b1 = b.saveTable br (Val.str info.type) t1 := by
  unfold Schema.relationshipStep at h
  cases he : Obj.lookup f1 d with
  | none =>
      rw [he] at h
      simp only [Run.ret, Prod.mk.injEq] at h
      exact Or.inl h.1.symm
  | some e =>
      cases hi : Obj.lookup f1 m.relationships with
      | none =>
          rw [he, hi] at h
          simp only [Run.ret, Prod.mk.injEq] at h
          exact Or.inl h.1.symm
      | some info =>
          rw [he, hi] at h
          simp only at h
          cases hr : info.relatedName with
          | none =>
              rw [hr] at h
              simp only [Run.ret, Prod.mk.injEq] at h
              exact Or.inl h.1.symm
          | some rn =>
              rw [hr] at h
              simp only at h
              by_cases hc : (info.reverse || decide (rn = "") || decide (info.type = "")) = true
              · rw [if_pos hc] at h
                simp only [Run.ret, Prod.mk.injEq] at h
                exact Or.inl h.1.symm
              · rw [if_neg hc] at h
                obtain ⟨t, t1, h1, h2, h3⟩ := S.onTable_ok _ _ _ b b1 h
                exact Or.inr ⟨e, info, rn, t, t1, rfl, rfl, hr, h1, h2, h3⟩

theorem Val.asString_str (s : String) : (Val.str s).asString = some s := rfl

/-- The loop of `_applyDiffRelationships` on `head` over distinct fields, as far as the
field `g` of the paired table of the many-valued field `f` goes: the table keeps its shape; when the
loop passes `f`, the identifier of the record is removed from and added to the field `g`
of the records of the two sets of the entry of `f`; otherwise nothing changes. -/
theorem Schema.forEach_relationshipStep (S : Schema) (d : Diff) (m : Model) (x : ID)
    (reverse : Bool) (f g : String) (info : RelInfo) (e : Val × Val)
    (he : Obj.lookup f d = some e) (hinfo : Obj.lookup f m.relationships = some info)
    (hmany : info.many = true) (hrev : info.reverse = false)
    (hg : info.relatedName = some g) (hgne : g ≠ "") (hty : info.type ≠ "")
    (fs : List String) (hnd : fs.Nodup)
    (hunique : ∀ f1 e1 info1, f1 ∈ fs → f1 ≠ f → Obj.lookup f1 d = some e1 →
      Obj.lookup f1 m.relationships = some info1 → info1.type = info.type →
      info1.relatedName ≠ some g)
    (b b1 : Store) (t : Table)
    (hrun : Run.forEach (S.relationshipStep d m x reverse .head) fs b = (b1, .ok ()))
    (ht : S.tableOf b.head (Val.str info.type) = .ok t) :
    ∃ t1, S.tableOf b1.head (Val.str info.type) = .ok t1 ∧ t.SameShape t1 ∧
      (f ∉ fs → ∀ p, t1.rowHas p g x = t.rowHas p g x) ∧
      (f ∈ fs → t.Marked t1 g x (if reverse = true then e.2 else e.1).members
        (if reverse = true then e.1 else e.2).members) := by
  induction fs generalizing b t with
  | nil =>
      simp only [Run.forEach, Run.ret, Prod.mk.injEq] at hrun
      rw [← hrun.1]
      exact ⟨t, ht, Table.SameShape.refl t, fun _ _ => rfl, fun hc => by cases hc⟩
  | cons f1 rest ih =>
      obtain ⟨hf1, hndr⟩ := List.nodup_cons.1 hnd
      unfold Run.forEach at hrun
      obtain ⟨ba, _, hstep, hrest⟩ := Run.bind_ok_inv _ _ b () (by rw [hrun])
      rw [hrest] at hrun
      have huniq : ∀ f2 e2 info2, f2 ∈ rest → f2 ≠ f → Obj.lookup f2 d = some e2 →
          Obj.lookup f2 m.relationships = some info2 → info2.type = info.type →
          info2.relatedName ≠ some g :=
        fun f2 e2 info2 h2 => hunique f2 e2 info2 (List.mem_cons_of_mem _ h2)
      by_cases hff : f1 = f
      · -- the turn of the field
        subst hff
        have hstep1 : S.onTable .head (Val.str info.type)
            (Schema.relationshipOps info g x e reverse) b = (ba, .ok ()) := by
          unfold Schema.relationshipStep at hstep
          rw [he, hinfo] at hstep
          simp only [hg, hrev, hgne, hty, Bool.false_or, decide_False, Bool.false_eq_true,
            if_false] at hstep
          exact hstep
        obtain ⟨t0, ta, h1, h2, h3⟩ := S.onTable_ok _ _ _ b ba hstep1
        rw [ht] at h1
        cases h1
        obtain ⟨hshape, hmarked⟩ := Schema.relationshipOps_many info g x e reverse t ta hmany h2
        have hta : S.tableOf ba.head (Val.str info.type) = .ok ta := by
          rw [h3]
          exact S.tableOf_saveTable_same b.head _ t ta ht hshape.1 hshape.2.1
        obtain ⟨t1, ht1, hs1, hnot, _⟩ := ih hndr huniq ba ta hrun hta
        refine ⟨t1, ht1, Table.SameShape.trans t ta t1 hshape hs1, ?_, ?_⟩
        · intro hc
          exact absurd (List.mem_cons_self _ _) hc
        · intro _
          have hsame := hnot hf1
          refine ⟨hmarked.1, ?_, ?_, ?_⟩
          · intro p hp
            rw [hsame p]
            exact hmarked.2.1 p hp
          · intro p hp hq
            rw [hsame p]
            exact hmarked.2.2.1 p hp hq
          · intro p hp hq
            rw [hsame p]
            exact hmarked.2.2.2 p hp hq
      · -- the turn of another field
        have hta : ∃ ta, S.tableOf ba.head (Val.str info.type) = .ok ta ∧ t.SameShape ta ∧
            ∀ p, ta.rowHas p g x = t.rowHas p g x := by
          rcases S.relationshipStep_ok d m x reverse .head f1 b ba hstep with hb | hb
          · rw [hb]
            exact ⟨t, ht, Table.SameShape.refl t, fun _ => rfl⟩
          · obtain ⟨e1, info1, rn, t0, ta, k1, k2, k3, k4, k5, k6⟩ := hb
            by_cases hT : info1.type = info.type
            · rw [hT] at k4 k6
              rw [ht] at k4
              cases k4
              obtain ⟨a1, a2, a3, a4, a5⟩ :=
                Schema.relationshipOps_frame info1 rn x e1 reverse t ta k5
              have hrn : rn ≠ g := by
                intro hc
                apply hunique f1 e1 info1 (List.mem_cons_self _ _) hff k1 k2 hT
                rw [k3, hc]
              refine ⟨ta, ?_, ⟨a1, a2, a3, a4⟩, fun p => a5 p g x (Or.inl hrn.symm)⟩
              rw [k6]
              exact S.tableOf_saveTable_same b.head _ t ta ht a1 a2
            · refine ⟨t, ?_, Table.SameShape.refl t, fun _ => rfl⟩
              rw [k6]
              show S.tableOf (b.head.saveTable (Val.str info1.type) ta) (Val.str info.type)
                = .ok t
              rw [S.tableOf_saveTable_other b.head _ _ ta ?_]
              · exact ht
              · rw [Val.asString_str, Val.asString_str]
                intro hc
                exact hT (Option.some.inj hc).symm
        obtain ⟨ta, hta1, hsa, hrows⟩ := hta
        obtain ⟨t1, ht1, hs1, hnot, hin⟩ := ih hndr huniq ba ta hrun hta1
        refine ⟨t1, ht1, Table.SameShape.trans t ta t1 hsa hs1, ?_, ?_⟩
        · intro hc p
          rw [hnot (fun hh => hc (List.mem_cons_of_mem _ hh)) p]
          exact hrows p
        · intro hc
          have hfr : f ∈ rest := by
            rcases List.mem_cons.1 hc with hh | hh
            · exact absurd hh.symm hff
            · exact hh
          obtain ⟨m1, m2, m3, m4⟩ := hin hfr
          have hpos : ∀ ids p, ta.positionsOf ids p ↔ t.positionsOf ids p :=
            fun ids p => Table.SameShape.positionsOf t ta hsa ids p
          refine ⟨?_, ?_, ?_, ?_⟩
          · intro y hy
            obtain ⟨p, hp, hl⟩ := m1 y hy
            refine ⟨p, ?_, ?_⟩
            · rw [← Table.SameShape.getIndex t ta hsa]
              exact hp
            · rw [← hsa.2.2.2 p]
              exact hl
          · intro p hp
            exact m2 p ((hpos _ p).2 hp)
          · intro p hp hq
            exact m3 p (fun hh => hp ((hpos _ p).1 hh)) ((hpos _ p).2 hq)
          · intro p hp hq
            rw [m4 p (fun hh => hp ((hpos _ p).1 hh)) (fun hh => hq ((hpos _ p).1 hh))]
            exact hrows p

/-! ## Reverse relationship maintenance -/

theorem Table.memberOf_congr (t t1 : Table) (g : String) (x : ID) (id : Val)
    (hs : t.SameShape t1)
    (hrow : ∀ p, t._getIndex id = .ok p → t1.rowHas p g x = t.rowHas p g x) :
    t1.memberOf id g x = t.memberOf id g x := by
  unfold Table.memberOf
  rw [Table.SameShape.getIndex t t1 hs]
  cases hi : t._getIndex id with
  | error e => rfl
  | ok p =>
      simp only [Except.bind]
      have hl := hs.2.2.2 p
      have hr := hrow p hi
      unfold Table.rowHas at hr
      cases h0 : t.data.row p with
      | none =>
          cases h1 : t1.data.row p with
          | none => rfl
          | some r1 =>
              rw [h0, h1] at hl
              cases hl
      | some r =>
          cases h1 : t1.data.row p with
          | none =>
              rw [h0, h1] at hl
              cases hl
          | some r1 =>
              rw [h0, h1] at hr
              simp only at hr
              simp only [hr]

/-- C29, as the code has it: in the store after the creation of the tag `t1` and of the
book `b1` that carries it, `head` holds both records and the field `books` of the tag
names the book.  The create diff of the book, the second diff of the log, adds the tag
`t1`, and every record it references exists.  Applied forward on `head`,
`_applyDiffRelationships` leaves the field as it is (the identifier is a member already);
applied in reverse, it removes the identifier: the membership of the field `books` is not
what it was before the two calls. -/
theorem reverse_relationships_counterexample :
    tagOnlyStore.diffs[1]? = some taggedBookDiff ∧
      (librarySchema.tableOf tagOnlyStore.head (Val.str "Tag")).bind
        (fun t => t.memberOf (Val.str "t1") "books" ⟨.str "Book", .str "b1"⟩) = .ok true ∧
      (librarySchema._applyDiffRelationships taggedBookDiff false .head tagOnlyStore).2
        = .ok () ∧
      (librarySchema.tableOf
          (librarySchema._applyDiffRelationships taggedBookDiff false .head
            tagOnlyStore).1.head (Val.str "Tag")).bind
        (fun t => t.memberOf (Val.str "t1") "books" ⟨.str "Book", .str "b1"⟩) = .ok true ∧
      (librarySchema._applyDiffRelationships taggedBookDiff true .head
        (librarySchema._applyDiffRelationships taggedBookDiff false .head tagOnlyStore).1).2
        = .ok () ∧
      (librarySchema.tableOf
          (librarySchema._applyDiffRelationships taggedBookDiff true .head
            (librarySchema._applyDiffRelationships taggedBookDiff false .head
              tagOnlyStore).1).1.head
          (Val.str "Tag")).bind
        (fun t => t.memberOf (Val.str "t1") "books" ⟨.str "Book", .str "b1"⟩) = .ok false :=
  ⟨rfl, rfl, rfl, rfl, rfl, rfl⟩

/-- C29, amended: for every diff of a record `x` and every non-reverse many-valued
relationship field `f` in the diff with a related name `g`, the only field of the diff
paired with the field `g` of that table, applied on the branch `head`, where the method
reads and saves the same tables; `t` is the paired table of `head` before the call.
When `_applyDiffRelationships` returns, with `reverse = false` each identifier in the
added set has `x` in its field `g` in the paired table, each identifier in the removed set
that is not the record of an added one does not, and the membership of `x` in `g` is
unchanged for every other record; with `reverse = true` the two sets exchange their roles.
Applying forward and then in reverse restores the membership of `x` in the field `g` of
every record when, before the two calls, the records of the added set did not hold `x`
and those of the removed set did. -/
theorem reverse_relationships_maintained (S : Schema) (d : Diff) (did : Val × Val) (x : ID)
    (m : Model) (f g : String) (info : RelInfo) (e : Val × Val)
    (hdid : getDiffId d = some did) (hx : makeId did.1 did.2 = .ok x)
    (hm : S.getModel did.1 = some m) (hnd : m.iterFields.Nodup)
    (he : Obj.lookup f d = some e) (hinfo : Obj.lookup f m.relationships = some info)
    (hmany : info.many = true) (hrev : info.reverse = false)
    (hg : info.relatedName = some g) (hgne : g ≠ "") (hty : info.type ≠ "")
    (hunique : ∀ f1 e1 info1, f1 ∈ m.iterFields → f1 ≠ f → Obj.lookup f1 d = some e1 →
      Obj.lookup f1 m.relationships = some info1 → info1.type = info.type →
      info1.relatedName ≠ some g) :
    (∀ (reverse : Bool) (b b1 : Store) (t : Table),
      S._applyDiffRelationships d reverse .head b = (b1, .ok ()) →
      S.tableOf b.head (Val.str info.type) = .ok t →
      ∃ t1, S.tableOf b1.head (Val.str info.type) = .ok t1 ∧
        (∀ y, y ∈ (if reverse = true then e.1 else e.2).members →
          t1.memberOf (Val.prim y.id) g x = .ok true) ∧
        (∀ y, y ∈ (if reverse = true then e.2 else e.1).members →
          (∀ y1, y1 ∈ (if reverse = true then e.1 else e.2).members →
            t._getIndex (Val.prim y1.id) ≠ t._getIndex (Val.prim y.id)) →
          t1.memberOf (Val.prim y.id) g x = .ok false) ∧
        (∀ id, (∀ y, y ∈ e.1.members ∨ y ∈ e.2.members →
            t._getIndex (Val.prim y.id) ≠ t._getIndex id) →
          t1.memberOf id g x = t.memberOf id g x)) ∧
    (∀ (b b1 b2 : Store) (t : Table),
      S._applyDiffRelationships d false .head b = (b1, .ok ()) →
      S._applyDiffRelationships d true .head b1 = (b2, .ok ()) →
      S.tableOf b.head (Val.str info.type) = .ok t →
      (∀ y, y ∈ e.2.members → t.memberOf (Val.prim y.id) g x = .ok false) →
      (∀ y, y ∈ e.1.members → t.memberOf (Val.prim y.id) g x = .ok true) →
      ∃ t2, S.tableOf b2.head (Val.str info.type) = .ok t2 ∧
        ∀ id, t2.memberOf id g x = t.memberOf id g x) := by
  have hf : f ∈ m.iterFields :=
    (mem_iterFields m f).2 (Or.inr (Or.inr (Or.inr ⟨info, hinfo, hrev⟩)))
  have hcore : ∀ (reverse : Bool) (b b1 : Store) (t : Table),
      S._applyDiffRelationships d reverse .head b = (b1, .ok ()) →
      S.tableOf b.head (Val.str info.type) = .ok t →
      ∃ t1, S.tableOf b1.head (Val.str info.type) = .ok t1 ∧ t.SameShape t1 ∧
        t.Marked t1 g x (if reverse = true then e.2 else e.1).members
          (if reverse = true then e.1 else e.2).members := by
    intro reverse b b1 t hrun ht
    rw [S.applyDiffRelationships_eq d did x m reverse hdid hx hm .head b] at hrun
    obtain ⟨t1, h1, h2, _, h4⟩ := S.forEach_relationshipStep d m x reverse f g info e he hinfo
      hmany hrev hg hgne hty m.iterFields hnd hunique b b1 t hrun ht
    exact ⟨t1, h1, h2, h4 hf⟩
  refine ⟨?_, ?_⟩
  · intro reverse b b1 t hrun ht
    obtain ⟨t1, ht1, hs, m1, m2, m3, m4⟩ := hcore reverse b b1 t hrun ht
    have hmem : ∀ (y : ID) (p : Nat), t._getIndex (Val.prim y.id) = .ok p →
        (t.data.row p).isSome = true →
        t1.memberOf (Val.prim y.id) g x = .ok (t1.rowHas p g x) := by
      intro y p hp hl
      apply Table.memberOf_eq
      · rw [Table.SameShape.getIndex t t1 hs]
        exact hp
      · rw [hs.2.2.2 p]
        exact hl
    refine ⟨t1, ht1, ?_, ?_, ?_⟩
    · intro y hy
      obtain ⟨p, hp, hl⟩ := m1 y (Or.inr hy)
      rw [hmem y p hp hl, m2 p ⟨y, hy, hp⟩]
    · intro y hy hdis
      obtain ⟨p, hp, hl⟩ := m1 y (Or.inl hy)
      rw [hmem y p hp hl, m3 p ?_ ⟨y, hy, hp⟩]
      rintro ⟨y1, hy1, hp1⟩
      apply hdis y1 hy1
      rw [hp1, hp]
    · intro id hdis
      apply Table.memberOf_congr t t1 g x id hs
      intro p hp
      apply m4 p
      · rintro ⟨y, hy, hpy⟩
        apply hdis y
        · cases reverse
          · exact Or.inr hy
          · exact Or.inl hy
        · rw [hpy, hp]
      · rintro ⟨y, hy, hpy⟩
        apply hdis y
        · cases reverse
          · exact Or.inl hy
          · exact Or.inr hy
        · rw [hpy, hp]
  · intro b b1 b2 t hfwd hbwd ht hadded hremoved
    obtain ⟨t1, ht1, hs1, a1, _, _, a4⟩ := hcore false b b1 t hfwd ht
    obtain ⟨t2, ht2, hs2, _, c2, c3, c4⟩ := hcore true b1 b2 t1 hbwd ht1
    simp only [Bool.false_eq_true, if_false, if_true] at a1 a4 c2 c3 c4
    have hpos : ∀ ids p, t1.positionsOf ids p ↔ t.positionsOf ids p :=
      fun ids p => Table.SameShape.positionsOf t t1 hs1 ids p
    have hval : ∀ (y : ID) (p : Nat) (v : Bool), t._getIndex (Val.prim y.id) = .ok p →
        (t.data.row p).isSome = true → t.memberOf (Val.prim y.id) g x = .ok v →
        t.rowHas p g x = v := by
      intro y p v hp hl hv
      rw [Table.memberOf_eq t _ g x p hp hl] at hv
      exact Except.ok.inj hv
    refine ⟨t2, ht2, ?_⟩
    intro id
    apply Table.memberOf_congr t t2 g x id (Table.SameShape.trans t t1 t2 hs1 hs2)
    intro p _
    by_cases hR : t.positionsOf e.1.members p
    · rw [c2 p ((hpos _ p).2 hR)]
      obtain ⟨y, hy, hp⟩ := hR
      obtain ⟨p1, hp1, hl⟩ := a1 y (Or.inl hy)
      rw [hp] at hp1
      cases hp1
      exact (hval y p true hp hl (hremoved y hy)).symm
    · by_cases hA : t.positionsOf e.2.members p
      · rw [c3 p (fun hh => hR ((hpos _ p).1 hh)) ((hpos _ p).2 hA)]
        obtain ⟨y, hy, hp⟩ := hA
        obtain ⟨p1, hp1, hl⟩ := a1 y (Or.inr hy)
        rw [hp] at hp1
        cases hp1
        exact (hval y p false hp hl (hadded y hy)).symm
      · rw [c4 p (fun hh => hR ((hpos _ p).1 hh)) (fun hh => hA ((hpos _ p).1 hh))]
        exact a4 p hA hR

/-- Witness of the amended C29: the create diff of the book `b1` with the tag `t1`, on the
store after the creation of the tag, which no book names.  Applied forward, the tag names
the book; applied forward and then in reverse, every tag names the book exactly when it
did before. -/
theorem reverse_relationships_maintained_witness :
    (∃ t1, librarySchema.tableOf
          (librarySchema._applyDiffRelationships taggedBookDiff false .head tagStore).1.head
          (Val.str "Tag") = .ok t1 ∧
        t1.memberOf (Val.str "t1") "books" ⟨.str "Book", .str "b1"⟩ = .ok true) ∧
    (∃ t t2, librarySchema.tableOf tagStore.head (Val.str "Tag") = .ok t ∧
        librarySchema.tableOf
          (librarySchema._applyDiffRelationships taggedBookDiff true .head
            (librarySchema._applyDiffRelationships taggedBookDiff false .head
              tagStore).1).1.head
          (Val.str "Tag") = .ok t2 ∧
        ∀ id, t2.memberOf id "books" ⟨.str "Book", .str "b1"⟩
          = t.memberOf id "books" ⟨.str "Book", .str "b1"⟩) := by
  have hunique : ∀ f1 e1 info1, f1 ∈ bookModel.iterFields → f1 ≠ "tags" →
      Obj.lookup f1 taggedBookDiff = some e1 →
      Obj.lookup f1 bookModel.relationships = some info1 → info1.type = "Tag" →
      info1.relatedName ≠ some "books" := by
    intro f1 e1 info1 hmem hne hd hr _
    have hfs : bookModel.iterFields = ["_type", "id", "title", "note", "author", "tags"] := by
      decide
    rw [hfs] at hmem
    simp only [List.mem_cons, List.mem_singleton, List.not_mem_nil, or_false] at hmem
    rcases hmem with h | h | h | h | h | h <;> subst h
    · cases hr
    · cases hr
    · cases hd
    · cases hd
    · cases hd
    · exact absurd rfl hne
  have H := reverse_relationships_maintained librarySchema taggedBookDiff
    (Val.str "Book", Val.str "b1") ⟨.str "Book", .str "b1"⟩ bookModel "tags" "books"
    ⟨"Tag", true, false, false, some "books"⟩ (Val.undefined, Val.oset [tag1])
    rfl rfl rfl (by decide) rfl rfl rfl rfl rfl (by decide) (by decide) hunique
  constructor
  · obtain ⟨t1, h1, h2, _, _⟩ := H.1 false tagStore _ _ rfl rfl
    exact ⟨t1, h1, h2 tag1 (by decide)⟩
  · obtain ⟨t2, h1, h2⟩ := H.2 tagStore _ _ _ rfl rfl rfl
      (by
        intro y hy
        have hy1 : y = tag1 := by simpa [Val.members] using hy
        subst hy1
        rfl)
      (by
        intro y hy
        cases hy)
    exact ⟨_, t2, rfl, h1, h2⟩

/-! ## `reId`: the reverse fields of the related records -/

theorem Table.updateField_fields (t t1 : Table) (idx : Nat) (fld : String)
    (f : Val → Except Err Val) (h : t.updateField idx fld f = .ok t1) :
    ∀ p r, t.data.row p = some r →
      ∃ r1, t1.data.row p = some r1 ∧ ∀ f1, f1 ≠ fld → r1.get f1 = r.get f1 := by
  obtain ⟨r0, v, hr0, _, _, _, _, hobj⟩ := Table.updateField_spec t t1 idx fld f h
  intro p r hr
  rw [TableData.row_set t.data t1.data idx _ hobj (TableData.row_lt _ _ _ hr0) p]
  by_cases hp : p = idx
  · subst hp
    rw [hr0] at hr
    cases hr
    rw [if_pos rfl]
    refine ⟨_, rfl, ?_⟩
    intro f1 hf1
    rw [Rec.get_set, if_neg (fun hh => hf1 hh.symm)]
  · rw [if_neg hp]
    exact ⟨r, hr, fun _ _ => rfl⟩

theorem Table.removeRelationship_fields (t t1 : Table) (id : Val) (fld : String) (x : ID)
    (h : t.removeRelationship id fld x = .ok t1) :
    ∀ p r, t.data.row p = some r →
      ∃ r1, t1.data.row p = some r1 ∧ ∀ f1, f1 ≠ fld → r1.get f1 = r.get f1 := by
  unfold Table.removeRelationship at h
  cases hi : t._getIndex id with
  | error e => rw [hi] at h; cases h
  | ok idx =>
      rw [hi] at h
      simp only [Except.bind] at h
      exact Table.updateField_fields t t1 idx fld _ h

theorem Table.addRelationship_fields (t t1 : Table) (id : Val) (fld : String) (x : ID)
    (h : t.addRelationship id fld x = .ok t1) :
    ∀ p r, t.data.row p = some r →
      ∃ r1, t1.data.row p = some r1 ∧ ∀ f1, f1 ≠ fld → r1.get f1 = r.get f1 := by
  unfold Table.addRelationship at h
  cases hf : t.model.getField fld with
  | error e => rw [hf] at h; cases h
  | ok info =>
      rw [hf] at h
      simp only [Except.bind] at h
      split at h
      · cases h
      · cases hi : t._getIndex id with
        | error e => rw [hi] at h; cases h
        | ok idx =>
            rw [hi] at h
            simp only at h
            exact Table.updateField_fields t t1 idx fld _ h

theorem Table.SameIds.ids_refl (t : Table) : t.SameIds t :=
  ⟨Table.SameShape.refl t, fun _ r hr => ⟨r, hr, rfl, rfl⟩⟩

theorem Table.SameIds.ids_trans (t ta tb : Table) (h1 : t.SameIds ta) (h2 : ta.SameIds tb) :
    t.SameIds tb := by
  refine ⟨Table.SameShape.trans t ta tb h1.1 h2.1, ?_⟩
  intro p r hr
  obtain ⟨ra, hra, e1, e2⟩ := h1.2 p r hr
  obtain ⟨rb, hrb, e3, e4⟩ := h2.2 p ra hra
  exact ⟨rb, hrb, e3.trans e1, e4.trans e2⟩

/-- The two calls of the callback of `reId` on a many-valued reverse field, when they
return: the row the `id` index lists under `id` holds the new identifier in the field
and not the old one; nothing else changes as to membership, and every row keeps its
other fields. -/
theorem Table.swapRelationship_spec (t t1 : Table) (id : Val) (rf : String)
    (fromId toId : ID) (hne : fromId ≠ toId)
    (h : (t.removeRelationship id rf fromId).bind
      (fun ta => ta.addRelationship id rf toId) = .ok t1) :
    t.SameShape t1 ∧
    (∀ p r, t.data.row p = some r →
      ∃ r1, t1.data.row p = some r1 ∧ ∀ f1, f1 ≠ rf → r1.get f1 = r.get f1) ∧
    ∃ idx, t._getIndex id = .ok idx ∧
      t1.rowHas idx rf toId = true ∧ t1.rowHas idx rf fromId = false ∧
      (∀ p g1, t.rowHas p g1 toId = true → t1.rowHas p g1 toId = true) ∧
      (∀ p g1, t.rowHas p g1 fromId = false → t1.rowHas p g1 fromId = false) ∧
      (∀ p g1 y, y ≠ fromId → t.rowHas p g1 y = true → t1.rowHas p g1 y = true) := by
  cases h1 : t.removeRelationship id rf fromId with
  | error e =>
      rw [h1] at h
      cases h
  | ok ta =>
      rw [h1] at h
      simp only [Except.bind] at h
      obtain ⟨a1, a2, a3, idx, a4, _, a5, a6⟩ :=
        Table.removeRelationship_spec t ta id rf fromId h1
      obtain ⟨b1, b2, b3, idx1, b4, _, b5, b6⟩ :=
        Table.addRelationship_spec ta t1 id rf toId h
      have hidx : idx1 = idx := by
        rw [Table.getIndex_congr t ta a1 a2 a3 id, a4] at b4
        exact (Except.ok.inj b4).symm
      subst hidx
      have hne1 : ¬ toId = fromId := fun hh => hne hh.symm
      refine ⟨⟨b1.trans a1, b2.trans a2, b3.trans a3, fun p => (b5 p).trans (a5 p)⟩, ?_,
        idx1, a4, ?_, ?_, ?_, ?_, ?_⟩
      · intro p r hr
        obtain ⟨ra, hra, ea⟩ := Table.removeRelationship_fields t ta id rf fromId h1 p r hr
        obtain ⟨rb, hrb, eb⟩ := Table.addRelationship_fields ta t1 id rf toId h p ra hra
        exact ⟨rb, hrb, fun f1 hf1 => (eb f1 hf1).trans (ea f1 hf1)⟩
      · rw [b6]
        simp
      · rw [b6, a6]
        simp [hne]
      · intro p g1 hold
        rw [b6]
        by_cases hc : p = idx1 ∧ g1 = rf ∧ toId = toId
        · rw [if_pos hc]
        · rw [if_neg hc, a6]
          have : ¬ (p = idx1 ∧ g1 = rf ∧ toId = fromId) := fun hh => hne1 hh.2.2
          rw [if_neg this]
          exact hold
      · intro p g1 hold
        rw [b6]
        have : ¬ (p = idx1 ∧ g1 = rf ∧ fromId = toId) := fun hh => hne hh.2.2
        rw [if_neg this, a6]
        by_cases hc : p = idx1 ∧ g1 = rf ∧ fromId = fromId
        · rw [if_pos hc]
        · rw [if_neg hc]
          exact hold
      · intro p g1 y hy hold
        rw [b6]
        by_cases hc : p = idx1 ∧ g1 = rf ∧ y = toId
        · rw [if_pos hc]
        · rw [if_neg hc, a6]
          have : ¬ (p = idx1 ∧ g1 = rf ∧ y = fromId) := fun hh => hy hh.2.2
          rw [if_neg this]
          exact hold

/-- The callback of `reId` for one related object, when it returns: it did nothing (the
field has no reverse name), or it read the record of the object in `head`, took the table
of the type of that record from `head` and saved it, after the calls on it, in the
branch. -/
theorem Schema.reIdRelated_ok (S : Schema) (br : BranchName) (fromId toId : ID)
    (c : Val × Option String) (s s1 : Store)
    (h : S.reIdRelated br fromId toId c s = (s1, .ok ())) :
    ((c.2 = none ∨ c.2 = some "") ∧ s1 = s) ∨
    ∃ rf obj t t1, c.2 = some rf ∧ rf ≠ "" ∧
      S.getRecord s c.1 = .ok (some obj) ∧
      S.tableOf s.head (obj.get "_type") = .ok t ∧
      (if t.model.fieldIsForeignKey rf = false then
          (t.removeRelationship (obj.get "id") rf fromId).bind
            (fun ta => ta.addRelationship (obj.get "id") rf toId)
        else t.set (Obj.set obj rf (Val.ident toId))) = .ok t1 ∧
      s1 = s.saveTable br (obj.get "_type") t1 := by
  unfold Schema.reIdRelated at h
  cases hc : c.2 with
  | none =>
      rw [hc] at h
      simp only [Run.ret, Prod.mk.injEq] at h
      exact Or.inl ⟨Or.inl rfl, h.1.symm⟩
  | some rf =>
      rw [hc] at h
      simp only at h
      by_cases hrf : rf = ""
      · rw [if_pos hrf] at h
        simp only [Run.ret, Prod.mk.injEq] at h
        exact Or.inl ⟨Or.inr (by rw [hrf]), h.1.symm⟩
      · rw [if_neg hrf] at h
        right
        obtain ⟨s0, obj, hget, hrest⟩ := Run.bind_ok_inv _ _ s () (by rw [h])
        rw [hrest] at h
        have hs0 : s0 = s := by
          have := S.get_state c.1 s
          rw [hget] at this
          exact this
        subst hs0
        have hrec : S.getRecord s0 c.1 = .ok (some obj) := by
          unfold Schema.get at hget
          cases hg : S.getRecord s0 c.1 with
          | error e =>
              rw [hg] at hget
              simp only [Prod.mk.injEq] at hget
              cases hget.2
          | ok r =>
              cases r with
              | none =>
                  rw [hg] at hget
                  simp only [Prod.mk.injEq] at hget
                  cases hget.2
              | some r =>
                  rw [hg] at hget
                  simp only [Prod.mk.injEq, Except.ok.injEq] at hget
                  rw [hget.2]
        obtain ⟨t, t1, k1, k2, k3⟩ := S.onTable_ok _ _ _ _ _ h
        exact ⟨rf, obj, t, t1, rfl, hrf, hrec, k1, k2, k3⟩

/-! ### The callback of `reId` and the table of the related record -/

theorem Store.branch_saveTable (s : Store) (br br1 : BranchName) (ty : Val) (t : Table) :
    (s.saveTable br ty t).branch br1
      = if br1 = br then (s.branch br).saveTable ty t else s.branch br1 := by
  cases br <;> cases br1 <;> rfl

theorem Schema.tableOf_model (S : Schema) (b : Branch) (ty : Val) (t : Table)
    (h : S.tableOf b ty = .ok t) : S.getModel ty = some t.model ∧ t.hooks = S.hooks := by
  unfold Schema.tableOf at h
  cases hn : ty.asString with
  | none =>
      rw [hn] at h
      cases h
  | some name =>
      rw [hn] at h
      cases hmo : S.getModel ty with
      | none =>
          rw [hmo] at h
          cases h
      | some m =>
          rw [hmo] at h
          simp only at h
          by_cases hid : "id" ∈ m.indices
          · rw [if_pos hid] at h
            simp only [Except.ok.injEq] at h
            rw [← h]
            cases Obj.lookup name b <;> exact ⟨rfl, rfl⟩
          · rw [if_neg hid] at h
            cases h

theorem Val.eq_str_of_asString (v : Val) (s : String) (h : v.asString = some s) :
    v = Val.str s := by
  cases v with
  | prim p =>
      cases p with
      | undefined => cases h
      | null => cases h
      | str x =>
          simp only [Val.asString, Option.some.injEq] at h
          rw [h]
      | nan => cases h
      | obj r text => cases h
  | ident i => cases h
  | oset xs => cases h

theorem Schema.tableOf_asString (S : Schema) (b : Branch) (ty : Val) (t : Table)
    (h : S.tableOf b ty = .ok t) : ∃ name, ty.asString = some name := by
  unfold Schema.tableOf at h
  cases hn : ty.asString with
  | none =>
      rw [hn] at h
      cases h
  | some name => exact ⟨name, rfl⟩

/-- A table saved in a branch is the table the branch holds for its type, whichever
branch it was taken from. -/
theorem Schema.tableOf_saveTable_of (S : Schema) (b0 b : Branch) (ty : Val) (t t1 : Table)
    (h : S.tableOf b0 ty = .ok t) (hh : t1.hooks = t.hooks) (hm : t1.model = t.model) :
    S.tableOf (b.saveTable ty t1) ty = .ok t1 := by
  obtain ⟨hmod, hhooks⟩ := S.tableOf_model b0 ty t h
  unfold Schema.tableOf at h ⊢
  unfold Branch.saveTable
  cases hn : ty.asString with
  | none =>
      rw [hn] at h
      cases h
  | some name =>
      rw [hn] at h
      rw [hmod] at h ⊢
      simp only at h ⊢
      by_cases hid : "id" ∈ t.model.indices
      · rw [if_pos hid]
        rw [Obj.lookup_set, if_pos rfl]
        simp only [Except.ok.injEq]
        cases t1 with
        | mk h1 m1 d1 =>
            simp only at hh hm
            rw [hh, hhooks, hm]
      · rw [if_neg hid] at h
        cases h

theorem Table.rowHas_iff (t : Table) (p : Nat) (g : String) (x : ID) :
    t.rowHas p g x = true ↔ ∃ r, t.data.row p = some r ∧ x ∈ (r.get g).members := by
  unfold Table.rowHas
  cases hr : t.data.row p with
  | none => simp
  | some r => simp

/-- The callback of `reId` for one related object whose reverse field is no foreign key
of the models of `TA` and `TB` and is not `_type` or `id`, when it returns.  The table of
`TB` in `head` keeps its shape and the `_type` and `id` of its rows; a row of that table
that holds the new identifier and not the old one in `g` still does; the record of `TA`
in `head` still names `B`; the branch passed, once its row of `B` holds the new
identifier and not the old one, keeps it so when `head` has it so; after the callback for
the identifier `B` with the reverse field `g`, the row of `B` on the branch passed holds
the new identifier and not the old one; the other branch is untouched. -/
theorem Schema.reIdRelated_inv (S : Schema) (br : BranchName) (fromId toId : ID)
    (hne : fromId ≠ toId) (TA TB : String) (hneT : TA ≠ TB) (mA mB : Model) (B : ID)
    (f g : String) (id : Val)
    (hplain : ∀ m v, S.hooks.toIndexable m "id" v = v ∧ S.hooks.toInternal m "id" v = v)
    (hmA : S.getModel (Val.str TA) = some mA)
    (hmB : S.getModel (Val.str TB) = some mB) (hBty : B._type = .str TB)
    (hfromTy : fromId._type = .str TA) (hgne : g ≠ "")
    (T0 : Table) (pB : Nat) (objB : Rec)
    (hT0 : T0._getIndex (Val.prim B.id) = .ok pB)
    (hH1 : "id" ∈ T0.data.indices.keys)
    (hH2 : T0.data.getIndexIn "id" (Val.prim B.id) = some [pB])
    (hH3 : T0.data.row pB = some objB)
    (hH4 : objB.get "_type" = Val.str TB) (hH5 : objB.get "id" = Val.prim B.id)
    (c : Val × Option String)
    (hcB : ∀ rf, c.2 = some rf →
      mB.fieldIsForeignKey rf = false ∧ rf ≠ "_type" ∧ rf ≠ "id")
    (hcA : ∀ rf, c.2 = some rf → mA.fieldIsForeignKey rf = false)
    (s s1 : Store)
    (hinv : ∃ t, S.tableOf s.head (Val.str TB) = .ok t ∧ T0.SameIds t)
    (h : S.reIdRelated br fromId toId c s = (s1, .ok ())) :
    (∃ t, S.tableOf s1.head (Val.str TB) = .ok t ∧ T0.SameIds t) ∧
    (∀ p, S.Swapped s.head TB p g fromId toId → S.Swapped s1.head TB p g fromId toId) ∧
    (S.HoldsLink s.head TA id f B → S.HoldsLink s1.head TA id f B) ∧
    (S.Swapped s.head TB pB g fromId toId →
      ((∃ t, S.tableOf (s.branch br) (Val.str TB) = .ok t ∧ T0.SameIds t) ∧
        S.Swapped (s.branch br) TB pB g fromId toId) →
      ((∃ t, S.tableOf (s1.branch br) (Val.str TB) = .ok t ∧ T0.SameIds t) ∧
        S.Swapped (s1.branch br) TB pB g fromId toId)) ∧
    (c = (Val.ident B, some g) →
      ((∃ t, S.tableOf (s1.branch br) (Val.str TB) = .ok t ∧ T0.SameIds t) ∧
        S.Swapped (s1.branch br) TB pB g fromId toId)) ∧
    (∀ br1, br1 ≠ br → s1.branch br1 = s.branch br1) := by
  rcases S.reIdRelated_ok br fromId toId c s s1 h with ⟨hc2, hs⟩ | hcase
  · subst hs
    refine ⟨hinv, fun _ hq => hq, fun hl => hl, fun _ hq => hq, ?_, fun _ _ => rfl⟩
    intro hcB1
    rw [hcB1] at hc2
    rcases hc2 with hc2 | hc2
    · cases hc2
    · simp only [Option.some.injEq] at hc2
      exact absurd hc2 hgne
  · obtain ⟨rf, obj, t, t1, hrf, hrfne, hrec, hgt, hop, hs1⟩ := hcase
    obtain ⟨hfk, hrf1, hrf2⟩ := hcB rf hrf
    have hfkA := hcA rf hrf
    obtain ⟨th, hth, hsameh⟩ := hinv
    -- the record read in `head` for the identifier `B`
    have hobjB : c = (Val.ident B, some g) →
        obj.get "_type" = Val.str TB ∧ obj.get "id" = Val.prim B.id ∧ rf = g := by
      intro hcB1
      rw [hcB1] at hrec hrf
      simp only [Option.some.injEq] at hrf
      unfold Schema.getRecord Schema.getTable at hrec
      simp only at hrec
      rw [hBty] at hrec
      have hth1 : S.tableOf s.head (Val.prim (Prim.str TB)) = .ok th := hth
      rw [hth1] at hrec
      simp only [Except.bind] at hrec
      have hmod := S.tableOf_model _ _ th hth
      have hpl : ∀ v, th.hooks.toIndexable th.model "id" v = v ∧
          th.hooks.toInternal th.model "id" v = v := by
        intro v
        rw [hmod.2]
        exact hplain th.model v
      have hkeys : "id" ∈ th.data.indices.keys := by
        rw [hsameh.1.2.2.1]
        exact hH1
      have hent : th.data.getIndexIn "id" (Val.prim B.id) = some [pB] := by
        unfold TableData.getIndexIn
        rw [hsameh.1.2.2.1]
        exact hH2
      rw [Table.get_id_of_entry th hkeys hpl (Val.prim B.id) pB false hent] at hrec
      obtain ⟨r1, hr1, e1, e2⟩ := hsameh.2 pB objB hH3
      rw [hr1] at hrec
      simp only [Except.ok.injEq, Option.some.injEq] at hrec
      rw [← hrec]
      exact ⟨e1.trans hH4, e2.trans hH5, hrf.symm⟩
    obtain ⟨name, hname⟩ := S.tableOf_asString _ _ t hgt
    have hty : obj.get "_type" = Val.str name := Val.eq_str_of_asString _ _ hname
    rw [hty] at hgt hs1
    have hother : ∀ br1, br1 ≠ br → s1.branch br1 = s.branch br1 := by
      intro br1 hbr1
      rw [hs1, Store.branch_saveTable, if_neg hbr1]
    have hunch : ∀ X : String, X ≠ name → ∀ br1,
        S.tableOf (s1.branch br1) (Val.str X) = S.tableOf (s.branch br1) (Val.str X) := by
      intro X hX br1
      rw [hs1, Store.branch_saveTable]
      by_cases hbr1 : br1 = br
      · rw [if_pos hbr1, hbr1]
        apply S.tableOf_saveTable_other
        rw [Val.asString_str, Val.asString_str]
        intro hcc
        exact hX (Option.some.inj hcc)
      · rw [if_neg hbr1]
    have hmod := S.tableOf_model _ _ t hgt
    by_cases hT : name = TB
    · -- the table of `TB`
      subst hT
      rw [hgt] at hth
      cases hth
      have hmodel : t.model = mB := by
        have := hmod.1
        rw [hmB] at this
        exact (Option.some.inj this).symm
      rw [hmodel, if_pos hfk] at hop
      obtain ⟨k1, k2, idx, k3, k4, k5, k6, k7, _⟩ :=
        Table.swapRelationship_spec t t1 (obj.get "id") rf fromId toId hne hop
      have hnew : S.tableOf (s1.branch br) (Val.str name) = .ok t1 := by
        rw [hs1, Store.branch_saveTable, if_pos rfl]
        exact S.tableOf_saveTable_of s.head _ _ t t1 hgt k1.1 k1.2.1
      have hids : t.SameIds t1 := by
        refine ⟨k1, ?_⟩
        intro p r hr
        obtain ⟨r1, hr1, hf⟩ := k2 p r hr
        exact ⟨r1, hr1, hf "_type" (fun hh => hrf1 hh.symm), hf "id" (fun hh => hrf2 hh.symm)⟩
      have hT0t1 : T0.SameIds t1 := Table.SameIds.ids_trans _ t t1 hsameh hids
      have hSwap : ∀ p, S.Swapped s.head name p g fromId toId →
          S.Swapped (s1.branch br) name p g fromId toId := by
        intro p hq
        obtain ⟨t2, ht2, q1, q2⟩ := hq
        rw [hgt] at ht2
        cases ht2
        exact ⟨t1, hnew, k6 p g q1, k7 p g q2⟩
      have hTA : ∀ br1, S.tableOf (s1.branch br1) (Val.str TA)
          = S.tableOf (s.branch br1) (Val.str TA) := hunch TA hneT
      refine ⟨?_, ?_, ?_, ?_, ?_, hother⟩
      · by_cases hbr : BranchName.head = br
        · subst hbr
          exact ⟨t1, hnew, hT0t1⟩
        · have := hother .head hbr
          have hh : s1.head = s.head := this
          rw [hh]
          exact ⟨t, hgt, hsameh⟩
      · intro p hq
        by_cases hbr : BranchName.head = br
        · subst hbr
          exact hSwap p hq
        · have hh : s1.head = s.head := hother .head hbr
          rw [hh]
          exact hq
      · intro hl
        unfold Schema.HoldsLink at hl ⊢
        have := hTA .head
        have hh : S.tableOf s1.head (Val.str TA) = S.tableOf s.head (Val.str TA) := this
        rw [hh]
        exact hl
      · intro hsw _
        exact ⟨⟨t1, hnew, hT0t1⟩, hSwap pB hsw⟩
      · intro hcB1
        obtain ⟨_, e2, e3⟩ := hobjB hcB1
        rw [e2] at k3
        rw [Table.SameShape.getIndex _ t hsameh.1, hT0] at k3
        cases k3
        rw [e3] at k4 k5
        exact ⟨⟨t1, hnew, hT0t1⟩, t1, hnew, k4, k5⟩
    · -- the table of another type
      have hTB : ∀ br1, S.tableOf (s1.branch br1) (Val.str TB)
          = S.tableOf (s.branch br1) (Val.str TB) := hunch TB (fun hh => hT hh.symm)
      have hTBh : S.tableOf s1.head (Val.str TB) = S.tableOf s.head (Val.str TB) := hTB .head
      refine ⟨?_, ?_, ?_, ?_, ?_, hother⟩
      · rw [hTBh]
        exact ⟨th, hth, hsameh⟩
      · intro p hq
        unfold Schema.Swapped at hq ⊢
        rw [hTBh]
        exact hq
      · intro hl
        by_cases hTA : name = TA
        · subst hTA
          by_cases hbr : BranchName.head = br
          · subst hbr
            obtain ⟨tA, p, a, htA, hkeys, hent, hrow, hmem⟩ := hl
            rw [hgt] at htA
            cases htA
            have hmodel : t.model = mA := by
              have := hmod.1
              rw [hmA] at this
              exact (Option.some.inj this).symm
            rw [hmodel, if_pos hfkA] at hop
            obtain ⟨k1, k2, idx, k3, k4, k5, k6, k7, k8⟩ :=
              Table.swapRelationship_spec t t1 (obj.get "id") rf fromId toId hne hop
            have hnew : S.tableOf s1.head (Val.str name) = .ok t1 := by
              have : s1.head = s.head.saveTable (Val.str name) t1 := by
                rw [hs1]
                rfl
              rw [this]
              exact S.tableOf_saveTable_of s.head _ _ t t1 hgt k1.1 k1.2.1
            have hB : B ≠ fromId := by
              intro hh
              rw [hh, hfromTy] at hBty
              simp only [Prim.str.injEq] at hBty
              exact hneT hBty
            have hrh : t.rowHas p f B = true := (Table.rowHas_iff t p f B).2 ⟨a, hrow, hmem⟩
            obtain ⟨a1, ha1, hm1⟩ := (Table.rowHas_iff t1 p f B).1 (k8 p f B hB hrh)
            refine ⟨t1, p, a1, hnew, ?_, ?_, ha1, hm1⟩
            · rw [k1.2.2.1]
              exact hkeys
            · unfold TableData.getIndexIn
              rw [k1.2.2.1]
              exact hent
          · have hh : s1.head = s.head := hother .head hbr
            rw [hh]
            exact hl
        · unfold Schema.HoldsLink at hl ⊢
          have hh : S.tableOf s1.head (Val.str TA) = S.tableOf s.head (Val.str TA) :=
            hunch TA (fun hh => hTA hh.symm) .head
          rw [hh]
          exact hl
      · intro _ hq
        unfold Schema.Swapped at hq ⊢
        rw [hTB br]
        exact hq
      · intro hcB1
        obtain ⟨e1, _, _⟩ := hobjB hcB1
        rw [hty] at e1
        simp only [Val.str, Val.prim.injEq, Prim.str.injEq] at e1
        exact absurd e1 hT

/-! ### One pass of `reId` over a branch -/

/-- The loop of the callbacks of `reId` over related objects whose reverse fields are no
foreign keys of the models of `TA` and `TB`, when it returns; on the pass over `tail`,
`head` has the row of `B` with the new identifier already. -/
theorem Schema.forEach_reIdRelated_inv (S : Schema) (br : BranchName) (fromId toId : ID)
    (hne : fromId ≠ toId) (TA TB : String) (hneT : TA ≠ TB) (mA mB : Model) (B : ID)
    (f g : String) (id : Val)
    (hplain : ∀ m v, S.hooks.toIndexable m "id" v = v ∧ S.hooks.toInternal m "id" v = v)
    (hmA : S.getModel (Val.str TA) = some mA)
    (hmB : S.getModel (Val.str TB) = some mB) (hBty : B._type = .str TB)
    (hfromTy : fromId._type = .str TA) (hgne : g ≠ "")
    (T0 : Table) (pB : Nat) (objB : Rec)
    (hT0 : T0._getIndex (Val.prim B.id) = .ok pB)
    (hH1 : "id" ∈ T0.data.indices.keys)
    (hH2 : T0.data.getIndexIn "id" (Val.prim B.id) = some [pB])
    (hH3 : T0.data.row pB = some objB)
    (hH4 : objB.get "_type" = Val.str TB) (hH5 : objB.get "id" = Val.prim B.id)
    (L : List (Val × Option String))
    (hLB : ∀ c, c ∈ L → ∀ rf, c.2 = some rf →
      mB.fieldIsForeignKey rf = false ∧ rf ≠ "_type" ∧ rf ≠ "id")
    (hLA : ∀ c, c ∈ L → ∀ rf, c.2 = some rf → mA.fieldIsForeignKey rf = false)
    (s s1 : Store)
    (hinv : ∃ t, S.tableOf s.head (Val.str TB) = .ok t ∧ T0.SameIds t)
    (hpre : br = .tail → S.Swapped s.head TB pB g fromId toId)
    (h : Run.forEach (S.reIdRelated br fromId toId) L s = (s1, .ok ())) :
    (∃ t, S.tableOf s1.head (Val.str TB) = .ok t ∧ T0.SameIds t) ∧
    (∀ p, S.Swapped s.head TB p g fromId toId → S.Swapped s1.head TB p g fromId toId) ∧
    (S.HoldsLink s.head TA id f B → S.HoldsLink s1.head TA id f B) ∧
    (((∃ t, S.tableOf (s.branch br) (Val.str TB) = .ok t ∧ T0.SameIds t) ∧
        S.Swapped (s.branch br) TB pB g fromId toId) →
      ((∃ t, S.tableOf (s1.branch br) (Val.str TB) = .ok t ∧ T0.SameIds t) ∧
        S.Swapped (s1.branch br) TB pB g fromId toId)) ∧
    ((Val.ident B, some g) ∈ L →
      ((∃ t, S.tableOf (s1.branch br) (Val.str TB) = .ok t ∧ T0.SameIds t) ∧
        S.Swapped (s1.branch br) TB pB g fromId toId)) ∧
    (∀ br1, br1 ≠ br → s1.branch br1 = s.branch br1) := by
  induction L generalizing s with
  | nil =>
      simp only [Run.forEach, Run.ret, Prod.mk.injEq] at h
      rw [← h.1]
      refine ⟨hinv, fun _ hq => hq, fun hl => hl, fun hq => hq, ?_, fun _ _ => rfl⟩
      intro hc
      cases hc
  | cons c rest ih =>
      unfold Run.forEach at h
      obtain ⟨sa, _, hstep, hrest⟩ := Run.bind_ok_inv _ _ s () (by rw [h])
      rw [hrest] at h
      obtain ⟨a1, a2, a3, a4, a5, a6⟩ := S.reIdRelated_inv br fromId toId hne TA TB hneT mA mB
        B f g id hplain hmA hmB hBty hfromTy hgne T0 pB objB hT0 hH1 hH2 hH3 hH4 hH5 c
        (hLB c (List.mem_cons_self _ _)) (hLA c (List.mem_cons_self _ _)) s sa hinv hstep
      obtain ⟨b1, b2, b3, b4, b5, b6⟩ := ih
        (fun c1 hc1 => hLB c1 (List.mem_cons_of_mem _ hc1))
        (fun c1 hc1 => hLA c1 (List.mem_cons_of_mem _ hc1)) sa a1
        (fun hbr => a2 pB (hpre hbr)) h
      have hsw : ((∃ t, S.tableOf (s.branch br) (Val.str TB) = .ok t ∧ T0.SameIds t) ∧
          S.Swapped (s.branch br) TB pB g fromId toId) →
          S.Swapped s.head TB pB g fromId toId := by
        intro hq
        cases br with
        | head => exact hq.2
        | tail => exact hpre rfl
      refine ⟨b1, fun p hq => b2 p (a2 p hq), fun hl => b3 (a3 hl), ?_, ?_, ?_⟩
      · intro hq
        exact b4 (a4 (hsw hq) hq)
      · intro hm
        rcases List.mem_cons.1 hm with hm | hm
        · exact b4 (a5 hm.symm)
        · exact b5 hm
      · intro br1 hbr1
        rw [b6 br1 hbr1, a6 br1 hbr1]

/-- The calls `callback(objId, relName)` of `forEachRelatedObject`: every reverse name
passed is the related name of a relationship of the model, and a member of a many-valued
field of the record is passed with the related name of the field. -/
theorem Table.relatedObjects_spec (t : Table) (id : Val) (obj : Rec)
    (L : List (Val × Option String)) (hget : t.get (.value id) true = .ok (some obj))
    (h : t.relatedObjects id = .ok L) :
    (∀ c, c ∈ L → ∀ rf, c.2 = some rf →
      ∃ f1 info1, Obj.lookup f1 t.model.relationships = some info1 ∧
        info1.relatedName = some rf) ∧
    (∀ f info B, Obj.lookup f t.model.relationships = some info → info.many = true →
      B ∈ (obj.get f).members → (Val.ident B, info.relatedName) ∈ L) := by
  unfold Table.relatedObjects at h
  rw [hget] at h
  simp only [Except.bind, Except.ok.injEq] at h
  have hrel : ∀ f1 rf,
      (Obj.lookup f1 t.model.relationships).bind (fun info => info.relatedName) = some rf →
      ∃ info1, Obj.lookup f1 t.model.relationships = some info1 ∧
        info1.relatedName = some rf := by
    intro f1 rf hh
    cases hl : Obj.lookup f1 t.model.relationships with
    | none =>
        rw [hl] at hh
        cases hh
    | some info1 =>
        rw [hl] at hh
        exact ⟨info1, rfl, hh⟩
  rw [← h]
  refine ⟨?_, ?_⟩
  · intro c hc rf hrf
    rcases List.mem_append.1 hc with hc | hc
    · obtain ⟨f1, _, hf1⟩ := List.mem_filterMap.1 hc
      by_cases htr : (obj.get f1).truthy = true
      · rw [if_pos htr] at hf1
        cases hf1
        obtain ⟨info1, h1, h2⟩ := hrel f1 rf hrf
        exact ⟨f1, info1, h1, h2⟩
      · rw [if_neg htr] at hf1
        cases hf1
    · obtain ⟨l, hl, hcl⟩ := List.mem_flatten.1 hc
      obtain ⟨f1, _, hf1⟩ := List.mem_map.1 hl
      rw [← hf1] at hcl
      obtain ⟨rel, _, hrel1⟩ := List.mem_map.1 hcl
      rw [← hrel1] at hrf
      obtain ⟨info1, h1, h2⟩ := hrel f1 rf hrf
      exact ⟨f1, info1, h1, h2⟩
  · intro f info B hinfo hmany hB
    apply List.mem_append_right
    apply List.mem_flatten.2
    refine ⟨(obj.get f).members.map (fun rel => (Val.ident rel,
      (Obj.lookup f t.model.relationships).bind (fun info => info.relatedName))), ?_, ?_⟩
    · apply List.mem_map.2
      refine ⟨f, ?_, rfl⟩
      unfold Model.iterManyToMany
      apply List.mem_filter.2
      refine ⟨?_, ?_⟩
      · rw [← Obj.lookup_isSome_iff_mem_keys, hinfo]
        rfl
      · simp [Model.relMany, hinfo, hmany]
    · apply List.mem_map.2
      refine ⟨B, hB, ?_⟩
      rw [hinfo]
      rfl

theorem Schema.reIdTable_ok (S : Schema) (ty id newId : Val) (br : BranchName)
    (s s1 : Store) (tbl : Table) (h : S.reIdTable ty id newId br s = (s1, .ok tbl)) :
    ∃ t, S.tableOf s.head ty = .ok t ∧ t.reId id newId = .ok tbl ∧
      s1 = s.saveTable br ty tbl := by
  unfold Schema.reIdTable Schema.getTable at h
  cases hg : S.tableOf s.head ty with
  | error e =>
      rw [hg] at h
      simp only [Except.bind] at h
      cases h
  | ok t =>
      rw [hg] at h
      simp only [Except.bind] at h
      cases ho : t.reId id newId with
      | error e =>
          rw [ho] at h
          cases h
      | ok t1 =>
          rw [ho] at h
          simp only [Prod.mk.injEq, Except.ok.injEq] at h
          obtain ⟨h1, h2⟩ := h
          subst h2
          exact ⟨t, rfl, ho, h1.symm⟩

/-- One pass of `reId`, for a branch, over a store whose `head` holds, under the old `id`,
a record whose many-valued field `f` names `B`, when it returns: the row of `B` in the
table of `TB` on the branch holds the new identifier in the reverse field `g` and not the
old one; `head` still holds the record that names `B` under the old `id`; the other
branch is untouched, and the table of `TB` in `head` keeps its shape.  On the pass over
`tail`, `head` has the row of `B` with the new identifier already. -/
theorem Schema.reIdBranch_propagates (S : Schema) (TA TB : String) (id newId : Val)
    (fromId toId : ID) (B : ID) (f g : String) (mA mB : Model) (info : RelInfo)
    (br : BranchName) (s s1 : Store)
    (hplain : ∀ m v, S.hooks.toIndexable m "id" v = v ∧ S.hooks.toInternal m "id" v = v)
    (hmA : S.getModel (Val.str TA) = some mA) (hmB : S.getModel (Val.str TB) = some mB)
    (hneT : TA ≠ TB) (hBty : B._type = .str TB)
    (hfrom : makeId (Val.str TA) id = .ok fromId) (hto : makeId (Val.str TA) newId = .ok toId)
    (hne : fromId ≠ toId) (hnew : isEmpty newId = false)
    (hinfo : Obj.lookup f mA.relationships = some info) (hmany : info.many = true)
    (hg : info.relatedName = some g) (hgne : g ≠ "") (hfid : f ≠ "id")
    (hnames : ∀ f1 info1 rf, Obj.lookup f1 mA.relationships = some info1 →
      info1.relatedName = some rf →
      mB.fieldIsForeignKey rf = false ∧ mA.fieldIsForeignKey rf = false ∧
        rf ≠ "_type" ∧ rf ≠ "id")
    (T0 : Table) (pB : Nat) (objB : Rec)
    (hT0 : T0._getIndex (Val.prim B.id) = .ok pB)
    (hH1 : "id" ∈ T0.data.indices.keys)
    (hH2 : T0.data.getIndexIn "id" (Val.prim B.id) = some [pB])
    (hH3 : T0.data.row pB = some objB)
    (hH4 : objB.get "_type" = Val.str TB) (hH5 : objB.get "id" = Val.prim B.id)
    (hinv : ∃ t, S.tableOf s.head (Val.str TB) = .ok t ∧ T0.SameIds t)
    (hpre : br = .tail → S.Swapped s.head TB pB g fromId toId)
    (hA : S.HoldsLink s.head TA id f B)
    (h : S.reIdBranch (Val.str TA) id newId br s = (s1, .ok ())) :
    (∃ t, S.tableOf s1.head (Val.str TB) = .ok t ∧ T0.SameIds t) ∧
    (∀ p, S.Swapped s.head TB p g fromId toId → S.Swapped s1.head TB p g fromId toId) ∧
    S.HoldsLink s1.head TA id f B ∧
    ((∃ t, S.tableOf (s1.branch br) (Val.str TB) = .ok t ∧ T0.SameIds t) ∧
      S.Swapped (s1.branch br) TB pB g fromId toId) ∧
    (∀ br1, br1 ≠ br → s1.branch br1 = s.branch br1) := by
  unfold Schema.reIdBranch at h
  -- the table of the record
  obtain ⟨sa, tA1, h1, e1⟩ := Run.bind_ok_inv _ _ s () (by rw [h])
  rw [e1] at h
  obtain ⟨tA, hgA, hreId, hsa⟩ := S.reIdTable_ok _ _ _ br s sa tA1 h1
  obtain ⟨tA0, pA, a, hgA0, hkeys, hent, hrow, hB⟩ := hA
  rw [hgA] at hgA0
  cases hgA0
  have hmodA := S.tableOf_model _ _ tA hgA
  have hplA : ∀ v, tA.hooks.toIndexable tA.model "id" v = v ∧
      tA.hooks.toInternal tA.model "id" v = v := by
    intro v
    rw [hmodA.2]
    exact hplain tA.model v
  obtain ⟨tA2, r1, r2, r3, r4, r5, r6, _⟩ :=
    Table.reId_spec tA hkeys hplA id newId pA a hent hrow
  rw [hreId] at r1
  cases r1
  have hTB : ∀ br1, S.tableOf (sa.branch br1) (Val.str TB)
      = S.tableOf (s.branch br1) (Val.str TB) := by
    intro br1
    rw [hsa, Store.branch_saveTable]
    by_cases hbr1 : br1 = br
    · rw [if_pos hbr1, hbr1]
      apply S.tableOf_saveTable_other
      rw [Val.asString_str, Val.asString_str]
      intro hcc
      exact hneT (Option.some.inj hcc).symm
    · rw [if_neg hbr1]
  have hTBh : S.tableOf sa.head (Val.str TB) = S.tableOf s.head (Val.str TB) := hTB .head
  have hotherA : ∀ br1, br1 ≠ br → sa.branch br1 = s.branch br1 := by
    intro br1 hbr1
    rw [hsa, Store.branch_saveTable, if_neg hbr1]
  have hrow1 : tA1.data.row pA = some (Obj.set a "id" newId) := by
    rw [TableData.row_set tA.data tA1.data pA _ r4 (TableData.row_lt _ _ _ hrow) pA, if_pos rfl]
  have hBset : B ∈ (Rec.get (Obj.set a "id" newId) f).members := by
    rw [Rec.get_set, if_neg (fun hh => hfid hh.symm)]
    exact hB
  have hlinkA : S.HoldsLink sa.head TA id f B := by
    by_cases hbr : BranchName.head = br
    · subst hbr
      have hnewA : S.tableOf sa.head (Val.str TA) = .ok tA1 := by
        have : sa.head = s.head.saveTable (Val.str TA) tA1 := by
          rw [hsa]
          rfl
        rw [this]
        exact S.tableOf_saveTable_of s.head _ _ tA tA1 hgA r2 r3
      refine ⟨tA1, pA, _, hnewA, by rw [r5]; exact hkeys, ?_, hrow1, hBset⟩
      rw [r6 id]
      by_cases hc : newId = id
      · rw [if_pos hc]
      · rw [if_neg hc]
        exact hent
    · have hh : sa.head = s.head := hotherA .head hbr
      rw [hh]
      exact ⟨tA, pA, a, hgA, hkeys, hent, hrow, hB⟩
  -- the identifiers
  obtain ⟨sb, fromId1, h2, e2⟩ := Run.bind_ok_inv _ _ sa () (by rw [h])
  rw [e2] at h
  unfold Run.ofExcept at h2
  simp only [Prod.mk.injEq] at h2
  obtain ⟨hsb, hf1⟩ := h2
  rw [hfrom] at hf1
  cases hf1
  subst hsb
  obtain ⟨sc, toId1, h3, e3⟩ := Run.bind_ok_inv _ _ sa () (by rw [h])
  rw [e3] at h
  unfold Run.ofExcept at h3
  simp only [Prod.mk.injEq] at h3
  obtain ⟨hsc, ht1⟩ := h3
  rw [hto] at ht1
  cases ht1
  subst hsc
  -- the related objects
  obtain ⟨sd, related, h4, e4⟩ := Run.bind_ok_inv _ _ sa () (by rw [h])
  rw [e4] at h
  unfold Run.ofExcept at h4
  simp only [Prod.mk.injEq] at h4
  obtain ⟨hsd, hrel⟩ := h4
  subst hsd
  have hplA1 : ∀ v, tA1.hooks.toIndexable tA1.model "id" v = v ∧
      tA1.hooks.toInternal tA1.model "id" v = v := by
    intro v
    rw [r2, r3]
    exact hplA v
  have hget1 : tA1.get (.value newId) true = .ok (some (Obj.set a "id" newId)) := by
    rw [Table.get_value tA1 newId true hnew,
      Table.get_id_of_entry tA1 (by rw [r5]; exact hkeys) hplA1 newId pA true
        (by rw [r6 newId, if_pos rfl]), hrow1]
  obtain ⟨q1, q2⟩ := Table.relatedObjects_spec tA1 newId _ related hget1 hrel
  have hmodelA : tA1.model = mA := by
    rw [r3]
    have := hmodA.1
    rw [hmA] at this
    exact (Option.some.inj this).symm
  rw [hmodelA] at q1 q2
  have hLB : ∀ c, c ∈ related → ∀ rf, c.2 = some rf →
      mB.fieldIsForeignKey rf = false ∧ rf ≠ "_type" ∧ rf ≠ "id" := by
    intro c hc rf hrf
    obtain ⟨f1, info1, k1, k2⟩ := q1 c hc rf hrf
    obtain ⟨n1, _, n3, n4⟩ := hnames f1 info1 rf k1 k2
    exact ⟨n1, n3, n4⟩
  have hLA : ∀ c, c ∈ related → ∀ rf, c.2 = some rf → mA.fieldIsForeignKey rf = false := by
    intro c hc rf hrf
    obtain ⟨f1, info1, k1, k2⟩ := q1 c hc rf hrf
    exact (hnames f1 info1 rf k1 k2).2.1
  have hBmem : (Val.ident B, some g) ∈ related := by
    have := q2 f info B hinfo hmany hBset
    rw [hg] at this
    exact this
  have hfromTy : fromId._type = .str TA := by
    unfold makeId at hfrom
    cases id with
    | prim pid =>
        simp only [Val.str, Except.ok.injEq] at hfrom
        rw [← hfrom]
    | ident j => cases hfrom
    | oset ys => cases hfrom
  -- the callbacks
  obtain ⟨se, _, h5, e5⟩ := Run.bind_ok_inv _ _ sa () (by rw [h])
  rw [e5] at h
  have hinvA : ∃ t, S.tableOf sa.head (Val.str TB) = .ok t ∧ T0.SameIds t := by
    rw [hTBh]
    exact hinv
  have hswA : ∀ p, S.Swapped s.head TB p g fromId toId →
      S.Swapped sa.head TB p g fromId toId := by
    intro p hq
    unfold Schema.Swapped at hq ⊢
    rw [hTBh]
    exact hq
  obtain ⟨c1, c2, c3, _, c5, c6⟩ := S.forEach_reIdRelated_inv br fromId toId hne TA TB hneT
    mA mB B f g id hplain hmA hmB hBty hfromTy hgne T0 pB objB hT0 hH1 hH2 hH3 hH4 hH5
    related hLB hLA sa se hinvA (fun hbr => hswA pB (hpre hbr)) h5
  -- the diffs
  have hd := S.reIdDiffs_ok id newId fromId toId se (by rw [h])
  rw [h] at hd
  have hbranch : ∀ br1, s1.branch br1 = se.branch br1 := by
    intro br1
    cases br1
    · exact hd.1
    · exact hd.2.1
  have hhead : s1.head = se.head := hd.1
  refine ⟨?_, ?_, ?_, ?_, ?_⟩
  · rw [hhead]
    exact c1
  · intro p hq
    rw [hhead]
    exact c2 p (hswA p hq)
  · rw [hhead]
    exact c3 hlinkA
  · rw [hbranch br]
    exact c5 hBmem
  · intro br1 hbr1
    rw [hbranch br1, c6 br1 hbr1, hotherA br1 hbr1]

/-! ## `reId`: propagation to the reverse fields -/

theorem Table.rowHas_live (t : Table) (p : Nat) (g : String) (x : ID)
    (h : t.rowHas p g x = true) : (t.data.row p).isSome = true := by
  unfold Table.rowHas at h
  cases hr : t.data.row p with
  | none =>
      rw [hr] at h
      cases h
  | some r => rfl

theorem Schema.reverseHas_of_swapped (S : Schema) (b : Branch) (TB : String) (B : ID)
    (g : String) (fromId toId : ID) (t0 t : Table) (p : Nat)
    (h0 : t0._getIndex (Val.prim B.id) = .ok p) (hg : S.tableOf b (Val.str TB) = .ok t)
    (hs : t0.SameIds t) (hq : S.Swapped b TB p g fromId toId) :
    S.reverseHas b TB B g toId = .ok true ∧ S.reverseHas b TB B g fromId = .ok false := by
  obtain ⟨t1, ht1, q1, q2⟩ := hq
  rw [hg] at ht1
  cases ht1
  have hidx : t._getIndex (Val.prim B.id) = .ok p := by
    rw [Table.SameShape.getIndex t0 t hs.1]
    exact h0
  have hlive := Table.rowHas_live t p g toId q1
  unfold Schema.reverseHas
  rw [hg]
  simp only [Except.bind]
  rw [Table.memberOf_eq t _ g toId p hidx hlive, Table.memberOf_eq t _ g fromId p hidx hlive,
    q1, q2]
  exact ⟨rfl, rfl⟩

theorem Schema.HoldsRecord.index_of_record (S : Schema) (b : Branch) (TB : String) (B : ID)
    (hplain : ∀ m v, S.hooks.toIndexable m "id" v = v ∧ S.hooks.toInternal m "id" v = v)
    (t : Table) (p : Nat) (hg : S.tableOf b (Val.str TB) = .ok t)
    (he : t.data.getIndexIn "id" (Val.prim B.id) = some [p]) :
    t._getIndex (Val.prim B.id) = .ok p := by
  unfold Table._getIndex Table.toIndexable
  rw [(S.tableOf_model _ _ t hg).2, (hplain _ _).1, he]
  rfl

/-- C28: reId propagation.  For every store whose `head` holds a record `A` of type `TA`
under the temporary `id` and a record `B` of another type `TB`, where `A` names `B` in a
many-valued field `f` with the reverse name `g`, and no reverse name of the model of `A`
is a foreign key of the model of `A` or of `B` or one of `_type` and `id`: when
`reId(TA, id, newId)` with no branch given returns, for a new `id` that is not empty and
is another one than the old, the field `g` of `B` contains the identifier `(TA, newId)`
and does not contain `(TA, id)`, on both branches.  (Both passes take the tables from
`head`; the pass over `tail` saves them in `tail`.) -/
theorem reId_propagates (S : Schema) (TA TB : String) (id newId : Val) (fromId toId : ID)
    (B : ID) (f g : String) (mA mB : Model) (info : RelInfo) (s : Store)
    (hplain : ∀ m v, S.hooks.toIndexable m "id" v = v ∧ S.hooks.toInternal m "id" v = v)
    (hmA : S.getModel (Val.str TA) = some mA) (hmB : S.getModel (Val.str TB) = some mB)
    (hneT : TA ≠ TB) (hBty : B._type = .str TB)
    (hfrom : makeId (Val.str TA) id = .ok fromId) (hto : makeId (Val.str TA) newId = .ok toId)
    (hne : fromId ≠ toId) (hnew : isEmpty newId = false)
    (hinfo : Obj.lookup f mA.relationships = some info) (hmany : info.many = true)
    (hg : info.relatedName = some g) (hgne : g ≠ "") (hfid : f ≠ "id")
    (hnames : ∀ f1 info1 rf, Obj.lookup f1 mA.relationships = some info1 →
      info1.relatedName = some rf →
      mB.fieldIsForeignKey rf = false ∧ mA.fieldIsForeignKey rf = false ∧
        rf ≠ "_type" ∧ rf ≠ "id")
    (hBhead : S.HoldsRecord s.head TB B) (hAhead : S.HoldsLink s.head TA id f B)
    (hok : (S.reId (Val.str TA) id newId none s).2 = .ok ()) :
    ∀ br,
      S.reverseHas ((S.reId (Val.str TA) id newId none s).1.branch br) TB B g toId
        = .ok true ∧
      S.reverseHas ((S.reId (Val.str TA) id newId none s).1.branch br) TB B g fromId
        = .ok false := by
  obtain ⟨tH, pH, objB, hgH, hkH, heH, hrH, hH4, hH5⟩ := hBhead
  have hT0 : tH._getIndex (Val.prim B.id) = .ok pH :=
    Schema.HoldsRecord.index_of_record S s.head TB B hplain tH pH hgH heH
  unfold Schema.reId at hok ⊢
  simp only [Run.forEach] at hok ⊢
  obtain ⟨s1, _, h1, e1⟩ := Run.bind_ok_inv _ _ s () hok
  rw [e1] at hok ⊢
  obtain ⟨s2, _, h2, e2⟩ := Run.bind_ok_inv _ _ s1 () hok
  rw [e2] at hok ⊢
  simp only [Run.ret]
  obtain ⟨a1, _, a3, a4, _⟩ := S.reIdBranch_propagates TA TB id newId fromId toId B f g mA mB
    info .head s s1 hplain hmA hmB hneT hBty hfrom hto hne hnew hinfo hmany hg hgne hfid hnames
    tH pH objB hT0 hkH heH hrH hH4 hH5 ⟨tH, hgH, Table.SameIds.ids_refl tH⟩
    (fun hbr => by cases hbr) hAhead h1
  have hsw1 : S.Swapped s1.head TB pH g fromId toId := a4.2
  obtain ⟨b1, b2, _, b4, _⟩ := S.reIdBranch_propagates TA TB id newId fromId toId B f g mA mB
    info .tail s1 s2 hplain hmA hmB hneT hBty hfrom hto hne hnew hinfo hmany hg hgne hfid hnames
    tH pH objB hT0 hkH heH hrH hH4 hH5 a1 (fun _ => hsw1) a3 h2
  intro br
  cases br with
  | head =>
      obtain ⟨t, ht, hsame⟩ := b1
      exact Schema.reverseHas_of_swapped S _ TB B g fromId toId tH t pH hT0 ht hsame
        (b2 pH hsw1)
  | tail =>
      obtain ⟨⟨t, ht, hsame⟩, hq⟩ := b4
      exact Schema.reverseHas_of_swapped S _ TB B g fromId toId tH t pH hT0 ht hsame hq

/-- The store `draftStore`, field by field. -/
theorem draftStore_eq :
    draftStore
      = { head := [("Author", ⟨[some [("_type", Val.str "Author"), ("id", Val.str "a1"), ("name",
            Val.str "Ada"), ("books", Val.oset [⟨.str "Book", .str "tmp"⟩])]], [("id",
            [(Val.str "a1", [0])])]⟩), ("Tag", ⟨[some [("_type", Val.str "Tag"), ("id",
            Val.str "t1"), ("label", Val.str "new"), ("books", Val.oset [⟨.str "Book",
            .str "tmp"⟩])]], [("id", [(Val.str "t1", [0])])]⟩), ("Book", ⟨[some [("_type",
            Val.str "Book"), ("id", Val.str "tmp"), ("title", Val.str "X"), ("note", Val.undefined),
            ("author", Val.ident ⟨.str "Author", .str "a1"⟩), ("tags", Val.oset [⟨.str "Tag",
            .str "t1"⟩]), ("reviews", Val.oset []), ("cover", Val.undefined)]], [("id",
            [(Val.str "tmp", [0])]), ("title", [(Val.str "X", [0])])]⟩)]
          tail := []
          diffs := [[("_type", Val.undefined, Val.str "Author"), ("id", Val.undefined, Val.str "a1"),
            ("name", Val.undefined, Val.str "Ada")], [("_type", Val.undefined, Val.str "Tag"),
            ("id", Val.undefined, Val.str "t1"), ("label", Val.undefined, Val.str "new")],
            [("_type", Val.undefined, Val.str "Book"), ("id", Val.undefined, Val.str "tmp"),
            ("title", Val.undefined, Val.str "X"), ("author", Val.undefined,
            Val.ident ⟨.str "Author", .str "a1"⟩), ("tags", Val.undefined, Val.oset [⟨.str "Tag",
            .str "t1"⟩])]]
          deltas := []
          tailptr := 0 } :=
  rfl

/-- The pass of `reId` over `head` on the store `draftStore`. -/
theorem reIdBranch_head_draftStore :
    librarySchema.reIdBranch (Val.str "Book") (Val.str "tmp") (Val.str "srv") .head draftStore
      = ({ head := [("Author", ⟨[some [("_type", Val.str "Author"), ("id", Val.str "a1"), ("name",
             Val.str "Ada"), ("books", Val.oset [⟨.str "Book", .str "srv"⟩])]], [("id",
             [(Val.str "a1", [0])])]⟩), ("Tag", ⟨[some [("_type", Val.str "Tag"), ("id",
             Val.str "t1"), ("label", Val.str "new"), ("books", Val.oset [⟨.str "Book",
             .str "srv"⟩])]], [("id", [(Val.str "t1", [0])])]⟩), ("Book", ⟨[some [("_type",
             Val.str "Book"), ("id", Val.str "srv"), ("title", Val.str "X"), ("note",
             Val.undefined), ("author", Val.ident ⟨.str "Author", .str "a1"⟩), ("tags",
             Val.oset [⟨.str "Tag", .str "t1"⟩]), ("reviews", Val.oset []), ("cover",
             Val.undefined)]], [("id", [(Val.str "tmp", [0]), (Val.str "srv", [0])]), ("title",
             [(Val.str "X", [0])])]⟩)]
           tail := []
           diffs := [[("_type", Val.undefined, Val.str "Author"), ("id", Val.undefined, Val.str "a1"),
             ("name", Val.undefined, Val.str "Ada")], [("_type", Val.undefined, Val.str "Tag"),
             ("id", Val.undefined, Val.str "t1"), ("label", Val.undefined, Val.str "new")],
             [("_type", Val.undefined, Val.str "Book"), ("id", Val.undefined, Val.str "srv"),
             ("title", Val.undefined, Val.str "X"), ("author", Val.undefined,
             Val.ident ⟨.str "Author", .str "a1"⟩), ("tags", Val.undefined, Val.oset [⟨.str "Tag",
             .str "t1"⟩])]]
           deltas := []
           tailptr := 0 },
         .ok ()) := by
  rw [draftStore_eq]
  rfl

/-- The pass of `reId` over `tail` on the store `draftStore`, after the pass over
`head`. -/
theorem reIdBranch_tail_draftStore :
    librarySchema.reIdBranch (Val.str "Book") (Val.str "tmp") (Val.str "srv") .tail
        { head := [("Author", ⟨[some [("_type", Val.str "Author"), ("id", Val.str "a1"), ("name",
            Val.str "Ada"), ("books", Val.oset [⟨.str "Book", .str "srv"⟩])]], [("id",
            [(Val.str "a1", [0])])]⟩), ("Tag", ⟨[some [("_type", Val.str "Tag"), ("id",
            Val.str "t1"), ("label", Val.str "new"), ("books", Val.oset [⟨.str "Book",
            .str "srv"⟩])]], [("id", [(Val.str "t1", [0])])]⟩), ("Book", ⟨[some [("_type",
            Val.str "Book"), ("id", Val.str "srv"), ("title", Val.str "X"), ("note", Val.undefined),
            ("author", Val.ident ⟨.str "Author", .str "a1"⟩), ("tags", Val.oset [⟨.str "Tag",
            .str "t1"⟩]), ("reviews", Val.oset []), ("cover", Val.undefined)]], [("id",
            [(Val.str "tmp", [0]), (Val.str "srv", [0])]), ("title", [(Val.str "X", [0])])]⟩)]
          tail := []
          diffs := [[("_type", Val.undefined, Val.str "Author"), ("id", Val.undefined, Val.str "a1"),
            ("name", Val.undefined, Val.str "Ada")], [("_type", Val.undefined, Val.str "Tag"),
            ("id", Val.undefined, Val.str "t1"), ("label", Val.undefined, Val.str "new")],
            [("_type", Val.undefined, Val.str "Book"), ("id", Val.undefined, Val.str "srv"),
            ("title", Val.undefined, Val.str "X"), ("author", Val.undefined,
            Val.ident ⟨.str "Author", .str "a1"⟩), ("tags", Val.undefined, Val.oset [⟨.str "Tag",
            .str "t1"⟩])]]
          deltas := []
          tailptr := 0 }
      = ({ head := [("Author", ⟨[some [("_type", Val.str "Author"), ("id", Val.str "a1"), ("name",
             Val.str "Ada"), ("books", Val.oset [⟨.str "Book", .str "srv"⟩])]], [("id",
             [(Val.str "a1", [0])])]⟩), ("Tag", ⟨[some [("_type", Val.str "Tag"), ("id",
             Val.str "t1"), ("label", Val.str "new"), ("books", Val.oset [⟨.str "Book",
             .str "srv"⟩])]], [("id", [(Val.str "t1", [0])])]⟩), ("Book", ⟨[some [("_type",
             Val.str "Book"), ("id", Val.str "srv"), ("title", Val.str "X"), ("note",
             Val.undefined), ("author", Val.ident ⟨.str "Author", .str "a1"⟩), ("tags",
             Val.oset [⟨.str "Tag", .str "t1"⟩]), ("reviews", Val.oset []), ("cover",
             Val.undefined)]], [("id", [(Val.str "tmp", [0]), (Val.str "srv", [0])]), ("title",
             [(Val.str "X", [0])])]⟩)]
           tail := [("Book", ⟨[some [("_type", Val.str "Book"), ("id", Val.str "srv"), ("title",
             Val.str "X"), ("note", Val.undefined), ("author", Val.ident ⟨.str "Author",
             .str "a1"⟩), ("tags", Val.oset [⟨.str "Tag", .str "t1"⟩]), ("reviews", Val.oset []),
             ("cover", Val.undefined)]], [("id", [(Val.str "tmp", [0]), (Val.str "srv", [0])]),
             ("title", [(Val.str "X", [0])])]⟩), ("Author", ⟨[some [("_type", Val.str "Author"),
             ("id", Val.str "a1"), ("name", Val.str "Ada"), ("books", Val.oset [⟨.str "Book",
             .str "srv"⟩])]], [("id", [(Val.str "a1", [0])])]⟩), ("Tag", ⟨[some [("_type",
             Val.str "Tag"), ("id", Val.str "t1"), ("label", Val.str "new"), ("books",
             Val.oset [⟨.str "Book", .str "srv"⟩])]], [("id", [(Val.str "t1", [0])])]⟩)]
           diffs := [[("_type", Val.undefined, Val.str "Author"), ("id", Val.undefined, Val.str "a1"),
             ("name", Val.undefined, Val.str "Ada")], [("_type", Val.undefined, Val.str "Tag"),
             ("id", Val.undefined, Val.str "t1"), ("label", Val.undefined, Val.str "new")],
             [("_type", Val.undefined, Val.str "Book"), ("id", Val.undefined, Val.str "srv"),
             ("title", Val.undefined, Val.str "X"), ("author", Val.undefined,
             Val.ident ⟨.str "Author", .str "a1"⟩), ("tags", Val.undefined, Val.oset [⟨.str "Tag",
             .str "t1"⟩])]]
           deltas := []
           tailptr := 0 },
         .ok ()) :=
  rfl

/-- The call `reId('Book', 'tmp', 'srv')` on the store `draftStore`. -/
theorem reId_draftStore :
    librarySchema.reId (Val.str "Book") (Val.str "tmp") (Val.str "srv") none draftStore
      = ({ head := [("Author", ⟨[some [("_type", Val.str "Author"), ("id", Val.str "a1"), ("name",
             Val.str "Ada"), ("books", Val.oset [⟨.str "Book", .str "srv"⟩])]], [("id",
             [(Val.str "a1", [0])])]⟩), ("Tag", ⟨[some [("_type", Val.str "Tag"), ("id",
             Val.str "t1"), ("label", Val.str "new"), ("books", Val.oset [⟨.str "Book",
             .str "srv"⟩])]], [("id", [(Val.str "t1", [0])])]⟩), ("Book", ⟨[some [("_type",
             Val.str "Book"), ("id", Val.str "srv"), ("title", Val.str "X"), ("note",
             Val.undefined), ("author", Val.ident ⟨.str "Author", .str "a1"⟩), ("tags",
             Val.oset [⟨.str "Tag", .str "t1"⟩]), ("reviews", Val.oset []), ("cover",
             Val.undefined)]], [("id", [(Val.str "tmp", [0]), (Val.str "srv", [0])]), ("title",
             [(Val.str "X", [0])])]⟩)]
           tail := [("Book", ⟨[some [("_type", Val.str "Book"), ("id", Val.str "srv"), ("title",
             Val.str "X"), ("note", Val.undefined), ("author", Val.ident ⟨.str "Author",
             .str "a1"⟩), ("tags", Val.oset [⟨.str "Tag", .str "t1"⟩]), ("reviews", Val.oset []),
             ("cover", Val.undefined)]], [("id", [(Val.str "tmp", [0]), (Val.str "srv", [0])]),
             ("title", [(Val.str "X", [0])])]⟩), ("Author", ⟨[some [("_type", Val.str "Author"),
             ("id", Val.str "a1"), ("name", Val.str "Ada"), ("books", Val.oset [⟨.str "Book",
             .str "srv"⟩])]], [("id", [(Val.str "a1", [0])])]⟩), ("Tag", ⟨[some [("_type",
             Val.str "Tag"), ("id", Val.str "t1"), ("label", Val.str "new"), ("books",
             Val.oset [⟨.str "Book", .str "srv"⟩])]], [("id", [(Val.str "t1", [0])])]⟩)]
           diffs := [[("_type", Val.undefined, Val.str "Author"), ("id", Val.undefined, Val.str "a1"),
             ("name", Val.undefined, Val.str "Ada")], [("_type", Val.undefined, Val.str "Tag"),
             ("id", Val.undefined, Val.str "t1"), ("label", Val.undefined, Val.str "new")],
             [("_type", Val.undefined, Val.str "Book"), ("id", Val.undefined, Val.str "srv"),
             ("title", Val.undefined, Val.str "X"), ("author", Val.undefined,
             Val.ident ⟨.str "Author", .str "a1"⟩), ("tags", Val.undefined, Val.oset [⟨.str "Tag",
             .str "t1"⟩])]]
           deltas := []
           tailptr := 0 },
         .ok ()) := by
  unfold Schema.reId
  simp only [Run.forEach]
  rw [Run.bind_ok _ _ _ _ _ reIdBranch_head_draftStore,
    Run.bind_ok _ _ _ _ _ reIdBranch_tail_draftStore]
  rfl

/-- Witness of C28: the store right after the creation of the author, of the tag and of the
book `tmp` with the tag; `head` holds the three records and `tail` holds nothing yet.
The book is reassigned from `tmp` to `srv`, and on both branches the tag names the book
under `srv`. -/
theorem reId_propagates_witness :
    draftStore.tail = [] ∧
      (librarySchema.reId (Val.str "Book") (Val.str "tmp") (Val.str "srv") none draftStore).2
        = .ok () ∧
      ∀ br,
        librarySchema.reverseHas
            ((librarySchema.reId (Val.str "Book") (Val.str "tmp") (Val.str "srv") none
              draftStore).1.branch br) "Tag" tag1 "books" ⟨.str "Book", .str "srv"⟩
          = .ok true ∧
        librarySchema.reverseHas
            ((librarySchema.reId (Val.str "Book") (Val.str "tmp") (Val.str "srv") none
              draftStore).1.branch br) "Tag" tag1 "books" ⟨.str "Book", .str "tmp"⟩
          = .ok false := by
  have hall : ∀ p, p ∈ bookModel.relationships →
      (match p.2.relatedName with
        | some rf => (tagModel.fieldIsForeignKey rf == false)
            && (bookModel.fieldIsForeignKey rf == false) && (rf != "_type") && (rf != "id")
        | none => true) = true := by
    decide
  have hnames : ∀ f1 info1 rf, Obj.lookup f1 bookModel.relationships = some info1 →
      info1.relatedName = some rf →
      tagModel.fieldIsForeignKey rf = false ∧ bookModel.fieldIsForeignKey rf = false ∧
        rf ≠ "_type" ∧ rf ≠ "id" := by
    intro f1 info1 rf h1 h2
    have := hall (f1, info1) (Obj.mem_of_lookup _ _ _ h1)
    simp only [h2, Bool.and_eq_true, beq_iff_eq, bne_iff_ne] at this
    exact ⟨this.1.1.1, this.1.1.2, this.1.2, this.2⟩
  have hB : librarySchema.HoldsRecord draftStore.head "Tag" tag1 := by
    rw [draftStore_eq]
    exact ⟨_, 0, _, rfl, by decide, rfl, rfl, rfl, rfl⟩
  have hA : librarySchema.HoldsLink draftStore.head "Book" (Val.str "tmp") "tags" tag1 := by
    rw [draftStore_eq]
    exact ⟨_, 0, _, rfl, by decide, rfl, rfl, by decide⟩
  have hok : (librarySchema.reId (Val.str "Book") (Val.str "tmp") (Val.str "srv") none
      draftStore).2 = .ok () := by
    rw [reId_draftStore]
  refine ⟨?_, hok,
    reId_propagates librarySchema "Book" "Tag" (Val.str "tmp") (Val.str "srv")
      ⟨.str "Book", .str "tmp"⟩ ⟨.str "Book", .str "srv"⟩ tag1 "tags" "books" bookModel
      tagModel ⟨"Tag", true, false, false, some "books"⟩ draftStore
      (fun _ _ => ⟨rfl, rfl⟩) rfl rfl (by decide) rfl rfl rfl (by decide) rfl rfl rfl rfl
      (by decide) (by decide) hnames hB hA hok⟩
  rw [draftStore_eq]

/-! ## `Model.applyDiff` on an update diff -/

theorem Model.applyDiff_fold_get (m : Model) (sF sT : Val × Val → Val) (d : Diff)
    (hnd : d.keys.Nodup) (r : Rec) (g : String) :
    (d.foldl (fun (r : Rec) (p : String × (Val × Val)) =>
        if m.relMany p.1 then
          r.set p.1 (((r.get p.1).subtract (sF p.2)).union (sT p.2))
        else r.set p.1 (sT p.2)) r).get g
      = match Obj.lookup g d with
        | some e =>
            if m.relMany g then ((r.get g).subtract (sF e)).union (sT e) else sT e
        | none => r.get g := by
  induction d generalizing r with
  | nil => rfl
  | cons q rest ih =>
      obtain ⟨k, e⟩ := q
      have hnd1 : k ∉ Obj.keys rest ∧ (Obj.keys rest).Nodup := List.nodup_cons.1 hnd
      rw [List.foldl_cons, ih hnd1.2]
      by_cases hkg : k = g
      · subst hkg
        have hnone : Obj.lookup k rest = none := by
          rw [Obj.lookup_eq_none_iff]
          exact hnd1.1
        simp only [hnone, Obj.lookup, if_true]
        by_cases hm : m.relMany k = true
        · simp only [hm, if_true, Rec.get_set]
        · simp only [hm, Bool.false_eq_true, if_false, Rec.get_set, if_true]
      · simp only [Obj.lookup, hkg, if_false]
        have hget : ∀ v, Rec.get (Obj.set r k v) g = r.get g := by
          intro v
          rw [Rec.get_set, if_neg hkg]
        by_cases hm : m.relMany k = true
        · simp only [hm, if_true, hget]
        · simp only [hm, Bool.false_eq_true, if_false, hget]

theorem Model.diffUpdateTurn_nodup (m : Model) (a b : Rec) (acc : Diff × Nat) (f : String)
    (h : (Obj.keys acc.1).Nodup) : (Obj.keys (m.diffUpdateTurn a b acc f).1).Nodup := by
  unfold Model.diffUpdateTurn
  simp only
  have h1 := Obj.keys_nodup_set acc.1 f (a.get f, b.get f) h
  split
  · exact h1
  · split
    · exact Obj.keys_nodup_erase _ _ h1
    · split
      · split
        · exact Obj.keys_nodup_erase _ _ h1
        · split
          · exact Obj.keys_nodup_set _ _ _ h1
          · exact h1
      · exact h1

theorem Model.diff_update_nodup (m : Model) (a b : Rec) (d : Diff)
    (hd : m.diff (some a) (some b) = .ok (some d)) : (Obj.keys d).Nodup := by
  have key : ∀ (fs : List String) (acc : Diff × Nat), (Obj.keys acc.1).Nodup →
      (Obj.keys (fs.foldl (m.diffUpdateTurn a b) acc).1).Nodup := by
    intro fs
    induction fs with
    | nil => exact fun _ h => h
    | cons f fs ih =>
        intro acc h
        rw [List.foldl_cons]
        exact ih _ (Model.diffUpdateTurn_nodup m a b acc f h)
  have hx := Model.diff_update_eq m a b (some d) hd
  split at hx
  · cases hx
  · rw [Option.some.inj hx]
    exact key _ _ List.nodup_nil

/-! ### Values that are alike -/

theorem Val.alike_oset_iff (xs ys : List ID) :
    (Val.oset xs).alike (Val.oset ys) = true ↔ ∀ x, x ∈ xs ↔ x ∈ ys := by
  have hc : ∀ (l : List ID) (x : ID), l.contains x = true ↔ x ∈ l := by
    intro l x
    simp
  simp only [Val.alike, Bool.and_eq_true, List.all_eq_true]
  constructor
  · rintro ⟨h1, h2⟩ x
    exact ⟨fun hx => (hc ys x).1 (h1 x hx), fun hx => (hc xs x).1 (h2 x hx)⟩
  · intro h
    exact ⟨fun x hx => (hc ys x).2 ((h x).1 hx), fun x hx => (hc xs x).2 ((h x).2 hx)⟩

theorem Val.alike_refl (v : Val) : v.alike v = true := by
  cases v with
  | prim p => simp [Val.alike]
  | ident i => simp [Val.alike]
  | oset xs =>
      rw [Val.alike_oset_iff]
      exact fun _ => Iff.rfl

theorem Val.alike_of_looseEq (v w : Val) (h : looseEq v w = true) : v.alike w = true := by
  cases v with
  | prim p => simp [Val.alike, h]
  | ident i => simp [Val.alike, h]
  | oset xs =>
      cases w with
      | prim p => simp [Val.alike, h]
      | ident i => simp [Val.alike, h]
      | oset ys =>
          simp only [looseEq, beq_iff_eq] at h
          subst h
          exact Val.alike_refl _

theorem Val.alike_of_equals (v w : Val) (h : v.equals w = true) : v.alike w = true := by
  cases v with
  | prim p => cases h
  | ident i =>
      cases w with
      | prim p => cases h
      | ident j =>
          simp only [Val.equals, beq_iff_eq] at h
          subst h
          exact Val.alike_refl _
      | oset ys => cases h
  | oset xs =>
      cases w with
      | prim p => cases h
      | ident j => cases h
      | oset ys =>
          simp only [Val.equals, beq_iff_eq] at h
          subst h
          exact Val.alike_refl _

theorem looseEq_symm (v w : Val) : looseEq w v = looseEq v w := by
  cases v with
  | prim p =>
      cases w with
      | prim q =>
          cases p <;> cases q <;> simp [looseEq, eq_comm, Bool.beq_eq_decide_eq]
      | ident j => cases p <;> rfl
      | oset ys => cases p <;> rfl
  | ident i =>
      cases w with
      | prim q => cases q <;> rfl
      | ident j => simp [looseEq, eq_comm]
      | oset ys => rfl
  | oset xs =>
      cases w with
      | prim q => cases q <;> rfl
      | ident j => rfl
      | oset ys => simp [looseEq, eq_comm]

theorem Val.alike_symm (v w : Val) (h : v.alike w = true) : w.alike v = true := by
  cases v with
  | prim p =>
      cases w with
      | prim q =>
          simp only [Val.alike, Bool.or_eq_true, decide_eq_true_eq] at h ⊢
          rcases h with h | h
          · exact Or.inl h.symm
          · exact Or.inr (by rw [looseEq_symm]; exact h)
      | ident j =>
          simp only [Val.alike, Bool.or_eq_true, decide_eq_true_eq] at h ⊢
          rcases h with h | h
          · exact Or.inl h.symm
          · exact Or.inr (by rw [looseEq_symm]; exact h)
      | oset ys =>
          simp only [Val.alike, Bool.or_eq_true, decide_eq_true_eq] at h ⊢
          rcases h with h | h
          · exact Or.inl h.symm
          · exact Or.inr (by rw [looseEq_symm]; exact h)
  | ident i =>
      cases w with
      | prim q =>
          simp only [Val.alike, Bool.or_eq_true, decide_eq_true_eq] at h ⊢
          rcases h with h | h
          · exact Or.inl h.symm
          · exact Or.inr (by rw [looseEq_symm]; exact h)
      | ident j =>
          simp only [Val.alike, Bool.or_eq_true, decide_eq_true_eq] at h ⊢
          rcases h with h | h
          · exact Or.inl h.symm
          · exact Or.inr (by rw [looseEq_symm]; exact h)
      | oset ys =>
          simp only [Val.alike, Bool.or_eq_true, decide_eq_true_eq] at h ⊢
          rcases h with h | h
          · exact Or.inl h.symm
          · exact Or.inr (by rw [looseEq_symm]; exact h)
  | oset xs =>
      cases w with
      | prim q =>
          simp only [Val.alike, Bool.or_eq_true, decide_eq_true_eq] at h ⊢
          rcases h with h | h
          · exact Or.inl h.symm
          · exact Or.inr (by rw [looseEq_symm]; exact h)
      | ident j =>
          simp only [Val.alike, Bool.or_eq_true, decide_eq_true_eq] at h ⊢
          rcases h with h | h
          · exact Or.inl h.symm
          · exact Or.inr (by rw [looseEq_symm]; exact h)
      | oset ys =>
          rw [Val.alike_oset_iff] at h ⊢
          exact fun x => (h x).symm

/-- The value a many-valued field takes when the members that `xs` has and `ys` lacks are
taken from the set `xs` and the members that `ys` has and `xs` lacks are joined: a set
with the members of `ys`. -/
theorem Val.alike_patch (xs ys : List ID) :
    ((((Val.oset xs).subtract ((Val.oset xs).subtract (Val.oset ys))).union
      ((Val.oset ys).subtract (Val.oset xs))).alike (Val.oset ys)) = true := by
  simp only [Val.subtract, Val.union]
  rw [Val.alike_oset_iff]
  intro x
  by_cases h1 : x ∈ xs <;> by_cases h2 : x ∈ ys <;> simp [h1, h2]

/-! ### The fields of a record after an update diff -/

theorem Model.fieldCounted_false (m : Model) (a b : Rec) (g : String)
    (hg : ¬ (g = "_type" ∨ g = "id")) (h : m.fieldCounted a b g = false) :
    (a.get g).alike (b.get g) = true := by
  unfold Model.fieldCounted at h
  simp only [hg, decide_False, Bool.not_false, Bool.true_and, Bool.and_eq_false_imp,
    Bool.not_eq_true', Bool.not_eq_false', Bool.not_eq_eq_eq_not, Bool.not_not] at h
  by_cases hl : looseEq (a.get g) (b.get g) = true
  · exact Val.alike_of_looseEq _ _ hl
  · have hl1 : looseEq (a.get g) (b.get g) = false := by
      cases hc : looseEq (a.get g) (b.get g) with
      | false => rfl
      | true => exact absurd hc hl
    have h1 := h hl1
    simp only [Bool.and_eq_true] at h1
    exact Val.alike_of_equals _ _ h1.2

/-- The value of a field after the update diff of `(a, b)` is applied to `a`: alike the
value of the field in `b`. -/
theorem Model.patch_forward (m : Model) (a b : Rec) (g : String)
    (hrel : g = "_type" ∨ g = "id" → m.relMany g = false)
    (hsa : m.relMany g = true → ∃ xs, a.get g = Val.oset xs)
    (hsb : m.relMany g = true → ∃ ys, b.get g = Val.oset ys) :
    (match m.updateEntry a b g with
      | some e =>
          if m.relMany g then ((a.get g).subtract e.1).union e.2 else e.2
      | none => a.get g).alike (b.get g) = true := by
  unfold Model.updateEntry
  by_cases hg : g = "_type" ∨ g = "id"
  · rw [if_pos hg]
    simp only [hrel hg, Bool.false_eq_true, if_false]
    exact Val.alike_refl _
  · rw [if_neg hg]
    by_cases hc : m.fieldCounted a b g = true
    · rw [if_pos hc]
      by_cases hm : m.relMany g = true
      · obtain ⟨xs, hxs⟩ := hsa hm
        obtain ⟨ys, hys⟩ := hsb hm
        simp only [hm, if_true, hxs, hys]
        exact Val.alike_patch xs ys
      · simp only [hm, Bool.false_eq_true, if_false]
        exact Val.alike_refl _
    · rw [if_neg hc]
      simp only [Bool.not_eq_true] at hc
      exact Model.fieldCounted_false m a b g hg hc

/-- The value of a field after the update diff of `(a, b)` is applied in reverse to `b`:
alike the value of the field in `a`. -/
theorem Model.patch_reverse (m : Model) (a b : Rec) (g : String)
    (hrel : g = "_type" ∨ g = "id" → m.relMany g = false)
    (hsa : m.relMany g = true → ∃ xs, a.get g = Val.oset xs)
    (hsb : m.relMany g = true → ∃ ys, b.get g = Val.oset ys) :
    (match m.updateEntry a b g with
      | some e =>
          if m.relMany g then ((b.get g).subtract e.2).union e.1 else e.1
      | none => b.get g).alike (a.get g) = true := by
  unfold Model.updateEntry
  by_cases hg : g = "_type" ∨ g = "id"
  · rw [if_pos hg]
    simp only [hrel hg, Bool.false_eq_true, if_false]
    exact Val.alike_refl _
  · rw [if_neg hg]
    by_cases hc : m.fieldCounted a b g = true
    · rw [if_pos hc]
      by_cases hm : m.relMany g = true
      · obtain ⟨xs, hxs⟩ := hsa hm
        obtain ⟨ys, hys⟩ := hsb hm
        simp only [hm, if_true, hxs, hys]
        exact Val.alike_patch ys xs
      · simp only [hm, Bool.false_eq_true, if_false]
        exact Val.alike_refl _
    · rw [if_neg hc]
      simp only [Bool.not_eq_true] at hc
      exact Val.alike_symm _ _ (Model.fieldCounted_false m a b g hg hc)

theorem Val.truthy_of_not_isEmpty (v : Val) (h : isEmpty v = false) : v.truthy = true := by
  rw [truthy_eq_not_isEmpty, h]
  rfl

theorem Val.ne_undefined_of_not_isEmpty (v : Val) (h : isEmpty v = false) :
    v ≠ Val.undefined := by
  intro hc
  rw [hc] at h
  cases h

/-- The method `Model.applyDiff` on a record and a diff whose `_type` entry is not empty
on either side: every entry of the diff is applied to the record. -/
theorem Model.applyDiff_update (m : Model) (r : Rec) (d : Diff) (reverse : Bool)
    (ty : Val × Val) (hty : Obj.lookup "_type" d = some ty) (h1 : isEmpty ty.1 = false)
    (h2 : isEmpty ty.2 = false) :
    m.applyDiff (some r) d reverse
      = .ok (some (d.foldl (fun (r : Rec) (p : String × (Val × Val)) =>
          if m.relMany p.1 then
            r.set p.1 (((r.get p.1).subtract (if reverse = true then p.2.2 else p.2.1)).union
              (if reverse = true then p.2.1 else p.2.2))
          else r.set p.1 (if reverse = true then p.2.1 else p.2.2)) r)) := by
  unfold Model.applyDiff
  rw [hty]
  cases reverse
  · simp [h1, h2]
  · simp [h1, h2]

/-! ### `Model.toObject` -/

theorem Obj.mem_keys_set {α : Type} (o : Obj α) (k : String) (v : α) (x : String) :
    x ∈ Obj.keys (Obj.set o k v) ↔ x ∈ Obj.keys o ∨ x = k := by
  rw [← Obj.lookup_isSome_iff_mem_keys, ← Obj.lookup_isSome_iff_mem_keys, Obj.lookup_set]
  by_cases h : k = x
  · rw [if_pos h]
    simp [h]
  · rw [if_neg h]
    have h1 : ¬ x = k := fun hh => h hh.symm
    simp [h1]

theorem Obj.mem_keys_foldl_set {α β : Type} (l : List (String × β)) (F : String × β → α)
    (o : Obj α) (x : String) :
    x ∈ Obj.keys (l.foldl (fun (r : Obj α) p => Obj.set r p.1 (F p)) o)
      ↔ x ∈ Obj.keys o ∨ x ∈ Obj.keys l := by
  induction l generalizing o with
  | nil => simp [Obj.keys]
  | cons q rest ih =>
      rw [List.foldl_cons, ih, Obj.mem_keys_set]
      simp only [Obj.keys, List.map_cons, List.mem_cons]
      tauto

theorem Model.mem_defaults_keys (m : Model) (g : String) :
    g ∈ Obj.keys m.defaults
      ↔ g = "_type" ∨ g = "id" ∨ g ∈ Obj.keys m.attributes ∨ g ∈ Obj.keys m.relationships := by
  unfold Model.defaults
  simp only
  rw [Obj.mem_keys_foldl_set m.relationships
      (fun p => if p.2.many then Val.oset [] else Val.undefined),
    Obj.mem_keys_foldl_set m.attributes (fun p => p.2.default)]
  simp only [Obj.keys, List.map_cons, List.map_nil, List.mem_cons, List.not_mem_nil, or_false]
  tauto

theorem Obj.lookup_mapKey {α β : Type} (o : Obj α) (F : String → α → β) (g : String) :
    Obj.lookup g (o.map (fun p => (p.1, F p.1 p.2))) = (Obj.lookup g o).map (F g) := by
  induction o with
  | nil => rfl
  | cons q rest ih =>
      obtain ⟨k, v⟩ := q
      simp only [List.map_cons, Obj.lookup]
      by_cases h : k = g
      · rw [if_pos h, if_pos h, h]
        rfl
      · rw [if_neg h, if_neg h, ih]

theorem Model.toOrderedSet_fold_get (rels : Obj RelInfo) (hnd : (Obj.keys rels).Nodup)
    (r : Rec) (g : String) :
    (rels.foldl (fun (r : Rec) (p : String × RelInfo) =>
        if p.2.many then r.set p.1 (r.get p.1).toOrderedSet else r) r).get g
      = match Obj.lookup g rels with
        | some info => if info.many then (r.get g).toOrderedSet else r.get g
        | none => r.get g := by
  induction rels generalizing r with
  | nil => rfl
  | cons q rest ih =>
      obtain ⟨k, info⟩ := q
      have hnd1 : k ∉ Obj.keys rest ∧ (Obj.keys rest).Nodup := List.nodup_cons.1 hnd
      rw [List.foldl_cons, ih hnd1.2]
      by_cases hkg : k = g
      · subst hkg
        have hnone : Obj.lookup k rest = none := by
          rw [Obj.lookup_eq_none_iff]
          exact hnd1.1
        simp only [hnone, Obj.lookup, if_true]
        by_cases hm : info.many = true
        · simp only [hm, if_true, Rec.get_set]
        · simp only [hm, Bool.false_eq_true, if_false]
      · simp only [Obj.lookup, hkg, if_false]
        by_cases hm : info.many = true
        · simp only [hm, if_true, Rec.get_set, hkg, if_false]
        · simp only [hm, Bool.false_eq_true, if_false]

/-- A field of the record `Model.toObject` makes, where the data give a value: that
value, made an ordered set when the field is many-valued. -/
theorem Model.toObject_get (m : Model) (data : Rec) (g : String) (v : Val)
    (hnd : (Obj.keys m.relationships).Nodup)
    (hg : g = "_type" ∨ g = "id" ∨ g ∈ Obj.keys m.attributes ∨ g ∈ Obj.keys m.relationships)
    (hv : Obj.lookup g data = some v) :
    (m.toObject data).get g = if m.relMany g then v.toOrderedSet else v := by
  have hkey : (Obj.lookup g m.defaults).isSome = true := by
    rw [Obj.lookup_isSome_iff_mem_keys]
    exact (Model.mem_defaults_keys m g).2 hg
  have hobj : ∀ (F : String → Val → Val), (∀ dflt, F g dflt = v) →
      Rec.get (m.defaults.map (fun p => (p.1, F p.1 p.2))) g = v := by
    intro F hF
    unfold Rec.get
    rw [Obj.lookup_mapKey m.defaults F g]
    cases hd : Obj.lookup g m.defaults with
    | none =>
        rw [hd] at hkey
        cases hkey
    | some dflt =>
        simp only [Option.map, Option.getD, hF]
  obtain ⟨F, hFdef⟩ : ∃ F : String → Val → Val, F = fun k dflt =>
      match Obj.lookup k data with
      | some v => v
      | none => dflt := ⟨_, rfl⟩
  have hF : ∀ dflt, F g dflt = v := by
    intro dflt
    rw [hFdef]
    simp only [hv]
  have h2 := Model.toOrderedSet_fold_get m.relationships hnd
    (m.defaults.map (fun p => (p.1, F p.1 p.2))) g
  rw [hobj F hF] at h2
  subst hFdef
  refine Eq.trans h2 ?_
  unfold Model.relMany
  cases Obj.lookup g m.relationships with
  | none => rfl
  | some info => rfl

/-! ## `Table.applyDiff` -/

theorem Table.get_of_row (t : Table) (hI : t.IndexInv) (p : Nat) (r : Rec)
    (hr : t.data.row p = some r) (hne : isEmpty (r.get "id") = false) :
    t.get (.value (r.get "id")) false = .ok (some r) := by
  rw [Table.get_value t _ false hne,
    Table.get_id_of_entry t hI.id_mem hI.id_plain _ p false (Table.getIndex_of_row t hI p r hr).1,
    hr]

theorem getDiffId_of_entries (d : Diff) (ty i : Val × Val)
    (hty : Obj.lookup "_type" d = some ty) (hid : Obj.lookup "id" d = some i) :
    getDiffId d = some (Val.orElse ty.1 ty.2, if i.1 ≠ Val.undefined then i.1 else i.2) := by
  unfold getDiffId
  rw [hty, hid]

/-- The method `applyDiff` on a table that holds the record `cur` of the diff, for a diff
whose `_type` entry is not empty on either side and whose `id` entry reads the `id` of
the record on both sides: the row of the record holds the record with every entry of the
diff applied. -/
theorem Table.applyDiff_existing (t : Table) (hI : t.IndexInv)
    (hhook : t.hooks.applyDiff = Model.applyDiff) (d : Diff) (reverse : Bool) (cur : Rec)
    (p : Nat) (ty i : Val × Val) (hrow : t.data.row p = some cur)
    (hnd : (Obj.keys d).Nodup) (hty : Obj.lookup "_type" d = some ty)
    (hid : Obj.lookup "id" d = some i) (h1 : isEmpty ty.1 = false) (h2 : isEmpty ty.2 = false)
    (hi1 : i.1 = cur.get "id") (hi2 : i.2 = cur.get "id")
    (hne : isEmpty (cur.get "id") = false) (hrelid : t.model.relMany "id" = false) :
    ∃ t1 r, t.applyDiff d reverse = .ok t1 ∧ t1.IndexInv ∧ t1.data.row p = some r ∧
      t1.get (.value (cur.get "id")) false = .ok (some r) ∧
      ∀ g, r.get g
        = match Obj.lookup g d with
          | some e =>
              if t.model.relMany g then
                ((cur.get g).subtract (if reverse = true then e.2 else e.1)).union
                  (if reverse = true then e.1 else e.2)
              else (if reverse = true then e.1 else e.2)
          | none => cur.get g := by
  obtain ⟨r1, hr1⟩ : ∃ r1 : Rec, r1 = d.foldl (fun (r : Rec) (p : String × (Val × Val)) =>
      if t.model.relMany p.1 then
        r.set p.1 (((r.get p.1).subtract (if reverse = true then p.2.2 else p.2.1)).union
          (if reverse = true then p.2.1 else p.2.2))
      else r.set p.1 (if reverse = true then p.2.1 else p.2.2)) cur := ⟨_, rfl⟩
  have hget1 : ∀ g, r1.get g
      = match Obj.lookup g d with
        | some e =>
            if t.model.relMany g then
              ((cur.get g).subtract (if reverse = true then e.2 else e.1)).union
                (if reverse = true then e.1 else e.2)
            else (if reverse = true then e.1 else e.2)
        | none => cur.get g := by
    intro g
    rw [hr1]
    exact Model.applyDiff_fold_get t.model (fun e => if reverse = true then e.2 else e.1)
      (fun e => if reverse = true then e.1 else e.2) d hnd cur g
  have hid1 : r1.get "id" = cur.get "id" := by
    rw [hget1 "id", hid]
    simp only [hrelid, Bool.false_eq_true, if_false]
    cases reverse
    · simp only [Bool.false_eq_true, if_false]
      exact hi2
    · simp only [if_true]
      exact hi1
  have happly : t.hooks.applyDiff t.model (some cur) d reverse = .ok (some r1) := by
    rw [hhook, Model.applyDiff_update t.model cur d reverse ty hty h1 h2, hr1]
  have hidx := (Table.getIndex_of_row t hI p cur hrow).1
  obtain ⟨t1, hset, _, _, hobj, _, _, _⟩ :=
    Table.set_existing_spec t hI r1 (by rw [hid1]; exact hne) p cur
      (by rw [hid1]; exact hidx) hrow
  have hI1 : t1.IndexInv := Table.set_indexInv t t1 hI r1 hset
  have hrow1 : t1.data.row p = some (Obj.set r1 "id" (cur.get "id")) := by
    rw [TableData.row_set t.data t1.data p _ hobj (TableData.row_lt _ _ _ hrow) p, if_pos rfl]
  have hidr : Rec.get (Obj.set r1 "id" (cur.get "id")) "id" = cur.get "id" := by
    rw [Rec.get_set, if_pos rfl]
  refine ⟨t1, Obj.set r1 "id" (cur.get "id"), ?_, hI1, hrow1, ?_, ?_⟩
  · unfold Table.applyDiff
    rw [getDiffId_of_entries d ty i hty hid]
    have hi : (if i.1 ≠ Val.undefined then i.1 else i.2) = cur.get "id" := by
      rw [if_pos (by rw [hi1]; exact Val.ne_undefined_of_not_isEmpty _ hne)]
      exact hi1
    simp only [hi, Table.get_of_row t hI p cur hrow hne, Except.bind, happly]
    exact hset
  · have := Table.get_of_row t1 hI1 p _ hrow1 (by rw [hidr]; exact hne)
    rw [hidr] at this
    exact this
  · intro g
    rw [Rec.get_set]
    by_cases hg : "id" = g
    · subst hg
      rw [if_pos rfl]
      exact hid1.symm.trans (hget1 "id")
    · rw [if_neg hg]
      exact hget1 g

/-- The method `applyDiff` for a remove diff of the record `a` on a table that holds it:
the row of the record is emptied and a lookup by its `id` finds nothing. -/
theorem Table.applyDiff_remove (t : Table) (hI : t.IndexInv)
    (hhook : t.hooks.applyDiff = Model.applyDiff) (a : Rec) (d : Diff) (p : Nat)
    (hrow : t.data.row p = some a) (hd : t.model.diff (some a) none = .ok (some d))
    (hty : isEmpty (a.get "_type") = false) (hne : isEmpty (a.get "id") = false) :
    ∃ t1, t.applyDiff d false = .ok t1 ∧ t1.IndexInv ∧ t1.data.row p = none ∧
      t1.get (.value (a.get "id")) false = .ok none := by
  have hd1 : d = t.model.iterFields.foldl (Model.diffRemoveStep a) [] := by
    unfold Model.diff at hd
    exact (Option.some.inj (Except.ok.inj hd)).symm
  have hlt : Obj.lookup "_type" d = some (a.get "_type", Val.undefined) := by
    rw [hd1, lookup_foldl_diffRemoveStep, if_pos]
    exact ⟨by simp [Model.iterFields], Val.ne_undefined_of_not_isEmpty _ hty⟩
  have hli : Obj.lookup "id" d = some (a.get "id", Val.undefined) := by
    rw [hd1, lookup_foldl_diffRemoveStep, if_pos]
    exact ⟨by simp [Model.iterFields], Val.ne_undefined_of_not_isEmpty _ hne⟩
  have hget := Table.get_of_row t hI p a hrow hne
  obtain ⟨t1, hrem, hobj, hidx⟩ := Table.remove_spec t hI (.value (a.get "id")) a p hget hrow
  have hI1 : t1.IndexInv := Table.remove_indexInv t t1 hI _ hrem
  refine ⟨t1, ?_, hI1, ?_, ?_⟩
  · unfold Table.applyDiff
    rw [getDiffId_of_entries d _ _ hlt hli]
    simp only [if_pos (Val.ne_undefined_of_not_isEmpty _ hne), hget, Except.bind, hhook]
    unfold Model.applyDiff
    rw [hlt]
    have hu : isEmpty Val.undefined = true := rfl
    simp [hty, hu, hli]
    exact hrem
  · rw [TableData.row_set t.data t1.data p _ hobj (TableData.row_lt _ _ _ hrow) p, if_pos rfl]
  · rw [Table.get_value t1 _ false hne]
    apply Table.get_id_of_no_entry t1 hI1.id_mem hI1.id_plain
    rw [hidx, if_pos rfl]

theorem Model.mem_iterFields_keys (m : Model) (g : String) (h : g ∈ m.iterFields) :
    g = "_type" ∨ g = "id" ∨ g ∈ Obj.keys m.attributes ∨ g ∈ Obj.keys m.relationships := by
  unfold Model.iterFields Model.iterRelationships at h
  simp only [List.mem_cons, List.mem_append] at h
  rcases h with h | h | h | h | h
  · exact Or.inl h
  · exact Or.inr (Or.inl h)
  · exact Or.inr (Or.inr (Or.inl h))
  · exact Or.inr (Or.inr (Or.inr (Model.fk_mem_keys m g h)))
  · exact Or.inr (Or.inr (Or.inr (Model.many_mem_keys m g h)))

theorem Val.alike_toOrderedSet (xs : List ID) :
    (Val.oset xs).toOrderedSet.alike (Val.oset xs) = true := by
  unfold Val.toOrderedSet
  rw [Val.alike_oset_iff]
  intro x
  simp

/-- The method `applyDiff` for a create diff of the record `b` on a table with no record
of its `id`: the record made from the diff is appended, a lookup by the `id` finds it, and
it holds the value of `b` in every diffed field that `b` defines. -/
theorem Table.applyDiff_create (t : Table) (hI : t.IndexInv)
    (hhook : t.hooks.applyDiff = Model.applyDiff)
    (hnd : (Obj.keys t.model.relationships).Nodup) (hrelid : t.model.relMany "id" = false)
    (b : Rec) (d : Diff)
    (hnew : t.data.getIndexIn "id" (b.get "id") = none)
    (hd : t.model.diff none (some b) = .ok (some d))
    (hty : isEmpty (b.get "_type") = false) (hne : isEmpty (b.get "id") = false)
    (hsb : ∀ g, g ∈ t.model.iterFields → t.model.relMany g = true →
      ∃ ys, b.get g = Val.oset ys) :
    ∃ t1 r, t.applyDiff d false = .ok t1 ∧ t1.IndexInv ∧
      t1.data.objects = t.data.objects ++ [some r] ∧
      t1.get (.value (b.get "id")) false = .ok (some r) ∧
      ∀ g, g ∈ t.model.iterFields → b.get g ≠ Val.undefined →
        (r.get g).alike (b.get g) = true := by
  have hd1 : d = t.model.iterFields.foldl (Model.diffCreateStep b) [] := by
    unfold Model.diff at hd
    exact (Option.some.inj (Except.ok.inj hd)).symm
  have hlook : ∀ g, g ∈ t.model.iterFields → b.get g ≠ Val.undefined →
      Obj.lookup g d = some (Val.undefined, b.get g) := by
    intro g hg hb
    rw [hd1, lookup_foldl_diffCreateStep, if_pos ⟨hg, hb⟩]
  have hlt := hlook "_type" (by simp [Model.iterFields]) (Val.ne_undefined_of_not_isEmpty _ hty)
  have hli := hlook "id" (by simp [Model.iterFields]) (Val.ne_undefined_of_not_isEmpty _ hne)
  obtain ⟨r, hr⟩ : ∃ r : Rec, r = t.model.toObject
      (d.map (fun (p : String × (Val × Val)) => (p.1, p.2.2))) := ⟨_, rfl⟩
  have hget : ∀ g, g ∈ t.model.iterFields → b.get g ≠ Val.undefined →
      r.get g = if t.model.relMany g then (b.get g).toOrderedSet else b.get g := by
    intro g hg hb
    rw [hr]
    apply Model.toObject_get t.model _ g (b.get g) hnd (Model.mem_iterFields_keys _ g hg)
    rw [Obj.lookup_map d (fun (e : Val × Val) => e.2) g, hlook g hg hb]
    rfl
  have hidr : r.get "id" = b.get "id" := by
    rw [hget "id" (by simp [Model.iterFields]) (Val.ne_undefined_of_not_isEmpty _ hne), hrelid]
    rfl
  have happly : t.hooks.applyDiff t.model none d false = .ok (some r) := by
    rw [hhook, hr]
    unfold Model.applyDiff
    rw [hlt]
    have hu : isEmpty Val.undefined = true := rfl
    simp [hu]
  have hnone : t.get (.value (b.get "id")) false = .ok none := by
    rw [Table.get_value t _ false hne]
    exact Table.get_id_of_no_entry t hI.id_mem hI.id_plain _ hnew
  obtain ⟨t1, hset, _, _, hobj, _, _, _⟩ :=
    Table.set_new_spec t hI r (by rw [hidr]; exact hne) (by rw [hidr]; exact hnew)
  have hI1 : t1.IndexInv := Table.set_indexInv t t1 hI r hset
  have hrow1 : t1.data.row t.data.objects.length = some r := by
    rw [TableData.row_append t.data t1.data _ hobj, if_pos rfl]
  refine ⟨t1, r, ?_, hI1, hobj, ?_, ?_⟩
  · unfold Table.applyDiff
    rw [getDiffId_of_entries d _ _ hlt hli]
    simp only [ne_eq, not_true_eq_false, if_false, hnone, Except.bind, happly]
    exact hset
  · have := Table.get_of_row t1 hI1 _ r hrow1 (by rw [hidr]; exact hne)
    rw [hidr] at this
    exact this
  · intro g hg hb
    rw [hget g hg hb]
    cases hm : t.model.relMany g
    · simp only [Bool.false_eq_true, if_false]
      exact Val.alike_refl _
    · simp only [if_true]
      obtain ⟨ys, hys⟩ := hsb g hg hm
      rw [hys]
      exact Val.alike_toOrderedSet ys

/-- C2 counterexample: `bookX` and `bookReviewed` are two records of the model of books
with one `id`; they differ in the title and in the reverse field `reviews`.  The diff of
the two has no entry for `reviews` (`Model.diff` visits `iterFields()`, which leaves the
reverse fields out), so applying it to the table that holds `bookX` leaves a record with
the new title and the reviews of `bookX`: the table does not hold `bookReviewed`. -/
theorem diff_apply_inverse_counterexample :
    ∃ d t1 r, bookModel.diff (some bookX) (some bookReviewed) = .ok (some d) ∧
      oneBookTable.data.row 0 = some bookX ∧
      oneBookTable.applyDiff d false = .ok t1 ∧
      t1.get (.value (Val.str "b1")) false = .ok (some r) ∧
      t1.data.objects = [some r] ∧
      r.get "title" = bookReviewed.get "title" ∧
      r.get "reviews" = Val.oset [] ∧
      bookReviewed.get "reviews" = Val.oset [review1] ∧
      r ≠ bookReviewed :=
  ⟨_, _, _, rfl, rfl, rfl, rfl, rfl, rfl, rfl, rfl, by decide⟩

/-- C2 (amended): on a table that satisfies the index invariant, whose `applyDiff` hook
is `Model.applyDiff` and whose model has no many-valued relationship named `_type` or
`id` and no relationship declared twice, for records `a` and `b` with one `id` (not
empty), `_type`s that are not empty, and ordered sets in the many-valued fields of
`iterFields()`:
(1) applying `Model.diff(a, b)` with `reverse = false` to a table holding `a` in row `p`
returns and leaves in row `p` a record, found by `get(id)`, that agrees with `b` on every
field of `iterFields()` (the same members for an ordered set, the same or loosely equal
values otherwise) and keeps the value of `a` in every other field;
(2) applying the same diff with `reverse = true` to a table holding `b` in row `p`
leaves there a record that agrees in the same way with `a` and keeps the other fields of
`b`;
(3) when `a` is absent and the table has no record of the `id` of `b`, the forward
application appends a record, found by `get(id)`, that agrees with `b` on every field of
`iterFields()` that `b` defines;
(4) when `b` is absent, the forward application empties the row of `a`, and `get(id)`
finds nothing afterwards. -/
theorem diff_apply_inverse (t : Table) (hI : t.IndexInv)
    (hhook : t.hooks.applyDiff = Model.applyDiff)
    (hnd : (Obj.keys t.model.relationships).Nodup)
    (hrel : t.model.relMany "_type" = false ∧ t.model.relMany "id" = false) :
    (∀ (a b : Rec) (d : Diff) (p : Nat),
      t.data.row p = some a → t.model.diff (some a) (some b) = .ok (some d) →
      isEmpty (a.get "_type") = false → isEmpty (b.get "_type") = false →
      isEmpty (a.get "id") = false → b.get "id" = a.get "id" →
      (∀ g, g ∈ t.model.iterFields → t.model.relMany g = true →
        (∃ xs, a.get g = Val.oset xs) ∧ ∃ ys, b.get g = Val.oset ys) →
      ∃ t1 r, t.applyDiff d false = .ok t1 ∧ t1.IndexInv ∧ t1.data.row p = some r ∧
        t1.get (.value (b.get "id")) false = .ok (some r) ∧
        (∀ g, g ∈ t.model.iterFields → (r.get g).alike (b.get g) = true) ∧
        (∀ g, g ∉ t.model.iterFields → r.get g = a.get g)) ∧
    (∀ (a b : Rec) (d : Diff) (p : Nat),
      t.data.row p = some b → t.model.diff (some a) (some b) = .ok (some d) →
      isEmpty (a.get "_type") = false → isEmpty (b.get "_type") = false →
      isEmpty (a.get "id") = false → b.get "id" = a.get "id" →
      (∀ g, g ∈ t.model.iterFields → t.model.relMany g = true →
        (∃ xs, a.get g = Val.oset xs) ∧ ∃ ys, b.get g = Val.oset ys) →
      ∃ t1 r, t.applyDiff d true = .ok t1 ∧ t1.IndexInv ∧ t1.data.row p = some r ∧
        t1.get (.value (a.get "id")) false = .ok (some r) ∧
        (∀ g, g ∈ t.model.iterFields → (r.get g).alike (a.get g) = true) ∧
        (∀ g, g ∉ t.model.iterFields → r.get g = b.get g)) ∧
    (∀ (b : Rec) (d : Diff),
      t.data.getIndexIn "id" (b.get "id") = none → t.model.diff none (some b) = .ok (some d) →
      isEmpty (b.get "_type") = false → isEmpty (b.get "id") = false →
      (∀ g, g ∈ t.model.iterFields → t.model.relMany g = true →
        ∃ ys, b.get g = Val.oset ys) →
      ∃ t1 r, t.applyDiff d false = .ok t1 ∧ t1.IndexInv ∧
        t1.data.objects = t.data.objects ++ [some r] ∧
        t1.get (.value (b.get "id")) false = .ok (some r) ∧
        ∀ g, g ∈ t.model.iterFields → b.get g ≠ Val.undefined →
          (r.get g).alike (b.get g) = true) ∧
    (∀ (a : Rec) (d : Diff) (p : Nat),
      t.data.row p = some a → t.model.diff (some a) none = .ok (some d) →
      isEmpty (a.get "_type") = false → isEmpty (a.get "id") = false →
      ∃ t1, t.applyDiff d false = .ok t1 ∧ t1.IndexInv ∧ t1.data.row p = none ∧
        t1.get (.value (a.get "id")) false = .ok none) := by
  have hrelg : ∀ g, g = "_type" ∨ g = "id" → t.model.relMany g = false := by
    intro g hg
    rcases hg with hg | hg
    · rw [hg]; exact hrel.1
    · rw [hg]; exact hrel.2
  have hentry : ∀ (a b : Rec) (d : Diff), t.model.diff (some a) (some b) = .ok (some d) →
      Obj.lookup "_type" d = some (a.get "_type", b.get "_type") ∧
      Obj.lookup "id" d = some (a.get "id", b.get "id") := by
    intro a b d hd
    constructor
    · rw [diff_update_lookup t.model a b d hd, if_pos (by simp [Model.iterFields])]
      simp [Model.updateEntry]
    · rw [diff_update_lookup t.model a b d hd, if_pos (by simp [Model.iterFields])]
      simp [Model.updateEntry]
  refine ⟨?_, ?_, ?_, ?_⟩
  · intro a b d p hrow hd hta htb hne hab hs
    obtain ⟨hlt, hli⟩ := hentry a b d hd
    obtain ⟨t1, r, happ, hI1, hrow1, hget, hfield⟩ :=
      Table.applyDiff_existing t hI hhook d false a p _ _ hrow
        (Model.diff_update_nodup t.model a b d hd) hlt hli hta htb rfl hab hne hrel.2
    refine ⟨t1, r, happ, hI1, hrow1, by rw [hab]; exact hget, ?_, ?_⟩
    · intro g hg
      have h := Model.patch_forward t.model a b g (hrelg g)
        (fun hm => (hs g hg hm).1) (fun hm => (hs g hg hm).2)
      rw [hfield g, diff_update_lookup t.model a b d hd, if_pos hg]
      simpa using h
    · intro g hg
      rw [hfield g, diff_update_lookup t.model a b d hd, if_neg hg]
  · intro a b d p hrow hd hta htb hne hab hs
    obtain ⟨hlt, hli⟩ := hentry a b d hd
    obtain ⟨t1, r, happ, hI1, hrow1, hget, hfield⟩ :=
      Table.applyDiff_existing t hI hhook d true b p _ _ hrow
        (Model.diff_update_nodup t.model a b d hd) hlt hli hta htb hab.symm rfl
        (by rw [hab]; exact hne) hrel.2
    refine ⟨t1, r, happ, hI1, hrow1, by rw [← hab]; exact hget, ?_, ?_⟩
    · intro g hg
      have h := Model.patch_reverse t.model a b g (hrelg g)
        (fun hm => (hs g hg hm).1) (fun hm => (hs g hg hm).2)
      rw [hfield g, diff_update_lookup t.model a b d hd, if_pos hg]
      simpa using h
    · intro g hg
      rw [hfield g, diff_update_lookup t.model a b d hd, if_neg hg]
  · intro b d hnew hd hty hne hsb
    obtain ⟨t1, r, happ, hI1, hobj, hget, hfield⟩ :=
      Table.applyDiff_create t hI hhook hnd hrel.2 b d hnew hd hty hne hsb
    exact ⟨t1, r, happ, hI1, hobj, hget, hfield⟩
  · intro a d p hrow hd hty hne
    exact Table.applyDiff_remove t hI hhook a d p hrow hd hty hne

theorem bookModel_many_field (g : String) (hg : g ∈ bookModel.iterFields)
    (hm : bookModel.relMany g = true) : g = "tags" := by
  have hf : bookModel.iterFields = ["_type", "id", "title", "note", "author", "tags"] := by
    decide
  rw [hf] at hg
  simp only [List.mem_cons, List.mem_singleton, List.not_mem_nil, or_false] at hg
  rcases hg with rfl | rfl | rfl | rfl | rfl | rfl
  · exact absurd hm (by decide)
  · exact absurd hm (by decide)
  · exact absurd hm (by decide)
  · exact absurd hm (by decide)
  · exact absurd hm (by decide)
  · rfl

/-- Witness of the amended C2 on the table that holds `bookX`: the diff from `bookX` to
`bookZ` applied forwards, the diff from `bookZ` to `bookX` applied in reverse, the create
diff of `bookXCopy` and the remove diff of `bookX`. -/
theorem diff_apply_inverse_witness :
    oneBookTable.IndexInv ∧ oneBookTable.data.row 0 = some bookX ∧
    bookModel.diff (some bookX) (some bookZ) = .ok (some diffXZ) ∧
    (∃ t1 r, oneBookTable.applyDiff diffXZ false = .ok t1 ∧ t1.IndexInv ∧
      t1.data.row 0 = some r ∧
      t1.get (.value (bookZ.get "id")) false = .ok (some r) ∧
      (∀ g, g ∈ bookModel.iterFields → (r.get g).alike (bookZ.get g) = true) ∧
      (∀ g, g ∉ bookModel.iterFields → r.get g = bookX.get g)) ∧
    (∃ d, bookModel.diff (some bookZ) (some bookX) = .ok (some d) ∧
      ∃ t1 r, oneBookTable.applyDiff d true = .ok t1 ∧ t1.IndexInv ∧
        t1.data.row 0 = some r ∧
        t1.get (.value (bookZ.get "id")) false = .ok (some r) ∧
        (∀ g, g ∈ bookModel.iterFields → (r.get g).alike (bookZ.get g) = true) ∧
        (∀ g, g ∉ bookModel.iterFields → r.get g = bookX.get g)) ∧
    (∃ d, bookModel.diff none (some bookXCopy) = .ok (some d) ∧
      ∃ t1 r, oneBookTable.applyDiff d false = .ok t1 ∧ t1.IndexInv ∧
        t1.data.objects = oneBookTable.data.objects ++ [some r] ∧
        t1.get (.value (bookXCopy.get "id")) false = .ok (some r) ∧
        ∀ g, g ∈ bookModel.iterFields → bookXCopy.get g ≠ Val.undefined →
          (r.get g).alike (bookXCopy.get g) = true) ∧
    (∃ d, bookModel.diff (some bookX) none = .ok (some d) ∧
      ∃ t1, oneBookTable.applyDiff d false = .ok t1 ∧ t1.IndexInv ∧
        t1.data.row 0 = none ∧
        t1.get (.value (bookX.get "id")) false = .ok none) :=
  ⟨oneBookTable_inv, rfl, rfl,
    (diff_apply_inverse oneBookTable oneBookTable_inv rfl (by decide) ⟨rfl, rfl⟩).1
      bookX bookZ diffXZ 0 rfl rfl rfl rfl rfl rfl
      (fun g hg hm => by
        rw [bookModel_many_field g hg hm]
        exact ⟨⟨_, rfl⟩, ⟨_, rfl⟩⟩),
    ⟨_, rfl,
      (diff_apply_inverse oneBookTable oneBookTable_inv rfl (by decide) ⟨rfl, rfl⟩).2.1
        bookZ bookX _ 0 rfl rfl rfl rfl rfl rfl
        (fun g hg hm => by
          rw [bookModel_many_field g hg hm]
          exact ⟨⟨_, rfl⟩, ⟨_, rfl⟩⟩)⟩,
    ⟨_, rfl,
      (diff_apply_inverse oneBookTable oneBookTable_inv rfl (by decide) ⟨rfl, rfl⟩).2.2.1
        bookXCopy _ rfl rfl rfl rfl
        (fun g hg hm => by
          rw [bookModel_many_field g hg hm]
          exact ⟨_, rfl⟩)⟩,
    ⟨_, rfl,
      (diff_apply_inverse oneBookTable oneBookTable_inv rfl (by decide) ⟨rfl, rfl⟩).2.2.2
        bookX _ 0 rfl rfl rfl rfl⟩⟩

end ReduxJam

